import Mathlib

/-!
Market packet generator and processor.

A shallow embedding of the two state machines of the repository
(`marketPacketGenerator_t`, `marketPacketProcessor_t`) and of the wire format
they share (`marketPacketHelpers.h`), followed by theorems about them.

Conventions of the embedding.

* A byte is a `Fin 256`.  Multi-byte integers are little-endian, as on the
  hosts the format is written on.
* `size_t` counters are natural numbers reduced modulo `2 ^ 64` wherever the
  source performs arithmetic on them; 16-bit fields are reduced modulo `2 ^ 16`.
* A `std::ifstream` is the list of bytes not yet consumed together with its
  state flags; a `std::ofstream` is the list of bytes accepted so far, an
  optional number of bytes the device will still accept, and a failure flag.
* A `std::shared_ptr` member is an `Option`; dereferencing a null pointer, a
  failing `assert` and a division by zero end the call abnormally (`Res.abort`).
* The `while` loops of the two `runStateMachine` functions are iterated with an
  explicit bound on the number of iterations (`Res.timeout` when it is reached).
-/

namespace marketPacket

/-! ## Bytes and machine integers -/

/-- One octet. -/
abbrev Byte := Fin 256

/-- The octet holding the low eight bits of a number. -/
def byteOf (x : Nat) : Byte := ⟨x % 256, Nat.mod_lt x (by decide)⟩

/-- Number of values of a `size_t`. -/
def SIZE_MOD : Nat := 2 ^ 64

/-- Number of values of a `uint16_t`. -/
def U16_MOD : Nat := 2 ^ 16

/-- The byte at index `i` of a buffer, as a number. -/
def getByte (buf : List Byte) (i : Nat) : Nat := (buf.getD i 0).val

/-- Little-endian `uint16_t` stored at offset `off`. -/
def readU16 (buf : List Byte) (off : Nat) : Nat :=
  getByte buf off + 256 * getByte buf (off + 1)

/-- Little-endian `uint64_t` stored at offset `off`. -/
def readU64 (buf : List Byte) (off : Nat) : Nat :=
  getByte buf off + 256 * (getByte buf (off + 1) + 256 * (getByte buf (off + 2)
    + 256 * (getByte buf (off + 3) + 256 * (getByte buf (off + 4)
    + 256 * (getByte buf (off + 5) + 256 * (getByte buf (off + 6)
    + 256 * getByte buf (off + 7)))))))

/-- The two bytes of a `uint16_t` (the value is first truncated to 16 bits). -/
def u16Bytes (x : Nat) : List Byte := [byteOf x, byteOf (x / 256)]

/-- The eight bytes of a `uint64_t` (the value is first truncated to 64 bits). -/
def u64Bytes (x : Nat) : List Byte :=
  [byteOf x, byteOf (x / 256), byteOf (x / 256 ^ 2), byteOf (x / 256 ^ 3),
   byteOf (x / 256 ^ 4), byteOf (x / 256 ^ 5), byteOf (x / 256 ^ 6), byteOf (x / 256 ^ 7)]

/-- The bytes of an ASCII string. -/
def strBytes (s : String) : List Byte := s.toList.map (fun c => byteOf c.toNat)

/-- Decimal text of an unsigned integer, as written by `operator<<`. -/
def decimal (n : Nat) : List Byte := strBytes (toString n)

/-! ## marketPacketHelpers.h -/

/-- Values of `enum class updateType_e : uint8_t`. -/
def updateType_e.INVALID : Byte := 0

/-- The tag of a quote, ASCII `Q`. -/
def updateType_e.QUOTE : Byte := 81

/-- The tag of a trade, ASCII `T`. -/
def updateType_e.TRADE : Byte := 84

def SYMBOL_LENGTH : Nat := 5
def TYPE_OFFSET : Nat := 2
def READ_BUFFER_SIZE : Nat := 1024
def WRITE_BUFFER_SIZE : Nat := 1024
/-- Size of `update_t`, `trade_t` and `quote_t` (all packed, 32 bytes). -/
def UPDATE_SIZE : Nat := 32
/-- Size of `packetHeader_t` (packed, two 16-bit fields). -/
def PACKET_HEADER_SIZE : Nat := 4
def UPDATES_IN_WRITE_BUF : Nat := WRITE_BUFFER_SIZE / UPDATE_SIZE
def UINT16_MAX : Nat := 65535
def MAX_UPDATES_ALLOWED_IN_PACKET : Nat := UINT16_MAX / UPDATE_SIZE - 1

/-- Byte offsets of the fields of the packed `trade_t`. -/
def SYMBOL_OFFSET : Nat := 3
def TRADE_SIZE_OFFSET : Nat := 8
def TRADE_PRICE_OFFSET : Nat := 10

/-! ## Streams -/

/-- A `std::ifstream`: the bytes not yet consumed and the state flags. -/
structure IStream where
  isOpen : Bool
  rest : List Byte
  eofbit : Bool
  failbit : Bool
  badbit : Bool
  deriving DecidableEq

namespace IStream

/-- An open stream positioned at the start of `bs`, all flags clear. -/
def ofBytes (bs : List Byte) : IStream := ⟨true, bs, false, false, false⟩

def good (s : IStream) : Bool := !s.eofbit && !s.failbit && !s.badbit

/-- The result of `operator!`: `failbit` or `badbit` is set. -/
def fail (s : IStream) : Bool := s.failbit || s.badbit

/-- `peek()`: on a good stream with nothing left sets `eofbit`; on a stream
that is not good the sentry sets `failbit`. -/
def peek (s : IStream) : IStream :=
  if s.good then
    if s.rest.isEmpty then { s with eofbit := true } else s
  else { s with failbit := true }

/-- `read(buf, n)`: returns the stream afterwards and the bytes stored in the
buffer.  Fewer than `n` bytes left: all of them are stored and `eofbit` and
`failbit` are set. -/
def read (s : IStream) (n : Nat) : IStream × List Byte :=
  if s.good then
    if n ≤ s.rest.length then ({ s with rest := s.rest.drop n }, s.rest.take n)
    else ({ s with rest := [], eofbit := true, failbit := true }, s.rest)
  else ({ s with failbit := true }, [])

end IStream

/-- A `std::ofstream`: the bytes accepted so far, the number of bytes the
device still accepts (`none`: no limit) and whether a write has failed. -/
structure OStream where
  written : List Byte
  room : Option Nat
  failed : Bool
  deriving DecidableEq

namespace OStream

/-- An empty sink that accepts every write. -/
def empty : OStream := ⟨[], none, false⟩

def good (s : OStream) : Bool := !s.failed

/-- A write of `bs`.  On a failed stream nothing is written; when the device
has room for fewer bytes, those are written and the stream fails. -/
def write (s : OStream) (bs : List Byte) : OStream :=
  if s.failed then s
  else match s.room with
    | none => { s with written := s.written ++ bs }
    | some r =>
      if bs.length ≤ r then { s with written := s.written ++ bs, room := some (r - bs.length) }
      else { written := s.written ++ bs.take r, room := some 0, failed := true }

end OStream

/-! ## Results of calls -/

/-- How a call ends: normally with a value, abnormally (failed `assert`,
null dereference, division by zero), or not within the iteration bound. -/
inductive Res (α : Type) where
  | ok (a : α)
  | abort
  | timeout

/-- What one iteration of a `runStateMachine` loop does: go round again,
leave the loop, end abnormally, or exceed an iteration bound. -/
inductive Iter (σ : Type) where
  | again (s : σ)
  | leave (s : σ)
  | abort
  | timeout

/-! ## marketPacketProcessor.cpp -/

namespace marketPacketProcessor_t

inductive state_t where
  | UNINITIALIZED
  | CHECK_STREAM_VALIDITY
  | READ_HEADER
  | READ_PART_BODY
  | WRITE_UPDATES
  deriving DecidableEq

end marketPacketProcessor_t

open marketPacketProcessor_t in
/-- Modelled from the spec: the data members of `marketPacketProcessor_t`, whose
class declaration (marketPacketProcessor.h) is not among the sources.  The
counters are `size_t`; `m_packetHeader` and `m_readBuffer` are kept as raw bytes;
`m_tradeLocs` holds offsets into `m_readBuffer` in place of pointers. -/
structure marketPacketProcessor_t where
  m_inputStream : Option IStream
  m_outputStream : Option OStream
  m_state : state_t
  m_failReason : Option String
  m_numPacketsToProcess : Option Nat
  m_numPacketsProcessed : Nat
  m_packetHeader : List Byte
  m_numUpdatesPacket : Nat
  m_numUpdatesRead : Nat
  m_bodySize : Nat
  m_bodyBytesInterpreted : Nat
  m_readBuffer : List Byte
  m_tradeLocs : List Nat

namespace marketPacketProcessor_t

/-- The object right after construction over the given streams; `hdr` and `buf`
are the initial contents of `m_packetHeader` and `m_readBuffer`. -/
def create (i : Option IStream) (o : Option OStream) (hdr buf : List Byte) :
    marketPacketProcessor_t :=
  { m_inputStream := i, m_outputStream := o, m_state := .UNINITIALIZED, m_failReason := none,
    m_numPacketsToProcess := none, m_numPacketsProcessed := 0, m_packetHeader := hdr,
    m_numUpdatesPacket := 0, m_numUpdatesRead := 0, m_bodySize := 0,
    m_bodyBytesInterpreted := 0, m_readBuffer := buf, m_tradeLocs := [] }

/-- The `packetLength` field of `m_packetHeader`. -/
def packetLength (p : marketPacketProcessor_t) : Nat := readU16 p.m_packetHeader 0

/-- The `numMarketUpdates` field of `m_packetHeader`. -/
def numMarketUpdates (p : marketPacketProcessor_t) : Nat := readU16 p.m_packetHeader 2

/-- The function `initialize()`: both asserts, then the double-call check. -/
def initialise (p : marketPacketProcessor_t) : Res marketPacketProcessor_t :=
  if p.m_inputStream.isNone then .abort
  else if p.m_outputStream.isNone then .abort
  else if p.m_state ≠ .UNINITIALIZED then .abort
  else .ok { p with m_state := .CHECK_STREAM_VALIDITY }

def uninitialized (p : marketPacketProcessor_t) : marketPacketProcessor_t :=
  { p with m_failReason := some "Processor is uninitialized" }

def checkStreamValidity (p : marketPacketProcessor_t) : Res marketPacketProcessor_t :=
  match p.m_inputStream with
  | none => .abort
  | some s =>
    if !s.isOpen then .ok { p with m_failReason := some "Input stream isn't open" }
    else
      let s1 := s.peek
      if !s1.good then
        if s1.eofbit then
          .ok { p with m_inputStream := some s1, m_failReason := some "End of file" }
        else
          .ok { p with m_inputStream := some s1, m_failReason := some "Stream is not good" }
      else .ok { p with m_inputStream := some s1 }

def resetPerPacketVariables (p : marketPacketProcessor_t) : marketPacketProcessor_t :=
  { p with
    m_numUpdatesPacket := p.numMarketUpdates
    m_numUpdatesRead := 0
    m_bodySize := (p.packetLength + SIZE_MOD - PACKET_HEADER_SIZE) % SIZE_MOD
    m_bodyBytesInterpreted := 0 }

def readHeader (p : marketPacketProcessor_t) : Res marketPacketProcessor_t :=
  match p.m_inputStream with
  | none => .abort
  | some s =>
    let (s1, bytes) := s.read PACKET_HEADER_SIZE
    let p1 := { p with m_inputStream := some s1,
                       m_packetHeader := bytes ++ p.m_packetHeader.drop bytes.length }
    if s1.fail then .ok { p1 with m_failReason := some "Packet header read failed" }
    else if p1.packetLength < PACKET_HEADER_SIZE then
      .ok { p1 with m_failReason := some "Poorly formed packet header" }
    else .ok (resetPerPacketVariables p1)

/-- Classification of the record at offset `off` of a buffer: its length and
type when both are as expected, `(0, INVALID)` otherwise. -/
def isValidUpdatePtr (buf : List Byte) (off : Nat) : Nat × Byte :=
  let length := readU16 buf off
  let type := buf.getD (off + TYPE_OFFSET) 0
  if length = UPDATE_SIZE ∧ (type = updateType_e.TRADE ∨ type = updateType_e.QUOTE) then
    (length, type)
  else (0, updateType_e.INVALID)

/-- The scanning loop of `readPartBody`, `while (bufferOffset < validDataInBuffer)`,
run for at most `fuel` iterations. -/
def scanBuffer (validDataInBuffer : Nat) :
    Nat → Nat → marketPacketProcessor_t → Res marketPacketProcessor_t
  | 0, bufferOffset, p => if bufferOffset < validDataInBuffer then .timeout else .ok p
  | fuel + 1, bufferOffset, p =>
    if bufferOffset < validDataInBuffer then
      let r := isValidUpdatePtr p.m_readBuffer bufferOffset
      if r.2 = updateType_e.INVALID then
        .ok { p with m_failReason := some "Poorly formed update" }
      else
        let p1 := { p with
          m_bodyBytesInterpreted := (p.m_bodyBytesInterpreted + r.1) % SIZE_MOD
          m_numUpdatesRead := (p.m_numUpdatesRead + 1) % SIZE_MOD }
        let off1 := (bufferOffset + r.1) % SIZE_MOD
        if r.2 = updateType_e.TRADE then
          scanBuffer validDataInBuffer fuel off1
            { p1 with m_tradeLocs := p1.m_tradeLocs ++ [bufferOffset] }
        else if r.2 = updateType_e.QUOTE then
          scanBuffer validDataInBuffer fuel off1 p1
        else .ok { p1 with m_failReason := some "Poorly formed packet" }
    else .ok p

/-- The function `readPartBody`.  The scanning loop is given `validDataInBuffer`
iterations, which it cannot exhaust: every iteration that continues advances
the offset by `UPDATE_SIZE`. -/
def readPartBody (p : marketPacketProcessor_t) : Res marketPacketProcessor_t :=
  match p.m_inputStream with
  | none => .abort
  | some s =>
    let bytesLeft := (p.m_bodySize + SIZE_MOD - p.m_bodyBytesInterpreted) % SIZE_MOD
    let validDataInBuffer := if bytesLeft < READ_BUFFER_SIZE then bytesLeft else READ_BUFFER_SIZE
    let (s1, bytes) := s.read validDataInBuffer
    let p1 := { p with m_inputStream := some s1,
                       m_readBuffer := bytes ++ p.m_readBuffer.drop bytes.length }
    if !s1.good then .ok { p1 with m_failReason := some "Packet read failed" }
    else scanBuffer validDataInBuffer validDataInBuffer 0 p1

/-- The text of one trade line, from the `trade_t` at offset `loc` of a buffer,
as the successive output operations of `appendTradePtrToStream`. -/
def tradeLineParts (buf : List Byte) (loc : Nat) : List (List Byte) :=
  [strBytes "Trade: ",
   (buf.drop (loc + SYMBOL_OFFSET)).take SYMBOL_LENGTH,
   strBytes " Size: ",
   decimal (readU16 buf (loc + TRADE_SIZE_OFFSET)),
   strBytes " Price: ",
   decimal (readU64 buf (loc + TRADE_PRICE_OFFSET)),
   strBytes "\n"]

def appendTradePtrToStream (p : marketPacketProcessor_t) (loc : Nat) :
    Res marketPacketProcessor_t :=
  match p.m_outputStream with
  | none => .abort
  | some o =>
    let o1 := (tradeLineParts p.m_readBuffer loc).foldl OStream.write o
    if !o1.good then
      .ok { p with m_outputStream := some o1,
                   m_failReason := some "Failure in writing trade to stream" }
    else .ok { p with m_outputStream := some o1 }

/-- The `for` loop of `writeUpdates` over the recorded trade locations. -/
def writeUpdatesLoop : List Nat → marketPacketProcessor_t → Res marketPacketProcessor_t
  | [], p => .ok p
  | loc :: locs, p =>
    match appendTradePtrToStream p loc with
    | .ok p1 => writeUpdatesLoop locs p1
    | .abort => .abort
    | .timeout => .timeout

def writeUpdates (p : marketPacketProcessor_t) : Res marketPacketProcessor_t :=
  match writeUpdatesLoop p.m_tradeLocs p with
  | .ok p1 => .ok { p1 with m_tradeLocs := [] }
  | .abort => .abort
  | .timeout => .timeout

def doneWithPacket (p : marketPacketProcessor_t) : Bool :=
  p.m_numUpdatesRead = p.m_numUpdatesPacket

def resetPerRunVariables (numPacketsToProcess : Option Nat) (p : marketPacketProcessor_t) :
    marketPacketProcessor_t :=
  { p with m_numPacketsToProcess := numPacketsToProcess, m_numPacketsProcessed := 0 }

/-- One iteration of the loop of `runStateMachine`, its condition included. -/
def iteration (p : marketPacketProcessor_t) : Iter marketPacketProcessor_t :=
  if p.m_failReason.isSome then .leave p
  else match p.m_state with
    | .UNINITIALIZED => .again { uninitialized p with m_state := .CHECK_STREAM_VALIDITY }
    | .CHECK_STREAM_VALIDITY =>
      if p.m_numPacketsToProcess = some p.m_numPacketsProcessed then .leave p
      else match checkStreamValidity p with
        | .ok p1 => .again { p1 with m_state := .READ_HEADER }
        | .abort => .abort
        | .timeout => .timeout
    | .READ_HEADER =>
      match readHeader p with
      | .ok p1 => .again { p1 with m_state := .READ_PART_BODY }
      | .abort => .abort
      | .timeout => .timeout
    | .READ_PART_BODY =>
      match readPartBody p with
      | .ok p1 => .again { p1 with m_state := .WRITE_UPDATES }
      | .abort => .abort
      | .timeout => .timeout
    | .WRITE_UPDATES =>
      match writeUpdates p with
      | .ok p1 =>
        if doneWithPacket p1 then
          .again { p1 with m_numPacketsProcessed := (p1.m_numPacketsProcessed + 1) % SIZE_MOD,
                           m_state := .CHECK_STREAM_VALIDITY }
        else .again { p1 with m_state := .READ_PART_BODY }
      | .abort => .abort
      | .timeout => .timeout

/-- The function `runStateMachine`, allowed at most `fuel` evaluations of the
loop condition. -/
def runStateMachine : Nat → marketPacketProcessor_t → Res marketPacketProcessor_t
  | 0, _ => .timeout
  | fuel + 1, p =>
    match iteration p with
    | .again p1 => runStateMachine fuel p1
    | .leave p1 => .ok p1
    | .abort => .abort
    | .timeout => .timeout

/-- The function `processNextPacket`: the object afterwards and the returned
reason. -/
def processNextPacket (fuel : Nat) (numPacketsToProcess : Option Nat)
    (p : marketPacketProcessor_t) : Res (marketPacketProcessor_t × Option String) :=
  match runStateMachine fuel (resetPerRunVariables numPacketsToProcess p) with
  | .ok p1 =>
    match p1.m_outputStream with
    | none => .abort
    | some _ => .ok (p1, p1.m_failReason)
  | .abort => .abort
  | .timeout => .timeout

end marketPacketProcessor_t

/-! ## marketPacketHelpers.cpp -/

/-- The random source behind `marketPacket::rand()`: an arbitrary sequence of
draws and the number of draws made so far. -/
structure Rng where
  draws : Nat → Nat
  drawn : Nat

/-- The function `rand()`: the next draw, as a `size_t`. -/
def rand (r : Rng) : Nat × Rng := (r.draws r.drawn % SIZE_MOD, { r with drawn := r.drawn + 1 })

/-- The table `alphanum` of `generateRandomSymbol`. -/
def alphanum : List Byte :=
  strBytes "0123456789ABCDEFGHIJKLMNOPQRSTUVWXYZabcdefghijklmnopqrstuvwxyz"

/-- The loop of `generateRandomSymbol`, appending `n` random characters. -/
def generateRandomSymbolLoop : Nat → List Byte → Rng → List Byte × Rng
  | 0, acc, r => (acc, r)
  | n + 1, acc, r =>
    let d := rand r
    generateRandomSymbolLoop n (acc ++ [alphanum.getD (d.1 % alphanum.length) 0]) d.2

def generateRandomSymbol (r : Rng) : List Byte × Rng :=
  generateRandomSymbolLoop SYMBOL_LENGTH [] r

/-! ## marketPacketGenerator.cpp -/

namespace marketPacketGenerator_t

inductive state_t where
  | UNINITIALIZED
  | WRITE_HEADER
  | GENERATE_UPDATES
  deriving DecidableEq

end marketPacketGenerator_t

open marketPacketGenerator_t in
/-- Modelled from the spec: the data members of `marketPacketGenerator_t`, whose
class declaration (marketPacketGenerator.h) is not among the sources.  The
counters are `size_t`; the templates `m_trade`, `m_quote`, the header `m_ph`
and the entries of the write buffer `m_updates` are kept as raw bytes.  The
process-wide random source is carried along in `rng`. -/
structure marketPacketGenerator_t where
  m_oStream : Option OStream
  m_state : state_t
  m_failReason : Option String
  m_trade : List Byte
  m_quote : List Byte
  m_ph : List Byte
  m_updates : List (List Byte)
  m_numMaxUpdates : Nat
  m_numPackets : Nat
  m_numPacketsWritten : Nat
  m_numUpdates : Nat
  m_numUpdatesWritten : Nat
  rng : Rng

namespace marketPacketGenerator_t

/-- The object right after construction over the given sink. -/
def create (o : Option OStream) (r : Rng) : marketPacketGenerator_t :=
  { m_oStream := o, m_state := .UNINITIALIZED, m_failReason := none,
    m_trade := List.replicate UPDATE_SIZE 0, m_quote := List.replicate UPDATE_SIZE 0,
    m_ph := List.replicate PACKET_HEADER_SIZE 0,
    m_updates := List.replicate UPDATES_IN_WRITE_BUF (List.replicate UPDATE_SIZE 0),
    m_numMaxUpdates := 0, m_numPackets := 0, m_numPacketsWritten := 0,
    m_numUpdates := 0, m_numUpdatesWritten := 0, rng := r }

/-- The bytes of a packed `trade_t`. -/
def tradeBytes (symbol : List Byte) (tradeSize tradePrice : Nat) : List Byte :=
  u16Bytes UPDATE_SIZE ++ [updateType_e.TRADE] ++ symbol ++ u16Bytes tradeSize
    ++ u64Bytes tradePrice ++ List.replicate 14 0

/-- The bytes of a packed `quote_t`. -/
def quoteBytes (symbol : List Byte) (priceLevel priceLevelSize timeOfDay : Nat) : List Byte :=
  u16Bytes UPDATE_SIZE ++ [updateType_e.QUOTE] ++ symbol ++ u16Bytes priceLevel
    ++ u64Bytes priceLevelSize ++ u64Bytes timeOfDay ++ List.replicate 6 0

/-- The bytes of a packed `packetHeader_t`. -/
def headerBytes (packetLength numMarketUpdates : Nat) : List Byte :=
  u16Bytes packetLength ++ u16Bytes numMarketUpdates

/-- The function `initialize()`: the assert on the sink, the double-call check,
then the two templates (five draws for the numeric fields, then the two
symbols). -/
def initialise (g : marketPacketGenerator_t) : Res marketPacketGenerator_t :=
  if g.m_oStream.isNone then .abort
  else if g.m_state ≠ .UNINITIALIZED then .abort
  else
    let d1 := rand g.rng
    let d2 := rand d1.2
    let d3 := rand d2.2
    let d4 := rand d3.2
    let d5 := rand d4.2
    let s1 := generateRandomSymbol d5.2
    let s2 := generateRandomSymbol s1.2
    .ok { g with
      m_trade := tradeBytes s1.1 d1.1 d2.1
      m_quote := quoteBytes s2.1 d3.1 d4.1 d5.1
      rng := s2.2
      m_state := .WRITE_HEADER }

def uninitialized (g : marketPacketGenerator_t) : marketPacketGenerator_t :=
  { g with m_failReason := some "Generator is uninitialized" }

def resetPerPacketVariables (g : marketPacketGenerator_t) : marketPacketGenerator_t :=
  { g with m_numUpdatesWritten := 0 }

/-- The function `writeHeader`.  The remainder by `m_numMaxUpdates` is a division
by zero when that member is zero. -/
def writeHeader (g : marketPacketGenerator_t) : Res marketPacketGenerator_t :=
  let d := rand g.rng
  if g.m_numMaxUpdates = 0 then .abort
  else
    let numUpdates := (d.1 % g.m_numMaxUpdates + 1) % SIZE_MOD
    let ph := headerBytes ((PACKET_HEADER_SIZE + numUpdates * UPDATE_SIZE) % SIZE_MOD) numUpdates
    let g1 := { g with rng := d.2, m_numUpdates := numUpdates, m_ph := ph }
    match g1.m_oStream with
    | none => .abort
    | some o =>
      let o1 := o.write ph
      if o1.failed then .ok { g1 with m_oStream := some o1, m_failReason := some "writeHeader failed" }
      else .ok (resetPerPacketVariables { g1 with m_oStream := some o1 })

/-- The `for` loop of `generateUpdates`: entry `i`, `i + 1`, ... of the write
buffer receives the trade or the quote template, by the parity of a draw. -/
def fillUpdates : Nat → Nat → marketPacketGenerator_t → marketPacketGenerator_t
  | 0, _, g => g
  | k + 1, i, g =>
    let d := rand g.rng
    let src := if d.1 % 2 ≠ 0 then g.m_trade else g.m_quote
    fillUpdates k (i + 1) { g with rng := d.2, m_updates := g.m_updates.set i (src.take UPDATE_SIZE) }

def generateUpdates (g : marketPacketGenerator_t) : Res marketPacketGenerator_t :=
  let left := (g.m_numUpdates + SIZE_MOD - g.m_numUpdatesWritten) % SIZE_MOD
  let numUpdatesToGenerate := if left ≤ UPDATES_IN_WRITE_BUF then left else UPDATES_IN_WRITE_BUF
  let g1 := fillUpdates numUpdatesToGenerate 0 g
  match g1.m_oStream with
  | none => .abort
  | some o =>
    let o1 := o.write (g1.m_updates.take numUpdatesToGenerate).flatten
    if o1.failed then .ok { g1 with m_oStream := some o1, m_failReason := some "Update write failed" }
    else .ok { g1 with m_oStream := some o1,
                       m_numUpdatesWritten := (g1.m_numUpdatesWritten + numUpdatesToGenerate) % SIZE_MOD }

def resetPerRunVariables (numPackets numMaxUpdates : Nat) (g : marketPacketGenerator_t) :
    marketPacketGenerator_t :=
  if numMaxUpdates ≥ UINT16_MAX / UPDATE_SIZE then
    { g with m_failReason := some "Can't request that many updates in a packet" }
  else
    { g with m_numMaxUpdates := numMaxUpdates, m_numPackets := numPackets,
             m_numPacketsWritten := 0 }

/-- One iteration of the loop of `runStateMachine`, its condition included. -/
def iteration (g : marketPacketGenerator_t) : Iter marketPacketGenerator_t :=
  if g.m_failReason.isSome then .leave g
  else match g.m_state with
    | .UNINITIALIZED => .again { uninitialized g with m_state := .WRITE_HEADER }
    | .WRITE_HEADER =>
      match writeHeader g with
      | .ok g1 => .again { g1 with m_state := .GENERATE_UPDATES }
      | .abort => .abort
      | .timeout => .timeout
    | .GENERATE_UPDATES =>
      match generateUpdates g with
      | .ok g1 =>
        if g1.m_numUpdatesWritten = g1.m_numUpdates then
          let g2 := { g1 with m_state := .WRITE_HEADER,
                              m_numPacketsWritten := (g1.m_numPacketsWritten + 1) % SIZE_MOD }
          if g2.m_numPacketsWritten = g2.m_numPackets then .leave g2 else .again g2
        else .again g1
      | .abort => .abort
      | .timeout => .timeout

/-- The function `runStateMachine`, allowed at most `fuel` evaluations of the
loop condition. -/
def runStateMachine : Nat → marketPacketGenerator_t → Res marketPacketGenerator_t
  | 0, _ => .timeout
  | fuel + 1, g =>
    match iteration g with
    | .again g1 => runStateMachine fuel g1
    | .leave g1 => .ok g1
    | .abort => .abort
    | .timeout => .timeout

/-- The function `generatePackets`: the object afterwards and the returned
reason. -/
def generatePackets (fuel : Nat) (numPackets numMaxUpdates : Nat)
    (g : marketPacketGenerator_t) : Res (marketPacketGenerator_t × Option String) :=
  match runStateMachine fuel (resetPerRunVariables numPackets numMaxUpdates g) with
  | .ok g1 =>
    match g1.m_oStream with
    | none => .abort
    | some _ => .ok (g1, g1.m_failReason)
  | .abort => .abort
  | .timeout => .timeout

end marketPacketGenerator_t

/-! ## The wire format as a specification

The notions below state what a well-formed stream is and what the processor is
expected to print for it; they are used only in the statements of theorems. -/

/-- A valid update record: 32 bytes whose length field is 32 and whose type
byte is the tag of a trade or of a quote. -/
def ValidRecord (r : List Byte) : Prop :=
  r.length = UPDATE_SIZE ∧ readU16 r 0 = UPDATE_SIZE ∧
    (r.getD TYPE_OFFSET 0 = updateType_e.TRADE ∨ r.getD TYPE_OFFSET 0 = updateType_e.QUOTE)

instance (r : List Byte) : Decidable (ValidRecord r) := by
  unfold ValidRecord; infer_instance

/-- The record carries the tag of a trade. -/
def isTrade (r : List Byte) : Bool := decide (r.getD TYPE_OFFSET 0 = updateType_e.TRADE)

/-- The record carries the tag of a quote. -/
def isQuote (r : List Byte) : Bool := decide (r.getD TYPE_OFFSET 0 = updateType_e.QUOTE)

/-- An invalid update record: 32 bytes that fail the classification, because
the length field is not 32 or the type byte is neither tag. -/
def InvalidRecord (r : List Byte) : Prop :=
  r.length = UPDATE_SIZE ∧
    ¬ (readU16 r 0 = UPDATE_SIZE ∧
      (r.getD TYPE_OFFSET 0 = updateType_e.TRADE ∨ r.getD TYPE_OFFSET 0 = updateType_e.QUOTE))

instance (r : List Byte) : Decidable (InvalidRecord r) := by
  unfold InvalidRecord; infer_instance

/-- The bytes of a packet: a header announcing the records, then the records. -/
def encodePacket (rs : List (List Byte)) : List Byte :=
  marketPacketGenerator_t.headerBytes (PACKET_HEADER_SIZE + UPDATE_SIZE * rs.length) rs.length
    ++ rs.flatten

/-- A well-formed packet: its length fits the 16-bit `packetLength` field and
all its records are valid. -/
def WellFormedPacket (rs : List (List Byte)) : Prop :=
  PACKET_HEADER_SIZE + UPDATE_SIZE * rs.length ≤ UINT16_MAX ∧ ∀ r ∈ rs, ValidRecord r

instance (rs : List (List Byte)) : Decidable (WellFormedPacket rs) := by
  unfold WellFormedPacket; infer_instance

/-- The bytes of a stream of packets. -/
def encodeStream (ps : List (List (List Byte))) : List Byte := (ps.map encodePacket).flatten

/-- The output line of a trade record. -/
def tradeLine (r : List Byte) : List Byte := (marketPacketProcessor_t.tradeLineParts r 0).flatten

/-- The expected output for the records of a packet: one line per trade, in
order, nothing for a quote. -/
def packetLines (rs : List (List Byte)) : List Byte :=
  (rs.map (fun r => if isTrade r then tradeLine r else [])).flatten

/-- The expected output for a stream of packets. -/
def streamLines (ps : List (List (List Byte))) : List Byte := (ps.map packetLines).flatten

/-- The offsets at which the trades among `rs` lie when `rs` is stored from
offset `off` on. -/
def tradeOffsets : Nat → List (List Byte) → List Nat
  | _, [] => []
  | off, r :: rs => (if isTrade r then [off] else []) ++ tradeOffsets (off + UPDATE_SIZE) rs

/-- A processor constructed over the bytes `bs` and an empty sink that accepts
every write, after a successful `initialize()`. -/
def marketPacketProcessor_t.ready (bs hdr buf : List Byte) : marketPacketProcessor_t :=
  { marketPacketProcessor_t.create (some (IStream.ofBytes bs)) (some OStream.empty) hdr buf with
    m_state := .CHECK_STREAM_VALIDITY }

/-- `Reaches n p q`: `n` rounds of the loop of `runStateMachine` lead from `p`
to `q`, whatever is left to run afterwards. -/
def marketPacketProcessor_t.Reaches (n : Nat) (p q : marketPacketProcessor_t) : Prop :=
  ∀ fuel, marketPacketProcessor_t.runStateMachine (n + fuel) p
    = marketPacketProcessor_t.runStateMachine fuel q

/-- The processor stands between two packets, with no failure so far: `inp` is
left to read, `out` has been written to a sink that accepts every write, and
`d` packets have been counted in this run. -/
structure marketPacketProcessor_t.AtCheck (p : marketPacketProcessor_t) (inp out : List Byte)
    (cnt : Option Nat) (d : Nat) : Prop where
  state : p.m_state = .CHECK_STREAM_VALIDITY
  noFail : p.m_failReason = none
  input : p.m_inputStream = some (IStream.ofBytes inp)
  output : p.m_outputStream = some ⟨out, none, false⟩
  count : p.m_numPacketsToProcess = cnt
  processed : p.m_numPacketsProcessed = d % SIZE_MOD
  locs : p.m_tradeLocs = []

/-- The processor is about to fill its buffer, having read `k` of the `n`
records announced by the current header; `inp` is left to read. -/
structure marketPacketProcessor_t.AtBody (p : marketPacketProcessor_t) (n k : Nat)
    (inp out : List Byte) (cnt : Option Nat) (d : Nat) : Prop where
  state : p.m_state = .READ_PART_BODY
  noFail : p.m_failReason = none
  input : p.m_inputStream = some (IStream.ofBytes inp)
  output : p.m_outputStream = some ⟨out, none, false⟩
  count : p.m_numPacketsToProcess = cnt
  processed : p.m_numPacketsProcessed = d % SIZE_MOD
  locs : p.m_tradeLocs = []
  numUpdatesPacket : p.m_numUpdatesPacket = n
  numUpdatesRead : p.m_numUpdatesRead = k
  bodySize : p.m_bodySize = UPDATE_SIZE * n
  bodyBytesInterpreted : p.m_bodyBytesInterpreted = UPDATE_SIZE * k

/-- The result of a call with its value transformed. -/
def Res.map {α β : Type} (f : α → β) : Res α → Res β
  | .ok a => .ok (f a)
  | .abort => .abort
  | .timeout => .timeout

/-- The processor with the two counters of a run replaced: the number of
packets asked for and the number of packets counted. -/
def marketPacketProcessor_t.setCount (c : Option Nat) (x : Nat) (p : marketPacketProcessor_t) :
    marketPacketProcessor_t :=
  { p with m_numPacketsToProcess := c, m_numPacketsProcessed := x }

/-- During a run that was asked for `c` packets and has not failed, at most `c`
packets are counted, and fewer while a packet is being processed. -/
def marketPacketProcessor_t.WithinCount (c : Nat) (p : marketPacketProcessor_t) : Prop :=
  p.m_numPacketsToProcess = some c ∧ p.m_numPacketsProcessed ≤ c ∧
    (p.m_failReason = none → p.m_state ≠ .CHECK_STREAM_VALIDITY → p.m_numPacketsProcessed < c)

/-- The generator is about to write a header, with no failure so far: `w` has
been written to a sink that accepts every write, `d` packets of this run are
complete, and the two templates are `T` and `Q`. -/
structure marketPacketGenerator_t.AtHeader (g : marketPacketGenerator_t) (T Q w : List Byte)
    (maxU N d : Nat) : Prop where
  state : g.m_state = .WRITE_HEADER
  noFail : g.m_failReason = none
  sink : g.m_oStream = some ⟨w, none, false⟩
  trade : g.m_trade = T
  quote : g.m_quote = Q
  maxUpdates : g.m_numMaxUpdates = maxU
  packets : g.m_numPackets = N
  written : g.m_numPacketsWritten = d
  buffer : g.m_updates.length = UPDATES_IN_WRITE_BUF

/-- The generator is about to fill its write buffer, having written `k` of the
`n` records announced by the header of the current packet. -/
structure marketPacketGenerator_t.AtUpdates (g : marketPacketGenerator_t) (T Q w : List Byte)
    (maxU N d n k : Nat) : Prop where
  state : g.m_state = .GENERATE_UPDATES
  noFail : g.m_failReason = none
  sink : g.m_oStream = some ⟨w, none, false⟩
  trade : g.m_trade = T
  quote : g.m_quote = Q
  maxUpdates : g.m_numMaxUpdates = maxU
  packets : g.m_numPackets = N
  written : g.m_numPacketsWritten = d
  buffer : g.m_updates.length = UPDATES_IN_WRITE_BUF
  numUpdates : g.m_numUpdates = n
  numUpdatesWritten : g.m_numUpdatesWritten = k

/-- An initialized generator between two calls, with no failure so far: `w` has
been written to a sink that accepts every write, and both templates are valid
records. -/
structure marketPacketGenerator_t.Ready (g : marketPacketGenerator_t) (w : List Byte) : Prop where
  state : g.m_state = .WRITE_HEADER
  noFail : g.m_failReason = none
  sink : g.m_oStream = some ⟨w, none, false⟩
  buffer : g.m_updates.length = UPDATES_IN_WRITE_BUF
  trade : ValidRecord g.m_trade
  quote : ValidRecord g.m_quote

/-- The number of packets after which a call asked for `numPackets` packets
stops: the count is compared only after a packet has been written, so a call
asked for no packet stops when the 64-bit counter has come round to zero. -/
def marketPacketGenerator_t.packetsPerCall (numPackets : Nat) : Nat :=
  if numPackets = 0 then SIZE_MOD else numPackets

/-- The loop of the test `multipleCalls`: `k` successive calls
`generatePackets(numPackets, numMaxUpdates)` on one generator, stopping at the
first call that returns a reason. -/
def marketPacketGenerator_t.successiveCalls (fuel numPackets numMaxUpdates : Nat) :
    Nat → marketPacketGenerator_t → Res (marketPacketGenerator_t × Option String)
  | 0, g => .ok (g, none)
  | k + 1, g =>
    match g.generatePackets fuel numPackets numMaxUpdates with
    | .ok (g1, none) => successiveCalls fuel numPackets numMaxUpdates k g1
    | .ok (g1, some r) => .ok (g1, some r)
    | .abort => .abort
    | .timeout => .timeout

/-- `Halts p`: the loop of `runStateMachine`, started in `p`, is left after
finitely many rounds. -/
def marketPacketProcessor_t.Halts (p : marketPacketProcessor_t) : Prop :=
  ∃ N q, ∀ fuel, N ≤ fuel → marketPacketProcessor_t.runStateMachine fuel p = .ok q

/-- The headers that the processor comes to read in `bs` are consistent: each
of them is cut short, or has `packetLength < 4`, or has
`packetLength = 4 + 32 * numMarketUpdates`; in the last case, when the body is
there in full and all its records classify as valid, the bytes after the body
are again such a stream. -/
inductive ConsistentHeaders : List Byte → Prop
  | short (bs : List Byte) (h : bs.length < PACKET_HEADER_SIZE) : ConsistentHeaders bs
  | rejected (bs : List Byte) (h : PACKET_HEADER_SIZE ≤ bs.length)
      (hl : readU16 bs 0 < PACKET_HEADER_SIZE) : ConsistentHeaders bs
  | packet (bs : List Byte) (h : PACKET_HEADER_SIZE ≤ bs.length)
      (hl : readU16 bs 0 = PACKET_HEADER_SIZE + UPDATE_SIZE * readU16 bs 2)
      (hrest : PACKET_HEADER_SIZE + UPDATE_SIZE * readU16 bs 2 ≤ bs.length →
        (∀ j, j < readU16 bs 2 →
          (marketPacketProcessor_t.isValidUpdatePtr bs (PACKET_HEADER_SIZE + UPDATE_SIZE * j)).2
            ≠ updateType_e.INVALID) →
        ConsistentHeaders (bs.drop (PACKET_HEADER_SIZE + UPDATE_SIZE * readU16 bs 2))) :
      ConsistentHeaders bs

/-- The processor stands between two packets, with no failure so far and `inp`
left to read; nothing is assumed about the sink. -/
structure marketPacketProcessor_t.Checking (p : marketPacketProcessor_t) (inp : List Byte) :
    Prop where
  state : p.m_state = .CHECK_STREAM_VALIDITY
  noFail : p.m_failReason = none
  input : p.m_inputStream = some (IStream.ofBytes inp)
  output : p.m_outputStream.isSome = true

/-- The processor is about to fill its buffer, having counted `k` records of a
packet whose header announced `n` records and the length `4 + 32 * n`; nothing
is assumed about the sink. -/
structure marketPacketProcessor_t.Filling (p : marketPacketProcessor_t) (inp : List Byte)
    (n k : Nat) : Prop where
  state : p.m_state = .READ_PART_BODY
  noFail : p.m_failReason = none
  input : p.m_inputStream = some (IStream.ofBytes inp)
  output : p.m_outputStream.isSome = true
  bodySize : p.m_bodySize = UPDATE_SIZE * n
  bodyBytesInterpreted : p.m_bodyBytesInterpreted = UPDATE_SIZE * k
  numUpdatesRead : p.m_numUpdatesRead = k
  numUpdatesPacket : p.m_numUpdatesPacket = n

/-- The first `n` rounds of the loop of `runStateMachine` started in `p`: the
state before round `n + 1`, if the loop has not been left by then. -/
def marketPacketProcessor_t.rounds : Nat → marketPacketProcessor_t → Option marketPacketProcessor_t
  | 0, p => some p
  | n + 1, p =>
    match marketPacketProcessor_t.iteration p with
    | .again p1 => marketPacketProcessor_t.rounds n p1
    | _ => none

/-- The first `n` rounds of the loop of `runStateMachine` started in `g`: the
state before round `n + 1`, if the loop has not been left by then. -/
def marketPacketGenerator_t.rounds : Nat → marketPacketGenerator_t → Option marketPacketGenerator_t
  | 0, g => some g
  | n + 1, g =>
    match marketPacketGenerator_t.iteration g with
    | .again g1 => marketPacketGenerator_t.rounds n g1
    | _ => none

/-- A caller that makes one call of `processNextPacket` for each count of the
list, in turn, whatever the calls return: the object afterwards and the
returned reasons. -/
def marketPacketProcessor_t.calls (fuel : Nat) :
    List (Option Nat) → marketPacketProcessor_t →
      Res (marketPacketProcessor_t × List (Option String))
  | [], p => .ok (p, [])
  | c :: cs, p =>
    match marketPacketProcessor_t.processNextPacket fuel c p with
    | .ok (p1, r) =>
      match marketPacketProcessor_t.calls fuel cs p1 with
      | .ok (p2, rs) => .ok (p2, r :: rs)
      | .abort => .abort
      | .timeout => .timeout
    | .abort => .abort
    | .timeout => .timeout

/-- A caller that makes one call `generatePackets(numPackets, numMaxUpdates)`
for each pair of the list, in turn, whatever the calls return: the object
afterwards and the returned reasons. -/
def marketPacketGenerator_t.calls (fuel : Nat) :
    List (Nat × Nat) → marketPacketGenerator_t →
      Res (marketPacketGenerator_t × List (Option String))
  | [], g => .ok (g, [])
  | c :: cs, g =>
    match marketPacketGenerator_t.generatePackets fuel c.1 c.2 g with
    | .ok (g1, r) =>
      match marketPacketGenerator_t.calls fuel cs g1 with
      | .ok (g2, rs) => .ok (g2, r :: rs)
      | .abort => .abort
      | .timeout => .timeout
    | .abort => .abort
    | .timeout => .timeout

/-- The local `validDataInBuffer` of `readPartBody`: the number of bytes that
the fill asks of the input. -/
def marketPacketProcessor_t.validDataInBuffer (p : marketPacketProcessor_t) : Nat :=
  let bytesLeft := (p.m_bodySize + SIZE_MOD - p.m_bodyBytesInterpreted) % SIZE_MOD
  if bytesLeft < READ_BUFFER_SIZE then bytesLeft else READ_BUFFER_SIZE

/-- The values of `bufferOffset` at which the scanning loop of `readPartBody`
classifies a record of the buffer `buf`, in order. -/
def marketPacketProcessor_t.scannedOffsets (buf : List Byte) (validDataInBuffer : Nat) :
    Nat → Nat → List Nat
  | 0, _ => []
  | fuel + 1, bufferOffset =>
    if bufferOffset < validDataInBuffer then
      let r := marketPacketProcessor_t.isValidUpdatePtr buf bufferOffset
      if r.2 = updateType_e.INVALID then [bufferOffset]
      else bufferOffset ::
        marketPacketProcessor_t.scannedOffsets buf validDataInBuffer fuel
          ((bufferOffset + r.1) % SIZE_MOD)
    else []

/-- What holds between two rounds of the loop of `runStateMachine` on a
processor that was initialized after its construction.  The counters of the
current packet are those of the last accepted header; when that header is
consistent (`m_bodySize = 32 * m_numUpdatesPacket`), the bytes interpreted are
32 for each record counted and no more records are counted than announced;
while a packet is being read the input stream is good. -/
structure marketPacketProcessor_t.CountersKept (p : marketPacketProcessor_t) : Prop where
  sink : p.m_outputStream.isSome = true
  packet : p.m_numUpdatesPacket < U16_MOD
  body : p.m_bodySize < U16_MOD
  within : p.m_bodySize = UPDATE_SIZE * p.m_numUpdatesPacket →
    p.m_bodyBytesInterpreted = UPDATE_SIZE * p.m_numUpdatesRead ∧
      p.m_numUpdatesRead ≤ p.m_numUpdatesPacket
  header : p.m_failReason = none →
    p.m_state = .READ_PART_BODY ∨ p.m_state = .WRITE_UPDATES →
    PACKET_HEADER_SIZE ≤ p.packetLength ∧ p.m_bodySize = p.packetLength - PACKET_HEADER_SIZE ∧
      p.m_numUpdatesPacket = p.numMarketUpdates
  more : p.m_failReason = none → p.m_state = .READ_PART_BODY →
    p.m_bodySize = UPDATE_SIZE * p.m_numUpdatesPacket →
    p.m_numUpdatesRead < p.m_numUpdatesPacket ∨ p.m_numUpdatesPacket = 0
  source : p.m_failReason = none →
    p.m_state = .READ_HEADER ∨ p.m_state = .READ_PART_BODY ∨ p.m_state = .WRITE_UPDATES →
    ∃ s, p.m_inputStream = some s ∧ s.good = true
  locs : p.m_failReason = none → p.m_state ≠ .WRITE_UPDATES → p.m_tradeLocs = []

/-- An update record as the values of its members: those of the packed
`trade_t` or those of the packed `quote_t`, without the length and the type,
which the kind of the record fixes. -/
inductive Update where
  | trade (symbol : List Byte) (tradeSize tradePrice : Nat) (dynamicData : List Byte)
  | quote (symbol : List Byte) (priceLevel priceLevelSize timeOfDay : Nat)
      (dynamicData : List Byte)

/-- The 32 bytes of a record on the wire, member after member in the order of
the packed structure. -/
def Update.bytes : Update → List Byte
  | .trade s z p d =>
    u16Bytes UPDATE_SIZE ++ [updateType_e.TRADE] ++ s ++ u16Bytes z ++ u64Bytes p ++ d
  | .quote s l z t d =>
    u16Bytes UPDATE_SIZE ++ [updateType_e.QUOTE] ++ s ++ u16Bytes l ++ u64Bytes z ++ u64Bytes t
      ++ d

/-- The members fit their types: a symbol of 5 bytes, 16-bit and 64-bit
numbers, and the 14 or 6 bytes that fill the record up to 32. -/
def Update.WellFormed : Update → Prop
  | .trade s z p d => s.length = 5 ∧ z < 2 ^ 16 ∧ p < 2 ^ 64 ∧ d.length = 14
  | .quote s l z t d => s.length = 5 ∧ l < 2 ^ 16 ∧ z < 2 ^ 64 ∧ t < 2 ^ 64 ∧ d.length = 6

instance (u : Update) : Decidable u.WellFormed := by
  cases u <;> (unfold Update.WellFormed; infer_instance)

/-- The text that the output is to hold for a record: for a trade the line
`Trade: <symbol> Size: <size> Price: <price>` with the two numbers in decimal
and a newline at the end, for a quote nothing. -/
def Update.line : Update → List Byte
  | .trade s z p _ =>
    strBytes "Trade: " ++ s ++ strBytes " Size: " ++ decimal z ++ strBytes " Price: " ++ decimal p
      ++ strBytes "\n"
  | .quote _ _ _ _ _ => []

/-- The headers that a call asked for `count` packets comes to read in `bs`,
with `d` packets counted so far, are consistent: the count is reached and the
call reads no further; or the header is cut short; or it has `packetLength <
4`; or it has `packetLength = 4 + 32 * numMarketUpdates` and, when the body is
there in full and all its records classify as valid, the same holds of the
bytes after the body with one more packet counted. -/
inductive HeadersReadConsistent (count : Option Nat) : Nat → List Byte → Prop
  | reached (d : Nat) (bs : List Byte) (h : count = some d) : HeadersReadConsistent count d bs
  | short (d : Nat) (bs : List Byte) (h : bs.length < PACKET_HEADER_SIZE) :
      HeadersReadConsistent count d bs
  | rejected (d : Nat) (bs : List Byte) (h : PACKET_HEADER_SIZE ≤ bs.length)
      (hl : readU16 bs 0 < PACKET_HEADER_SIZE) : HeadersReadConsistent count d bs
  | packet (d : Nat) (bs : List Byte) (h : PACKET_HEADER_SIZE ≤ bs.length)
      (hl : readU16 bs 0 = PACKET_HEADER_SIZE + UPDATE_SIZE * readU16 bs 2)
      (hrest : PACKET_HEADER_SIZE + UPDATE_SIZE * readU16 bs 2 ≤ bs.length →
        (∀ j, j < readU16 bs 2 →
          (marketPacketProcessor_t.isValidUpdatePtr bs (PACKET_HEADER_SIZE + UPDATE_SIZE * j)).2
            ≠ updateType_e.INVALID) →
        HeadersReadConsistent count ((d + 1) % SIZE_MOD)
          (bs.drop (PACKET_HEADER_SIZE + UPDATE_SIZE * readU16 bs 2))) :
      HeadersReadConsistent count d bs

/-! ## Elementary facts about buffers -/

theorem getByte_append_mid (pre r post : List Byte) (i : Nat) (h : i < r.length) :
    getByte (pre ++ r ++ post) (pre.length + i) = getByte r i := by
  unfold getByte
  rw [List.append_assoc, List.getD_append_right _ _ _ _ (by omega)]
  rw [Nat.add_sub_cancel_left, List.getD_append _ _ _ _ h]

theorem getD_append_mid (pre r post : List Byte) (i : Nat) (h : i < r.length) :
    (pre ++ r ++ post).getD (pre.length + i) 0 = r.getD i 0 := by
  rw [List.append_assoc, List.getD_append_right _ _ _ _ (by omega)]
  rw [Nat.add_sub_cancel_left, List.getD_append _ _ _ _ h]

theorem readU16_append_mid (pre r post : List Byte) (i : Nat) (h : i + 1 < r.length) :
    readU16 (pre ++ r ++ post) (pre.length + i) = readU16 r i := by
  unfold readU16
  rw [getByte_append_mid _ _ _ _ (by omega), Nat.add_assoc,
    getByte_append_mid _ _ _ _ (by omega)]

theorem readU64_append_mid (pre r post : List Byte) (i : Nat) (h : i + 7 < r.length) :
    readU64 (pre ++ r ++ post) (pre.length + i) = readU64 r i := by
  unfold readU64
  simp only [Nat.add_assoc]
  rw [getByte_append_mid _ _ _ _ (by omega), getByte_append_mid _ _ _ _ (by omega),
    getByte_append_mid _ _ _ _ (by omega), getByte_append_mid _ _ _ _ (by omega),
    getByte_append_mid _ _ _ _ (by omega), getByte_append_mid _ _ _ _ (by omega),
    getByte_append_mid _ _ _ _ (by omega), getByte_append_mid _ _ _ _ (by omega)]

namespace marketPacketProcessor_t

theorem isValidUpdatePtr_append_mid (pre r post : List Byte) (h : 3 ≤ r.length) :
    isValidUpdatePtr (pre ++ r ++ post) pre.length = isValidUpdatePtr r 0 := by
  have h1 := readU16_append_mid pre r post 0 (by omega)
  have h2 := getD_append_mid pre r post 2 (by omega)
  simp only [Nat.add_zero] at h1
  simp only [isValidUpdatePtr, TYPE_OFFSET, h1, h2, Nat.zero_add]

theorem isValidUpdatePtr_of_valid (r : List Byte) (h : ValidRecord r) :
    isValidUpdatePtr r 0 = (UPDATE_SIZE, r.getD TYPE_OFFSET 0) := by
  obtain ⟨_, h2, h3⟩ := h
  simp only [isValidUpdatePtr, Nat.zero_add, h2, h3, and_self, if_true]

theorem tradeLineParts_append_mid (pre r post : List Byte) (h : r.length = UPDATE_SIZE) :
    tradeLineParts (pre ++ r ++ post) pre.length = tradeLineParts r 0 := by
  have hl : r.length = 32 := h
  have h1 := readU16_append_mid pre r post TRADE_SIZE_OFFSET (by simp [TRADE_SIZE_OFFSET]; omega)
  have h2 := readU64_append_mid pre r post TRADE_PRICE_OFFSET (by simp [TRADE_PRICE_OFFSET]; omega)
  have h3 : ((pre ++ r ++ post).drop (pre.length + SYMBOL_OFFSET)).take SYMBOL_LENGTH
      = (r.drop SYMBOL_OFFSET).take SYMBOL_LENGTH := by
    rw [List.append_assoc, List.drop_append, List.drop_append_of_le_length (by simp [SYMBOL_OFFSET]; omega),
      List.take_append_of_le_length (by simp [SYMBOL_OFFSET, SYMBOL_LENGTH]; omega)]
  simp only [tradeLineParts, h1, h2, h3, Nat.zero_add]

end marketPacketProcessor_t

namespace marketPacketProcessor_t

/-! ## The scan of one buffer fill -/

theorem scanBuffer_valid (valid : Nat) (recs : List (List Byte)) :
    ∀ (fuel : Nat) (pre post : List Byte) (p : marketPacketProcessor_t),
      (∀ r ∈ recs, ValidRecord r) →
      p.m_readBuffer = pre ++ recs.flatten ++ post →
      valid = pre.length + UPDATE_SIZE * recs.length →
      recs.length ≤ fuel →
      valid < SIZE_MOD →
      p.m_bodyBytesInterpreted + UPDATE_SIZE * recs.length < SIZE_MOD →
      p.m_numUpdatesRead + recs.length < SIZE_MOD →
      scanBuffer valid fuel pre.length p = .ok { p with
        m_bodyBytesInterpreted := p.m_bodyBytesInterpreted + UPDATE_SIZE * recs.length
        m_numUpdatesRead := p.m_numUpdatesRead + recs.length
        m_tradeLocs := p.m_tradeLocs ++ tradeOffsets pre.length recs } := by
  induction recs with
  | nil =>
    intro fuel pre post p _ _ hv _ _ _ _
    have hnot : ¬ pre.length < valid := by simp at hv; omega
    cases fuel <;> simp [scanBuffer, hnot, tradeOffsets]
  | cons r rs ih =>
    intro fuel pre post p hval hbuf hv hfuel hvm hb hn
    have hr : ValidRecord r := hval r (List.mem_cons_self _ _)
    have hrl : r.length = 32 := hr.1
    have hlt : pre.length < valid := by simp [UPDATE_SIZE] at hv; omega
    obtain ⟨fuel, rfl⟩ : ∃ f, fuel = f + 1 := ⟨fuel - 1, by simp at hfuel; omega⟩
    have hbuf2 : p.m_readBuffer = pre ++ r ++ (rs.flatten ++ post) := by
      rw [hbuf]; simp [List.append_assoc]
    have hcls : isValidUpdatePtr p.m_readBuffer pre.length = (UPDATE_SIZE, r.getD TYPE_OFFSET 0) := by
      rw [hbuf2, isValidUpdatePtr_append_mid _ _ _ (by omega), isValidUpdatePtr_of_valid r hr]
    have hmod : ∀ x, x < SIZE_MOD → x % SIZE_MOD = x := fun x hx => Nat.mod_eq_of_lt hx
    simp only [List.length_cons, UPDATE_SIZE] at hv hb hn hfuel
    have ho : (pre.length + 32) % SIZE_MOD = (pre ++ r).length := by
      rw [hmod _ (by omega)]; simp [hrl]
    have hb1 : (p.m_bodyBytesInterpreted + 32) % SIZE_MOD = p.m_bodyBytesInterpreted + 32 :=
      hmod _ (by omega)
    have hn1 : (p.m_numUpdatesRead + 1) % SIZE_MOD = p.m_numUpdatesRead + 1 := hmod _ (by omega)
    have hrest : ∀ q : marketPacketProcessor_t, q.m_readBuffer = p.m_readBuffer →
        q.m_bodyBytesInterpreted = p.m_bodyBytesInterpreted + 32 →
        q.m_numUpdatesRead = p.m_numUpdatesRead + 1 →
        scanBuffer valid fuel (pre ++ r).length q = .ok { q with
          m_bodyBytesInterpreted := q.m_bodyBytesInterpreted + UPDATE_SIZE * rs.length
          m_numUpdatesRead := q.m_numUpdatesRead + rs.length
          m_tradeLocs := q.m_tradeLocs ++ tradeOffsets (pre ++ r).length rs } := by
      intro q hq1 hq2 hq3
      apply ih fuel (pre ++ r) post q (fun x hx => hval x (List.mem_cons_of_mem _ hx))
      · rw [hq1, hbuf]; simp [List.append_assoc]
      · simp [hrl, UPDATE_SIZE]; omega
      · omega
      · exact hvm
      · simp only [UPDATE_SIZE]; omega
      · omega
    have hlen2 : (pre ++ r).length = pre.length + UPDATE_SIZE := by simp [hrl, UPDATE_SIZE]
    rcases hr.2.2 with ht | hq
    · have hne : ¬ updateType_e.TRADE = updateType_e.INVALID := by decide
      simp only [scanBuffer, hlt, if_true, hcls, hne, if_false, ht, UPDATE_SIZE, ho, hb1, hn1]
      rw [hrest]
      · simp only [tradeOffsets, isTrade, ht, decide_True, if_true, hlen2, UPDATE_SIZE,
          List.length_cons, List.append_assoc]
        congr 2 <;> omega
      · rfl
      · rfl
      · rfl
    · have hne : ¬ updateType_e.QUOTE = updateType_e.INVALID := by decide
      have hnt : ¬ updateType_e.QUOTE = updateType_e.TRADE := by decide
      simp only [scanBuffer, hlt, if_true, hcls, hne, if_false, hq, hnt, UPDATE_SIZE, ho, hb1, hn1]
      rw [hrest]
      · simp only [tradeOffsets, isTrade, hq, hnt, decide_False, hlen2, UPDATE_SIZE,
          List.length_cons, List.nil_append, Bool.false_eq_true, if_false]
        congr 2 <;> omega
      · rfl
      · rfl
      · rfl

end marketPacketProcessor_t

namespace marketPacketProcessor_t

/-! ## Writing the trades of one buffer fill -/

theorem foldl_write_unlimited (parts : List (List Byte)) :
    ∀ w : List Byte, parts.foldl OStream.write ⟨w, none, false⟩ = ⟨w ++ parts.flatten, none, false⟩ := by
  induction parts with
  | nil => intro w; simp
  | cons a as ih => intro w; simp [OStream.write, ih, List.append_assoc]

theorem appendTradePtrToStream_ok (p : marketPacketProcessor_t) (pre r post w : List Byte)
    (hbuf : p.m_readBuffer = pre ++ r ++ post) (hr : r.length = UPDATE_SIZE)
    (ho : p.m_outputStream = some ⟨w, none, false⟩) :
    appendTradePtrToStream p pre.length
      = .ok { p with m_outputStream := some ⟨w ++ tradeLine r, none, false⟩ } := by
  simp only [appendTradePtrToStream, ho, hbuf, tradeLineParts_append_mid pre r post hr,
    foldl_write_unlimited, OStream.good, tradeLine]
  simp

theorem writeUpdatesLoop_valid (recs : List (List Byte)) :
    ∀ (pre post w : List Byte) (p : marketPacketProcessor_t),
      (∀ r ∈ recs, r.length = UPDATE_SIZE) →
      p.m_readBuffer = pre ++ recs.flatten ++ post →
      p.m_outputStream = some ⟨w, none, false⟩ →
      writeUpdatesLoop (tradeOffsets pre.length recs) p
        = .ok { p with m_outputStream := some ⟨w ++ packetLines recs, none, false⟩ } := by
  induction recs with
  | nil =>
    intro pre post w p _ _ ho
    simp [tradeOffsets, writeUpdatesLoop, packetLines, ← ho]
  | cons r rs ih =>
    intro pre post w p hlen hbuf ho
    have hrl : r.length = UPDATE_SIZE := hlen r (List.mem_cons_self _ _)
    have hbuf2 : p.m_readBuffer = pre ++ r ++ (rs.flatten ++ post) := by
      rw [hbuf]; simp [List.append_assoc]
    have hlen2 : pre.length + UPDATE_SIZE = (pre ++ r).length := by simp [hrl]
    have hpl : packetLines (r :: rs)
        = (if isTrade r then tradeLine r else []) ++ packetLines rs := by
      simp [packetLines]
    by_cases ht : isTrade r = true
    · simp only [tradeOffsets, ht, if_true, List.singleton_append, writeUpdatesLoop,
        appendTradePtrToStream_ok p pre r _ w hbuf2 hrl ho, hlen2]
      rw [ih (pre ++ r) post (w ++ tradeLine r) _ (fun x hx => hlen x (List.mem_cons_of_mem _ hx))
        (by simp [hbuf, List.append_assoc]) rfl]
      simp [hpl, ht, List.append_assoc]
    · simp only [tradeOffsets, ht, List.nil_append, hlen2, Bool.false_eq_true, if_false]
      rw [ih (pre ++ r) post w p (fun x hx => hlen x (List.mem_cons_of_mem _ hx))
        (by simp [hbuf, List.append_assoc]) ho]
      simp [hpl, ht]

theorem flatten_length_of_valid (recs : List (List Byte)) (h : ∀ r ∈ recs, r.length = UPDATE_SIZE) :
    recs.flatten.length = UPDATE_SIZE * recs.length := by
  induction recs with
  | nil => simp
  | cons r rs ih =>
    have h1 := h r (List.mem_cons_self _ _)
    have h2 := ih (fun x hx => h x (List.mem_cons_of_mem _ hx))
    simp only [List.flatten_cons, List.length_append, List.length_cons, h1, h2, UPDATE_SIZE]
    omega

/-! ## Rounds of the state machine -/

theorem Reaches.refl (p : marketPacketProcessor_t) : Reaches 0 p p := by
  intro fuel; simp

theorem Reaches.trans {n m : Nat} {p q r : marketPacketProcessor_t}
    (h1 : Reaches n p q) (h2 : Reaches m q r) : Reaches (n + m) p r := by
  intro fuel
  rw [Nat.add_assoc, h1, h2]

theorem Reaches.of_again {p q : marketPacketProcessor_t} (h : iteration p = .again q) :
    Reaches 1 p q := by
  intro fuel
  rw [Nat.add_comm]
  simp [runStateMachine, h]

theorem Reaches.leave {n : Nat} {p q r : marketPacketProcessor_t} (h1 : Reaches n p q)
    (h2 : iteration q = .leave r) (fuel : Nat) (hf : n + 1 ≤ fuel) :
    runStateMachine fuel p = .ok r := by
  obtain ⟨k, rfl⟩ : ∃ k, fuel = n + (k + 1) := ⟨fuel - n - 1, by omega⟩
  rw [h1]
  simp [runStateMachine, h2]

end marketPacketProcessor_t

theorem IStream.read_ofBytes_append (a b : List Byte) (n : Nat) (h : a.length = n) :
    (IStream.ofBytes (a ++ b)).read n = (IStream.ofBytes b, a) := by
  subst h
  simp [IStream.read, IStream.ofBytes, IStream.good]

namespace marketPacketProcessor_t

theorem readPartBody_chunk (p : marketPacketProcessor_t) (chunk : List (List Byte))
    (rest : List Byte) (n k : Nat)
    (hin : p.m_inputStream = some (IStream.ofBytes (chunk.flatten ++ rest)))
    (hval : ∀ r ∈ chunk, ValidRecord r)
    (hbs : p.m_bodySize = UPDATE_SIZE * n) (hbi : p.m_bodyBytesInterpreted = UPDATE_SIZE * k)
    (hnr : p.m_numUpdatesRead = k) (hloc : p.m_tradeLocs = [])
    (hn : UPDATE_SIZE * n < SIZE_MOD) (hkn : k ≤ n)
    (hc : chunk.length = min 32 (n - k)) :
    readPartBody p = .ok { p with
      m_inputStream := some (IStream.ofBytes rest)
      m_readBuffer := chunk.flatten ++ p.m_readBuffer.drop chunk.flatten.length
      m_bodyBytesInterpreted := UPDATE_SIZE * (k + chunk.length)
      m_numUpdatesRead := k + chunk.length
      m_tradeLocs := tradeOffsets 0 chunk } := by
  have hfl : chunk.flatten.length = UPDATE_SIZE * chunk.length :=
    flatten_length_of_valid chunk (fun r hr => (hval r hr).1)
  simp only [UPDATE_SIZE] at hfl hn hbs hbi
  have hM : SIZE_MOD = 18446744073709551616 := by decide
  rw [hM] at hn
  have hc2 : chunk.length ≤ 32 ∧ chunk.length ≤ n - k ∧ (chunk.length = 32 ∨ chunk.length = n - k) := by
    rw [hc]; omega
  have hleft : (p.m_bodySize + SIZE_MOD - p.m_bodyBytesInterpreted) % SIZE_MOD = 32 * (n - k) := by
    rw [hbs, hbi, hM]; omega
  have hvalid : (if 32 * (n - k) < READ_BUFFER_SIZE then 32 * (n - k) else READ_BUFFER_SIZE)
      = 32 * chunk.length := by
    simp only [READ_BUFFER_SIZE]; split <;> omega
  have hread := IStream.read_ofBytes_append chunk.flatten rest (32 * chunk.length) hfl
  simp only [readPartBody, hin, hleft, hvalid, hread]
  have hgood : (IStream.ofBytes rest).good = true := rfl
  simp only [hgood, Bool.not_true, Bool.false_eq_true, if_false]
  have hscan := scanBuffer_valid (32 * chunk.length) chunk (32 * chunk.length) []
    (p.m_readBuffer.drop chunk.flatten.length)
    { p with m_inputStream := some (IStream.ofBytes rest),
             m_readBuffer := chunk.flatten ++ p.m_readBuffer.drop chunk.flatten.length }
    hval (by simp) (by simp [UPDATE_SIZE]) (by omega) (by rw [hM]; omega)
    (by simp only [hbi, UPDATE_SIZE, hM]; omega)
    (by simp only [hnr, hM]; omega)
  simp only [List.length_nil] at hscan
  rw [hscan]
  simp only [hbi, hnr, hloc, UPDATE_SIZE, List.nil_append]
  congr 2
  omega

end marketPacketProcessor_t

theorem packetLines_append (a b : List (List Byte)) :
    packetLines (a ++ b) = packetLines a ++ packetLines b := by
  simp [packetLines]

namespace marketPacketProcessor_t

theorem body_round (p : marketPacketProcessor_t) (n k : Nat) (chunk : List (List Byte))
    (rest out : List Byte) (cnt : Option Nat) (d : Nat)
    (hcv : ∀ r ∈ chunk, ValidRecord r) (hn : UPDATE_SIZE * n < SIZE_MOD)
    (hk : k ≤ n) (hcl : chunk.length = min 32 (n - k))
    (h : AtBody p n k (chunk.flatten ++ rest) out cnt d) :
    ∃ q, Reaches 2 p q ∧
      (if k + chunk.length = n then AtCheck q rest (out ++ packetLines chunk) cnt (d + 1)
       else AtBody q n (k + chunk.length) rest (out ++ packetLines chunk) cnt d) := by
  have hrp := readPartBody_chunk p chunk rest n k h.input hcv
    h.bodySize h.bodyBytesInterpreted h.numUpdatesRead h.locs hn hk hcl
  have hnf : p.m_failReason.isSome = false := by rw [h.noFail]; rfl
  have hit1 : iteration p = .again { p with
      m_inputStream := some (IStream.ofBytes rest)
      m_readBuffer := chunk.flatten ++ p.m_readBuffer.drop chunk.flatten.length
      m_bodyBytesInterpreted := UPDATE_SIZE * (k + chunk.length)
      m_numUpdatesRead := k + chunk.length
      m_tradeLocs := tradeOffsets 0 chunk
      m_state := .WRITE_UPDATES } := by
    simp only [iteration, hnf, h.state, hrp, Bool.false_eq_true, if_false]
  have hwl := writeUpdatesLoop_valid chunk [] (p.m_readBuffer.drop chunk.flatten.length) out
    { p with
      m_inputStream := some (IStream.ofBytes rest)
      m_readBuffer := chunk.flatten ++ p.m_readBuffer.drop chunk.flatten.length
      m_bodyBytesInterpreted := UPDATE_SIZE * (k + chunk.length)
      m_numUpdatesRead := k + chunk.length
      m_tradeLocs := tradeOffsets 0 chunk
      m_state := .WRITE_UPDATES }
    (fun r hr => (hcv r hr).1) (by simp) h.output
  simp only [List.length_nil] at hwl
  by_cases hdone : k + chunk.length = n
  · refine ⟨{ p with
        m_inputStream := some (IStream.ofBytes rest)
        m_outputStream := some ⟨out ++ packetLines chunk, none, false⟩
        m_readBuffer := chunk.flatten ++ p.m_readBuffer.drop chunk.flatten.length
        m_bodyBytesInterpreted := UPDATE_SIZE * (k + chunk.length)
        m_numUpdatesRead := k + chunk.length
        m_tradeLocs := []
        m_numPacketsProcessed := (p.m_numPacketsProcessed + 1) % SIZE_MOD
        m_state := .CHECK_STREAM_VALIDITY }, (Reaches.of_again hit1).trans (Reaches.of_again ?_), ?_⟩
    · simp only [iteration, hnf, writeUpdates, Bool.false_eq_true, if_false]
      rw [hwl]
      simp only [doneWithPacket, h.numUpdatesPacket, hdone, decide_True, if_true]
    · rw [if_pos hdone]
      refine ⟨rfl, h.noFail, rfl, rfl, h.count, ?_, rfl⟩
      show (p.m_numPacketsProcessed + 1) % SIZE_MOD = (d + 1) % SIZE_MOD
      rw [h.processed, Nat.mod_add_mod]
  · refine ⟨{ p with
        m_inputStream := some (IStream.ofBytes rest)
        m_outputStream := some ⟨out ++ packetLines chunk, none, false⟩
        m_readBuffer := chunk.flatten ++ p.m_readBuffer.drop chunk.flatten.length
        m_bodyBytesInterpreted := UPDATE_SIZE * (k + chunk.length)
        m_numUpdatesRead := k + chunk.length
        m_tradeLocs := []
        m_state := .READ_PART_BODY }, (Reaches.of_again hit1).trans (Reaches.of_again ?_), ?_⟩
    · simp only [iteration, hnf, writeUpdates, Bool.false_eq_true, if_false]
      rw [hwl]
      simp only [doneWithPacket, h.numUpdatesPacket, hdone, decide_False, Bool.false_eq_true,
        if_false]
    · rw [if_neg hdone]
      exact ⟨rfl, h.noFail, rfl, rfl, h.count, h.processed, rfl, h.numUpdatesPacket,
        rfl, h.bodySize, rfl⟩

end marketPacketProcessor_t

theorem readU16_headerBytes_fst (x y : Nat) (rest : List Byte) (hx : x < 65536) :
    readU16 (marketPacketGenerator_t.headerBytes x y ++ rest) 0 = x := by
  simp only [readU16, getByte, marketPacketGenerator_t.headerBytes, u16Bytes, byteOf,
    List.cons_append, List.nil_append, List.getD_cons_zero, List.getD_cons_succ]
  omega

theorem readU16_headerBytes_snd (x y : Nat) (rest : List Byte) (hy : y < 65536) :
    readU16 (marketPacketGenerator_t.headerBytes x y ++ rest) 2 = y := by
  simp only [readU16, getByte, marketPacketGenerator_t.headerBytes, u16Bytes, byteOf,
    List.cons_append, List.nil_append, List.getD_cons_zero, List.getD_cons_succ]
  omega

namespace marketPacketProcessor_t

theorem body_complete (recs : List (List Byte)) (tail : List Byte) (cnt : Option Nat) (d : Nat)
    (hval : ∀ r ∈ recs, ValidRecord r) (hn : UPDATE_SIZE * recs.length < SIZE_MOD) :
    ∀ (m k : Nat) (p : marketPacketProcessor_t) (out : List Byte),
      recs.length - k ≤ m → k ≤ recs.length →
      AtBody p recs.length k ((recs.drop k).flatten ++ tail) out cnt d →
      ∃ q j, Reaches j p q ∧ AtCheck q tail (out ++ packetLines (recs.drop k)) cnt (d + 1) := by
  intro m
  induction m with
  | zero =>
    intro k p out hm hk h
    have hkn : k = recs.length := by omega
    have hd : recs.drop k = [] := by rw [hkn]; simp
    rw [hd] at h
    obtain ⟨q, hq, hres⟩ := body_round p recs.length k [] tail out cnt d (by simp) hn hk
      (by simp; omega) (by simpa using h)
    rw [if_pos (by simpa using hkn)] at hres
    refine ⟨q, 2, hq, ?_⟩
    simpa [hd, packetLines] using hres
  | succ m ih =>
    intro k p out hm hk h
    generalize hch : (recs.drop k).take (min 32 (recs.length - k)) = chunk
    have hcl : chunk.length = min 32 (recs.length - k) := by
      rw [← hch, List.length_take, List.length_drop]; omega
    have hcv : ∀ r ∈ chunk, ValidRecord r := by
      intro r hr
      rw [← hch] at hr
      exact hval r (List.mem_of_mem_drop (List.mem_of_mem_take hr))
    have h1 : chunk ++ recs.drop (k + chunk.length) = recs.drop k := by
      have h2 := List.take_append_drop (min 32 (recs.length - k)) (recs.drop k)
      rw [hch, List.drop_drop, ← hcl] at h2
      exact h2
    have hsplit : (recs.drop k).flatten ++ tail
        = chunk.flatten ++ ((recs.drop (k + chunk.length)).flatten ++ tail) := by
      rw [← List.append_assoc, ← List.flatten_append, h1]
    rw [hsplit] at h
    obtain ⟨q, hq, hres⟩ := body_round p recs.length k chunk _ out cnt d hcv hn hk hcl h
    have hpl : packetLines (recs.drop k)
        = packetLines chunk ++ packetLines (recs.drop (k + chunk.length)) := by
      rw [← packetLines_append, h1]
    by_cases hdone : k + chunk.length = recs.length
    · rw [if_pos hdone] at hres
      refine ⟨q, 2, hq, ?_⟩
      have hd : recs.drop (k + chunk.length) = [] := by rw [hdone]; simp
      rw [hpl, hd]
      simpa [packetLines, hd] using hres
    · rw [if_neg hdone] at hres
      have hc : chunk.length = 32 := by omega
      obtain ⟨q2, j, hq2, hres2⟩ := ih (k + chunk.length) q _ (by omega) (by omega) hres
      refine ⟨q2, 2 + j, hq.trans hq2, ?_⟩
      rw [hpl, ← List.append_assoc]
      exact hres2

theorem packet_complete (p : marketPacketProcessor_t) (recs : List (List Byte))
    (tail out : List Byte) (cnt : Option Nat) (d : Nat)
    (hwf : WellFormedPacket recs) (hcnt : cnt ≠ some (d % SIZE_MOD))
    (h : AtCheck p (encodePacket recs ++ tail) out cnt d) :
    ∃ q j, Reaches j p q ∧ AtCheck q tail (out ++ packetLines recs) cnt (d + 1) := by
  have hM : SIZE_MOD = 18446744073709551616 := by decide
  have hlen : PACKET_HEADER_SIZE + UPDATE_SIZE * recs.length ≤ UINT16_MAX := hwf.1
  simp only [PACKET_HEADER_SIZE, UPDATE_SIZE, UINT16_MAX] at hlen
  have hnf : p.m_failReason.isSome = false := by rw [h.noFail]; rfl
  have hstop : ¬ p.m_numPacketsToProcess = some p.m_numPacketsProcessed := by
    rw [h.count, h.processed]; exact hcnt
  have henc : encodePacket recs ++ tail
      = marketPacketGenerator_t.headerBytes (4 + 32 * recs.length) recs.length
        ++ (recs.flatten ++ tail) := by
    simp [encodePacket, PACKET_HEADER_SIZE, UPDATE_SIZE, List.append_assoc]
  have hne : (IStream.ofBytes (encodePacket recs ++ tail)).peek
      = IStream.ofBytes (encodePacket recs ++ tail) := by
    simp [IStream.peek, IStream.ofBytes, IStream.good, encodePacket,
      marketPacketGenerator_t.headerBytes, u16Bytes]
  have hit1 : iteration p = .again { p with m_state := .READ_HEADER } := by
    simp only [iteration, hnf, h.state, hstop, checkStreamValidity, h.input, hne,
      Bool.false_eq_true, if_false]
    simp [IStream.ofBytes, IStream.good, ← h.input]
  have hrd : (IStream.ofBytes (encodePacket recs ++ tail)).read PACKET_HEADER_SIZE
      = (IStream.ofBytes (recs.flatten ++ tail),
         marketPacketGenerator_t.headerBytes (4 + 32 * recs.length) recs.length) := by
    rw [henc]
    exact IStream.read_ofBytes_append _ _ _ (by simp [marketPacketGenerator_t.headerBytes, u16Bytes, PACKET_HEADER_SIZE])
  have hit2 : iteration { p with m_state := .READ_HEADER } = .again { p with
      m_inputStream := some (IStream.ofBytes (recs.flatten ++ tail))
      m_packetHeader := marketPacketGenerator_t.headerBytes (4 + 32 * recs.length) recs.length
        ++ p.m_packetHeader.drop 4
      m_numUpdatesPacket := recs.length
      m_numUpdatesRead := 0
      m_bodySize := 32 * recs.length
      m_bodyBytesInterpreted := 0
      m_state := .READ_PART_BODY } := by
    simp only [iteration, hnf, readHeader, h.input, hrd, Bool.false_eq_true, if_false]
    have hfl : (IStream.ofBytes (recs.flatten ++ tail)).fail = false := rfl
    have hpl := readU16_headerBytes_fst (4 + 32 * recs.length) recs.length
      (p.m_packetHeader.drop 4) (by omega)
    have hnu := readU16_headerBytes_snd (4 + 32 * recs.length) recs.length
      (p.m_packetHeader.drop 4) (by omega)
    have hhl : (marketPacketGenerator_t.headerBytes (4 + 32 * recs.length) recs.length).length = 4 := by
      simp [marketPacketGenerator_t.headerBytes, u16Bytes]
    have hbs : (4 + 32 * recs.length + SIZE_MOD - 4) % SIZE_MOD = 32 * recs.length := by
      rw [hM]; omega
    have hge : ¬ 4 + 32 * recs.length < 4 := by omega
    simp only [hfl, hhl, packetLength, numMarketUpdates, hpl, hnu, resetPerPacketVariables,
      PACKET_HEADER_SIZE, hbs, hge, Bool.false_eq_true, if_false]
  have hbody : AtBody { p with
      m_inputStream := some (IStream.ofBytes (recs.flatten ++ tail))
      m_packetHeader := marketPacketGenerator_t.headerBytes (4 + 32 * recs.length) recs.length
        ++ p.m_packetHeader.drop 4
      m_numUpdatesPacket := recs.length
      m_numUpdatesRead := 0
      m_bodySize := 32 * recs.length
      m_bodyBytesInterpreted := 0
      m_state := .READ_PART_BODY } recs.length 0 ((recs.drop 0).flatten ++ tail) out cnt d :=
    ⟨rfl, h.noFail, by simp, h.output, h.count, h.processed, h.locs, rfl, rfl, rfl, rfl⟩
  obtain ⟨q, j, hq, hres⟩ := body_complete recs tail cnt d hwf.2
    (by rw [hM]; simp only [UPDATE_SIZE]; omega) recs.length 0 _ out (by omega) (by omega) hbody
  refine ⟨q, 1 + 1 + j, ((Reaches.of_again hit1).trans (Reaches.of_again hit2)).trans hq, ?_⟩
  simpa using hres

end marketPacketProcessor_t

theorem encodeStream_cons (rs : List (List Byte)) (ps : List (List (List Byte))) :
    encodeStream (rs :: ps) = encodePacket rs ++ encodeStream ps := by
  simp [encodeStream]

theorem encodeStream_append (ps qs : List (List (List Byte))) :
    encodeStream (ps ++ qs) = encodeStream ps ++ encodeStream qs := by
  simp [encodeStream]

theorem streamLines_cons (rs : List (List Byte)) (ps : List (List (List Byte))) :
    streamLines (rs :: ps) = packetLines rs ++ streamLines ps := by
  simp [streamLines]

theorem streamLines_append (ps qs : List (List (List Byte))) :
    streamLines (ps ++ qs) = streamLines ps ++ streamLines qs := by
  simp [streamLines]

namespace marketPacketProcessor_t

/-! ## Whole streams -/

theorem stream_complete (cnt : Option Nat) (tail : List Byte) :
    ∀ (ps : List (List (List Byte))) (p : marketPacketProcessor_t) (out : List Byte) (d : Nat),
      (∀ rs ∈ ps, WellFormedPacket rs) →
      (∀ j, j < ps.length → cnt ≠ some ((d + j) % SIZE_MOD)) →
      AtCheck p (encodeStream ps ++ tail) out cnt d →
      ∃ q j, Reaches j p q ∧ AtCheck q tail (out ++ streamLines ps) cnt (d + ps.length) := by
  intro ps
  induction ps with
  | nil =>
    intro p out d _ _ h
    exact ⟨p, 0, Reaches.refl p, by simpa [encodeStream, streamLines] using h⟩
  | cons rs ps ih =>
    intro p out d hwf hcnt h
    rw [encodeStream_cons, List.append_assoc] at h
    obtain ⟨q, j, hq, hres⟩ := packet_complete p rs _ out cnt d
      (hwf rs (List.mem_cons_self _ _)) (by simpa using hcnt 0 (by simp)) h
    obtain ⟨q2, j2, hq2, hres2⟩ := ih q _ (d + 1)
      (fun x hx => hwf x (List.mem_cons_of_mem _ hx))
      (fun i hi => by
        have := hcnt (i + 1) (by simpa using hi)
        rwa [show d + (i + 1) = d + 1 + i by omega] at this) hres
    refine ⟨q2, j + j2, hq.trans hq2, ?_⟩
    rw [streamLines_cons, ← List.append_assoc, List.length_cons,
      show d + (ps.length + 1) = d + 1 + ps.length by omega]
    exact hres2

theorem AtCheck.stop {q : marketPacketProcessor_t} {inp out : List Byte} {c d : Nat}
    (h : AtCheck q inp out (some c) d) (hc : d % SIZE_MOD = c) : iteration q = .leave q := by
  have hnf : q.m_failReason.isSome = false := by rw [h.noFail]; rfl
  simp [iteration, hnf, h.state, h.count, h.processed, hc]

theorem AtCheck.eof {q : marketPacketProcessor_t} {out : List Byte} {cnt : Option Nat} {d : Nat}
    (h : AtCheck q [] out cnt d) (hc : cnt ≠ some (d % SIZE_MOD)) :
    ∃ r, Reaches 1 q r ∧ iteration r = .leave r ∧ r.m_failReason = some "End of file" ∧
      r.m_outputStream = some ⟨out, none, false⟩ ∧
      r.m_inputStream = some { IStream.ofBytes [] with eofbit := true } := by
  have hnf : q.m_failReason.isSome = false := by rw [h.noFail]; rfl
  have hstop : ¬ q.m_numPacketsToProcess = some q.m_numPacketsProcessed := by
    rw [h.count, h.processed]; exact hc
  refine ⟨{ q with m_inputStream := some { IStream.ofBytes [] with eofbit := true },
                   m_failReason := some "End of file", m_state := .READ_HEADER },
    Reaches.of_again ?_, ?_, rfl, h.output, rfl⟩
  · simp [iteration, hnf, h.state, hstop, checkStreamValidity, h.input, IStream.ofBytes,
      IStream.peek, IStream.good]
  · simp [iteration]

theorem AtCheck.reset {p : marketPacketProcessor_t} {inp out : List Byte} {c0 : Option Nat}
    {d0 : Nat} (h : AtCheck p inp out c0 d0) (c : Option Nat) :
    AtCheck (resetPerRunVariables c p) inp out c 0 :=
  ⟨h.state, h.noFail, h.input, h.output, rfl, rfl, h.locs⟩

theorem ready_atCheck (bs hdr buf : List Byte) : AtCheck (ready bs hdr buf) bs [] none 0 :=
  ⟨rfl, rfl, rfl, rfl, rfl, rfl, rfl⟩

theorem initialise_create (bs hdr buf : List Byte) :
    (create (some (IStream.ofBytes bs)) (some OStream.empty) hdr buf).initialise
      = .ok (ready bs hdr buf) := rfl

theorem processNextPacket_of_reaches {p q r : marketPacketProcessor_t} {n : Nat} {c : Option Nat}
    {o : OStream} (h1 : Reaches n (resetPerRunVariables c p) q) (h2 : iteration q = .leave r)
    (ho : r.m_outputStream = some o) (fuel : Nat) (hf : n + 1 ≤ fuel) :
    processNextPacket fuel c p = .ok (r, r.m_failReason) := by
  simp [processNextPacket, Reaches.leave h1 h2 fuel hf, ho]

/-- A counted call over a stream that starts with as many well-formed packets
as requested consumes exactly these, prints their lines and reports nothing. -/
theorem process_counted (p : marketPacketProcessor_t) (ps : List (List (List Byte)))
    (tail out : List Byte) (c0 : Option Nat) (d0 : Nat)
    (hwf : ∀ rs ∈ ps, WellFormedPacket rs) (hc : ps.length < SIZE_MOD)
    (h : AtCheck p (encodeStream ps ++ tail) out c0 d0) :
    ∃ q N, (∀ fuel, N ≤ fuel → processNextPacket fuel (some ps.length) p = .ok (q, none)) ∧
      AtCheck q tail (out ++ streamLines ps) (some ps.length) ps.length := by
  obtain ⟨q, j, hq, hres⟩ := stream_complete (some ps.length) tail ps _ out 0 hwf
    (fun i hi => by
      rw [Nat.zero_add, Nat.mod_eq_of_lt (by omega)]
      intro he; injection he with he; omega)
    (h.reset (some ps.length))
  rw [Nat.zero_add] at hres
  have hl := hres.stop (Nat.mod_eq_of_lt hc)
  refine ⟨q, j + 1, fun fuel hf => ?_, hres⟩
  rw [processNextPacket_of_reaches hq hl hres.output fuel hf, hres.noFail]

/-- A call that is not stopped by its count runs over a stream of well-formed
packets to its end, prints their lines and reports the end of the file. -/
theorem process_to_eof (p : marketPacketProcessor_t) (ps : List (List (List Byte)))
    (out : List Byte) (c0 : Option Nat) (d0 : Nat) (cnt : Option Nat)
    (hwf : ∀ rs ∈ ps, WellFormedPacket rs)
    (hcnt : ∀ c, cnt = some c → ps.length < c ∧ c < SIZE_MOD)
    (h : AtCheck p (encodeStream ps) out c0 d0) :
    ∃ q N, (∀ fuel, N ≤ fuel → processNextPacket fuel cnt p = .ok (q, some "End of file")) ∧
      q.m_failReason = some "End of file" ∧
      q.m_outputStream = some ⟨out ++ streamLines ps, none, false⟩ ∧
      q.m_inputStream = some { IStream.ofBytes [] with eofbit := true } := by
  have hne : ∀ i, i ≤ ps.length → cnt ≠ some ((0 + i) % SIZE_MOD) := by
    intro i hi he
    obtain ⟨h1, _⟩ := hcnt _ he
    have h3 := Nat.mod_le (0 + i) SIZE_MOD
    omega
  obtain ⟨q, j, hq, hres⟩ := stream_complete cnt [] ps _ out 0 hwf
    (fun i hi => hne i (by omega)) (by simpa using h.reset cnt)
  obtain ⟨r, hr, hl, hf, ho, hi⟩ := hres.eof (hne ps.length (Nat.le_refl _))
  refine ⟨r, j + 1 + 1, fun fuel hfu => ?_, hf, ho, hi⟩
  rw [processNextPacket_of_reaches (hq.trans hr) hl ho fuel hfu, hf]

end marketPacketProcessor_t

namespace marketPacketGenerator_t

/-! ## The generator: failure reasons -/

theorem fillUpdates_failReason (k : Nat) : ∀ (i : Nat) (g : marketPacketGenerator_t),
    (fillUpdates k i g).m_failReason = g.m_failReason ∧
    (fillUpdates k i g).m_oStream = g.m_oStream := by
  induction k with
  | zero => intro i g; exact ⟨rfl, rfl⟩
  | succ k ih => intro i g; simp only [fillUpdates]; exact ih _ _

theorem writeHeader_failReason (g g1 : marketPacketGenerator_t) (h : writeHeader g = .ok g1) :
    g1.m_failReason = g.m_failReason ∨ g1.m_failReason = some "writeHeader failed" := by
  unfold writeHeader at h
  simp only at h
  split at h
  · cases h
  · split at h
    · cases h
    · split at h
      · injection h with h; subst h; right; rfl
      · injection h with h; subst h; left; rfl

theorem generateUpdates_failReason (g g1 : marketPacketGenerator_t)
    (h : generateUpdates g = .ok g1) :
    g1.m_failReason = g.m_failReason ∨ g1.m_failReason = some "Update write failed" := by
  unfold generateUpdates at h
  simp only at h
  generalize (if (g.m_numUpdates + SIZE_MOD - g.m_numUpdatesWritten) % SIZE_MOD ≤ UPDATES_IN_WRITE_BUF
    then (g.m_numUpdates + SIZE_MOD - g.m_numUpdatesWritten) % SIZE_MOD
    else UPDATES_IN_WRITE_BUF) = n at h
  split at h
  · cases h
  · split at h
    · injection h with h; subst h; right; rfl
    · injection h with h; subst h; left; exact (fillUpdates_failReason _ _ _).1

/-- The reasons the loop of `runStateMachine` itself can set. -/
theorem iteration_failReason (g g1 : marketPacketGenerator_t)
    (h : iteration g = .again g1 ∨ iteration g = .leave g1) :
    g1.m_failReason = g.m_failReason ∨ g1.m_failReason = some "Generator is uninitialized" ∨
      g1.m_failReason = some "writeHeader failed" ∨ g1.m_failReason = some "Update write failed" := by
  unfold iteration at h
  split at h
  · rcases h with h | h
    · cases h
    · injection h with h; subst h; left; rfl
  · split at h
    · rcases h with h | h
      · injection h with h; subst h; right; left; rfl
      · cases h
    · split at h
      · rename_i g2 hw
        have := writeHeader_failReason g g2 hw
        rcases h with h | h
        · injection h with h; subst h
          rcases this with t | t
          · left; exact t
          · right; right; left; exact t
        · cases h
      · rcases h with h | h <;> cases h
      · rcases h with h | h <;> cases h
    · split at h
      · rename_i g2 hw
        have := generateUpdates_failReason g g2 hw
        have key : g2.m_failReason = g.m_failReason ∨
            g2.m_failReason = some "Generator is uninitialized" ∨
            g2.m_failReason = some "writeHeader failed" ∨
            g2.m_failReason = some "Update write failed" := by
          rcases this with t | t
          · left; exact t
          · right; right; right; exact t
        simp only at h
        split at h
        · split at h
          · rcases h with h | h
            · cases h
            · injection h with h; subst h; exact key
          · rcases h with h | h
            · injection h with h; subst h; exact key
            · cases h
        · rcases h with h | h
          · injection h with h; subst h; exact key
          · cases h
      · rcases h with h | h <;> cases h
      · rcases h with h | h <;> cases h

theorem runStateMachine_failReason (X : String)
    (h1 : X ≠ "Generator is uninitialized") (h2 : X ≠ "writeHeader failed")
    (h3 : X ≠ "Update write failed") :
    ∀ (fuel : Nat) (g g1 : marketPacketGenerator_t), g.m_failReason ≠ some X →
      runStateMachine fuel g = .ok g1 → g1.m_failReason ≠ some X := by
  intro fuel
  induction fuel with
  | zero => intro g g1 _ h; cases h
  | succ fuel ih =>
    intro g g1 hg h
    have step : ∀ g2, (iteration g = .again g2 ∨ iteration g = .leave g2) →
        g2.m_failReason ≠ some X := by
      intro g2 hi
      rcases iteration_failReason g g2 hi with t | t | t | t
      · rw [t]; exact hg
      · rw [t]; intro he; injection he with he; exact h1 he.symm
      · rw [t]; intro he; injection he with he; exact h2 he.symm
      · rw [t]; intro he; injection he with he; exact h3 he.symm
    simp only [runStateMachine] at h
    split at h
    · rename_i g2 hi
      exact ih g2 g1 (step g2 (Or.inl hi)) h
    · rename_i g2 hi
      injection h with h; subst h
      exact step _ (Or.inr hi)
    · cases h
    · cases h

end marketPacketGenerator_t

namespace marketPacketGenerator_t

theorem runStateMachine_latched (g : marketPacketGenerator_t) (r : String)
    (h : g.m_failReason = some r) (fuel : Nat) (hf : 1 ≤ fuel) :
    runStateMachine fuel g = .ok g := by
  obtain ⟨k, rfl⟩ : ∃ k, fuel = k + 1 := ⟨fuel - 1, by omega⟩
  simp [runStateMachine, iteration, h]

/-- Claim C9.  The bound `floor(65535/32)` is 2047.  A request with
`maxUpdatesPerPacket >= 2047` is answered with the reason "Can't request that
many updates in a packet" and leaves the sink untouched, whatever the state of
the generator (initialized or not); and on a generator that holds no earlier
failure, initialized or not, this answer is given only for such a request. -/
theorem C9_oversized_request_iff (g : marketPacketGenerator_t) (o : OStream)
    (numPackets numMaxUpdates fuel : Nat) (ho : g.m_oStream = some o) (hfuel : 1 ≤ fuel) :
    UINT16_MAX / UPDATE_SIZE = 2047 ∧
    (2047 ≤ numMaxUpdates →
      ∃ g1, g.generatePackets fuel numPackets numMaxUpdates
          = .ok (g1, some "Can't request that many updates in a packet") ∧
        g1.m_oStream = some o ∧ g1.m_state = g.m_state) ∧
    (g.m_failReason = none →
      ((∃ g1, g.generatePackets fuel numPackets numMaxUpdates
          = .ok (g1, some "Can't request that many updates in a packet") ∧
        g1.m_oStream = some o) ↔ 2047 ≤ numMaxUpdates)) := by
  have hb : UINT16_MAX / UPDATE_SIZE = 2047 := by decide
  have hrej : 2047 ≤ numMaxUpdates →
      ∃ g1, g.generatePackets fuel numPackets numMaxUpdates
          = .ok (g1, some "Can't request that many updates in a packet") ∧
        g1.m_oStream = some o ∧ g1.m_state = g.m_state := by
    intro hmax
    have hge : numMaxUpdates ≥ UINT16_MAX / UPDATE_SIZE := by rw [hb]; exact hmax
    refine ⟨{ g with m_failReason := some "Can't request that many updates in a packet" }, ?_,
      ho, rfl⟩
    have hrun := runStateMachine_latched
      { g with m_failReason := some "Can't request that many updates in a packet" } _ rfl fuel hfuel
    simp only [generatePackets, resetPerRunVariables, hge, if_true]
    rw [hrun]
    simp only [ho]
  refine ⟨hb, hrej, fun hnf => ⟨?_, fun hmax => ?_⟩⟩
  · rintro ⟨g1, hres, _⟩
    by_contra hlt
    have hnge : ¬ numMaxUpdates ≥ UINT16_MAX / UPDATE_SIZE := by rw [hb]; omega
    simp only [generatePackets, resetPerRunVariables, hnge, if_false] at hres
    split at hres
    · rename_i g2 hrun
      have hne := runStateMachine_failReason "Can't request that many updates in a packet"
        (by decide) (by decide) (by decide) fuel _ g2 (by simp [hnf]) hrun
      split at hres
      · cases hres
      · injection hres with hres
        injection hres with h1 h2
        exact hne h2
    · cases hres
    · cases hres
  · obtain ⟨g1, h1, h2, _⟩ := hrej hmax
    exact ⟨g1, h1, h2⟩

/-- A witness for claim C9: a generator that was never initialized, asked for
one packet of up to 5000 updates. -/
theorem C9_oversized_request_iff_witness :
    UINT16_MAX / UPDATE_SIZE = 2047 ∧
    (2047 ≤ 5000 →
      ∃ g1, (create (some OStream.empty) ⟨fun _ => 0, 0⟩).generatePackets 1 1 5000
          = .ok (g1, some "Can't request that many updates in a packet") ∧
        g1.m_oStream = some OStream.empty ∧
        g1.m_state = (create (some OStream.empty) ⟨fun _ => 0, 0⟩).m_state) ∧
    ((create (some OStream.empty) ⟨fun _ => 0, 0⟩).m_failReason = none →
      ((∃ g1, (create (some OStream.empty) ⟨fun _ => 0, 0⟩).generatePackets 1 1 5000
          = .ok (g1, some "Can't request that many updates in a packet") ∧
        g1.m_oStream = some OStream.empty) ↔ 2047 ≤ 5000)) :=
  C9_oversized_request_iff (create (some OStream.empty) ⟨fun _ => 0, 0⟩) OStream.empty 1 5000 1
    rfl (by decide)

/-- Claim C10, as stated, fails at `maxUpdatesPerPacket = 2046`, which is
`floor(65535/32) - 1`: an initialized generator asked for one packet of up to
2046 updates reports no failure and writes a packet of 36 bytes. -/
theorem C10_counterexample :
    UINT16_MAX / UPDATE_SIZE - 1 = 2046 ∧
    ∃ g g1, (create (some OStream.empty) ⟨fun _ => 0, 0⟩).initialise = .ok g ∧
      g.generatePackets 3 1 2046 = .ok (g1, none) ∧
      g1.m_oStream.map (fun o => o.written.length) = some 36 :=
  ⟨by decide, _, _, rfl, rfl, by decide⟩

/-- Claim C10, amended.  Every request with `maxUpdatesPerPacket >= 2047`
(that is `floor(65535/32)`, one more than `MAX_UPDATES_ALLOWED_IN_PACKET`) fails
with the reason "Can't request that many updates in a packet" before anything is
written: the call changes nothing but the failure reason. -/
theorem C10_oversized_request_rejected (g : marketPacketGenerator_t) (o : OStream)
    (numPackets numMaxUpdates fuel : Nat) (ho : g.m_oStream = some o) (hfuel : 1 ≤ fuel)
    (hmax : MAX_UPDATES_ALLOWED_IN_PACKET + 1 ≤ numMaxUpdates) :
    g.generatePackets fuel numPackets numMaxUpdates
      = .ok ({ g with m_failReason := some "Can't request that many updates in a packet" },
             some "Can't request that many updates in a packet") := by
  have hge : numMaxUpdates ≥ UINT16_MAX / UPDATE_SIZE := by
    have : MAX_UPDATES_ALLOWED_IN_PACKET + 1 = UINT16_MAX / UPDATE_SIZE := by decide
    omega
  have hrun := runStateMachine_latched
    { g with m_failReason := some "Can't request that many updates in a packet" } _ rfl fuel hfuel
  simp only [generatePackets, resetPerRunVariables, hge, if_true]
  rw [hrun]
  simp only [ho]

/-- A witness for the amended claim C10: an initialized generator asked for
three packets of up to 2047 updates. -/
theorem C10_oversized_request_rejected_witness :
    ({ create (some OStream.empty) ⟨fun _ => 0, 0⟩ with m_state := .WRITE_HEADER }
        : marketPacketGenerator_t).generatePackets 2 3 2047
      = .ok ({ create (some OStream.empty) ⟨fun _ => 0, 0⟩ with
               m_state := .WRITE_HEADER,
               m_failReason := some "Can't request that many updates in a packet" },
             some "Can't request that many updates in a packet") :=
  C10_oversized_request_rejected _ OStream.empty 3 2047 2 rfl (by decide) (by decide)

end marketPacketGenerator_t

namespace marketPacketProcessor_t

/-! ## Runs that end inside the stream -/

theorem process_after_packets (p : marketPacketProcessor_t) (ps : List (List (List Byte)))
    (tail out : List Byte) (c0 : Option Nat) (d0 : Nat) (cnt : Option Nat)
    (hwf : ∀ rs ∈ ps, WellFormedPacket rs)
    (hcnt : ∀ c, cnt = some c → ps.length < c ∧ c < SIZE_MOD)
    (h : AtCheck p (encodeStream ps ++ tail) out c0 d0) :
    ∃ q j, Reaches j (resetPerRunVariables cnt p) q ∧
      AtCheck q tail (out ++ streamLines ps) cnt ps.length ∧
      cnt ≠ some (ps.length % SIZE_MOD) := by
  have hne : ∀ i, i ≤ ps.length → cnt ≠ some ((0 + i) % SIZE_MOD) := by
    intro i hi he
    obtain ⟨h1, _⟩ := hcnt _ he
    have h3 := Nat.mod_le (0 + i) SIZE_MOD
    omega
  obtain ⟨q, j, hq, hres⟩ := stream_complete cnt tail ps _ out 0 hwf
    (fun i hi => hne i (by omega)) (h.reset cnt)
  rw [Nat.zero_add] at hres
  exact ⟨q, j, hq, hres, by simpa using hne ps.length (Nat.le_refl _)⟩

theorem AtCheck.shortHeader {q : marketPacketProcessor_t} {inp out : List Byte}
    {cnt : Option Nat} {d : Nat} (h : AtCheck q inp out cnt d)
    (hc : cnt ≠ some (d % SIZE_MOD)) (h1 : 1 ≤ inp.length) (h3 : inp.length ≤ 3) :
    ∃ r, Reaches 2 q r ∧ iteration r = .leave r ∧
      r.m_failReason = some "Packet header read failed" ∧
      r.m_outputStream = some ⟨out, none, false⟩ := by
  have hnf : q.m_failReason.isSome = false := by rw [h.noFail]; rfl
  have hstop : ¬ q.m_numPacketsToProcess = some q.m_numPacketsProcessed := by
    rw [h.count, h.processed]; exact hc
  have hne : inp ≠ [] := by intro he; rw [he] at h1; simp at h1
  have hpk : (IStream.ofBytes inp).peek = IStream.ofBytes inp := by
    simp [IStream.peek, IStream.ofBytes, IStream.good, hne]
  have hit1 : iteration q = .again { q with m_state := .READ_HEADER } := by
    simp only [iteration, hnf, h.state, hstop, checkStreamValidity, h.input, hpk,
      Bool.false_eq_true, if_false]
    simp [IStream.ofBytes, IStream.good, ← h.input]
  have hrd : (IStream.ofBytes inp).read PACKET_HEADER_SIZE
      = ({ IStream.ofBytes [] with eofbit := true, failbit := true }, inp) := by
    have : ¬ PACKET_HEADER_SIZE ≤ inp.length := by simp only [PACKET_HEADER_SIZE]; omega
    simp [IStream.read, IStream.ofBytes, IStream.good, this]
  refine ⟨{ q with
      m_inputStream := some { IStream.ofBytes [] with eofbit := true, failbit := true }
      m_packetHeader := inp ++ q.m_packetHeader.drop inp.length
      m_failReason := some "Packet header read failed"
      m_state := .READ_PART_BODY },
    (Reaches.of_again hit1).trans (Reaches.of_again ?_), ?_, rfl, h.output⟩
  · simp only [iteration, hnf, readHeader, h.input, hrd, Bool.false_eq_true, if_false]
    simp [IStream.fail, IStream.ofBytes]
  · simp [iteration]

theorem readU16_take_append (inp x : List Byte) (h : 4 ≤ inp.length) :
    readU16 (inp.take PACKET_HEADER_SIZE ++ x) 0 = readU16 inp 0 := by
  simp only [readU16, getByte, PACKET_HEADER_SIZE]
  rw [List.getD_append _ _ _ _ (by simp; omega), List.getD_append _ _ _ _ (by simp; omega)]
  simp only [List.getD_eq_getElem?_getD]
  rw [List.getElem?_take_of_lt (by omega), List.getElem?_take_of_lt (by omega)]

theorem AtCheck.badHeader {q : marketPacketProcessor_t} {inp out : List Byte}
    {cnt : Option Nat} {d : Nat} (h : AtCheck q inp out cnt d)
    (hc : cnt ≠ some (d % SIZE_MOD)) (h4 : 4 ≤ inp.length)
    (hlen : readU16 inp 0 < PACKET_HEADER_SIZE) :
    ∃ r, Reaches 2 q r ∧ iteration r = .leave r ∧
      r.m_failReason = some "Poorly formed packet header" ∧
      r.m_outputStream = some ⟨out, none, false⟩ := by
  have hnf : q.m_failReason.isSome = false := by rw [h.noFail]; rfl
  have hstop : ¬ q.m_numPacketsToProcess = some q.m_numPacketsProcessed := by
    rw [h.count, h.processed]; exact hc
  have hne : inp ≠ [] := by intro he; rw [he] at h4; simp at h4
  have hpk : (IStream.ofBytes inp).peek = IStream.ofBytes inp := by
    simp [IStream.peek, IStream.ofBytes, IStream.good, hne]
  have hit1 : iteration q = .again { q with m_state := .READ_HEADER } := by
    simp only [iteration, hnf, h.state, hstop, checkStreamValidity, h.input, hpk,
      Bool.false_eq_true, if_false]
    simp [IStream.ofBytes, IStream.good, ← h.input]
  have hrd : (IStream.ofBytes inp).read PACKET_HEADER_SIZE
      = (IStream.ofBytes (inp.drop PACKET_HEADER_SIZE), inp.take PACKET_HEADER_SIZE) := by
    have : PACKET_HEADER_SIZE ≤ inp.length := h4
    simp [IStream.read, IStream.ofBytes, IStream.good, this]
  have hfl : (IStream.ofBytes (inp.drop PACKET_HEADER_SIZE)).fail = false := rfl
  refine ⟨{ q with
      m_inputStream := some (IStream.ofBytes (inp.drop PACKET_HEADER_SIZE))
      m_packetHeader := inp.take PACKET_HEADER_SIZE
        ++ q.m_packetHeader.drop (inp.take PACKET_HEADER_SIZE).length
      m_failReason := some "Poorly formed packet header"
      m_state := .READ_PART_BODY },
    (Reaches.of_again hit1).trans (Reaches.of_again ?_), ?_, rfl, h.output⟩
  · simp only [iteration, hnf, readHeader, h.input, hrd, hfl, packetLength,
      readU16_take_append inp _ h4, hlen, Bool.false_eq_true, if_false, if_true]
  · simp [iteration]

end marketPacketProcessor_t

/-! ## Records with given fields -/

theorem list_length_five (s : List Byte) (hs : s.length = 5) :
    ∃ a b c d e, s = [a, b, c, d, e] := by
  match s, hs with
  | [a, b, c, d, e], _ => exact ⟨a, b, c, d, e, rfl⟩

theorem readU16_u16Bytes (z : Nat) (hz : z < 65536) (rest : List Byte) :
    readU16 (u16Bytes z ++ rest) 0 = z := by
  simp only [readU16, getByte, u16Bytes, byteOf, List.cons_append, List.nil_append,
    List.getD_cons_zero, List.getD_cons_succ]
  omega

theorem readU64_u64Bytes (p : Nat) (hp : p < 2 ^ 64) (rest : List Byte) :
    readU64 (u64Bytes p ++ rest) 0 = p := by
  simp only [readU64, getByte, u64Bytes, byteOf, List.cons_append, List.nil_append,
    List.getD_cons_zero, List.getD_cons_succ, Nat.reducePow] at *
  omega

/-- The bytes of a trade record with the given symbol, size, price and
reserved bytes. -/
theorem tradeLine_fields (s pad : List Byte) (z p : Nat) (hs : s.length = 5)
    (hz : z < 2 ^ 16) (hp : p < 2 ^ 64) :
    tradeLine (u16Bytes UPDATE_SIZE ++ [updateType_e.TRADE] ++ s ++ u16Bytes z ++ u64Bytes p ++ pad)
      = strBytes "Trade: " ++ s ++ strBytes " Size: " ++ decimal z ++ strBytes " Price: "
          ++ decimal p ++ strBytes "\n" := by
  obtain ⟨a, b, c, d, e, rfl⟩ := list_length_five s hs
  have h1 : readU16 (u16Bytes UPDATE_SIZE ++ [updateType_e.TRADE] ++ [a, b, c, d, e] ++ u16Bytes z
      ++ u64Bytes p ++ pad) (0 + TRADE_SIZE_OFFSET) = z := by
    have := readU16_append_mid (u16Bytes UPDATE_SIZE ++ [updateType_e.TRADE] ++ [a, b, c, d, e])
      (u16Bytes z) (u64Bytes p ++ pad) 0 (by simp [u16Bytes])
    simp only [List.append_assoc] at this ⊢
    rw [show 0 + TRADE_SIZE_OFFSET = (u16Bytes UPDATE_SIZE ++ ([updateType_e.TRADE] ++ [a, b, c, d, e])).length + 0 by
      simp [u16Bytes, TRADE_SIZE_OFFSET]]
    rw [this]
    exact readU16_u16Bytes z (by simpa using hz) []
  have h2 : readU64 (u16Bytes UPDATE_SIZE ++ [updateType_e.TRADE] ++ [a, b, c, d, e] ++ u16Bytes z
      ++ u64Bytes p ++ pad) (0 + TRADE_PRICE_OFFSET) = p := by
    have := readU64_append_mid
      (u16Bytes UPDATE_SIZE ++ [updateType_e.TRADE] ++ [a, b, c, d, e] ++ u16Bytes z)
      (u64Bytes p) pad 0 (by simp [u64Bytes])
    rw [show 0 + TRADE_PRICE_OFFSET
      = (u16Bytes UPDATE_SIZE ++ [updateType_e.TRADE] ++ [a, b, c, d, e] ++ u16Bytes z).length + 0 by
      simp [u16Bytes, TRADE_PRICE_OFFSET]]
    rw [this]
    exact readU64_u64Bytes p hp []
  simp only [tradeLine, marketPacketProcessor_t.tradeLineParts, h1, h2]
  simp [u16Bytes, SYMBOL_OFFSET, SYMBOL_LENGTH]

theorem validRecord_fields (s pad : List Byte) (z p : Nat) (hs : s.length = 5)
    (hpad : pad.length = 14) :
    ValidRecord (u16Bytes UPDATE_SIZE ++ [updateType_e.TRADE] ++ s ++ u16Bytes z ++ u64Bytes p ++ pad)
      ∧ isTrade (u16Bytes UPDATE_SIZE ++ [updateType_e.TRADE] ++ s ++ u16Bytes z ++ u64Bytes p ++ pad)
          = true := by
  obtain ⟨a, b, c, d, e, rfl⟩ := list_length_five s hs
  refine ⟨⟨?_, ?_, ?_⟩, ?_⟩
  · simp [u16Bytes, u64Bytes, hpad, UPDATE_SIZE]
  · simp [readU16, getByte, u16Bytes, byteOf, UPDATE_SIZE]
    rfl
  · left; simp [u16Bytes, TYPE_OFFSET]
  · simp [isTrade, u16Bytes, TYPE_OFFSET]

namespace marketPacketProcessor_t

theorem eq_ready_of_initialise {bs hdr buf : List Byte} {p0 : marketPacketProcessor_t}
    (hinit : (create (some (IStream.ofBytes bs)) (some OStream.empty) hdr buf).initialise = .ok p0) :
    p0 = ready bs hdr buf := by
  rw [initialise_create] at hinit
  injection hinit with h
  exact h.symm

theorem packetLines_quotes (rs : List (List Byte)) (h : ∀ r ∈ rs, isQuote r = true) :
    packetLines rs = [] := by
  induction rs with
  | nil => rfl
  | cons r rs ih =>
    have hq := h r (List.mem_cons_self _ _)
    have ht : isTrade r = false := by
      simp only [isQuote, decide_eq_true_eq] at hq
      simp only [isTrade, hq]
      decide
    have := ih (fun x hx => h x (List.mem_cons_of_mem _ hx))
    simp only [packetLines, List.map_cons, List.flatten_cons, ht] at this ⊢
    simpa using this

theorem streamLines_quotes (ps : List (List (List Byte)))
    (h : ∀ rs ∈ ps, ∀ r ∈ rs, isQuote r = true) : streamLines ps = [] := by
  induction ps with
  | nil => rfl
  | cons rs ps ih =>
    rw [streamLines_cons, packetLines_quotes rs (h rs (List.mem_cons_self _ _)),
      ih (fun x hx => h x (List.mem_cons_of_mem _ hx))]
    rfl

end marketPacketProcessor_t

/-! ## Records given by their members -/

theorem validRecord_quote_fields (s d : List Byte) (l z t : Nat) (hs : s.length = 5)
    (hd : d.length = 6) :
    ValidRecord (u16Bytes UPDATE_SIZE ++ [updateType_e.QUOTE] ++ s ++ u16Bytes l ++ u64Bytes z
        ++ u64Bytes t ++ d)
      ∧ isTrade (u16Bytes UPDATE_SIZE ++ [updateType_e.QUOTE] ++ s ++ u16Bytes l ++ u64Bytes z
        ++ u64Bytes t ++ d) = false := by
  obtain ⟨x1, x2, x3, x4, x5, rfl⟩ := list_length_five s hs
  refine ⟨⟨?_, ?_, ?_⟩, ?_⟩
  · simp [u16Bytes, u64Bytes, hd, UPDATE_SIZE]
  · simp [readU16, getByte, u16Bytes, byteOf, UPDATE_SIZE]
    rfl
  · right; simp [u16Bytes, TYPE_OFFSET]
  · simp [isTrade, u16Bytes, TYPE_OFFSET, updateType_e.QUOTE, updateType_e.TRADE]

theorem Update.validRecord {u : Update} (h : u.WellFormed) : ValidRecord u.bytes := by
  cases u with
  | trade s z p d => exact (validRecord_fields s d z p h.1 h.2.2.2).1
  | quote s l z t d => exact (validRecord_quote_fields s d l z t h.1 h.2.2.2.2).1

/-- What the formatter writes for the bytes of a record is the text asked for
the record. -/
theorem Update.tradeLine_line {u : Update} (h : u.WellFormed) :
    (if isTrade u.bytes then tradeLine u.bytes else []) = u.line := by
  cases u with
  | trade s z p d =>
    have h1 := (validRecord_fields s d z p h.1 h.2.2.2).2
    have h2 := tradeLine_fields s d z p h.1 h.2.1 h.2.2.1
    simp only [Update.bytes, Update.line, h1, if_true, h2]
  | quote s l z t d =>
    have h1 := (validRecord_quote_fields s d l z t h.1 h.2.2.2.2).2
    simp only [Update.bytes, Update.line, h1, Bool.false_eq_true, if_false]

theorem packetLines_updates (pk : List Update) (h : ∀ u ∈ pk, u.WellFormed) :
    packetLines (pk.map Update.bytes) = (pk.map Update.line).flatten := by
  induction pk with
  | nil => rfl
  | cons u us ih =>
    have h1 := Update.tradeLine_line (h u (List.mem_cons_self _ _))
    have h2 := ih (fun x hx => h x (List.mem_cons_of_mem _ hx))
    simp only [packetLines, List.map_cons, List.flatten_cons] at h2 ⊢
    rw [h1, h2]

theorem streamLines_updates (us : List (List Update)) (h : ∀ pk ∈ us, ∀ u ∈ pk, u.WellFormed) :
    streamLines (us.map (fun pk => pk.map Update.bytes))
      = (us.map (fun pk => (pk.map Update.line).flatten)).flatten := by
  induction us with
  | nil => rfl
  | cons pk us ih =>
    have h1 := packetLines_updates pk (h pk (List.mem_cons_self _ _))
    have h2 := ih (fun x hx => h x (List.mem_cons_of_mem _ hx))
    simp only [streamLines, List.map_cons, List.flatten_cons] at h2 ⊢
    rw [h1, h2]

/-! ## Every valid record is given by its members -/

theorem byteOf_eq (x : Nat) (b : Byte) (h : x % 256 = b.val) : byteOf x = b :=
  Fin.ext h

theorem list_length_succ {α : Type} (l : List α) (n : Nat) (h : l.length = n + 1) :
    ∃ a t, l = a :: t ∧ t.length = n := by
  cases l with
  | nil => simp at h
  | cons a t => exact ⟨a, t, rfl, by simpa using h⟩

theorem list_length_thirty_two (r : List Byte) (h : r.length = 32) :
    ∃ b0 b1 b2 b3 b4 b5 b6 b7 b8 b9 b10 b11 b12 b13 b14 b15 b16 b17 b18 b19 b20 b21 b22 b23 b24 b25 b26 b27 b28 b29 b30 b31 : Byte,
      r = [b0, b1, b2, b3, b4, b5, b6, b7, b8, b9, b10, b11, b12, b13, b14, b15, b16, b17, b18, b19, b20, b21, b22, b23, b24, b25, b26, b27, b28, b29, b30, b31] := by
  obtain ⟨b0, t0, rfl, h0⟩ := list_length_succ r 31 h
  obtain ⟨b1, t1, rfl, h1⟩ := list_length_succ t0 30 h0
  obtain ⟨b2, t2, rfl, h2⟩ := list_length_succ t1 29 h1
  obtain ⟨b3, t3, rfl, h3⟩ := list_length_succ t2 28 h2
  obtain ⟨b4, t4, rfl, h4⟩ := list_length_succ t3 27 h3
  obtain ⟨b5, t5, rfl, h5⟩ := list_length_succ t4 26 h4
  obtain ⟨b6, t6, rfl, h6⟩ := list_length_succ t5 25 h5
  obtain ⟨b7, t7, rfl, h7⟩ := list_length_succ t6 24 h6
  obtain ⟨b8, t8, rfl, h8⟩ := list_length_succ t7 23 h7
  obtain ⟨b9, t9, rfl, h9⟩ := list_length_succ t8 22 h8
  obtain ⟨b10, t10, rfl, h10⟩ := list_length_succ t9 21 h9
  obtain ⟨b11, t11, rfl, h11⟩ := list_length_succ t10 20 h10
  obtain ⟨b12, t12, rfl, h12⟩ := list_length_succ t11 19 h11
  obtain ⟨b13, t13, rfl, h13⟩ := list_length_succ t12 18 h12
  obtain ⟨b14, t14, rfl, h14⟩ := list_length_succ t13 17 h13
  obtain ⟨b15, t15, rfl, h15⟩ := list_length_succ t14 16 h14
  obtain ⟨b16, t16, rfl, h16⟩ := list_length_succ t15 15 h15
  obtain ⟨b17, t17, rfl, h17⟩ := list_length_succ t16 14 h16
  obtain ⟨b18, t18, rfl, h18⟩ := list_length_succ t17 13 h17
  obtain ⟨b19, t19, rfl, h19⟩ := list_length_succ t18 12 h18
  obtain ⟨b20, t20, rfl, h20⟩ := list_length_succ t19 11 h19
  obtain ⟨b21, t21, rfl, h21⟩ := list_length_succ t20 10 h20
  obtain ⟨b22, t22, rfl, h22⟩ := list_length_succ t21 9 h21
  obtain ⟨b23, t23, rfl, h23⟩ := list_length_succ t22 8 h22
  obtain ⟨b24, t24, rfl, h24⟩ := list_length_succ t23 7 h23
  obtain ⟨b25, t25, rfl, h25⟩ := list_length_succ t24 6 h24
  obtain ⟨b26, t26, rfl, h26⟩ := list_length_succ t25 5 h25
  obtain ⟨b27, t27, rfl, h27⟩ := list_length_succ t26 4 h26
  obtain ⟨b28, t28, rfl, h28⟩ := list_length_succ t27 3 h27
  obtain ⟨b29, t29, rfl, h29⟩ := list_length_succ t28 2 h28
  obtain ⟨b30, t30, rfl, h30⟩ := list_length_succ t29 1 h29
  obtain ⟨b31, t31, rfl, h31⟩ := list_length_succ t30 0 h30
  rw [List.length_eq_zero] at h31
  subst h31
  exact ⟨b0, b1, b2, b3, b4, b5, b6, b7, b8, b9, b10, b11, b12, b13, b14, b15, b16, b17, b18, b19, b20, b21, b22, b23, b24, b25, b26, b27, b28, b29, b30, b31, rfl⟩

/-- Every valid record is the 32 bytes of a record given by its members. -/
theorem validRecord_update (r : List Byte) (h : ValidRecord r) :
    ∃ u : Update, u.WellFormed ∧ u.bytes = r := by
  obtain ⟨hlen, hl, ht⟩ := h
  obtain ⟨b0, b1, b2, b3, b4, b5, b6, b7, b8, b9, b10, b11, b12, b13, b14, b15, b16, b17, b18, b19, b20, b21, b22, b23, b24, b25, b26, b27, b28, b29, b30, b31, rfl⟩ := list_length_thirty_two r hlen
  simp only [readU16, getByte, List.getD_cons_zero, List.getD_cons_succ, UPDATE_SIZE] at hl
  simp only [TYPE_OFFSET, List.getD_cons_zero, List.getD_cons_succ] at ht
  have e0 : byteOf UPDATE_SIZE = b0 := byteOf_eq _ _ (by simp only [UPDATE_SIZE]; omega)
  have e1 : byteOf (UPDATE_SIZE / 256) = b1 := byteOf_eq _ _ (by simp only [UPDATE_SIZE]; omega)
  rcases ht with ht | ht
  · refine ⟨.trade [b3, b4, b5, b6, b7] (b8.val + 256 * b9.val)
      (b10.val + 256 * (b11.val + 256 * (b12.val + 256 * (b13.val + 256 * (b14.val
        + 256 * (b15.val + 256 * (b16.val + 256 * b17.val)))))))
      [b18, b19, b20, b21, b22, b23, b24, b25, b26, b27, b28, b29, b30, b31], ?_, ?_⟩
    · refine ⟨rfl, ?_, ?_, rfl⟩
      · have := b8.isLt; have := b9.isLt; omega
      · have := b10.isLt; have := b11.isLt; have := b12.isLt; have := b13.isLt
        have := b14.isLt; have := b15.isLt; have := b16.isLt; have := b17.isLt
        omega
    · have e8 : byteOf (b8.val + 256 * b9.val) = b8 := byteOf_eq _ _ (by omega)
      have e9 : byteOf ((b8.val + 256 * b9.val) / 256) = b9 :=
        byteOf_eq _ _ (by have := b8.isLt; have := b9.isLt; omega)
      have hb10 := b10.isLt
      have hb11 := b11.isLt
      have hb12 := b12.isLt
      have hb13 := b13.isLt
      have hb14 := b14.isLt
      have hb15 := b15.isLt
      have hb16 := b16.isLt
      have hb17 := b17.isLt
      generalize hp : b10.val + 256 * (b11.val + 256 * (b12.val + 256 * (b13.val + 256 * (b14.val
        + 256 * (b15.val + 256 * (b16.val + 256 * b17.val)))))) = p
      have p0 : byteOf p = b10 := byteOf_eq _ _ (by omega)
      have p1 : byteOf (p / 256) = b11 := byteOf_eq _ _ (by omega)
      have p2 : byteOf (p / 256 ^ 2) = b12 := byteOf_eq _ _ (by norm_num; omega)
      have p3 : byteOf (p / 256 ^ 3) = b13 := byteOf_eq _ _ (by norm_num; omega)
      have p4 : byteOf (p / 256 ^ 4) = b14 := byteOf_eq _ _ (by norm_num; omega)
      have p5 : byteOf (p / 256 ^ 5) = b15 := byteOf_eq _ _ (by norm_num; omega)
      have p6 : byteOf (p / 256 ^ 6) = b16 := byteOf_eq _ _ (by norm_num; omega)
      have p7 : byteOf (p / 256 ^ 7) = b17 := byteOf_eq _ _ (by norm_num; omega)
      simp only [Update.bytes, u16Bytes, u64Bytes, e0, e1, e8, e9, p0, p1, p2, p3, p4, p5, p6,
        p7, ← ht]
      rfl
  · refine ⟨.quote [b3, b4, b5, b6, b7] (b8.val + 256 * b9.val)
      (b10.val + 256 * (b11.val + 256 * (b12.val + 256 * (b13.val + 256 * (b14.val
        + 256 * (b15.val + 256 * (b16.val + 256 * b17.val)))))))
      (b18.val + 256 * (b19.val + 256 * (b20.val + 256 * (b21.val + 256 * (b22.val
        + 256 * (b23.val + 256 * (b24.val + 256 * b25.val)))))))
      [b26, b27, b28, b29, b30, b31], ?_, ?_⟩
    · refine ⟨rfl, ?_, ?_, ?_, rfl⟩
      · have := b8.isLt; have := b9.isLt; omega
      · have := b10.isLt; have := b11.isLt; have := b12.isLt; have := b13.isLt
        have := b14.isLt; have := b15.isLt; have := b16.isLt; have := b17.isLt
        omega
      · have := b18.isLt; have := b19.isLt; have := b20.isLt; have := b21.isLt
        have := b22.isLt; have := b23.isLt; have := b24.isLt; have := b25.isLt
        omega
    · have e8 : byteOf (b8.val + 256 * b9.val) = b8 := byteOf_eq _ _ (by omega)
      have e9 : byteOf ((b8.val + 256 * b9.val) / 256) = b9 :=
        byteOf_eq _ _ (by have := b8.isLt; have := b9.isLt; omega)
      have hb10 := b10.isLt
      have hb11 := b11.isLt
      have hb12 := b12.isLt
      have hb13 := b13.isLt
      have hb14 := b14.isLt
      have hb15 := b15.isLt
      have hb16 := b16.isLt
      have hb17 := b17.isLt
      have hb18 := b18.isLt
      have hb19 := b19.isLt
      have hb20 := b20.isLt
      have hb21 := b21.isLt
      have hb22 := b22.isLt
      have hb23 := b23.isLt
      have hb24 := b24.isLt
      have hb25 := b25.isLt
      generalize hp : b10.val + 256 * (b11.val + 256 * (b12.val + 256 * (b13.val + 256 * (b14.val
        + 256 * (b15.val + 256 * (b16.val + 256 * b17.val)))))) = p
      generalize hq : b18.val + 256 * (b19.val + 256 * (b20.val + 256 * (b21.val + 256 * (b22.val
        + 256 * (b23.val + 256 * (b24.val + 256 * b25.val)))))) = q
      have p0 : byteOf p = b10 := byteOf_eq _ _ (by omega)
      have p1 : byteOf (p / 256) = b11 := byteOf_eq _ _ (by omega)
      have p2 : byteOf (p / 256 ^ 2) = b12 := byteOf_eq _ _ (by norm_num; omega)
      have p3 : byteOf (p / 256 ^ 3) = b13 := byteOf_eq _ _ (by norm_num; omega)
      have p4 : byteOf (p / 256 ^ 4) = b14 := byteOf_eq _ _ (by norm_num; omega)
      have p5 : byteOf (p / 256 ^ 5) = b15 := byteOf_eq _ _ (by norm_num; omega)
      have p6 : byteOf (p / 256 ^ 6) = b16 := byteOf_eq _ _ (by norm_num; omega)
      have p7 : byteOf (p / 256 ^ 7) = b17 := byteOf_eq _ _ (by norm_num; omega)
      have q0 : byteOf q = b18 := byteOf_eq _ _ (by omega)
      have q1 : byteOf (q / 256) = b19 := byteOf_eq _ _ (by omega)
      have q2 : byteOf (q / 256 ^ 2) = b20 := byteOf_eq _ _ (by norm_num; omega)
      have q3 : byteOf (q / 256 ^ 3) = b21 := byteOf_eq _ _ (by norm_num; omega)
      have q4 : byteOf (q / 256 ^ 4) = b22 := byteOf_eq _ _ (by norm_num; omega)
      have q5 : byteOf (q / 256 ^ 5) = b23 := byteOf_eq _ _ (by norm_num; omega)
      have q6 : byteOf (q / 256 ^ 6) = b24 := byteOf_eq _ _ (by norm_num; omega)
      have q7 : byteOf (q / 256 ^ 7) = b25 := byteOf_eq _ _ (by norm_num; omega)
      simp only [Update.bytes, u16Bytes, u64Bytes, e0, e1, e8, e9, p0, p1, p2, p3, p4, p5, p6,
        p7, q0, q1, q2, q3, q4, q5, q6, q7, ← ht]
      rfl

namespace marketPacketProcessor_t

/-- Claim C2.  Take any stream of packets given by the members of their
records: each packet a header with `packetLength = 4 + 32 * numUpdates` and
`numUpdates` the number of its records (any number that the 16-bit length
allows, none included, so also bodies longer than one 1024-byte buffer),
followed by the 32 bytes of each record, a trade or a quote.  On it
`processNextPacket` without a count on an initialized processor returns "End
of file", given enough iterations, and the output is exactly, packet after
packet and in the order of the records of each packet, the line
`"Trade: " ++ symbol ++ " Size: " ++ decimal size ++ " Price: " ++ decimal
price ++ "\n"` of each trade; a quote contributes nothing.  No well-formed
stream is left out: every valid record (32 bytes, length field 32, type `T` or
`Q`) is the bytes of a record given by its members. -/
theorem C2_wellformed_stream_output (us : List (List Update)) (hdr buf : List Byte)
    (p0 : marketPacketProcessor_t)
    (hwf : ∀ pk ∈ us, 4 + 32 * pk.length ≤ 65535 ∧ ∀ u ∈ pk, u.WellFormed)
    (hinit : (create (some (IStream.ofBytes (encodeStream (us.map (fun pk => pk.map Update.bytes)))))
      (some OStream.empty) hdr buf).initialise = .ok p0) :
    (∃ q N, (∀ fuel, N ≤ fuel → p0.processNextPacket fuel none = .ok (q, some "End of file")) ∧
      q.m_outputStream
        = some ⟨(us.map (fun pk => (pk.map Update.line).flatten)).flatten, none, false⟩) ∧
    ∀ r, ValidRecord r → ∃ u : Update, u.WellFormed ∧ u.bytes = r := by
  refine ⟨?_, validRecord_update⟩
  rw [eq_ready_of_initialise hinit]
  have hwf2 : ∀ rs ∈ us.map (fun pk => pk.map Update.bytes), WellFormedPacket rs := by
    intro rs hrs
    obtain ⟨pk, hpk, rfl⟩ := List.mem_map.mp hrs
    refine ⟨by simpa [PACKET_HEADER_SIZE, UPDATE_SIZE, UINT16_MAX] using (hwf pk hpk).1,
      fun r hr => ?_⟩
    obtain ⟨u, hu, rfl⟩ := List.mem_map.mp hr
    exact Update.validRecord ((hwf pk hpk).2 u hu)
  obtain ⟨q, N, hq, _, ho, _⟩ := process_to_eof _ (us.map (fun pk => pk.map Update.bytes)) []
    none 0 none hwf2 (fun c hc => by cases hc) (ready_atCheck _ hdr buf)
  refine ⟨q, N, hq, ?_⟩
  rw [ho, streamLines_updates us (fun pk hpk => (hwf pk hpk).2)]
  rfl

/-- An instance of claim C2: a packet of forty trades, which takes two buffer
fills, followed by a packet of one quote and one trade; the output is forty
times the line `Trade: ABCDE Size: 7 Price: 9` and once the line
`Trade: KLMNO Size: 8 Price: 10`. -/
theorem C2_wellformed_stream_output_witness :
    ∃ q N, (∀ fuel, N ≤ fuel →
        (ready (encodeStream (List.map (fun pk => pk.map Update.bytes)
          [List.replicate 40 (Update.trade (strBytes "ABCDE") 7 9 (List.replicate 14 0)),
           [Update.quote (strBytes "FGHIJ") 1 2 3 (List.replicate 6 0),
            Update.trade (strBytes "KLMNO") 8 10 (List.replicate 14 0)]])) [] []).processNextPacket
          fuel none = .ok (q, some "End of file")) ∧
      q.m_outputStream = some ⟨(List.replicate 40
          (strBytes "Trade: ABCDE Size: 7 Price: 9\n")).flatten
            ++ strBytes "Trade: KLMNO Size: 8 Price: 10\n", none, false⟩ :=
  (C2_wellformed_stream_output
    [List.replicate 40 (Update.trade (strBytes "ABCDE") 7 9 (List.replicate 14 0)),
     [Update.quote (strBytes "FGHIJ") 1 2 3 (List.replicate 6 0),
      Update.trade (strBytes "KLMNO") 8 10 (List.replicate 14 0)]] [] [] _ (by decide) rfl).1

end marketPacketProcessor_t


namespace marketPacketProcessor_t

/-- Claim C3.  A stream made of one header `{packetLength = 36, numUpdates = 1}`
followed by one trade record with 5-byte symbol `s`, 16-bit size `z` and 64-bit
price `p` makes an initialized processor write exactly
`"Trade: " ++ s ++ " Size: " ++ decimal z ++ " Price: " ++ decimal p ++ "\n"`:
both when it is processed without a count (the call then reports the end of
the file) and when one packet is asked for (the call then reports nothing). -/
theorem C3_single_trade_line (s pad hdr buf : List Byte) (z p : Nat)
    (p0 : marketPacketProcessor_t) (hs : s.length = 5) (hpad : pad.length = 14)
    (hz : z < 2 ^ 16) (hp : p < 2 ^ 64)
    (hinit : (create (some (IStream.ofBytes (marketPacketGenerator_t.headerBytes 36 1
        ++ (u16Bytes 32 ++ [updateType_e.TRADE] ++ s ++ u16Bytes z ++ u64Bytes p ++ pad))))
        (some OStream.empty) hdr buf).initialise = .ok p0) :
    (∃ q N, (∀ fuel, N ≤ fuel → p0.processNextPacket fuel none = .ok (q, some "End of file")) ∧
      q.m_outputStream = some ⟨strBytes "Trade: " ++ s ++ strBytes " Size: " ++ decimal z
        ++ strBytes " Price: " ++ decimal p ++ strBytes "\n", none, false⟩) ∧
    (∃ q N, (∀ fuel, N ≤ fuel → p0.processNextPacket fuel (some 1) = .ok (q, none)) ∧
      q.m_outputStream = some ⟨strBytes "Trade: " ++ s ++ strBytes " Size: " ++ decimal z
        ++ strBytes " Price: " ++ decimal p ++ strBytes "\n", none, false⟩) := by
  rw [eq_ready_of_initialise hinit]
  generalize hrec : u16Bytes 32 ++ [updateType_e.TRADE] ++ s ++ u16Bytes z ++ u64Bytes p ++ pad = r
  have hv := validRecord_fields s pad z p hs hpad
  have hl := tradeLine_fields s pad z p hs hz hp
  simp only [UPDATE_SIZE] at hv hl
  rw [hrec] at hv hl
  have henc : marketPacketGenerator_t.headerBytes 36 1 ++ r = encodeStream [[r]] := by
    simp [encodeStream, encodePacket, PACKET_HEADER_SIZE, UPDATE_SIZE]
  have hwf : ∀ rs ∈ [[r]], WellFormedPacket rs := by
    intro rs hrs
    simp only [List.mem_singleton] at hrs
    subst hrs
    exact ⟨by simp [PACKET_HEADER_SIZE, UPDATE_SIZE, UINT16_MAX], by simpa using hv.1⟩
  have hlines : streamLines [[r]] = strBytes "Trade: " ++ s ++ strBytes " Size: " ++ decimal z
      ++ strBytes " Price: " ++ decimal p ++ strBytes "\n" := by
    simp [streamLines, packetLines, hv.2, hl]
  rw [henc]
  constructor
  · obtain ⟨q, N, hq, _, ho, _⟩ := process_to_eof _ [[r]] [] none 0 none hwf
      (fun c hc => by cases hc) (ready_atCheck _ hdr buf)
    exact ⟨q, N, hq, by rw [ho, hlines]; rfl⟩
  · obtain ⟨q, N, hq, hat⟩ := process_counted (ready (encodeStream [[r]]) hdr buf) [[r]] [] []
      none 0 hwf (by simp [SIZE_MOD]) (by simpa using ready_atCheck (encodeStream [[r]]) hdr buf)
    exact ⟨q, N, hq, by rw [hat.output, hlines]; rfl⟩

/-- An instance of claim C3: symbol `ABCDE`, size 7, price 9. -/
theorem C3_single_trade_line_witness :
    (∃ q N, (∀ fuel, N ≤ fuel →
        (ready (marketPacketGenerator_t.headerBytes 36 1
          ++ (u16Bytes 32 ++ [updateType_e.TRADE] ++ strBytes "ABCDE" ++ u16Bytes 7 ++ u64Bytes 9
            ++ List.replicate 14 0)) [] []).processNextPacket fuel none
          = .ok (q, some "End of file")) ∧
      q.m_outputStream = some ⟨strBytes "Trade: " ++ strBytes "ABCDE" ++ strBytes " Size: "
        ++ decimal 7 ++ strBytes " Price: " ++ decimal 9 ++ strBytes "\n", none, false⟩) ∧
    (∃ q N, (∀ fuel, N ≤ fuel →
        (ready (marketPacketGenerator_t.headerBytes 36 1
          ++ (u16Bytes 32 ++ [updateType_e.TRADE] ++ strBytes "ABCDE" ++ u16Bytes 7 ++ u64Bytes 9
            ++ List.replicate 14 0)) [] []).processNextPacket fuel (some 1) = .ok (q, none)) ∧
      q.m_outputStream = some ⟨strBytes "Trade: " ++ strBytes "ABCDE" ++ strBytes " Size: "
        ++ decimal 7 ++ strBytes " Price: " ++ decimal 9 ++ strBytes "\n", none, false⟩) :=
  C3_single_trade_line (strBytes "ABCDE") (List.replicate 14 0) [] [] 7 9 _ (by decide)
    (by decide) (by decide) (by decide) rfl

/-- Claim C4.  For every stream of well-formed packets all of whose records
are quotes, and for every count or none, `processNextPacket` on an initialized
processor returns, given enough iterations, and has written nothing. -/
theorem C4_quotes_write_nothing (ps : List (List (List Byte))) (hdr buf : List Byte)
    (p0 : marketPacketProcessor_t) (cnt : Option Nat)
    (hwf : ∀ rs ∈ ps, WellFormedPacket rs) (hq : ∀ rs ∈ ps, ∀ r ∈ rs, isQuote r = true)
    (hcnt : ∀ c, cnt = some c → c < SIZE_MOD)
    (hinit : (create (some (IStream.ofBytes (encodeStream ps))) (some OStream.empty) hdr buf).initialise
      = .ok p0) :
    ∃ q r N, (∀ fuel, N ≤ fuel → p0.processNextPacket fuel cnt = .ok (q, r)) ∧
      q.m_outputStream = some ⟨[], none, false⟩ := by
  rw [eq_ready_of_initialise hinit]
  by_cases hstop : ∃ c, cnt = some c ∧ c ≤ ps.length
  · obtain ⟨c, rfl, hc⟩ := hstop
    have hsplit : encodeStream ps = encodeStream (ps.take c) ++ encodeStream (ps.drop c) := by
      rw [← encodeStream_append, List.take_append_drop]
    have hlen : (ps.take c).length = c := by rw [List.length_take]; omega
    have hat := ready_atCheck (encodeStream ps) hdr buf
    rw [hsplit] at hat ⊢
    obtain ⟨q, N, hrun, hres⟩ := process_counted _ (ps.take c) _ [] none 0
      (fun rs hrs => hwf rs (List.mem_of_mem_take hrs)) (by rw [hlen]; exact hcnt c rfl) hat
    rw [hlen] at hrun
    refine ⟨q, none, N, hrun, ?_⟩
    rw [hres.output, streamLines_quotes _ (fun rs hrs => hq rs (List.mem_of_mem_take hrs))]
    rfl
  · obtain ⟨q, N, hrun, _, ho, _⟩ := process_to_eof _ ps [] none 0 cnt hwf
      (fun c hc => ⟨by
        by_contra hle
        exact hstop ⟨c, hc, by omega⟩, hcnt c hc⟩) (ready_atCheck _ hdr buf)
    refine ⟨q, some "End of file", N, hrun, ?_⟩
    rw [ho, streamLines_quotes ps hq]
    rfl

/-- An instance of claim C4: two packets of quotes, one packet asked for. -/
theorem C4_quotes_write_nothing_witness :
    ∃ q r N, (∀ fuel, N ≤ fuel →
        (ready (encodeStream
          [[marketPacketGenerator_t.quoteBytes (strBytes "FGHIJ") 1 2 3],
           [marketPacketGenerator_t.quoteBytes (strBytes "FGHIJ") 1 2 3,
            marketPacketGenerator_t.quoteBytes (strBytes "KLMNO") 4 5 6]]) [] []).processNextPacket
          fuel (some 1) = .ok (q, r)) ∧
      q.m_outputStream = some ⟨[], none, false⟩ :=
  C4_quotes_write_nothing _ [] [] _ (some 1) (by decide) (by decide)
    (fun c hc => by injection hc with hc; subst hc; decide) rfl

/-- Claim C6.  On a stream of exactly `n` well-formed packets (any `n`, so in
particular every `n >= 1`),
`processNextPacket(n)` on an initialized processor returns no failure reason:
reaching the count is success although the source is then exhausted.  The next
call, `processNextPacket(1)`, returns "End of file". -/
theorem C6_count_reached_then_eof (ps : List (List (List Byte))) (hdr buf : List Byte)
    (p0 : marketPacketProcessor_t) (hwf : ∀ rs ∈ ps, WellFormedPacket rs)
    (hlt : ps.length < SIZE_MOD)
    (hinit : (create (some (IStream.ofBytes (encodeStream ps))) (some OStream.empty) hdr buf).initialise
      = .ok p0) :
    ∃ q1 q2 N, (∀ fuel, N ≤ fuel → p0.processNextPacket fuel (some ps.length) = .ok (q1, none)) ∧
      (∀ fuel, N ≤ fuel → q1.processNextPacket fuel (some 1) = .ok (q2, some "End of file")) := by
  rw [eq_ready_of_initialise hinit]
  obtain ⟨q1, N1, hrun1, hat1⟩ := process_counted (ready (encodeStream ps) hdr buf) ps [] []
    none 0 hwf hlt (by simpa using ready_atCheck (encodeStream ps) hdr buf)
  obtain ⟨q2, N2, hrun2, _⟩ := process_to_eof q1 [] _ _ _ (some 1) (by simp)
    (fun c hc => by injection hc with hc; subst hc; exact ⟨by decide, by decide⟩)
    (by simpa [encodeStream] using hat1)
  exact ⟨q1, q2, max N1 N2, fun fuel hf => hrun1 fuel (by omega), fun fuel hf => hrun2 fuel (by omega)⟩

/-- An instance of claim C6: two packets, two packets asked for. -/
theorem C6_count_reached_then_eof_witness :
    ∃ q1 q2 N, (∀ fuel, N ≤ fuel →
        (ready (encodeStream
          [[marketPacketGenerator_t.tradeBytes (strBytes "ABCDE") 7 9],
           [marketPacketGenerator_t.quoteBytes (strBytes "FGHIJ") 1 2 3]]) [] []).processNextPacket
          fuel (some 2) = .ok (q1, none)) ∧
      (∀ fuel, N ≤ fuel → q1.processNextPacket fuel (some 1) = .ok (q2, some "End of file")) :=
  C6_count_reached_then_eof
    [[marketPacketGenerator_t.tradeBytes (strBytes "ABCDE") 7 9],
     [marketPacketGenerator_t.quoteBytes (strBytes "FGHIJ") 1 2 3]] [] [] _
    (by decide) (by decide) rfl

/-- Claim C8.  An initialized processor stands at a packet boundary after any
number of well-formed packets, in a call that its count does not stop there.
If 1 to 3 bytes remain, `processNextPacket` returns "Packet header read failed";
if at least 4 bytes remain and the 16-bit `packetLength` field is below 4, it
returns "Poorly formed packet header".  In both cases the output holds the
lines of the earlier packets and nothing else. -/
theorem C8_header_validation (ps : List (List (List Byte))) (tail hdr buf : List Byte)
    (p0 : marketPacketProcessor_t) (cnt : Option Nat)
    (hwf : ∀ rs ∈ ps, WellFormedPacket rs)
    (hcnt : ∀ c, cnt = some c → ps.length < c ∧ c < SIZE_MOD)
    (hinit : (create (some (IStream.ofBytes (encodeStream ps ++ tail))) (some OStream.empty)
      hdr buf).initialise = .ok p0) :
    (1 ≤ tail.length ∧ tail.length ≤ 3 →
      ∃ q N, (∀ fuel, N ≤ fuel →
          p0.processNextPacket fuel cnt = .ok (q, some "Packet header read failed")) ∧
        q.m_outputStream = some ⟨streamLines ps, none, false⟩) ∧
    (4 ≤ tail.length ∧ readU16 tail 0 < 4 →
      ∃ q N, (∀ fuel, N ≤ fuel →
          p0.processNextPacket fuel cnt = .ok (q, some "Poorly formed packet header")) ∧
        q.m_outputStream = some ⟨streamLines ps, none, false⟩) := by
  rw [eq_ready_of_initialise hinit]
  obtain ⟨q, j, hq, hat, hne⟩ := process_after_packets _ ps tail [] none 0 cnt hwf hcnt
    (ready_atCheck _ hdr buf)
  constructor
  · rintro ⟨h1, h3⟩
    obtain ⟨r, hr, hl, hf, ho⟩ := hat.shortHeader hne h1 h3
    refine ⟨r, j + 2 + 1, fun fuel hfu => ?_, by simpa using ho⟩
    rw [processNextPacket_of_reaches (hq.trans hr) hl ho fuel hfu, hf]
  · rintro ⟨h4, hlen⟩
    obtain ⟨r, hr, hl, hf, ho⟩ := hat.badHeader hne h4 hlen
    refine ⟨r, j + 2 + 1, fun fuel hfu => ?_, by simpa using ho⟩
    rw [processNextPacket_of_reaches (hq.trans hr) hl ho fuel hfu, hf]

/-- An instance of claim C8: one well-formed packet, then the header
`{packetLength = 3, numUpdates = 0}`. -/
theorem C8_header_validation_witness :
    (1 ≤ [(3 : Byte), 0, 0, 0].length ∧ [(3 : Byte), 0, 0, 0].length ≤ 3 →
      ∃ q N, (∀ fuel, N ≤ fuel →
          (ready (encodeStream [[marketPacketGenerator_t.tradeBytes (strBytes "ABCDE") 7 9]]
            ++ [3, 0, 0, 0]) [] []).processNextPacket fuel none
            = .ok (q, some "Packet header read failed")) ∧
        q.m_outputStream = some ⟨streamLines
          [[marketPacketGenerator_t.tradeBytes (strBytes "ABCDE") 7 9]], none, false⟩) ∧
    (4 ≤ [(3 : Byte), 0, 0, 0].length ∧ readU16 [(3 : Byte), 0, 0, 0] 0 < 4 →
      ∃ q N, (∀ fuel, N ≤ fuel →
          (ready (encodeStream [[marketPacketGenerator_t.tradeBytes (strBytes "ABCDE") 7 9]]
            ++ [3, 0, 0, 0]) [] []).processNextPacket fuel none
            = .ok (q, some "Poorly formed packet header")) ∧
        q.m_outputStream = some ⟨streamLines
          [[marketPacketGenerator_t.tradeBytes (strBytes "ABCDE") 7 9]], none, false⟩) :=
  C8_header_validation [[marketPacketGenerator_t.tradeBytes (strBytes "ABCDE") 7 9]]
    [3, 0, 0, 0] [] [] _ none (by decide) (fun c hc => by cases hc) rfl

end marketPacketProcessor_t

namespace marketPacketProcessor_t

/-! ## A malformed record -/

theorem isValidUpdatePtr_of_invalid (r : List Byte) (h : InvalidRecord r) :
    isValidUpdatePtr r 0 = (0, updateType_e.INVALID) := by
  obtain ⟨_, h2⟩ := h
  simp only [isValidUpdatePtr, Nat.zero_add, h2, if_false]

theorem scanBuffer_invalid (valid : Nat) (bad : List Byte) (hbad : InvalidRecord bad)
    (recs : List (List Byte)) :
    ∀ (fuel : Nat) (pre post : List Byte) (p : marketPacketProcessor_t),
      (∀ r ∈ recs, ValidRecord r) →
      p.m_readBuffer = pre ++ recs.flatten ++ bad ++ post →
      pre.length + UPDATE_SIZE * recs.length < valid →
      recs.length < fuel →
      valid < SIZE_MOD →
      p.m_bodyBytesInterpreted + UPDATE_SIZE * recs.length < SIZE_MOD →
      p.m_numUpdatesRead + recs.length < SIZE_MOD →
      scanBuffer valid fuel pre.length p = .ok { p with
        m_bodyBytesInterpreted := p.m_bodyBytesInterpreted + UPDATE_SIZE * recs.length
        m_numUpdatesRead := p.m_numUpdatesRead + recs.length
        m_tradeLocs := p.m_tradeLocs ++ tradeOffsets pre.length recs
        m_failReason := some "Poorly formed update" } := by
  induction recs with
  | nil =>
    intro fuel pre post p _ hbuf hv hfuel _ _ _
    obtain ⟨fuel, rfl⟩ : ∃ f, fuel = f + 1 := ⟨fuel - 1, by simp at hfuel; omega⟩
    have hlt : pre.length < valid := by simpa using hv
    have hcls : isValidUpdatePtr p.m_readBuffer pre.length = (0, updateType_e.INVALID) := by
      rw [hbuf]
      simp only [List.flatten_nil, List.append_nil]
      rw [isValidUpdatePtr_append_mid _ _ _ (by rw [hbad.1]; decide),
        isValidUpdatePtr_of_invalid bad hbad]
    simp [scanBuffer, hlt, hcls, tradeOffsets]
  | cons r rs ih =>
    intro fuel pre post p hval hbuf hv hfuel hvm hb hn
    have hr : ValidRecord r := hval r (List.mem_cons_self _ _)
    have hrl : r.length = 32 := hr.1
    simp only [List.length_cons, UPDATE_SIZE] at hv hb hn hfuel
    have hlt : pre.length < valid := by omega
    obtain ⟨fuel, rfl⟩ : ∃ f, fuel = f + 1 := ⟨fuel - 1, by omega⟩
    have hbuf2 : p.m_readBuffer = pre ++ r ++ (rs.flatten ++ bad ++ post) := by
      rw [hbuf]; simp [List.append_assoc]
    have hcls : isValidUpdatePtr p.m_readBuffer pre.length = (UPDATE_SIZE, r.getD TYPE_OFFSET 0) := by
      rw [hbuf2, isValidUpdatePtr_append_mid _ _ _ (by omega), isValidUpdatePtr_of_valid r hr]
    have hmod : ∀ x, x < SIZE_MOD → x % SIZE_MOD = x := fun x hx => Nat.mod_eq_of_lt hx
    have ho : (pre.length + 32) % SIZE_MOD = (pre ++ r).length := by
      rw [hmod _ (by omega)]; simp [hrl]
    have hb1 : (p.m_bodyBytesInterpreted + 32) % SIZE_MOD = p.m_bodyBytesInterpreted + 32 :=
      hmod _ (by omega)
    have hn1 : (p.m_numUpdatesRead + 1) % SIZE_MOD = p.m_numUpdatesRead + 1 := hmod _ (by omega)
    have hrest : ∀ q : marketPacketProcessor_t, q.m_readBuffer = p.m_readBuffer →
        q.m_bodyBytesInterpreted = p.m_bodyBytesInterpreted + 32 →
        q.m_numUpdatesRead = p.m_numUpdatesRead + 1 →
        scanBuffer valid fuel (pre ++ r).length q = .ok { q with
          m_bodyBytesInterpreted := q.m_bodyBytesInterpreted + UPDATE_SIZE * rs.length
          m_numUpdatesRead := q.m_numUpdatesRead + rs.length
          m_tradeLocs := q.m_tradeLocs ++ tradeOffsets (pre ++ r).length rs
          m_failReason := some "Poorly formed update" } := by
      intro q hq1 hq2 hq3
      apply ih fuel (pre ++ r) post q (fun x hx => hval x (List.mem_cons_of_mem _ hx))
      · rw [hq1, hbuf]; simp [List.append_assoc]
      · simp [hrl, UPDATE_SIZE]; omega
      · omega
      · exact hvm
      · simp only [UPDATE_SIZE]; omega
      · omega
    have hlen2 : (pre ++ r).length = pre.length + UPDATE_SIZE := by simp [hrl, UPDATE_SIZE]
    rcases hr.2.2 with ht | hq
    · have hne : ¬ updateType_e.TRADE = updateType_e.INVALID := by decide
      simp only [scanBuffer, hlt, if_true, hcls, hne, if_false, ht, UPDATE_SIZE, ho, hb1, hn1]
      rw [hrest]
      · simp only [tradeOffsets, isTrade, ht, decide_True, if_true, hlen2, UPDATE_SIZE,
          List.length_cons, List.append_assoc]
        congr 2 <;> omega
      · rfl
      · rfl
      · rfl
    · have hne : ¬ updateType_e.QUOTE = updateType_e.INVALID := by decide
      have hnt : ¬ updateType_e.QUOTE = updateType_e.TRADE := by decide
      simp only [scanBuffer, hlt, if_true, hcls, hne, if_false, hq, hnt, UPDATE_SIZE, ho, hb1, hn1]
      rw [hrest]
      · simp only [tradeOffsets, isTrade, hq, hnt, decide_False, hlen2, UPDATE_SIZE,
          List.length_cons, List.nil_append, Bool.false_eq_true, if_false]
        congr 2 <;> omega
      · rfl
      · rfl
      · rfl

theorem IStream.read_ofBytes_le (inp : List Byte) (n : Nat) (h : n ≤ inp.length) :
    (IStream.ofBytes inp).read n = (IStream.ofBytes (inp.drop n), inp.take n) := by
  simp [IStream.read, IStream.ofBytes, IStream.good, h]

/-- The round in which the malformed record is met: the fill succeeds, the scan
sets the reason, nothing is written and the loop is left. -/
theorem body_round_invalid (p : marketPacketProcessor_t) (n k : Nat) (vs : List (List Byte))
    (bad rest out : List Byte) (cnt : Option Nat) (d : Nat)
    (hval : ∀ r ∈ vs, ValidRecord r) (hbad : InvalidRecord bad)
    (hn : UPDATE_SIZE * n < SIZE_MOD) (hk : k ≤ n) (hvl : vs.length < min 32 (n - k))
    (hav : UPDATE_SIZE * (n - k) ≤ (vs.flatten ++ bad ++ rest).length)
    (h : AtBody p n k (vs.flatten ++ bad ++ rest) out cnt d) :
    ∃ q, Reaches 1 p q ∧ iteration q = .leave q ∧
      q.m_failReason = some "Poorly formed update" ∧
      q.m_outputStream = some ⟨out, none, false⟩ ∧
      q.m_tradeLocs = tradeOffsets 0 vs := by
  have hM : SIZE_MOD = 18446744073709551616 := by decide
  have hfl : vs.flatten.length = UPDATE_SIZE * vs.length :=
    flatten_length_of_valid vs (fun r hr => (hval r hr).1)
  have hbl : bad.length = 32 := hbad.1
  simp only [UPDATE_SIZE, List.length_append, hbl] at hfl hn hav
  rw [hM] at hn
  generalize hc : min 32 (n - k) = c at hvl
  have hc2 : c ≤ 32 ∧ c ≤ n - k := by rw [← hc]; omega
  have hleft : (p.m_bodySize + SIZE_MOD - p.m_bodyBytesInterpreted) % SIZE_MOD = 32 * (n - k) := by
    rw [h.bodySize, h.bodyBytesInterpreted, hM]; simp only [UPDATE_SIZE]; omega
  have hvalid : (if 32 * (n - k) < READ_BUFFER_SIZE then 32 * (n - k) else READ_BUFFER_SIZE)
      = 32 * c := by
    simp only [READ_BUFFER_SIZE]; rw [← hc]; split <;> omega
  have hle : 32 * c ≤ (vs.flatten ++ bad ++ rest).length := by
    simp only [List.length_append, hbl]; omega
  have hread := IStream.read_ofBytes_le (vs.flatten ++ bad ++ rest) (32 * c) hle
  have htake : (vs.flatten ++ bad ++ rest).take (32 * c)
      = [] ++ vs.flatten ++ bad ++ rest.take (32 * c - (vs.flatten ++ bad).length) := by
    rw [List.nil_append, List.take_append_eq_append_take,
      List.take_of_length_le (by simp only [List.length_append, hbl]; omega)]
  have hnf : p.m_failReason.isSome = false := by rw [h.noFail]; rfl
  have hgood : (IStream.ofBytes ((vs.flatten ++ bad ++ rest).drop (32 * c))).good = true := rfl
  have hscan := scanBuffer_invalid (32 * c) bad hbad vs (32 * c) []
    (rest.take (32 * c - (vs.flatten ++ bad).length)
      ++ p.m_readBuffer.drop ((vs.flatten ++ bad ++ rest).take (32 * c)).length)
    { p with
      m_inputStream := some (IStream.ofBytes ((vs.flatten ++ bad ++ rest).drop (32 * c)))
      m_readBuffer := (vs.flatten ++ bad ++ rest).take (32 * c)
        ++ p.m_readBuffer.drop ((vs.flatten ++ bad ++ rest).take (32 * c)).length }
    hval (by rw [htake]; simp only [List.append_assoc])
    (by simp only [List.length_nil, UPDATE_SIZE]; omega) (by omega) (by rw [hM]; omega)
    (by simp only [h.bodyBytesInterpreted, UPDATE_SIZE, hM]; omega)
    (by simp only [h.numUpdatesRead, hM]; omega)
  simp only [List.length_nil] at hscan
  refine ⟨{ p with
      m_inputStream := some (IStream.ofBytes ((vs.flatten ++ bad ++ rest).drop (32 * c)))
      m_readBuffer := (vs.flatten ++ bad ++ rest).take (32 * c)
        ++ p.m_readBuffer.drop ((vs.flatten ++ bad ++ rest).take (32 * c)).length
      m_bodyBytesInterpreted := p.m_bodyBytesInterpreted + UPDATE_SIZE * vs.length
      m_numUpdatesRead := p.m_numUpdatesRead + vs.length
      m_tradeLocs := p.m_tradeLocs ++ tradeOffsets 0 vs
      m_failReason := some "Poorly formed update"
      m_state := .WRITE_UPDATES }, Reaches.of_again ?_, ?_, rfl, h.output, ?_⟩
  · simp only [iteration, hnf, h.state, readPartBody, h.input, hleft, hvalid, hread, hgood,
      Bool.not_true, Bool.false_eq_true, if_false]
    rw [h.state] at hscan
    rw [hscan]
  · simp [iteration]
  · simp [h.locs]

end marketPacketProcessor_t

namespace marketPacketProcessor_t

/-- The two rounds that accept a header announcing `m` records. -/
theorem header_round (p : marketPacketProcessor_t) (m : Nat) (rest out : List Byte)
    (cnt : Option Nat) (d : Nat) (hm : 4 + 32 * m ≤ 65535) (hcnt : cnt ≠ some (d % SIZE_MOD))
    (h : AtCheck p (marketPacketGenerator_t.headerBytes (4 + 32 * m) m ++ rest) out cnt d) :
    ∃ q, Reaches 2 p q ∧ AtBody q m 0 rest out cnt d := by
  have hM : SIZE_MOD = 18446744073709551616 := by decide
  have hnf : p.m_failReason.isSome = false := by rw [h.noFail]; rfl
  have hstop : ¬ p.m_numPacketsToProcess = some p.m_numPacketsProcessed := by
    rw [h.count, h.processed]; exact hcnt
  have hne : (IStream.ofBytes (marketPacketGenerator_t.headerBytes (4 + 32 * m) m ++ rest)).peek
      = IStream.ofBytes (marketPacketGenerator_t.headerBytes (4 + 32 * m) m ++ rest) := by
    simp [IStream.peek, IStream.ofBytes, IStream.good, marketPacketGenerator_t.headerBytes, u16Bytes]
  have hit1 : iteration p = .again { p with m_state := .READ_HEADER } := by
    simp only [iteration, hnf, h.state, hstop, checkStreamValidity, h.input, hne,
      Bool.false_eq_true, if_false]
    simp [IStream.ofBytes, IStream.good, ← h.input]
  have hrd : (IStream.ofBytes (marketPacketGenerator_t.headerBytes (4 + 32 * m) m ++ rest)).read
      PACKET_HEADER_SIZE
      = (IStream.ofBytes rest, marketPacketGenerator_t.headerBytes (4 + 32 * m) m) :=
    IStream.read_ofBytes_append _ _ _
      (by simp [marketPacketGenerator_t.headerBytes, u16Bytes, PACKET_HEADER_SIZE])
  have hit2 : iteration { p with m_state := .READ_HEADER } = .again { p with
      m_inputStream := some (IStream.ofBytes rest)
      m_packetHeader := marketPacketGenerator_t.headerBytes (4 + 32 * m) m ++ p.m_packetHeader.drop 4
      m_numUpdatesPacket := m
      m_numUpdatesRead := 0
      m_bodySize := 32 * m
      m_bodyBytesInterpreted := 0
      m_state := .READ_PART_BODY } := by
    simp only [iteration, hnf, readHeader, h.input, hrd, Bool.false_eq_true, if_false]
    have hfl : (IStream.ofBytes rest).fail = false := rfl
    have hpl := readU16_headerBytes_fst (4 + 32 * m) m (p.m_packetHeader.drop 4) (by omega)
    have hnu := readU16_headerBytes_snd (4 + 32 * m) m (p.m_packetHeader.drop 4) (by omega)
    have hhl : (marketPacketGenerator_t.headerBytes (4 + 32 * m) m).length = 4 := by
      simp [marketPacketGenerator_t.headerBytes, u16Bytes]
    have hbs : (4 + 32 * m + SIZE_MOD - 4) % SIZE_MOD = 32 * m := by
      rw [hM]; omega
    have hge : ¬ 4 + 32 * m < 4 := by omega
    simp only [hfl, hhl, packetLength, numMarketUpdates, hpl, hnu, resetPerPacketVariables,
      PACKET_HEADER_SIZE, hbs, hge, Bool.false_eq_true, if_false]
  exact ⟨_, (Reaches.of_again hit1).trans (Reaches.of_again hit2),
    ⟨rfl, h.noFail, rfl, h.output, h.count, h.processed, h.locs, rfl, rfl, rfl, rfl⟩⟩

theorem body_invalid (vs : List (List Byte)) (bad junk tail : List Byte) (n : Nat)
    (cnt : Option Nat) (d : Nat) (hval : ∀ r ∈ vs, ValidRecord r) (hbad : InvalidRecord bad)
    (hvn : vs.length < n) (hjunk : junk.length = UPDATE_SIZE * (n - vs.length - 1))
    (hn : UPDATE_SIZE * n < SIZE_MOD) :
    ∀ (m k : Nat) (p : marketPacketProcessor_t) (out : List Byte),
      vs.length - k ≤ m → k ≤ vs.length →
      AtBody p n k ((vs.drop k).flatten ++ (bad ++ junk ++ tail)) out cnt d →
      ∃ q j, Reaches j p q ∧ iteration q = .leave q ∧
        q.m_failReason = some "Poorly formed update" ∧
        q.m_outputStream
          = some ⟨out ++ packetLines ((vs.drop k).take (32 * ((vs.length - k) / 32))), none, false⟩ := by
  have hvl : ∀ k, ((vs.drop k).flatten).length = UPDATE_SIZE * (vs.length - k) := by
    intro k
    rw [flatten_length_of_valid _ (fun r hr => (hval r (List.mem_of_mem_drop hr)).1),
      List.length_drop]
  have hfail : ∀ (k : Nat) (p : marketPacketProcessor_t) (out : List Byte),
      k ≤ vs.length → vs.length - k < 32 →
      AtBody p n k ((vs.drop k).flatten ++ (bad ++ junk ++ tail)) out cnt d →
      ∃ q j, Reaches j p q ∧ iteration q = .leave q ∧
        q.m_failReason = some "Poorly formed update" ∧
        q.m_outputStream
          = some ⟨out ++ packetLines ((vs.drop k).take (32 * ((vs.length - k) / 32))), none, false⟩ := by
    intro k p out hk hlt h
    have hshape : (vs.drop k).flatten ++ (bad ++ junk ++ tail)
        = (vs.drop k).flatten ++ bad ++ (junk ++ tail) := by simp [List.append_assoc]
    rw [hshape] at h
    obtain ⟨q, hq, hl, hf, ho, _⟩ := body_round_invalid p n k (vs.drop k) bad (junk ++ tail) out
      cnt d (fun r hr => hval r (List.mem_of_mem_drop hr)) hbad hn (by omega)
      (by rw [List.length_drop]; omega)
      (by
        simp only [List.length_append, hvl k, hbad.1, hjunk, UPDATE_SIZE]
        omega) h
    refine ⟨q, 1, hq, hl, hf, ?_⟩
    have hz : (vs.length - k) / 32 = 0 := by omega
    rw [ho, hz]
    simp [packetLines]
  intro m
  induction m with
  | zero =>
    intro k p out hm hk h
    exact hfail k p out hk (by omega) h
  | succ m ih =>
    intro k p out hm hk h
    by_cases hlt : vs.length - k < 32
    · exact hfail k p out hk hlt h
    · generalize hch : (vs.drop k).take 32 = chunk
      have hcl : chunk.length = 32 := by
        rw [← hch, List.length_take, List.length_drop]; omega
      have hcv : ∀ r ∈ chunk, ValidRecord r := by
        intro r hr
        rw [← hch] at hr
        exact hval r (List.mem_of_mem_drop (List.mem_of_mem_take hr))
      have h1 : chunk ++ vs.drop (k + 32) = vs.drop k := by
        have h2 := List.take_append_drop 32 (vs.drop k)
        rw [hch, List.drop_drop] at h2
        exact h2
      have hsplit : (vs.drop k).flatten ++ (bad ++ junk ++ tail)
          = chunk.flatten ++ ((vs.drop (k + 32)).flatten ++ (bad ++ junk ++ tail)) := by
        conv_lhs => rw [← h1]
        rw [List.flatten_append, List.append_assoc]
      rw [hsplit] at h
      obtain ⟨q, hq, hres⟩ := body_round p n k chunk _ out cnt d hcv hn (by omega)
        (by rw [hcl]; omega) h
      rw [hcl, if_neg (by omega)] at hres
      obtain ⟨q2, j, hq2, hl, hf, ho⟩ := ih (k + 32) q _ (by omega) (by omega) hres
      refine ⟨q2, 2 + j, hq.trans hq2, hl, hf, ?_⟩
      rw [ho]
      have hdiv : (vs.length - k) / 32 = (vs.length - (k + 32)) / 32 + 1 := by omega
      have htk : (vs.drop k).take (32 * ((vs.length - k) / 32))
          = chunk ++ (vs.drop (k + 32)).take (32 * ((vs.length - (k + 32)) / 32)) := by
        rw [hdiv, show 32 * ((vs.length - (k + 32)) / 32 + 1)
          = 32 + 32 * ((vs.length - (k + 32)) / 32) by omega, List.take_add, hch, List.drop_drop]
      rw [htk, packetLines_append, List.append_assoc]

/-- Claim C7.  After any number of well-formed packets comes a packet whose
header is well formed (`packetLength = 4 + 32 * n`, `numUpdates = n`) and whose
body holds valid records `vs`, then a first invalid record `bad` (length field
not 32, or type neither `T` nor `Q`), then the rest of the body.  A call of
`processNextPacket` that its count does not stop earlier returns "Poorly formed
update".  The output holds, unchanged and in order, every trade line of the
earlier packets, followed only by the lines of the faulty packet's records
that lie in buffer fills completed before the fill of the invalid record. -/
theorem C7_malformed_update (ps : List (List (List Byte))) (vs : List (List Byte))
    (bad junk tail hdr buf : List Byte) (n : Nat) (p0 : marketPacketProcessor_t)
    (cnt : Option Nat)
    (hwf : ∀ rs ∈ ps, WellFormedPacket rs) (hval : ∀ r ∈ vs, ValidRecord r)
    (hbad : InvalidRecord bad) (hvn : vs.length < n) (hn : 4 + 32 * n ≤ 65535)
    (hjunk : junk.length = 32 * (n - vs.length - 1))
    (hcnt : ∀ c, cnt = some c → ps.length < c ∧ c < SIZE_MOD)
    (hinit : (create (some (IStream.ofBytes (encodeStream ps
        ++ (marketPacketGenerator_t.headerBytes (4 + 32 * n) n ++ (vs.flatten ++ (bad ++ junk ++ tail)))))) (some OStream.empty) hdr buf).initialise = .ok p0) :
    ∃ q N, (∀ fuel, N ≤ fuel → p0.processNextPacket fuel cnt = .ok (q, some "Poorly formed update")) ∧
      q.m_outputStream
        = some ⟨streamLines ps ++ packetLines (vs.take (32 * (vs.length / 32))), none, false⟩ := by
  have hM : SIZE_MOD = 18446744073709551616 := by decide
  rw [eq_ready_of_initialise hinit]
  obtain ⟨q, j, hq, hat, hne⟩ := process_after_packets _ ps
    (marketPacketGenerator_t.headerBytes (4 + 32 * n) n ++ (vs.flatten ++ (bad ++ junk ++ tail)))
    [] none 0 cnt hwf hcnt (ready_atCheck _ hdr buf)
  obtain ⟨q2, hq2, hbody⟩ := header_round q n (vs.flatten ++ (bad ++ junk ++ tail)) _ cnt
    ps.length hn hne hat
  obtain ⟨q3, j3, hq3, hl, hf, ho⟩ := body_invalid vs bad junk tail n cnt ps.length hval hbad hvn
    (by simpa [UPDATE_SIZE] using hjunk) (by rw [hM]; simp only [UPDATE_SIZE]; omega)
    vs.length 0 q2 _ (by omega) (by omega) (by simpa using hbody)
  refine ⟨q3, j + 2 + j3 + 1, fun fuel hfu => ?_, by simpa using ho⟩
  rw [processNextPacket_of_reaches ((hq.trans hq2).trans hq3) hl ho fuel hfu, hf]

/-- An instance of claim C7: one packet with a trade, then a packet announcing
two records of which the first has the length field 12. -/
theorem C7_malformed_update_witness :
    ∃ q N, (∀ fuel, N ≤ fuel →
        (ready (encodeStream [[marketPacketGenerator_t.tradeBytes (strBytes "ABCDE") 7 9]]
          ++ (marketPacketGenerator_t.headerBytes (4 + 32 * 2) 2
            ++ (([] : List (List Byte)).flatten
              ++ ((u16Bytes 12 ++ [updateType_e.TRADE] ++ List.replicate 29 0)
                ++ List.replicate 32 0 ++ [])))) [] []).processNextPacket fuel none
          = .ok (q, some "Poorly formed update")) ∧
      q.m_outputStream
        = some ⟨streamLines [[marketPacketGenerator_t.tradeBytes (strBytes "ABCDE") 7 9]]
            ++ packetLines (([] : List (List Byte)).take (32 * (([] : List (List Byte)).length / 32))),
          none, false⟩ :=
  C7_malformed_update [[marketPacketGenerator_t.tradeBytes (strBytes "ABCDE") 7 9]] []
    (u16Bytes 12 ++ [updateType_e.TRADE] ++ List.replicate 29 0) (List.replicate 32 0) [] [] []
    2 _ none (by decide) (by decide) (by decide) (by decide) (by decide) (by decide)
    (fun c hc => by cases hc) rfl

end marketPacketProcessor_t

namespace marketPacketProcessor_t

/-! ## The counters of a run do not influence the handling of a packet -/

theorem map_ok {α β : Type} (f : α → β) (a : α) : (Res.ok a).map f = .ok (f a) := rfl

theorem map_abort {α β : Type} (f : α → β) : (Res.abort : Res α).map f = .abort := rfl

theorem map_timeout {α β : Type} (f : α → β) : (Res.timeout : Res α).map f = .timeout := rfl

theorem checkStreamValidity_setCount (c : Option Nat) (x : Nat) (p : marketPacketProcessor_t) :
    checkStreamValidity (setCount c x p) = (checkStreamValidity p).map (setCount c x) := by
  cases hi : p.m_inputStream with
  | none => simp [checkStreamValidity, setCount, hi, Res.map]
  | some s =>
    simp only [checkStreamValidity, setCount, hi, apply_ite (Res.map _), map_ok, map_abort, map_timeout]

theorem readHeader_setCount (c : Option Nat) (x : Nat) (p : marketPacketProcessor_t) :
    readHeader (setCount c x p) = (readHeader p).map (setCount c x) := by
  cases hi : p.m_inputStream with
  | none => simp [readHeader, setCount, hi, Res.map]
  | some s =>
    simp only [readHeader, setCount, hi, apply_ite (Res.map _), map_ok, map_abort, map_timeout, packetLength,
      numMarketUpdates, resetPerPacketVariables]

theorem scanBuffer_setCount (c : Option Nat) (x : Nat) (valid : Nat) :
    ∀ (fuel off : Nat) (p : marketPacketProcessor_t),
      scanBuffer valid fuel off (setCount c x p) = (scanBuffer valid fuel off p).map (setCount c x) := by
  intro fuel
  induction fuel with
  | zero =>
    intro off p
    simp only [scanBuffer, apply_ite (Res.map _), map_ok, map_abort, map_timeout]
  | succ fuel ih =>
    intro off p
    have h1 := ih ((off + (isValidUpdatePtr p.m_readBuffer off).1) % SIZE_MOD)
      { p with
        m_bodyBytesInterpreted :=
          (p.m_bodyBytesInterpreted + (isValidUpdatePtr p.m_readBuffer off).1) % SIZE_MOD
        m_numUpdatesRead := (p.m_numUpdatesRead + 1) % SIZE_MOD }
    have h2 := ih ((off + (isValidUpdatePtr p.m_readBuffer off).1) % SIZE_MOD)
      { p with
        m_bodyBytesInterpreted :=
          (p.m_bodyBytesInterpreted + (isValidUpdatePtr p.m_readBuffer off).1) % SIZE_MOD
        m_numUpdatesRead := (p.m_numUpdatesRead + 1) % SIZE_MOD
        m_tradeLocs := p.m_tradeLocs ++ [off] }
    simp only [setCount] at h1 h2
    simp only [scanBuffer, setCount, apply_ite (Res.map _), map_ok, map_abort, map_timeout, h1, h2]

theorem readPartBody_setCount (c : Option Nat) (x : Nat) (p : marketPacketProcessor_t) :
    readPartBody (setCount c x p) = (readPartBody p).map (setCount c x) := by
  cases hi : p.m_inputStream with
  | none => simp [readPartBody, setCount, hi, Res.map]
  | some s =>
    simp only [readPartBody, setCount, hi, map_ok]
    generalize (if (p.m_bodySize + SIZE_MOD - p.m_bodyBytesInterpreted) % SIZE_MOD < READ_BUFFER_SIZE
      then (p.m_bodySize + SIZE_MOD - p.m_bodyBytesInterpreted) % SIZE_MOD
      else READ_BUFFER_SIZE) = n
    by_cases hg : (s.read n).1.good = true
    · simp only [hg, Bool.not_true, Bool.false_eq_true, if_false]
      exact scanBuffer_setCount c x n n 0 { p with
        m_inputStream := some (s.read n).1
        m_readBuffer := (s.read n).2 ++ p.m_readBuffer.drop (s.read n).2.length }
    · simp only [hg, Bool.not_false, if_true, map_ok]
      rfl

theorem appendTradePtrToStream_setCount (c : Option Nat) (x : Nat) (p : marketPacketProcessor_t)
    (loc : Nat) :
    appendTradePtrToStream (setCount c x p) loc
      = (appendTradePtrToStream p loc).map (setCount c x) := by
  cases ho : p.m_outputStream with
  | none => simp [appendTradePtrToStream, setCount, ho, Res.map]
  | some o =>
    simp only [appendTradePtrToStream, setCount, ho, apply_ite (Res.map _), map_ok, map_abort, map_timeout]

theorem writeUpdatesLoop_setCount (c : Option Nat) (x : Nat) (locs : List Nat) :
    ∀ p : marketPacketProcessor_t,
      writeUpdatesLoop locs (setCount c x p) = (writeUpdatesLoop locs p).map (setCount c x) := by
  induction locs with
  | nil => intro p; rfl
  | cons loc locs ih =>
    intro p
    simp only [writeUpdatesLoop, appendTradePtrToStream_setCount]
    cases appendTradePtrToStream p loc with
    | ok p1 => simp only [Res.map]; exact ih p1
    | abort => rfl
    | timeout => rfl

theorem writeUpdates_setCount (c : Option Nat) (x : Nat) (p : marketPacketProcessor_t) :
    writeUpdates (setCount c x p) = (writeUpdates p).map (setCount c x) := by
  unfold writeUpdates
  have h : (setCount c x p).m_tradeLocs = p.m_tradeLocs := rfl
  rw [h, writeUpdatesLoop_setCount]
  cases writeUpdatesLoop p.m_tradeLocs p <;> rfl

theorem setCount_self (p : marketPacketProcessor_t) :
    setCount p.m_numPacketsToProcess p.m_numPacketsProcessed p = p := rfl

/-- A function that commutes with every replacement of the counters keeps them. -/
theorem counters_kept (H : marketPacketProcessor_t → Res marketPacketProcessor_t)
    (hH : ∀ c x p, H (setCount c x p) = (H p).map (setCount c x))
    (p q : marketPacketProcessor_t) (h : H p = .ok q) :
    q.m_numPacketsToProcess = p.m_numPacketsToProcess ∧
      q.m_numPacketsProcessed = p.m_numPacketsProcessed := by
  have h1 := hH p.m_numPacketsToProcess p.m_numPacketsProcessed p
  rw [setCount_self, h] at h1
  simp only [Res.map] at h1
  injection h1 with h1
  constructor
  · rw [h1]; rfl
  · rw [h1]; rfl

end marketPacketProcessor_t

namespace marketPacketProcessor_t

/-! ## A run that counts from a later start -/

theorem setCount_failReason (c : Option Nat) (x : Nat) (p : marketPacketProcessor_t) :
    (setCount c x p).m_failReason = p.m_failReason := rfl

theorem setCount_state (c : Option Nat) (x : Nat) (p : marketPacketProcessor_t) :
    (setCount c x p).m_state = p.m_state := rfl

theorem setCount_count (c : Option Nat) (x : Nat) (p : marketPacketProcessor_t) :
    (setCount c x p).m_numPacketsToProcess = c := rfl

theorem setCount_processed (c : Option Nat) (x : Nat) (p : marketPacketProcessor_t) :
    (setCount c x p).m_numPacketsProcessed = x := rfl

/-- One round of the loop, seen from a run that was asked for `c2` packets and
had counted `k` of them when the run asking for `c` packets started: as long
as the shorter run goes on, the longer one does the same. -/
theorem iteration_shift (c c2 k : Nat) (u : marketPacketProcessor_t) (hw : WithinCount c u)
    (hk : k + c ≤ c2) (hc : c2 < SIZE_MOD) :
    match iteration u with
    | .again v => iteration (setCount (some c2) (k + u.m_numPacketsProcessed) u)
          = .again (setCount (some c2) (k + v.m_numPacketsProcessed) v) ∧ WithinCount c v
    | .leave v => v = u ∧ (u.m_failReason.isSome = true ∨
          (u.m_state = .CHECK_STREAM_VALIDITY ∧ u.m_numPacketsProcessed = c))
    | .abort => iteration (setCount (some c2) (k + u.m_numPacketsProcessed) u) = .abort
    | .timeout => iteration (setCount (some c2) (k + u.m_numPacketsProcessed) u) = .timeout := by
  obtain ⟨hcnt, hle, hlt⟩ := hw
  cases hf : u.m_failReason with
  | some r =>
    have e : iteration u = .leave u := by simp [iteration, hf]
    rw [e]
    exact ⟨rfl, Or.inl rfl⟩
  | none =>
    have hlt2 := hlt hf
    cases hs : u.m_state with
    | UNINITIALIZED =>
      have e : iteration u = .again { uninitialized u with m_state := .CHECK_STREAM_VALIDITY } := by
        simp [iteration, hf, hs]
      rw [e]
      refine ⟨?_, hcnt, hle, fun h => ?_⟩
      · simp only [iteration, setCount_failReason, setCount_state, hf, hs]
        rfl
      · simp [uninitialized] at h
    | CHECK_STREAM_VALIDITY =>
      by_cases hx : u.m_numPacketsProcessed = c
      · have e : iteration u = .leave u := by simp [iteration, hf, hs, hcnt, hx]
        rw [e]
        exact ⟨rfl, Or.inr ⟨rfl, hx⟩⟩
      · have hx2 : ¬ c = u.m_numPacketsProcessed := fun h => hx h.symm
        have hne : ¬ (some c2 = some (k + u.m_numPacketsProcessed)) := by
          intro h; injection h with h; omega
        have hcomm := checkStreamValidity_setCount (some c2) (k + u.m_numPacketsProcessed) u
        cases hH : checkStreamValidity u with
        | ok p1 =>
          obtain ⟨hk1, hk2⟩ := counters_kept checkStreamValidity checkStreamValidity_setCount u p1 hH
          have e : iteration u = .again { p1 with m_state := .READ_HEADER } := by
            simp [iteration, hf, hs, hcnt, hx2, hH]
          rw [e]
          rw [hH] at hcomm
          refine ⟨?_, ?_, ?_, fun _ _ => ?_⟩
          · simp only [iteration, setCount_failReason, setCount_state, setCount_count,
              setCount_processed, hf, hs, hne, hcomm, map_ok]
            simp [setCount, hk2]
          · exact hk1.trans hcnt
          · show p1.m_numPacketsProcessed ≤ c
            rw [hk2]; exact hle
          · show p1.m_numPacketsProcessed < c
            rw [hk2]; omega
        | abort =>
          have e : iteration u = .abort := by simp [iteration, hf, hs, hcnt, hx2, hH]
          rw [e]
          rw [hH] at hcomm
          simp only [iteration, setCount_failReason, setCount_state, setCount_count,
              setCount_processed, hf, hs, hne, hcomm, map_abort]
          simp
        | timeout =>
          have e : iteration u = .timeout := by simp [iteration, hf, hs, hcnt, hx2, hH]
          rw [e]
          rw [hH] at hcomm
          simp only [iteration, setCount_failReason, setCount_state, setCount_count,
              setCount_processed, hf, hs, hne, hcomm, map_timeout]
          simp
    | READ_HEADER =>
      have hlt3 : u.m_numPacketsProcessed < c := hlt2 (by rw [hs]; decide)
      have hcomm := readHeader_setCount (some c2) (k + u.m_numPacketsProcessed) u
      cases hH : readHeader u with
      | ok p1 =>
        obtain ⟨hk1, hk2⟩ := counters_kept readHeader readHeader_setCount u p1 hH
        have e : iteration u = .again { p1 with m_state := .READ_PART_BODY } := by
          simp [iteration, hf, hs, hH]
        rw [e]
        rw [hH] at hcomm
        refine ⟨?_, ?_, ?_, fun _ _ => ?_⟩
        · simp only [iteration, setCount_failReason, setCount_state, hf, hs, hcomm, map_ok]
          simp [setCount, hk2]
        · exact hk1.trans hcnt
        · show p1.m_numPacketsProcessed ≤ c
          rw [hk2]; exact hle
        · show p1.m_numPacketsProcessed < c
          rw [hk2]; exact hlt3
      | abort =>
        have e : iteration u = .abort := by simp [iteration, hf, hs, hH]
        rw [e]
        rw [hH] at hcomm
        simp only [iteration, setCount_failReason, setCount_state, hf, hs, hcomm, map_abort]
        simp
      | timeout =>
        have e : iteration u = .timeout := by simp [iteration, hf, hs, hH]
        rw [e]
        rw [hH] at hcomm
        simp only [iteration, setCount_failReason, setCount_state, hf, hs, hcomm, map_timeout]
        simp
    | READ_PART_BODY =>
      have hlt3 : u.m_numPacketsProcessed < c := hlt2 (by rw [hs]; decide)
      have hcomm := readPartBody_setCount (some c2) (k + u.m_numPacketsProcessed) u
      cases hH : readPartBody u with
      | ok p1 =>
        obtain ⟨hk1, hk2⟩ := counters_kept readPartBody readPartBody_setCount u p1 hH
        have e : iteration u = .again { p1 with m_state := .WRITE_UPDATES } := by
          simp [iteration, hf, hs, hH]
        rw [e]
        rw [hH] at hcomm
        refine ⟨?_, ?_, ?_, fun _ _ => ?_⟩
        · simp only [iteration, setCount_failReason, setCount_state, hf, hs, hcomm, map_ok]
          simp [setCount, hk2]
        · exact hk1.trans hcnt
        · show p1.m_numPacketsProcessed ≤ c
          rw [hk2]; exact hle
        · show p1.m_numPacketsProcessed < c
          rw [hk2]; exact hlt3
      | abort =>
        have e : iteration u = .abort := by simp [iteration, hf, hs, hH]
        rw [e]
        rw [hH] at hcomm
        simp only [iteration, setCount_failReason, setCount_state, hf, hs, hcomm, map_abort]
        simp
      | timeout =>
        have e : iteration u = .timeout := by simp [iteration, hf, hs, hH]
        rw [e]
        rw [hH] at hcomm
        simp only [iteration, setCount_failReason, setCount_state, hf, hs, hcomm, map_timeout]
        simp
    | WRITE_UPDATES =>
      have hlt3 : u.m_numPacketsProcessed < c := hlt2 (by rw [hs]; decide)
      have hcomm := writeUpdates_setCount (some c2) (k + u.m_numPacketsProcessed) u
      cases hH : writeUpdates u with
      | ok p1 =>
        obtain ⟨hk1, hk2⟩ := counters_kept writeUpdates writeUpdates_setCount u p1 hH
        rw [hH] at hcomm
        by_cases hd : doneWithPacket p1 = true
        · have e : iteration u = .again { p1 with
              m_numPacketsProcessed := (p1.m_numPacketsProcessed + 1) % SIZE_MOD,
              m_state := .CHECK_STREAM_VALIDITY } := by
            simp [iteration, hf, hs, hH, hd]
          rw [e]
          have hm1 : (u.m_numPacketsProcessed + 1) % SIZE_MOD = u.m_numPacketsProcessed + 1 :=
            Nat.mod_eq_of_lt (by omega)
          have hm2 : (k + u.m_numPacketsProcessed + 1) % SIZE_MOD = k + u.m_numPacketsProcessed + 1 :=
            Nat.mod_eq_of_lt (by omega)
          have hd2 : doneWithPacket (setCount (some c2) (k + u.m_numPacketsProcessed) p1) = true := hd
          refine ⟨?_, ?_, ?_, fun _ h => ?_⟩
          · simp only [iteration, setCount_failReason, setCount_state, hf, hs, hcomm, map_ok, hd2,
              if_true, setCount_processed, hm2, hk2, hm1]
            simp [setCount, Nat.add_assoc]
          · exact hk1.trans hcnt
          · show (p1.m_numPacketsProcessed + 1) % SIZE_MOD ≤ c
            rw [hk2, hm1]; omega
          · exact absurd rfl h
        · have e : iteration u = .again { p1 with m_state := .READ_PART_BODY } := by
            simp [iteration, hf, hs, hH, hd]
          rw [e]
          have hd2 : ¬ doneWithPacket (setCount (some c2) (k + u.m_numPacketsProcessed) p1) = true := hd
          refine ⟨?_, ?_, ?_, fun _ _ => ?_⟩
          · simp only [iteration, setCount_failReason, setCount_state, hf, hs, hcomm, map_ok, hd2,
              if_false]
            simp [setCount, hk2]
          · exact hk1.trans hcnt
          · show p1.m_numPacketsProcessed ≤ c
            rw [hk2]; exact hle
          · show p1.m_numPacketsProcessed < c
            rw [hk2]; exact hlt3
      | abort =>
        have e : iteration u = .abort := by simp [iteration, hf, hs, hH]
        rw [e]
        rw [hH] at hcomm
        simp only [iteration, setCount_failReason, setCount_state, hf, hs, hcomm, map_abort]
        simp
      | timeout =>
        have e : iteration u = .timeout := by simp [iteration, hf, hs, hH]
        rw [e]
        rw [hH] at hcomm
        simp only [iteration, setCount_failReason, setCount_state, hf, hs, hcomm, map_timeout]
        simp

/-- A run that has failed, or that stands between two packets with its count
reached, stops. -/
theorem iteration_setCount_leave (c2 x : Nat) (q : marketPacketProcessor_t)
    (h : q.m_failReason.isSome = true ∨ (q.m_state = .CHECK_STREAM_VALIDITY ∧ x = c2)) :
    iteration (setCount (some c2) x q) = .leave (setCount (some c2) x q) := by
  rcases h with h | ⟨hs, hx⟩
  · simp [iteration, setCount_failReason, h]
  · by_cases hf : q.m_failReason.isSome = true
    · simp [iteration, setCount_failReason, hf]
    · simp [iteration, setCount_failReason, setCount_state, setCount_count, setCount_processed,
        hf, hs, hx]

theorem runStateMachine_succ : ∀ (fuel : Nat) (p q : marketPacketProcessor_t),
    runStateMachine fuel p = .ok q → runStateMachine (fuel + 1) p = .ok q := by
  intro fuel
  induction fuel with
  | zero => intro p q h; simp [runStateMachine] at h
  | succ fuel ih =>
    intro p q h
    rw [runStateMachine] at h ⊢
    cases hi : iteration p with
    | again v => rw [hi] at h; simp only at h ⊢; exact ih v q h
    | leave v => rw [hi] at h; simpa using h
    | abort => rw [hi] at h; simp at h
    | timeout => rw [hi] at h; simp at h

theorem runStateMachine_mono {fuel : Nat} {p q : marketPacketProcessor_t}
    (h : runStateMachine fuel p = .ok q) (m : Nat) : runStateMachine (fuel + m) p = .ok q := by
  induction m with
  | zero => exact h
  | succ m ih => exact runStateMachine_succ _ _ _ ih

/-- A run asked for `c` packets that returns is followed round by round by the
run asked for `c2` packets that had counted `k` at its start. -/
theorem run_shift (c c2 k : Nat) (hk : k + c ≤ c2) (hc : c2 < SIZE_MOD) :
    ∀ (fuel : Nat) (u q : marketPacketProcessor_t), WithinCount c u →
      runStateMachine fuel u = .ok q →
      ∃ n, n < fuel ∧
        Reaches n (setCount (some c2) (k + u.m_numPacketsProcessed) u)
          (setCount (some c2) (k + q.m_numPacketsProcessed) q) ∧
        (q.m_failReason.isSome = true ∨
          (q.m_state = .CHECK_STREAM_VALIDITY ∧ q.m_numPacketsProcessed = c)) := by
  intro fuel
  induction fuel with
  | zero => intro u q _ h; simp [runStateMachine] at h
  | succ fuel ih =>
    intro u q hw h
    have hstep := iteration_shift c c2 k u hw hk hc
    rw [runStateMachine] at h
    cases hi : iteration u with
    | again v =>
      rw [hi] at h hstep
      simp only at h hstep
      obtain ⟨n, hn, hr, hq⟩ := ih v q hstep.2 h
      refine ⟨1 + n, by omega, (Reaches.of_again hstep.1).trans hr, hq⟩
    | leave v =>
      rw [hi] at h hstep
      simp only at h hstep
      injection h with h
      subst h
      obtain ⟨rfl, hq⟩ := hstep
      exact ⟨0, by omega, Reaches.refl _, hq⟩
    | abort => rw [hi] at h; simp at h
    | timeout => rw [hi] at h; simp at h

/-- The converse of `run_shift`: when the longer run returns, so does the
shorter one, and the longer one continues from where the shorter one stops. -/
theorem run_unshift (c c2 k : Nat) (hk : k + c ≤ c2) (hc : c2 < SIZE_MOD) :
    ∀ (fuel : Nat) (u Q : marketPacketProcessor_t), WithinCount c u →
      runStateMachine fuel (setCount (some c2) (k + u.m_numPacketsProcessed) u) = .ok Q →
      ∃ q, runStateMachine fuel u = .ok q ∧
        runStateMachine fuel (setCount (some c2) (k + q.m_numPacketsProcessed) q) = .ok Q ∧
        (q.m_failReason.isSome = true ∨
          (q.m_state = .CHECK_STREAM_VALIDITY ∧ q.m_numPacketsProcessed = c)) := by
  intro fuel
  induction fuel with
  | zero => intro u Q _ h; simp [runStateMachine] at h
  | succ fuel ih =>
    intro u Q hw h
    have hstep := iteration_shift c c2 k u hw hk hc
    cases hi : iteration u with
    | again v =>
      rw [hi] at hstep
      simp only at hstep
      have h2 := h
      rw [runStateMachine, hstep.1] at h2
      simp only at h2
      obtain ⟨q, hq1, hq2, hq3⟩ := ih v Q hstep.2 h2
      refine ⟨q, ?_, runStateMachine_succ _ _ _ hq2, hq3⟩
      rw [runStateMachine, hi]
      exact hq1
    | leave v =>
      rw [hi] at hstep
      simp only at hstep
      obtain ⟨rfl, hq⟩ := hstep
      refine ⟨v, ?_, h, hq⟩
      rw [runStateMachine, hi]
    | abort =>
      rw [hi] at hstep
      simp only at hstep
      rw [runStateMachine, hstep] at h
      simp at h
    | timeout =>
      rw [hi] at hstep
      simp only at hstep
      rw [runStateMachine, hstep] at h
      simp at h

theorem processNextPacket_ok {fuel : Nat} {c : Option Nat} {p q : marketPacketProcessor_t}
    {r : Option String} (h : processNextPacket fuel c p = .ok (q, r)) :
    runStateMachine fuel (resetPerRunVariables c p) = .ok q ∧ r = q.m_failReason ∧
      ∃ o, q.m_outputStream = some o := by
  unfold processNextPacket at h
  cases hrun : runStateMachine fuel (resetPerRunVariables c p) with
  | ok p1 =>
    rw [hrun] at h
    simp only at h
    cases ho : p1.m_outputStream with
    | none => rw [ho] at h; simp at h
    | some o =>
      rw [ho] at h
      simp only at h
      injection h with h
      injection h with h1 h2
      subst h1
      exact ⟨rfl, h2.symm, o, ho⟩
  | abort => rw [hrun] at h; simp at h
  | timeout => rw [hrun] at h; simp at h

theorem processNextPacket_of_run {fuel : Nat} {c : Option Nat} {p q : marketPacketProcessor_t}
    {o : OStream} (h : runStateMachine fuel (resetPerRunVariables c p) = .ok q)
    (ho : q.m_outputStream = some o) :
    processNextPacket fuel c p = .ok (q, q.m_failReason) := by
  simp [processNextPacket, h, ho]

end marketPacketProcessor_t

namespace marketPacketProcessor_t

/-! ## The output stream stays in place -/

theorem checkStreamValidity_output {p q : marketPacketProcessor_t}
    (h : checkStreamValidity p = .ok q) : q.m_outputStream = p.m_outputStream := by
  unfold checkStreamValidity at h
  split at h
  · simp at h
  · simp only at h
    split_ifs at h <;> (injection h with h; subst h; rfl)

theorem readHeader_output {p q : marketPacketProcessor_t}
    (h : readHeader p = .ok q) : q.m_outputStream = p.m_outputStream := by
  unfold readHeader at h
  split at h
  · simp at h
  · simp only at h
    split_ifs at h <;> (injection h with h; subst h; rfl)

theorem scanBuffer_output (valid : Nat) : ∀ (fuel off : Nat) (p q : marketPacketProcessor_t),
    scanBuffer valid fuel off p = .ok q → q.m_outputStream = p.m_outputStream := by
  intro fuel
  induction fuel with
  | zero =>
    intro off p q h
    unfold scanBuffer at h
    split_ifs at h
    injection h with h; subst h; rfl
  | succ fuel ih =>
    intro off p q h
    unfold scanBuffer at h
    simp only at h
    split_ifs at h <;>
      first
      | (injection h with h; subst h; rfl)
      | (have h2 := ih _ _ _ h; exact h2)

theorem readPartBody_output {p q : marketPacketProcessor_t}
    (h : readPartBody p = .ok q) : q.m_outputStream = p.m_outputStream := by
  unfold readPartBody at h
  split at h
  · simp at h
  · simp only at h
    split_ifs at h <;>
      first
      | (injection h with h; subst h; rfl)
      | (have h2 := scanBuffer_output _ _ _ _ _ h; exact h2)

theorem appendTradePtrToStream_output {p q : marketPacketProcessor_t} {loc : Nat}
    (h : appendTradePtrToStream p loc = .ok q) : q.m_outputStream.isSome = true := by
  unfold appendTradePtrToStream at h
  split at h
  · simp at h
  · simp only at h
    split_ifs at h <;> (injection h with h; subst h; rfl)

theorem writeUpdatesLoop_output (locs : List Nat) : ∀ (p q : marketPacketProcessor_t),
    p.m_outputStream.isSome = true → writeUpdatesLoop locs p = .ok q →
    q.m_outputStream.isSome = true := by
  induction locs with
  | nil =>
    intro p q hp h
    unfold writeUpdatesLoop at h
    injection h with h; subst h; exact hp
  | cons loc locs ih =>
    intro p q hp h
    unfold writeUpdatesLoop at h
    cases ha : appendTradePtrToStream p loc with
    | ok p1 => rw [ha] at h; exact ih p1 q (appendTradePtrToStream_output ha) h
    | abort => rw [ha] at h; simp at h
    | timeout => rw [ha] at h; simp at h

theorem writeUpdates_output {p q : marketPacketProcessor_t}
    (hp : p.m_outputStream.isSome = true) (h : writeUpdates p = .ok q) :
    q.m_outputStream.isSome = true := by
  unfold writeUpdates at h
  cases hl : writeUpdatesLoop p.m_tradeLocs p with
  | ok p1 =>
    rw [hl] at h
    injection h with h; subst h
    have h2 := writeUpdatesLoop_output _ _ _ hp hl
    exact h2
  | abort => rw [hl] at h; simp at h
  | timeout => rw [hl] at h; simp at h

theorem iteration_output {p q : marketPacketProcessor_t}
    (hp : p.m_outputStream.isSome = true) :
    (iteration p = .again q → q.m_outputStream.isSome = true) ∧ (iteration p = .leave q → q = p) := by
  have hleave : iteration p = .leave p →
      (iteration p = .again q → q.m_outputStream.isSome = true) ∧ (iteration p = .leave q → q = p) := by
    intro e
    rw [e]
    exact ⟨fun h => by simp at h, fun h => by injection h with h; exact h.symm⟩
  have hagain : ∀ v : marketPacketProcessor_t, v.m_outputStream.isSome = true →
      iteration p = .again v →
      (iteration p = .again q → q.m_outputStream.isSome = true) ∧ (iteration p = .leave q → q = p) := by
    intro v hv e
    rw [e]
    exact ⟨fun h => by injection h with h; subst h; exact hv, fun h => by simp at h⟩
  have hother : (∀ v, iteration p ≠ .again v) → (∀ v, iteration p ≠ .leave v) →
      (iteration p = .again q → q.m_outputStream.isSome = true) ∧ (iteration p = .leave q → q = p) :=
    fun h1 h2 => ⟨fun h => absurd h (h1 q), fun h => absurd h (h2 q)⟩
  by_cases hf : p.m_failReason.isSome = true
  · exact hleave (by simp [iteration, hf])
  · cases hs : p.m_state with
    | UNINITIALIZED =>
      exact hagain { uninitialized p with m_state := .CHECK_STREAM_VALIDITY } hp
        (by simp [iteration, hf, hs])
    | CHECK_STREAM_VALIDITY =>
      by_cases hx : p.m_numPacketsToProcess = some p.m_numPacketsProcessed
      · exact hleave (by simp [iteration, hf, hs, hx])
      · cases hH : checkStreamValidity p with
        | ok p1 =>
          exact hagain { p1 with m_state := .READ_HEADER }
            (by show p1.m_outputStream.isSome = true; rw [checkStreamValidity_output hH]; exact hp)
            (by simp [iteration, hf, hs, hx, hH])
        | abort => exact hother (by simp [iteration, hf, hs, hx, hH]) (by simp [iteration, hf, hs, hx, hH])
        | timeout => exact hother (by simp [iteration, hf, hs, hx, hH]) (by simp [iteration, hf, hs, hx, hH])
    | READ_HEADER =>
      cases hH : readHeader p with
      | ok p1 =>
        exact hagain { p1 with m_state := .READ_PART_BODY }
          (by show p1.m_outputStream.isSome = true; rw [readHeader_output hH]; exact hp)
          (by simp [iteration, hf, hs, hH])
      | abort => exact hother (by simp [iteration, hf, hs, hH]) (by simp [iteration, hf, hs, hH])
      | timeout => exact hother (by simp [iteration, hf, hs, hH]) (by simp [iteration, hf, hs, hH])
    | READ_PART_BODY =>
      cases hH : readPartBody p with
      | ok p1 =>
        exact hagain { p1 with m_state := .WRITE_UPDATES }
          (by show p1.m_outputStream.isSome = true; rw [readPartBody_output hH]; exact hp)
          (by simp [iteration, hf, hs, hH])
      | abort => exact hother (by simp [iteration, hf, hs, hH]) (by simp [iteration, hf, hs, hH])
      | timeout => exact hother (by simp [iteration, hf, hs, hH]) (by simp [iteration, hf, hs, hH])
    | WRITE_UPDATES =>
      cases hH : writeUpdates p with
      | ok p1 =>
        have ho := writeUpdates_output hp hH
        by_cases hd : doneWithPacket p1 = true
        · exact hagain { p1 with
              m_numPacketsProcessed := (p1.m_numPacketsProcessed + 1) % SIZE_MOD,
              m_state := .CHECK_STREAM_VALIDITY } ho (by simp [iteration, hf, hs, hH, hd])
        · exact hagain { p1 with m_state := .READ_PART_BODY } ho
            (by simp [iteration, hf, hs, hH, hd])
      | abort => exact hother (by simp [iteration, hf, hs, hH]) (by simp [iteration, hf, hs, hH])
      | timeout => exact hother (by simp [iteration, hf, hs, hH]) (by simp [iteration, hf, hs, hH])

theorem runStateMachine_output : ∀ (fuel : Nat) (p q : marketPacketProcessor_t),
    p.m_outputStream.isSome = true → runStateMachine fuel p = .ok q →
    q.m_outputStream.isSome = true := by
  intro fuel
  induction fuel with
  | zero => intro p q _ h; simp [runStateMachine] at h
  | succ fuel ih =>
    intro p q hp h
    rw [runStateMachine] at h
    cases hi : iteration p with
    | again v =>
      rw [hi] at h
      exact ih v q ((iteration_output hp).1 hi) h
    | leave v =>
      rw [hi] at h
      injection h with h; subst h
      rw [(iteration_output hp).2 hi]; exact hp
    | abort => rw [hi] at h; simp at h
    | timeout => rw [hi] at h; simp at h

/-- A run that starts after a failure returns at once. -/
theorem runStateMachine_failed {fuel : Nat} {p q : marketPacketProcessor_t}
    (hf : p.m_failReason.isSome = true) (h : runStateMachine fuel p = .ok q) : q = p := by
  cases fuel with
  | zero => simp [runStateMachine] at h
  | succ fuel =>
    have hi : iteration p = .leave p := by simp [iteration, hf]
    rw [runStateMachine, hi] at h
    injection h with h
    exact h.symm

theorem runStateMachine_of_leave {fuel : Nat} {p q : marketPacketProcessor_t}
    (hi : iteration p = .leave p) (h : runStateMachine fuel p = .ok q) : q = p := by
  cases fuel with
  | zero => simp [runStateMachine] at h
  | succ fuel =>
    rw [runStateMachine, hi] at h
    injection h with h
    exact h.symm

theorem initialise_state {p p0 : marketPacketProcessor_t} (h : p.initialise = .ok p0) :
    p0.m_state = .CHECK_STREAM_VALIDITY ∧ p0.m_outputStream = p.m_outputStream ∧
      p0.m_outputStream.isSome = true := by
  unfold initialise at h
  split_ifs at h with h1 h2 h3
  injection h with h
  subst h
  refine ⟨rfl, rfl, ?_⟩
  show p.m_outputStream.isSome = true
  cases ho : p.m_outputStream with
  | none => rw [ho] at h2; simp at h2
  | some o => rfl

/-- Claim C5.  On an initialized processor over any input stream and any sink,
for counts `a` and `b` whose sum is a `size_t`: whenever `processNextPacket(a)`
and then `processNextPacket(b)` return, the single call
`processNextPacket(a + b)` on the same initialized processor returns the same
reason and leaves the same output stream and the same input stream; conversely,
whenever the single call returns, so do the two calls, with the same reason
and the same streams.  When the stream starts with `a + b` well-formed packets
(the lists `ps1` and `ps2`), both calls return no reason, given enough
iterations; the first consumes exactly the bytes of `ps1` and the second
exactly those of `ps2`. -/
theorem C5_resumable_counts (s : IStream) (o : OStream) (hdr buf : List Byte)
    (p0 : marketPacketProcessor_t) (a b : Nat) (hab : a + b < SIZE_MOD)
    (hinit : (create (some s) (some o) hdr buf).initialise = .ok p0) :
    (∀ f1 f2 q1 r1 q2 r2, p0.processNextPacket f1 (some a) = .ok (q1, r1) →
        q1.processNextPacket f2 (some b) = .ok (q2, r2) →
        ∃ q, p0.processNextPacket (f1 + f2) (some (a + b)) = .ok (q, r2) ∧
          q.m_outputStream = q2.m_outputStream ∧ q.m_inputStream = q2.m_inputStream) ∧
    (∀ f q r, p0.processNextPacket f (some (a + b)) = .ok (q, r) →
        ∃ q1 r1 q2, p0.processNextPacket f (some a) = .ok (q1, r1) ∧
          q1.processNextPacket f (some b) = .ok (q2, r) ∧
          q2.m_outputStream = q.m_outputStream ∧ q2.m_inputStream = q.m_inputStream) ∧
    (∀ (ps1 ps2 : List (List (List Byte))) (tail : List Byte),
        s = IStream.ofBytes (encodeStream ps1 ++ (encodeStream ps2 ++ tail)) → o = OStream.empty →
        ps1.length = a → ps2.length = b →
        (∀ rs ∈ ps1, WellFormedPacket rs) → (∀ rs ∈ ps2, WellFormedPacket rs) →
        ∃ q1 q2 N, (∀ fuel, N ≤ fuel → p0.processNextPacket fuel (some a) = .ok (q1, none)) ∧
          q1.m_inputStream = some (IStream.ofBytes (encodeStream ps2 ++ tail)) ∧
          q1.m_outputStream = some ⟨streamLines ps1, none, false⟩ ∧
          (∀ fuel, N ≤ fuel → q1.processNextPacket fuel (some b) = .ok (q2, none)) ∧
          q2.m_inputStream = some (IStream.ofBytes tail) ∧
          q2.m_outputStream = some ⟨streamLines ps1 ++ streamLines ps2, none, false⟩) := by
  obtain ⟨hst, _, hout⟩ := initialise_state hinit
  have hw1 : WithinCount a (resetPerRunVariables (some a) p0) :=
    ⟨rfl, Nat.zero_le _, fun _ h => absurd hst h⟩
  have hw2 : ∀ q1 : marketPacketProcessor_t,
      (q1.m_failReason.isSome = true ∨
        (q1.m_state = .CHECK_STREAM_VALIDITY ∧ q1.m_numPacketsProcessed = a)) →
      WithinCount b (resetPerRunVariables (some b) q1) := by
    intro q1 hq1
    refine ⟨rfl, Nat.zero_le _, fun hf hs => ?_⟩
    rcases hq1 with h | ⟨h, _⟩
    · have hf2 : q1.m_failReason = none := hf
      rw [hf2] at h
      simp at h
    · exact absurd h hs
  have hjoin : ∀ q1 : marketPacketProcessor_t, q1.m_numPacketsProcessed = a →
      setCount (some (a + b)) (0 + q1.m_numPacketsProcessed) q1
        = setCount (some (a + b)) (a + (resetPerRunVariables (some b) q1).m_numPacketsProcessed)
            (resetPerRunVariables (some b) q1) := by
    intro q1 hx
    rw [hx]
    simp [setCount, resetPerRunVariables]
  refine ⟨?_, ?_, ?_⟩
  · intro f1 f2 q1 r1 q2 r2 h1 h2
    obtain ⟨hr1, _, o1, ho1⟩ := processNextPacket_ok h1
    obtain ⟨hr2, hr2e, o2, ho2⟩ := processNextPacket_ok h2
    obtain ⟨n1, hn1, hreach1, hq1⟩ := run_shift a (a + b) 0 (by omega) hab f1 _ q1 hw1 hr1
    have hstart : setCount (some (a + b))
        (0 + (resetPerRunVariables (some a) p0).m_numPacketsProcessed)
        (resetPerRunVariables (some a) p0) = resetPerRunVariables (some (a + b)) p0 := rfl
    rw [hstart] at hreach1
    rcases hq1 with hfail | ⟨hs1, hx1⟩
    · have hq2 : q2 = resetPerRunVariables (some b) q1 := runStateMachine_failed hfail hr2
      have hl := iteration_setCount_leave (a + b) (0 + q1.m_numPacketsProcessed) q1 (Or.inl hfail)
      have hrun := Reaches.leave hreach1 hl (f1 + f2) (by omega)
      refine ⟨setCount (some (a + b)) (0 + q1.m_numPacketsProcessed) q1, ?_, ?_, ?_⟩
      · rw [processNextPacket_of_run hrun ho1, hr2e, hq2]
        rfl
      · rw [hq2]; rfl
      · rw [hq2]; rfl
    · obtain ⟨n2, hn2, hreach2, hq2⟩ := run_shift b (a + b) a (Nat.le_refl _) hab f2 _ q2
        (hw2 q1 (Or.inr ⟨hs1, hx1⟩)) hr2
      rw [hjoin q1 hx1] at hreach1
      have hl := iteration_setCount_leave (a + b) (a + q2.m_numPacketsProcessed) q2
        (by
          rcases hq2 with h | ⟨h, hx⟩
          · exact Or.inl h
          · exact Or.inr ⟨h, by omega⟩)
      have hrun := Reaches.leave (hreach1.trans hreach2) hl (f1 + f2) (by omega)
      refine ⟨setCount (some (a + b)) (a + q2.m_numPacketsProcessed) q2, ?_, rfl, rfl⟩
      rw [processNextPacket_of_run hrun ho2, hr2e]
      rfl
  · intro f q r h
    obtain ⟨hr, hre, oq, hoq⟩ := processNextPacket_ok h
    obtain ⟨q1, hrun1, hcont, hq1⟩ := run_unshift a (a + b) 0 (by omega) hab f _ q hw1 hr
    have ho1 : q1.m_outputStream.isSome = true := runStateMachine_output f
      (resetPerRunVariables (some a) p0) q1 hout hrun1
    obtain ⟨o1, ho1⟩ := Option.isSome_iff_exists.mp ho1
    rcases hq1 with hfail | ⟨hs1, hx1⟩
    · have hl := iteration_setCount_leave (a + b) (0 + q1.m_numPacketsProcessed) q1 (Or.inl hfail)
      have hq := runStateMachine_of_leave hl hcont
      have hf1 : 1 ≤ f := by
        cases f with
        | zero => simp [runStateMachine] at hr
        | succ f => omega
      have hrun2 : runStateMachine f (resetPerRunVariables (some b) q1)
          = .ok (resetPerRunVariables (some b) q1) := by
        obtain ⟨f, rfl⟩ : ∃ g, f = g + 1 := ⟨f - 1, by omega⟩
        have hi : iteration (resetPerRunVariables (some b) q1)
            = .leave (resetPerRunVariables (some b) q1) := by
          have hfail2 : (resetPerRunVariables (some b) q1).m_failReason.isSome = true := hfail
          simp [iteration, hfail2]
        rw [runStateMachine, hi]
      refine ⟨q1, q1.m_failReason, resetPerRunVariables (some b) q1,
        processNextPacket_of_run hrun1 ho1, ?_, ?_, ?_⟩
      · have ho2 : (resetPerRunVariables (some b) q1).m_outputStream = some o1 := ho1
        rw [processNextPacket_of_run hrun2 ho2, hre, hq]
        rfl
      · rw [hq]; rfl
      · rw [hq]; rfl
    · rw [hjoin q1 hx1] at hcont
      obtain ⟨q2, hrun2, hcont2, hq2⟩ := run_unshift b (a + b) a (Nat.le_refl _) hab f _ q
        (hw2 q1 (Or.inr ⟨hs1, hx1⟩)) hcont
      have hl := iteration_setCount_leave (a + b) (a + q2.m_numPacketsProcessed) q2
        (by
          rcases hq2 with h | ⟨h, hx⟩
          · exact Or.inl h
          · exact Or.inr ⟨h, by omega⟩)
      have hq := runStateMachine_of_leave hl hcont2
      have ho2 : q2.m_outputStream = some oq := by rw [← hoq, hq]; rfl
      refine ⟨q1, q1.m_failReason, q2, processNextPacket_of_run hrun1 ho1, ?_, ?_, ?_⟩
      · rw [processNextPacket_of_run hrun2 ho2, hre, hq]
        rfl
      · rw [hq]; rfl
      · rw [hq]; rfl
  · intro ps1 ps2 tail hs ho ha hb hwf1 hwf2
    subst hs ho ha hb
    rw [eq_ready_of_initialise hinit]
    obtain ⟨q1, N1, hrun1, hat1⟩ := process_counted
      (ready (encodeStream ps1 ++ (encodeStream ps2 ++ tail)) hdr buf) ps1
      (encodeStream ps2 ++ tail) [] none 0 hwf1 (by omega) (ready_atCheck _ hdr buf)
    obtain ⟨q2, N2, hrun2, hat2⟩ := process_counted q1 ps2 tail _ _ _ hwf2 (by omega) hat1
    refine ⟨q1, q2, max N1 N2, fun fuel hf => hrun1 fuel (by omega), hat1.input,
      by simpa using hat1.output, fun fuel hf => hrun2 fuel (by omega), hat2.input,
      by simpa using hat2.output⟩

/-- An instance of claim C5: three packets, processed by a call for one packet
and a call for two. -/
theorem C5_resumable_counts_witness :
    ∃ q1 q2 N, (∀ fuel, N ≤ fuel →
        (ready (encodeStream [[marketPacketGenerator_t.tradeBytes (strBytes "ABCDE") 7 9]]
          ++ (encodeStream [[marketPacketGenerator_t.quoteBytes (strBytes "FGHIJ") 1 2 3], []]
            ++ [1, 2])) [] []).processNextPacket fuel (some 1) = .ok (q1, none)) ∧
      q1.m_inputStream = some (IStream.ofBytes
        (encodeStream [[marketPacketGenerator_t.quoteBytes (strBytes "FGHIJ") 1 2 3], []] ++ [1, 2])) ∧
      q1.m_outputStream = some ⟨streamLines
        [[marketPacketGenerator_t.tradeBytes (strBytes "ABCDE") 7 9]], none, false⟩ ∧
      (∀ fuel, N ≤ fuel → q1.processNextPacket fuel (some 2) = .ok (q2, none)) ∧
      q2.m_inputStream = some (IStream.ofBytes [1, 2]) ∧
      q2.m_outputStream = some ⟨streamLines
          [[marketPacketGenerator_t.tradeBytes (strBytes "ABCDE") 7 9]]
        ++ streamLines [[marketPacketGenerator_t.quoteBytes (strBytes "FGHIJ") 1 2 3], []],
        none, false⟩ :=
  (C5_resumable_counts _ _ [] [] _ 1 2 (by decide) rfl).2.2
    [[marketPacketGenerator_t.tradeBytes (strBytes "ABCDE") 7 9]]
    [[marketPacketGenerator_t.quoteBytes (strBytes "FGHIJ") 1 2 3], []] [1, 2]
    rfl rfl rfl rfl (by decide) (by decide)

end marketPacketProcessor_t

namespace marketPacketGenerator_t

/-! ## One fill of the write buffer -/

theorem take_set_succ (l : List (List Byte)) (i : Nat) (x : List Byte) (h : i < l.length) :
    (l.set i x).take (i + 1) = l.take i ++ [x] := by
  rw [List.set_eq_take_append_cons_drop, if_pos h, List.take_append_eq_append_take]
  simp [List.length_take, Nat.min_eq_left (Nat.le_of_lt h)]

theorem fillUpdates_spec (T Q : List Byte) (hT : T.length = UPDATE_SIZE)
    (hQ : Q.length = UPDATE_SIZE) :
    ∀ (k i : Nat) (g : marketPacketGenerator_t), g.m_trade = T → g.m_quote = Q →
      i + k ≤ g.m_updates.length →
      ∃ (recs : List (List Byte)) (r2 : Rng) (u : List (List Byte)),
        recs.length = k ∧ (∀ x ∈ recs, x = T ∨ x = Q) ∧
        u.take (i + k) = g.m_updates.take i ++ recs ∧ u.length = g.m_updates.length ∧
        fillUpdates k i g = { g with rng := r2, m_updates := u } := by
  intro k
  induction k with
  | zero =>
    intro i g _ _ _
    refine ⟨[], g.rng, g.m_updates, rfl, ?_, ?_, rfl, rfl⟩
    · intro x hx
      exact absurd hx (List.not_mem_nil x)
    · rw [List.append_nil, Nat.add_zero]
  | succ k ih =>
    intro i g hgT hgQ hik
    have hsrc : ∀ src : List Byte, src = T ∨ src = Q → src.take UPDATE_SIZE = src := by
      intro src h
      rcases h with h | h <;> subst h
      · exact List.take_of_length_le (Nat.le_of_eq hT)
      · exact List.take_of_length_le (Nat.le_of_eq hQ)
    have hsel : (if (rand g.rng).1 % 2 ≠ 0 then g.m_trade else g.m_quote) = T ∨
        (if (rand g.rng).1 % 2 ≠ 0 then g.m_trade else g.m_quote) = Q := by
      split_ifs
      · exact Or.inl hgT
      · exact Or.inr hgQ
    obtain ⟨recs, r2, u, hl, hall, htake, hlen, heq⟩ := ih (i + 1)
      { g with rng := (rand g.rng).2,
               m_updates := g.m_updates.set i
                 ((if (rand g.rng).1 % 2 ≠ 0 then g.m_trade else g.m_quote).take UPDATE_SIZE) }
      hgT hgQ (by simp only [List.length_set]; omega)
    refine ⟨(if (rand g.rng).1 % 2 ≠ 0 then g.m_trade else g.m_quote) :: recs, r2, u, by simp [hl],
      ?_, ?_, ?_, ?_⟩
    · intro x hx
      rcases List.mem_cons.mp hx with h | h
      · rw [h]; exact hsel
      · exact hall x h
    · rw [show i + (k + 1) = i + 1 + k by omega, htake]
      simp only
      rw [take_set_succ _ _ _ (by omega), hsrc _ hsel, List.append_assoc]
      rfl
    · rw [hlen]; simp
    · rw [fillUpdates, heq]

end marketPacketGenerator_t

namespace marketPacketGenerator_t

theorem generateUpdates_spec {g : marketPacketGenerator_t} {T Q w : List Byte}
    {maxU N d n k : Nat} (h : AtUpdates g T Q w maxU N d n k)
    (hT : T.length = UPDATE_SIZE) (hQ : Q.length = UPDATE_SIZE) (hk : k ≤ n) (hn : n < SIZE_MOD) :
    ∃ (recs : List (List Byte)) (g1 : marketPacketGenerator_t),
      generateUpdates g = .ok g1 ∧ recs.length = min (n - k) UPDATES_IN_WRITE_BUF ∧
      (∀ x ∈ recs, x = T ∨ x = Q) ∧
      AtUpdates g1 T Q (w ++ recs.flatten) maxU N d n (k + recs.length) := by
  have hleft : (n + SIZE_MOD - k) % SIZE_MOD = n - k := by
    rw [show n + SIZE_MOD - k = (n - k) + SIZE_MOD by omega,
      Nat.add_mod_right, Nat.mod_eq_of_lt (by omega)]
  have hm : (if n - k ≤ UPDATES_IN_WRITE_BUF then n - k else UPDATES_IN_WRITE_BUF)
      = min (n - k) UPDATES_IN_WRITE_BUF := by
    split_ifs with hc
    · exact (Nat.min_eq_left hc).symm
    · exact (Nat.min_eq_right (by omega)).symm
  obtain ⟨recs, r2, u, hl, hall, htake, hlen, heq⟩ := fillUpdates_spec T Q hT hQ
    (min (n - k) UPDATES_IN_WRITE_BUF) 0 g h.trade h.quote
    (by rw [h.buffer, Nat.zero_add]; exact Nat.min_le_right _ _)
  rw [Nat.zero_add, List.take_zero, List.nil_append] at htake
  have hkm : (k + min (n - k) UPDATES_IN_WRITE_BUF) % SIZE_MOD = k + recs.length := by
    rw [hl]
    have := Nat.min_le_left (n - k) UPDATES_IN_WRITE_BUF
    exact Nat.mod_eq_of_lt (by omega)
  refine ⟨recs, { g with
      rng := r2
      m_updates := u
      m_oStream := some ⟨w ++ recs.flatten, none, false⟩
      m_numUpdatesWritten := k + recs.length }, ?_, hl, hall,
    ⟨h.state, h.noFail, rfl, h.trade, h.quote, h.maxUpdates, h.packets, h.written,
      hlen.trans h.buffer, h.numUpdates, rfl⟩⟩
  unfold generateUpdates
  rw [h.numUpdates, h.numUpdatesWritten]
  simp only [hleft, hm, heq, h.sink, htake, OStream.write, h.numUpdatesWritten, hkm]
  simp
  exact h.numUpdates

/-- The rounds that write the records of one packet, from any point of its
body on: they end with the packet counted, and with the loop left when it was
the last packet asked for. -/
theorem body_loop (T Q : List Byte) (maxU N d n : Nat) (hT : T.length = UPDATE_SIZE)
    (hQ : Q.length = UPDATE_SIZE) (hn : n < SIZE_MOD) (hd : d < N) (hN : N < SIZE_MOD) :
    ∀ (rem k : Nat) (g : marketPacketGenerator_t) (w : List Byte), n - k = rem → k < n →
      AtUpdates g T Q w maxU N d n k →
      ∃ (recs : List (List Byte)) (g2 : marketPacketGenerator_t) (j : Nat),
        recs.length = n - k ∧ (∀ x ∈ recs, x = T ∨ x = Q) ∧
        AtHeader g2 T Q (w ++ recs.flatten) maxU N (d + 1) ∧
        ∀ fuel, runStateMachine (j + 1 + fuel) g
          = if d + 1 = N then .ok g2 else runStateMachine fuel g2 := by
  intro rem
  induction rem using Nat.strong_induction_on with
  | _ rem ih =>
    intro k g w hrem hkn h
    obtain ⟨recs, g1, hgen, hl, hall, h1⟩ := generateUpdates_spec h hT hQ (Nat.le_of_lt hkn) hn
    have hnf : g.m_failReason.isSome = false := by rw [h.noFail]; rfl
    have hd1 : (d + 1) % SIZE_MOD = d + 1 := Nat.mod_eq_of_lt (by omega)
    by_cases hlast : n - k ≤ UPDATES_IN_WRITE_BUF
    · have hl2 : recs.length = n - k := by rw [hl]; exact Nat.min_eq_left hlast
      have hdone : g1.m_numUpdatesWritten = g1.m_numUpdates := by
        rw [h1.numUpdatesWritten, h1.numUpdates, hl2]; omega
      refine ⟨recs, { g1 with m_state := .WRITE_HEADER, m_numPacketsWritten := d + 1 }, 0, hl2,
        hall, ⟨rfl, h1.noFail, h1.sink, h1.trade, h1.quote, h1.maxUpdates, h1.packets, rfl,
          h1.buffer⟩, fun fuel => ?_⟩
      rw [show 0 + 1 + fuel = fuel + 1 by omega, runStateMachine]
      simp only [iteration, hnf, h.state, hgen, hdone, h1.written, hd1, h1.packets]
      by_cases hN1 : d + 1 = N
      · simp [hN1]
      · simp [hN1]
    · have hl2 : recs.length = UPDATES_IN_WRITE_BUF := by rw [hl]; exact Nat.min_eq_right (by omega)
      have hU : UPDATES_IN_WRITE_BUF = 32 := by decide
      have hnd : ¬ g1.m_numUpdatesWritten = g1.m_numUpdates := by
        rw [h1.numUpdatesWritten, h1.numUpdates, hl2]; omega
      obtain ⟨recs2, g2, j, hr2, hall2, hat2, hrun2⟩ := ih (n - (k + recs.length)) (by omega)
        (k + recs.length) g1 (w ++ recs.flatten) rfl (by omega) h1
      refine ⟨recs ++ recs2, g2, j + 1, by rw [List.length_append, hr2]; omega, ?_, ?_,
        fun fuel => ?_⟩
      · intro x hx
        rcases List.mem_append.mp hx with hx | hx
        · exact hall x hx
        · exact hall2 x hx
      · simpa [List.flatten_append, List.append_assoc] using hat2
      · rw [show j + 1 + 1 + fuel = (j + 1 + fuel) + 1 by omega, runStateMachine]
        simp only [iteration, hnf, h.state, hgen, hnd]
        exact hrun2 fuel

end marketPacketGenerator_t

namespace marketPacketGenerator_t

/-! ## One packet, and a run of packets -/

theorem writeHeader_spec {g : marketPacketGenerator_t} {T Q w : List Byte} {maxU N d : Nat}
    (h : AtHeader g T Q w maxU N d) (h1 : 1 ≤ maxU) (h2 : maxU < UINT16_MAX / UPDATE_SIZE) :
    ∃ (g1 : marketPacketGenerator_t) (n : Nat), 1 ≤ n ∧ n ≤ maxU ∧
      iteration g = .again g1 ∧
      AtUpdates g1 T Q (w ++ headerBytes (PACKET_HEADER_SIZE + UPDATE_SIZE * n) n) maxU N d n 0 := by
  have hU : UINT16_MAX / UPDATE_SIZE = 2047 := by decide
  have hM : SIZE_MOD = 18446744073709551616 := by decide
  have hnf : g.m_failReason.isSome = false := by rw [h.noFail]; rfl
  have hlt : (rand g.rng).1 % maxU < maxU := Nat.mod_lt _ (by omega)
  have hn : ((rand g.rng).1 % maxU + 1) % SIZE_MOD = (rand g.rng).1 % maxU + 1 :=
    Nat.mod_eq_of_lt (by omega)
  have hlen : (PACKET_HEADER_SIZE + ((rand g.rng).1 % maxU + 1) * UPDATE_SIZE) % SIZE_MOD
      = PACKET_HEADER_SIZE + UPDATE_SIZE * ((rand g.rng).1 % maxU + 1) := by
    rw [Nat.mul_comm]
    apply Nat.mod_eq_of_lt
    simp only [PACKET_HEADER_SIZE, UPDATE_SIZE]
    omega
  have hne : ¬ maxU = 0 := by omega
  refine ⟨{ g with
      rng := (rand g.rng).2
      m_numUpdates := (rand g.rng).1 % maxU + 1
      m_ph := headerBytes (PACKET_HEADER_SIZE + UPDATE_SIZE * ((rand g.rng).1 % maxU + 1))
        ((rand g.rng).1 % maxU + 1)
      m_oStream := some ⟨w ++ headerBytes
        (PACKET_HEADER_SIZE + UPDATE_SIZE * ((rand g.rng).1 % maxU + 1))
        ((rand g.rng).1 % maxU + 1), none, false⟩
      m_numUpdatesWritten := 0
      m_state := .GENERATE_UPDATES }, (rand g.rng).1 % maxU + 1, by omega, by omega, ?_,
    ⟨rfl, h.noFail, rfl, h.trade, h.quote, h.maxUpdates, h.packets, h.written, h.buffer, rfl,
      rfl⟩⟩
  simp only [iteration, hnf, h.state, writeHeader, h.maxUpdates, hne, hn, hlen, h.sink,
    OStream.write, resetPerPacketVariables]
  simp

theorem packet_step {g : marketPacketGenerator_t} {T Q w : List Byte} {maxU N d : Nat}
    (h : AtHeader g T Q w maxU N d) (h1 : 1 ≤ maxU) (h2 : maxU < UINT16_MAX / UPDATE_SIZE)
    (hT : ValidRecord T) (hQ : ValidRecord Q) (hd : d < N) (hN : N < SIZE_MOD) :
    ∃ (rs : List (List Byte)) (g2 : marketPacketGenerator_t) (j : Nat),
      WellFormedPacket rs ∧ 1 ≤ rs.length ∧ rs.length ≤ maxU ∧ (∀ x ∈ rs, x = T ∨ x = Q) ∧
      AtHeader g2 T Q (w ++ encodePacket rs) maxU N (d + 1) ∧
      ∀ fuel, runStateMachine (j + 2 + fuel) g
        = if d + 1 = N then .ok g2 else runStateMachine fuel g2 := by
  have hU : UINT16_MAX / UPDATE_SIZE = 2047 := by decide
  have hM : SIZE_MOD = 18446744073709551616 := by decide
  obtain ⟨g1, n, hn1, hn2, hit, hat⟩ := writeHeader_spec h h1 h2
  obtain ⟨recs, g2, j, hl, hall, hat2, hrun⟩ := body_loop T Q maxU N d n hT.1 hQ.1 (by omega) hd hN
    (n - 0) 0 g1 _ rfl (by omega) hat
  rw [Nat.sub_zero] at hl
  refine ⟨recs, g2, j, ⟨?_, ?_⟩, by omega, by omega, hall, ?_, fun fuel => ?_⟩
  · rw [hl]
    simp only [PACKET_HEADER_SIZE, UPDATE_SIZE, UINT16_MAX]
    omega
  · intro x hx
    rcases hall x hx with hx | hx <;> subst hx
    · exact hT
    · exact hQ
  · rw [encodePacket, hl, ← List.append_assoc]
    exact hat2
  · rw [show j + 2 + fuel = (j + 1 + fuel) + 1 by omega, runStateMachine, hit]
    exact hrun fuel

theorem packets_loop (T Q : List Byte) (maxU N : Nat) (h1 : 1 ≤ maxU)
    (h2 : maxU < UINT16_MAX / UPDATE_SIZE) (hT : ValidRecord T) (hQ : ValidRecord Q)
    (hN : N < SIZE_MOD) :
    ∀ (rem d : Nat) (g : marketPacketGenerator_t) (w : List Byte), N - d = rem → d < N →
      AtHeader g T Q w maxU N d →
      ∃ (pkts : List (List (List Byte))) (g2 : marketPacketGenerator_t) (j : Nat),
        pkts.length = N - d ∧
        (∀ rs ∈ pkts, WellFormedPacket rs ∧ 1 ≤ rs.length ∧ rs.length ≤ maxU ∧
          ∀ x ∈ rs, x = T ∨ x = Q) ∧
        g2.m_oStream = some ⟨w ++ encodeStream pkts, none, false⟩ ∧ g2.m_failReason = none ∧
        ∀ fuel, j ≤ fuel → runStateMachine fuel g = .ok g2 := by
  intro rem
  induction rem with
  | zero => intro d g w hrem hd; omega
  | succ rem ih =>
    intro d g w hrem hd h
    obtain ⟨rs, g1, j, hwf, hr1, hr2, hall, hat, hrun⟩ := packet_step h h1 h2 hT hQ hd hN
    by_cases hlast : d + 1 = N
    · refine ⟨[rs], g1, j + 2, by simp; omega, ?_, ?_, hat.noFail, fun fuel hf => ?_⟩
      · intro x hx
        rw [List.mem_singleton] at hx
        subst hx
        exact ⟨hwf, hr1, hr2, hall⟩
      · rw [hat.sink]
        simp [encodeStream]
      · obtain ⟨m, rfl⟩ : ∃ m, fuel = j + 2 + m := ⟨fuel - (j + 2), by omega⟩
        rw [hrun, if_pos hlast]
    · obtain ⟨pkts, g2, j2, hl, hall2, hsink, hnf, hrun2⟩ := ih (d + 1) g1 _ (by omega)
        (by omega) hat
      refine ⟨rs :: pkts, g2, j + 2 + j2, by simp [hl]; omega, ?_, ?_, hnf, fun fuel hf => ?_⟩
      · intro x hx
        rcases List.mem_cons.mp hx with hx | hx
        · subst hx
          exact ⟨hwf, hr1, hr2, hall⟩
        · exact hall2 x hx
      · rw [hsink, encodeStream_cons, List.append_assoc]
      · obtain ⟨m, rfl⟩ : ∃ m, fuel = j + 2 + m := ⟨fuel - (j + 2), by omega⟩
        rw [hrun, if_neg hlast]
        exact hrun2 m (by omega)

end marketPacketGenerator_t

/-! ## Generating a stream and processing it -/

theorem generateRandomSymbolLoop_length : ∀ (n : Nat) (acc : List Byte) (r : Rng),
    (generateRandomSymbolLoop n acc r).1.length = acc.length + n := by
  intro n
  induction n with
  | zero => intro acc r; rfl
  | succ n ih =>
    intro acc r
    rw [generateRandomSymbolLoop, ih]
    simp only [List.length_append, List.length_singleton]
    omega

theorem generateRandomSymbol_length (r : Rng) : (generateRandomSymbol r).1.length = 5 := by
  rw [generateRandomSymbol, generateRandomSymbolLoop_length]
  rfl

theorem validRecord_quote (s : List Byte) (a b c : Nat) (hs : s.length = 5) :
    ValidRecord (marketPacketGenerator_t.quoteBytes s a b c)
      ∧ isTrade (marketPacketGenerator_t.quoteBytes s a b c) = false := by
  obtain ⟨x1, x2, x3, x4, x5, rfl⟩ := list_length_five s hs
  refine ⟨⟨?_, ?_, ?_⟩, ?_⟩
  · simp [marketPacketGenerator_t.quoteBytes, u16Bytes, u64Bytes, UPDATE_SIZE]
  · simp [marketPacketGenerator_t.quoteBytes, readU16, getByte, u16Bytes, byteOf, UPDATE_SIZE]
    rfl
  · right; simp [marketPacketGenerator_t.quoteBytes, u16Bytes, TYPE_OFFSET]
  · simp [marketPacketGenerator_t.quoteBytes, isTrade, u16Bytes, TYPE_OFFSET, updateType_e.QUOTE,
      updateType_e.TRADE]

theorem packetLines_templates (T Q : List Byte) (hT : isTrade T = true) (hQ : isTrade Q = false)
    (rs : List (List Byte)) (h : ∀ x ∈ rs, x = T ∨ x = Q) :
    ∃ t, packetLines rs = (List.replicate t (tradeLine T)).flatten := by
  induction rs with
  | nil => exact ⟨0, rfl⟩
  | cons r rs ih =>
    obtain ⟨t, ht⟩ := ih (fun x hx => h x (List.mem_cons_of_mem _ hx))
    have hpl : packetLines (r :: rs)
        = (if isTrade r then tradeLine r else []) ++ packetLines rs := by
      simp [packetLines]
    rcases h r (List.mem_cons_self _ _) with hr | hr <;> subst hr
    · exact ⟨t + 1, by rw [hpl, hT, ht, List.replicate_succ]; simp⟩
    · exact ⟨t, by rw [hpl, hQ, ht]; simp⟩

theorem streamLines_templates (T Q : List Byte) (hT : isTrade T = true) (hQ : isTrade Q = false)
    (ps : List (List (List Byte))) (h : ∀ rs ∈ ps, ∀ x ∈ rs, x = T ∨ x = Q) :
    ∃ t, streamLines ps = (List.replicate t (tradeLine T)).flatten := by
  induction ps with
  | nil => exact ⟨0, rfl⟩
  | cons rs ps ih =>
    obtain ⟨t, ht⟩ := ih (fun x hx => h x (List.mem_cons_of_mem _ hx))
    obtain ⟨t1, ht1⟩ := packetLines_templates T Q hT hQ rs (h rs (List.mem_cons_self _ _))
    exact ⟨t1 + t, by rw [streamLines_cons, ht, ht1, List.replicate_add, List.flatten_append]⟩

namespace marketPacketGenerator_t

theorem generator_initialise_create (r : Rng) :
    ∃ g0, (create (some OStream.empty) r).initialise = .ok g0 ∧
      ValidRecord g0.m_trade ∧ isTrade g0.m_trade = true ∧
      ValidRecord g0.m_quote ∧ isTrade g0.m_quote = false ∧
      g0.m_state = .WRITE_HEADER ∧ g0.m_failReason = none ∧
      g0.m_oStream = some OStream.empty ∧ g0.m_updates.length = UPDATES_IN_WRITE_BUF := by
  have hs1 := generateRandomSymbol_length (rand (rand (rand (rand (rand r).2).2).2).2).2
  have hs2 := generateRandomSymbol_length
    (generateRandomSymbol (rand (rand (rand (rand (rand r).2).2).2).2).2).2
  have hv1 := validRecord_fields _ (List.replicate 14 0) (rand r).1 (rand (rand r).2).1 hs1 rfl
  have hv2 := validRecord_quote _ (rand (rand (rand r).2).2).1
    (rand (rand (rand (rand r).2).2).2).1 (rand (rand (rand (rand (rand r).2).2).2).2).1 hs2
  refine ⟨{ create (some OStream.empty) r with
      m_trade := tradeBytes (generateRandomSymbol (rand (rand (rand (rand (rand r).2).2).2).2).2).1
        (rand r).1 (rand (rand r).2).1
      m_quote := quoteBytes
        (generateRandomSymbol
          (generateRandomSymbol (rand (rand (rand (rand (rand r).2).2).2).2).2).2).1
        (rand (rand (rand r).2).2).1 (rand (rand (rand (rand r).2).2).2).1
        (rand (rand (rand (rand (rand r).2).2).2).2).1
      rng := (generateRandomSymbol
        (generateRandomSymbol (rand (rand (rand (rand (rand r).2).2).2).2).2).2).2
      m_state := .WRITE_HEADER }, ?_, hv1.1, hv1.2, hv2.1, hv2.2, rfl, rfl, rfl, ?_⟩
  · simp [initialise, create]
  · simp [create, UPDATES_IN_WRITE_BUF]

end marketPacketGenerator_t

/-- Claim C1.  For every sequence of random draws, every `numPackets >= 1` (a
`size_t`) and every `maxUpdatesPerPacket` from 1 to 2046: a generator over a
sink that accepts every write initializes, and `generatePackets` returns no
reason, given enough iterations, having written the bytes of `numPackets`
packets of 1 to `maxUpdatesPerPacket` records, each record the trade or the
quote template.  A processor over these bytes initializes; its
`processNextPacket` without a count returns "End of file", its
`processNextPacket(numPackets)` returns no reason, and in both cases the
output is the lines of the trades written, in order: some number of copies of
the line of the trade template. -/
theorem C1_generate_then_process (r : Rng) (numPackets maxUpdatesPerPacket : Nat)
    (hn1 : 1 ≤ numPackets) (hn2 : numPackets < SIZE_MOD)
    (hm1 : 1 ≤ maxUpdatesPerPacket) (hm2 : maxUpdatesPerPacket < 2047) :
    ∃ (g0 g1 : marketPacketGenerator_t) (bytes : List Byte) (pkts : List (List (List Byte)))
      (M : Nat),
      (marketPacketGenerator_t.create (some OStream.empty) r).initialise = .ok g0 ∧
      (∀ fuel, M ≤ fuel →
        g0.generatePackets fuel numPackets maxUpdatesPerPacket = .ok (g1, none)) ∧
      g1.m_oStream = some ⟨bytes, none, false⟩ ∧
      bytes = encodeStream pkts ∧ pkts.length = numPackets ∧
      (∀ rs ∈ pkts, 1 ≤ rs.length ∧ rs.length ≤ maxUpdatesPerPacket ∧
        ∀ x ∈ rs, x = g0.m_trade ∨ x = g0.m_quote) ∧
      ∀ hdr buf : List Byte, ∃ p0 : marketPacketProcessor_t,
        (marketPacketProcessor_t.create (some (IStream.ofBytes bytes)) (some OStream.empty)
          hdr buf).initialise = .ok p0 ∧
        (∃ q K, (∀ fuel, K ≤ fuel →
            p0.processNextPacket fuel none = .ok (q, some "End of file")) ∧
          q.m_outputStream = some ⟨streamLines pkts, none, false⟩) ∧
        (∃ q K, (∀ fuel, K ≤ fuel →
            p0.processNextPacket fuel (some numPackets) = .ok (q, none)) ∧
          q.m_outputStream = some ⟨streamLines pkts, none, false⟩) ∧
        ∃ t, streamLines pkts = (List.replicate t (tradeLine g0.m_trade)).flatten := by
  obtain ⟨g0, hinit, hvT, htT, hvQ, htQ, hstate, hnf, hsink, hbuf⟩ :=
    marketPacketGenerator_t.generator_initialise_create r
  have hU : UINT16_MAX / UPDATE_SIZE = 2047 := by decide
  have hreset : marketPacketGenerator_t.resetPerRunVariables numPackets maxUpdatesPerPacket g0
      = { g0 with m_numMaxUpdates := maxUpdatesPerPacket, m_numPackets := numPackets,
                  m_numPacketsWritten := 0 } := by
    simp only [marketPacketGenerator_t.resetPerRunVariables, hU]
    rw [if_neg (by omega)]
  obtain ⟨pkts, g1, j, hl, hall, hout, hnf1, hrun⟩ := marketPacketGenerator_t.packets_loop
    g0.m_trade g0.m_quote maxUpdatesPerPacket numPackets hm1 (by rw [hU]; exact hm2) hvT hvQ hn2
    (numPackets - 0) 0
    (marketPacketGenerator_t.resetPerRunVariables numPackets maxUpdatesPerPacket g0) [] rfl
    (by omega)
    (by
      rw [hreset]
      exact ⟨hstate, hnf, hsink, rfl, rfl, rfl, rfl, rfl, hbuf⟩)
  rw [List.nil_append] at hout
  have hwf : ∀ rs ∈ pkts, WellFormedPacket rs := fun rs hrs => (hall rs hrs).1
  have hlen : pkts.length = numPackets := by omega
  refine ⟨g0, g1, encodeStream pkts, pkts, j, hinit, fun fuel hf => ?_, hout, rfl, hlen,
    fun rs hrs => ⟨(hall rs hrs).2.1, (hall rs hrs).2.2.1, (hall rs hrs).2.2.2⟩,
    fun hdr buf => ⟨marketPacketProcessor_t.ready (encodeStream pkts) hdr buf, rfl, ?_, ?_, ?_⟩⟩
  · simp [marketPacketGenerator_t.generatePackets, hrun fuel hf, hout, hnf1]
  · obtain ⟨q, N, hq, _, ho, _⟩ := marketPacketProcessor_t.process_to_eof _ pkts [] none 0 none
      hwf (fun c hc => by cases hc) (marketPacketProcessor_t.ready_atCheck _ hdr buf)
    exact ⟨q, N, hq, by simpa using ho⟩
  · obtain ⟨q, N, hq, hat⟩ := marketPacketProcessor_t.process_counted
      (marketPacketProcessor_t.ready (encodeStream pkts) hdr buf) pkts [] [] none 0 hwf
      (by omega) (by simpa using marketPacketProcessor_t.ready_atCheck (encodeStream pkts) hdr buf)
    rw [hlen] at hq
    exact ⟨q, N, hq, by simpa using hat.output⟩
  · exact streamLines_templates g0.m_trade g0.m_quote htT htQ pkts
      (fun rs hrs => (hall rs hrs).2.2.2)

/-- An instance of claim C1: the draws 0, 1, 2, ..., two packets of at most
three records each. -/
theorem C1_generate_then_process_witness :
    ∃ (g0 g1 : marketPacketGenerator_t) (bytes : List Byte) (pkts : List (List (List Byte)))
      (M : Nat),
      (marketPacketGenerator_t.create (some OStream.empty) ⟨fun i => i, 0⟩).initialise = .ok g0 ∧
      (∀ fuel, M ≤ fuel → g0.generatePackets fuel 2 3 = .ok (g1, none)) ∧
      g1.m_oStream = some ⟨bytes, none, false⟩ ∧
      bytes = encodeStream pkts ∧ pkts.length = 2 ∧
      (∀ rs ∈ pkts, 1 ≤ rs.length ∧ rs.length ≤ 3 ∧
        ∀ x ∈ rs, x = g0.m_trade ∨ x = g0.m_quote) ∧
      ∀ hdr buf : List Byte, ∃ p0 : marketPacketProcessor_t,
        (marketPacketProcessor_t.create (some (IStream.ofBytes bytes)) (some OStream.empty)
          hdr buf).initialise = .ok p0 ∧
        (∃ q K, (∀ fuel, K ≤ fuel →
            p0.processNextPacket fuel none = .ok (q, some "End of file")) ∧
          q.m_outputStream = some ⟨streamLines pkts, none, false⟩) ∧
        (∃ q K, (∀ fuel, K ≤ fuel → p0.processNextPacket fuel (some 2) = .ok (q, none)) ∧
          q.m_outputStream = some ⟨streamLines pkts, none, false⟩) ∧
        ∃ t, streamLines pkts = (List.replicate t (tradeLine g0.m_trade)).flatten :=
  C1_generate_then_process ⟨fun i => i, 0⟩ 2 3 (by decide) (by decide) (by decide) (by decide)

namespace marketPacketGenerator_t

/-! ## Any requested number of packets -/

/-- The rounds that write the records of one packet, for any count of packets
written so far: the packet is counted modulo `2 ^ 64`, and the loop is left
when the count then equals the number asked for. -/
theorem body_loop_mod (T Q : List Byte) (maxU N d n : Nat) (hT : T.length = UPDATE_SIZE)
    (hQ : Q.length = UPDATE_SIZE) (hn : n < SIZE_MOD) :
    ∀ (rem k : Nat) (g : marketPacketGenerator_t) (w : List Byte), n - k = rem → k < n →
      AtUpdates g T Q w maxU N d n k →
      ∃ (recs : List (List Byte)) (g2 : marketPacketGenerator_t) (j : Nat),
        recs.length = n - k ∧ (∀ x ∈ recs, x = T ∨ x = Q) ∧
        AtHeader g2 T Q (w ++ recs.flatten) maxU N ((d + 1) % SIZE_MOD) ∧
        ∀ fuel, runStateMachine (j + 1 + fuel) g
          = if (d + 1) % SIZE_MOD = N then .ok g2 else runStateMachine fuel g2 := by
  intro rem
  induction rem using Nat.strong_induction_on with
  | _ rem ih =>
    intro k g w hrem hkn h
    obtain ⟨recs, g1, hgen, hl, hall, h1⟩ := generateUpdates_spec h hT hQ (Nat.le_of_lt hkn) hn
    have hnf : g.m_failReason.isSome = false := by rw [h.noFail]; rfl
    by_cases hlast : n - k ≤ UPDATES_IN_WRITE_BUF
    · have hl2 : recs.length = n - k := by rw [hl]; exact Nat.min_eq_left hlast
      have hdone : g1.m_numUpdatesWritten = g1.m_numUpdates := by
        rw [h1.numUpdatesWritten, h1.numUpdates, hl2]; omega
      refine ⟨recs, { g1 with m_state := .WRITE_HEADER,
                              m_numPacketsWritten := (d + 1) % SIZE_MOD }, 0, hl2,
        hall, ⟨rfl, h1.noFail, h1.sink, h1.trade, h1.quote, h1.maxUpdates, h1.packets, rfl,
          h1.buffer⟩, fun fuel => ?_⟩
      rw [show 0 + 1 + fuel = fuel + 1 by omega, runStateMachine]
      simp only [iteration, hnf, h.state, hgen, hdone, h1.written, h1.packets]
      by_cases hN1 : (d + 1) % SIZE_MOD = N
      · simp [hN1]
      · simp [hN1]
    · have hl2 : recs.length = UPDATES_IN_WRITE_BUF := by rw [hl]; exact Nat.min_eq_right (by omega)
      have hU : UPDATES_IN_WRITE_BUF = 32 := by decide
      have hnd : ¬ g1.m_numUpdatesWritten = g1.m_numUpdates := by
        rw [h1.numUpdatesWritten, h1.numUpdates, hl2]; omega
      obtain ⟨recs2, g2, j, hr2, hall2, hat2, hrun2⟩ := ih (n - (k + recs.length)) (by omega)
        (k + recs.length) g1 (w ++ recs.flatten) rfl (by omega) h1
      refine ⟨recs ++ recs2, g2, j + 1, by rw [List.length_append, hr2]; omega, ?_, ?_,
        fun fuel => ?_⟩
      · intro x hx
        rcases List.mem_append.mp hx with hx | hx
        · exact hall x hx
        · exact hall2 x hx
      · simpa [List.flatten_append, List.append_assoc] using hat2
      · rw [show j + 1 + 1 + fuel = (j + 1 + fuel) + 1 by omega, runStateMachine]
        simp only [iteration, hnf, h.state, hgen, hnd]
        exact hrun2 fuel

theorem packet_step_mod {g : marketPacketGenerator_t} {T Q w : List Byte} {maxU N d : Nat}
    (h : AtHeader g T Q w maxU N d) (h1 : 1 ≤ maxU) (h2 : maxU < UINT16_MAX / UPDATE_SIZE)
    (hT : ValidRecord T) (hQ : ValidRecord Q) :
    ∃ (rs : List (List Byte)) (g2 : marketPacketGenerator_t) (j : Nat),
      WellFormedPacket rs ∧ 1 ≤ rs.length ∧ rs.length ≤ maxU ∧ (∀ x ∈ rs, x = T ∨ x = Q) ∧
      AtHeader g2 T Q (w ++ encodePacket rs) maxU N ((d + 1) % SIZE_MOD) ∧
      ∀ fuel, runStateMachine (j + 2 + fuel) g
        = if (d + 1) % SIZE_MOD = N then .ok g2 else runStateMachine fuel g2 := by
  have hU : UINT16_MAX / UPDATE_SIZE = 2047 := by decide
  have hM : SIZE_MOD = 18446744073709551616 := by decide
  obtain ⟨g1, n, hn1, hn2, hit, hat⟩ := writeHeader_spec h h1 h2
  obtain ⟨recs, g2, j, hl, hall, hat2, hrun⟩ := body_loop_mod T Q maxU N d n hT.1 hQ.1 (by omega)
    (n - 0) 0 g1 _ rfl (by omega) hat
  rw [Nat.sub_zero] at hl
  refine ⟨recs, g2, j, ⟨?_, ?_⟩, by omega, by omega, hall, ?_, fun fuel => ?_⟩
  · rw [hl]
    simp only [PACKET_HEADER_SIZE, UPDATE_SIZE, UINT16_MAX]
    omega
  · intro x hx
    rcases hall x hx with hx | hx <;> subst hx
    · exact hT
    · exact hQ
  · rw [encodePacket, hl, ← List.append_assoc]
    exact hat2
  · rw [show j + 2 + fuel = (j + 1 + fuel) + 1 by omega, runStateMachine, hit]
    exact hrun fuel

/-- A run of the loop from a packet boundary to its end: `packetsPerCall N`
packets in all when it starts with none written. -/
theorem packets_run (T Q : List Byte) (maxU N : Nat) (h1 : 1 ≤ maxU)
    (h2 : maxU < UINT16_MAX / UPDATE_SIZE) (hT : ValidRecord T) (hQ : ValidRecord Q)
    (hN : N < SIZE_MOD) :
    ∀ (rem d : Nat) (g : marketPacketGenerator_t) (w : List Byte),
      packetsPerCall N - d = rem → d < packetsPerCall N → AtHeader g T Q w maxU N d →
      ∃ (pkts : List (List (List Byte))) (g2 : marketPacketGenerator_t) (j : Nat),
        pkts.length = packetsPerCall N - d ∧
        (∀ rs ∈ pkts, WellFormedPacket rs ∧ 1 ≤ rs.length ∧ rs.length ≤ maxU ∧
          ∀ x ∈ rs, x = T ∨ x = Q) ∧
        AtHeader g2 T Q (w ++ encodeStream pkts) maxU N N ∧
        ∀ fuel, j ≤ fuel → runStateMachine fuel g = .ok g2 := by
  have hK : packetsPerCall N ≤ SIZE_MOD := by
    unfold packetsPerCall; split_ifs <;> omega
  have hstop : ∀ d, d < packetsPerCall N →
      ((d + 1) % SIZE_MOD = N ↔ d + 1 = packetsPerCall N) := by
    intro d hd
    unfold packetsPerCall at hd ⊢
    split_ifs at hd ⊢ with h0
    · subst h0
      constructor
      · intro h
        by_contra hne
        rw [Nat.mod_eq_of_lt (by omega)] at h
        omega
      · intro h
        rw [h, Nat.mod_self]
    · rw [Nat.mod_eq_of_lt (by omega)]
  intro rem
  induction rem with
  | zero => intro d g w hrem hd; omega
  | succ rem ih =>
    intro d g w hrem hd h
    obtain ⟨rs, g1, j, hwf, hr1, hr2, hall, hat, hrun⟩ := packet_step_mod h h1 h2 hT hQ
    by_cases hlast : d + 1 = packetsPerCall N
    · have hmod : (d + 1) % SIZE_MOD = N := (hstop d hd).mpr hlast
      rw [hmod] at hat
      refine ⟨[rs], g1, j + 2, by simp; omega, ?_, ?_, fun fuel hf => ?_⟩
      · intro x hx
        rw [List.mem_singleton] at hx
        subst hx
        exact ⟨hwf, hr1, hr2, hall⟩
      · simpa [encodeStream] using hat
      · obtain ⟨m, rfl⟩ : ∃ m, fuel = j + 2 + m := ⟨fuel - (j + 2), by omega⟩
        rw [hrun, if_pos hmod]
    · have hmod : ¬ (d + 1) % SIZE_MOD = N := fun hc => hlast ((hstop d hd).mp hc)
      have hd1 : (d + 1) % SIZE_MOD = d + 1 := Nat.mod_eq_of_lt (by omega)
      rw [hd1] at hat
      obtain ⟨pkts, g2, j2, hl, hall2, hat2, hrun2⟩ := ih (d + 1) g1 _ (by omega)
        (by omega) hat
      refine ⟨rs :: pkts, g2, j + 2 + j2, by simp [hl]; omega, ?_, ?_, fun fuel hf => ?_⟩
      · intro x hx
        rcases List.mem_cons.mp hx with hx | hx
        · subst hx
          exact ⟨hwf, hr1, hr2, hall⟩
        · exact hall2 x hx
      · simpa [encodeStream_cons, List.append_assoc] using hat2
      · obtain ⟨m, rfl⟩ : ∃ m, fuel = j + 2 + m := ⟨fuel - (j + 2), by omega⟩
        rw [hrun, if_neg hmod]
        exact hrun2 m (by omega)

/-- A call of `generatePackets` on a generator that is ready: it returns no
reason, has appended `packetsPerCall numPackets` packets, and leaves the
generator ready for the next call. -/
theorem generatePackets_ready {g : marketPacketGenerator_t} {w : List Byte} (h : Ready g w)
    (numPackets numMaxUpdates : Nat) (hN : numPackets < SIZE_MOD) (h1 : 1 ≤ numMaxUpdates)
    (h2 : numMaxUpdates < UINT16_MAX / UPDATE_SIZE) :
    ∃ (pkts : List (List (List Byte))) (g2 : marketPacketGenerator_t) (M : Nat),
      pkts.length = packetsPerCall numPackets ∧
      (∀ rs ∈ pkts, WellFormedPacket rs ∧ 1 ≤ rs.length ∧ rs.length ≤ numMaxUpdates ∧
        ∀ x ∈ rs, x = g.m_trade ∨ x = g.m_quote) ∧
      Ready g2 (w ++ encodeStream pkts) ∧ g2.m_trade = g.m_trade ∧ g2.m_quote = g.m_quote ∧
      ∀ fuel, M ≤ fuel → g.generatePackets fuel numPackets numMaxUpdates = .ok (g2, none) := by
  have hreset : resetPerRunVariables numPackets numMaxUpdates g
      = { g with m_numMaxUpdates := numMaxUpdates, m_numPackets := numPackets,
                 m_numPacketsWritten := 0 } := by
    simp only [resetPerRunVariables]
    rw [if_neg (by omega)]
  have hK : 0 < packetsPerCall numPackets := by
    unfold packetsPerCall; split_ifs
    · decide
    · omega
  obtain ⟨pkts, g2, j, hl, hall, hat, hrun⟩ := packets_run g.m_trade g.m_quote numMaxUpdates
    numPackets h1 h2 h.trade h.quote hN (packetsPerCall numPackets - 0) 0
    (resetPerRunVariables numPackets numMaxUpdates g) w rfl hK
    (by
      rw [hreset]
      exact ⟨h.state, h.noFail, h.sink, rfl, rfl, rfl, rfl, rfl, h.buffer⟩)
  refine ⟨pkts, g2, j, by omega, hall,
    ⟨hat.state, hat.noFail, hat.sink, hat.buffer, by rw [hat.trade]; exact h.trade,
      by rw [hat.quote]; exact h.quote⟩, hat.trade, hat.quote, fun fuel hf => ?_⟩
  simp [generatePackets, hrun fuel hf, hat.sink, hat.noFail]

end marketPacketGenerator_t

/-! ## Sizes and headers of generated streams -/

theorem encodePacket_length (rs : List (List Byte)) (h : ∀ x ∈ rs, x.length = UPDATE_SIZE) :
    (encodePacket rs).length = PACKET_HEADER_SIZE + UPDATE_SIZE * rs.length := by
  rw [encodePacket, List.length_append, marketPacketProcessor_t.flatten_length_of_valid rs h]
  simp [marketPacketGenerator_t.headerBytes, u16Bytes, PACKET_HEADER_SIZE]

theorem encodeStream_length_bounds (maxU : Nat) (ps : List (List (List Byte)))
    (h : ∀ rs ∈ ps, 1 ≤ rs.length ∧ rs.length ≤ maxU ∧ ∀ x ∈ rs, x.length = UPDATE_SIZE) :
    ps.length * (PACKET_HEADER_SIZE + UPDATE_SIZE) ≤ (encodeStream ps).length ∧
      (encodeStream ps).length ≤ ps.length * (PACKET_HEADER_SIZE + UPDATE_SIZE * maxU) := by
  induction ps with
  | nil => simp [encodeStream]
  | cons rs ps ih =>
    obtain ⟨ih1, ih2⟩ := ih (fun x hx => h x (List.mem_cons_of_mem _ hx))
    obtain ⟨h1, h2, h3⟩ := h rs (List.mem_cons_self _ _)
    have hlen := encodePacket_length rs h3
    have hmul : UPDATE_SIZE * rs.length ≤ UPDATE_SIZE * maxU := Nat.mul_le_mul_left _ h2
    have hmul1 : UPDATE_SIZE * 1 ≤ UPDATE_SIZE * rs.length := Nat.mul_le_mul_left _ h1
    rw [encodeStream_cons, List.length_append, List.length_cons, hlen, Nat.succ_mul, Nat.succ_mul]
    constructor <;> omega

namespace marketPacketGenerator_t

theorem initialise_ready (w : List Byte) (r : Rng) :
    ∃ g0, (create (some ⟨w, none, false⟩) r).initialise = .ok g0 ∧ Ready g0 w ∧
      isTrade g0.m_trade = true ∧ isTrade g0.m_quote = false := by
  have hs1 := generateRandomSymbol_length (rand (rand (rand (rand (rand r).2).2).2).2).2
  have hs2 := generateRandomSymbol_length
    (generateRandomSymbol (rand (rand (rand (rand (rand r).2).2).2).2).2).2
  have hv1 := validRecord_fields _ (List.replicate 14 0) (rand r).1 (rand (rand r).2).1 hs1 rfl
  have hv2 := validRecord_quote _ (rand (rand (rand r).2).2).1
    (rand (rand (rand (rand r).2).2).2).1 (rand (rand (rand (rand (rand r).2).2).2).2).1 hs2
  refine ⟨{ create (some ⟨w, none, false⟩) r with
      m_trade := tradeBytes (generateRandomSymbol (rand (rand (rand (rand (rand r).2).2).2).2).2).1
        (rand r).1 (rand (rand r).2).1
      m_quote := quoteBytes
        (generateRandomSymbol
          (generateRandomSymbol (rand (rand (rand (rand (rand r).2).2).2).2).2).2).1
        (rand (rand (rand r).2).2).1 (rand (rand (rand (rand r).2).2).2).1
        (rand (rand (rand (rand (rand r).2).2).2).2).1
      rng := (generateRandomSymbol
        (generateRandomSymbol (rand (rand (rand (rand (rand r).2).2).2).2).2).2).2
      m_state := .WRITE_HEADER }, ?_, ⟨rfl, rfl, rfl, ?_, hv1.1, hv2.1⟩, hv1.2, hv2.2⟩
  · simp [initialise, create]
  · simp [create, UPDATES_IN_WRITE_BUF]

theorem runStateMachine_succ_gen : ∀ (fuel : Nat) (g q : marketPacketGenerator_t),
    runStateMachine fuel g = .ok q → runStateMachine (fuel + 1) g = .ok q := by
  intro fuel
  induction fuel with
  | zero => intro g q h; simp [runStateMachine] at h
  | succ fuel ih =>
    intro g q h
    rw [runStateMachine] at h ⊢
    cases hi : iteration g with
    | again v => rw [hi] at h; simp only at h ⊢; exact ih v q h
    | leave v => rw [hi] at h; simpa using h
    | abort => rw [hi] at h; simp at h
    | timeout => rw [hi] at h; simp at h

theorem runStateMachine_mono_gen {fuel : Nat} {g q : marketPacketGenerator_t}
    (h : runStateMachine fuel g = .ok q) (m : Nat) : runStateMachine (fuel + m) g = .ok q := by
  induction m with
  | zero => exact h
  | succ m ih => exact runStateMachine_succ_gen _ _ _ ih

theorem generatePackets_ok {fuel n m : Nat} {g q : marketPacketGenerator_t}
    {r : Option String} (h : g.generatePackets fuel n m = .ok (q, r)) :
    runStateMachine fuel (resetPerRunVariables n m g) = .ok q ∧ r = q.m_failReason := by
  unfold generatePackets at h
  cases hrun : runStateMachine fuel (resetPerRunVariables n m g) with
  | ok p1 =>
    rw [hrun] at h
    simp only at h
    cases ho : p1.m_oStream with
    | none => rw [ho] at h; simp at h
    | some o =>
      rw [ho] at h
      simp only at h
      injection h with h
      injection h with h1 h2
      subst h1
      exact ⟨rfl, h2.symm⟩
  | abort => rw [hrun] at h; simp at h
  | timeout => rw [hrun] at h; simp at h

/-- A call that returns, returns the same with any other bound on the number
of rounds under which it returns. -/
theorem generatePackets_unique {g g1 g2 : marketPacketGenerator_t} {r1 r2 : Option String}
    {f1 f2 n m : Nat} (h1 : g.generatePackets f1 n m = .ok (g1, r1))
    (h2 : g.generatePackets f2 n m = .ok (g2, r2)) : g1 = g2 ∧ r1 = r2 := by
  obtain ⟨hr1, e1⟩ := generatePackets_ok h1
  obtain ⟨hr2, e2⟩ := generatePackets_ok h2
  have m1 := runStateMachine_mono_gen hr1 f2
  have m2 := runStateMachine_mono_gen hr2 f1
  rw [Nat.add_comm f2 f1, m1] at m2
  injection m2 with m2
  subst m2
  exact ⟨rfl, by rw [e1, e2]⟩

end marketPacketGenerator_t

/-- Claim C11.  For every sequence of random draws, every `numPackets >= 1` (a
`size_t`) and every `maxUpdatesPerPacket` from 1 to 2046: on an initialized
generator over a sink that accepts every write, `generatePackets` returns no
reason, given enough iterations, and every call that returns has written a
number of bytes `B` with
`numPackets * (4 + 32) <= B <= numPackets * (4 + 32 * maxUpdatesPerPacket)`;
with `maxUpdatesPerPacket = 1` that is `B = 36 * numPackets`. -/
theorem C11_generated_size_bounds (r : Rng) (numPackets maxUpdatesPerPacket : Nat)
    (hn1 : 1 ≤ numPackets) (hn2 : numPackets < SIZE_MOD)
    (hm1 : 1 ≤ maxUpdatesPerPacket) (hm2 : maxUpdatesPerPacket < 2047) :
    ∃ (g0 : marketPacketGenerator_t),
      (marketPacketGenerator_t.create (some OStream.empty) r).initialise = .ok g0 ∧
      (∃ M g1, ∀ fuel, M ≤ fuel →
        g0.generatePackets fuel numPackets maxUpdatesPerPacket = .ok (g1, none)) ∧
      ∀ fuel g1 reason,
        g0.generatePackets fuel numPackets maxUpdatesPerPacket = .ok (g1, reason) →
        reason = none ∧
        ∃ bytes, g1.m_oStream = some ⟨bytes, none, false⟩ ∧
          numPackets * (4 + 32) ≤ bytes.length ∧
          bytes.length ≤ numPackets * (4 + 32 * maxUpdatesPerPacket) ∧
          (maxUpdatesPerPacket = 1 → bytes.length = 36 * numPackets) := by
  obtain ⟨g0, hinit, hready, _, _⟩ := marketPacketGenerator_t.initialise_ready [] r
  have hU : UINT16_MAX / UPDATE_SIZE = 2047 := by decide
  obtain ⟨pkts, g2, M, hl, hall, hr2, _, _, hrun⟩ :=
    marketPacketGenerator_t.generatePackets_ready hready numPackets maxUpdatesPerPacket hn2 hm1
      (by rw [hU]; exact hm2)
  have hK : marketPacketGenerator_t.packetsPerCall numPackets = numPackets := by
    unfold marketPacketGenerator_t.packetsPerCall
    rw [if_neg (by omega)]
  rw [hK] at hl
  have hb := encodeStream_length_bounds maxUpdatesPerPacket pkts (fun rs hrs =>
    ⟨(hall rs hrs).2.1, (hall rs hrs).2.2.1, fun x hx => by
      rcases (hall rs hrs).2.2.2 x hx with h | h <;> rw [h]
      · exact hready.trade.1
      · exact hready.quote.1⟩)
  rw [hl] at hb
  simp only [PACKET_HEADER_SIZE, UPDATE_SIZE] at hb
  refine ⟨g0, hinit, ⟨M, g2, hrun⟩, fun fuel g1 reason hcall => ?_⟩
  obtain ⟨rfl, rfl⟩ := marketPacketGenerator_t.generatePackets_unique hcall (hrun M (Nat.le_refl _))
  refine ⟨rfl, encodeStream pkts, by simpa using hr2.sink, hb.1, hb.2, fun h1 => ?_⟩
  subst h1
  omega

/-- An instance of claim C11: the draws 0, 1, 2, ..., five packets of at most
three records each. -/
theorem C11_generated_size_bounds_witness :
    ∃ (g0 : marketPacketGenerator_t),
      (marketPacketGenerator_t.create (some OStream.empty) ⟨fun i => i, 0⟩).initialise = .ok g0 ∧
      (∃ M g1, ∀ fuel, M ≤ fuel → g0.generatePackets fuel 5 3 = .ok (g1, none)) ∧
      ∀ fuel g1 reason, g0.generatePackets fuel 5 3 = .ok (g1, reason) →
        reason = none ∧
        ∃ bytes, g1.m_oStream = some ⟨bytes, none, false⟩ ∧
          5 * (4 + 32) ≤ bytes.length ∧ bytes.length ≤ 5 * (4 + 32 * 3) ∧
          (3 = 1 → bytes.length = 36 * 5) :=
  C11_generated_size_bounds ⟨fun i => i, 0⟩ 5 3 (by decide) (by decide) (by decide) (by decide)

theorem encodePacket_header (rs : List (List Byte))
    (h : PACKET_HEADER_SIZE + UPDATE_SIZE * rs.length ≤ UINT16_MAX) :
    readU16 (encodePacket rs) 0 = PACKET_HEADER_SIZE + UPDATE_SIZE * rs.length ∧
      readU16 (encodePacket rs) 2 = rs.length ∧
      (encodePacket rs).drop PACKET_HEADER_SIZE = rs.flatten := by
  have hx : PACKET_HEADER_SIZE + UPDATE_SIZE * rs.length < 65536 := by
    simp only [UINT16_MAX, UPDATE_SIZE, PACKET_HEADER_SIZE] at h ⊢
    omega
  have hy : rs.length < 65536 := by
    simp only [UINT16_MAX, UPDATE_SIZE, PACKET_HEADER_SIZE] at h
    omega
  refine ⟨?_, ?_, ?_⟩
  · rw [encodePacket]
    exact readU16_headerBytes_fst _ _ _ hx
  · rw [encodePacket]
    exact readU16_headerBytes_snd _ _ _ hy
  · rw [encodePacket]
    simp [marketPacketGenerator_t.headerBytes, u16Bytes, PACKET_HEADER_SIZE]

/-- Claim C13.  For every sequence of random draws, every `numPackets` and
every `maxUpdatesPerPacket` from 1 to 2046, the bytes that `generatePackets`
writes on an initialized generator are a sequence of packets in each of which
the 16-bit field `numMarketUpdates` is the number `n` of 32-byte records that
follow the header and the 16-bit field `packetLength` is `4 + 32 * n`, a value
of at most 65535. -/
theorem C13_generated_header_invariant (r : Rng) (numPackets maxUpdatesPerPacket : Nat)
    (hn : numPackets < SIZE_MOD) (hm1 : 1 ≤ maxUpdatesPerPacket)
    (hm2 : maxUpdatesPerPacket ≤ 2046) :
    ∃ (g0 g1 : marketPacketGenerator_t) (pkts : List (List (List Byte))) (M : Nat),
      (marketPacketGenerator_t.create (some OStream.empty) r).initialise = .ok g0 ∧
      (∀ fuel, M ≤ fuel →
        g0.generatePackets fuel numPackets maxUpdatesPerPacket = .ok (g1, none)) ∧
      g1.m_oStream = some ⟨(pkts.map encodePacket).flatten, none, false⟩ ∧
      ∀ rs ∈ pkts,
        (∀ x ∈ rs, x.length = 32) ∧
        (encodePacket rs).drop 4 = rs.flatten ∧
        readU16 (encodePacket rs) 2 = rs.length ∧
        readU16 (encodePacket rs) 0 = 4 + 32 * rs.length ∧
        4 + 32 * rs.length ≤ 65535 := by
  obtain ⟨g0, hinit, hready, _, _⟩ := marketPacketGenerator_t.initialise_ready [] r
  have hU : UINT16_MAX / UPDATE_SIZE = 2047 := by decide
  obtain ⟨pkts, g2, M, hl, hall, hr2, _, _, hrun⟩ :=
    marketPacketGenerator_t.generatePackets_ready hready numPackets maxUpdatesPerPacket hn hm1
      (by rw [hU]; omega)
  refine ⟨g0, g2, pkts, M, hinit, hrun, by simpa [encodeStream] using hr2.sink,
    fun rs hrs => ?_⟩
  obtain ⟨hwf, _, _, hrec⟩ := hall rs hrs
  obtain ⟨e1, e2, e3⟩ := encodePacket_header rs hwf.1
  exact ⟨fun x hx => (hwf.2 x hx).1, e3, e2, e1, hwf.1⟩

/-- An instance of claim C13: the draws 0, 1, 2, ..., two packets of at most
2046 records each. -/
theorem C13_generated_header_invariant_witness :
    ∃ (g0 g1 : marketPacketGenerator_t) (pkts : List (List (List Byte))) (M : Nat),
      (marketPacketGenerator_t.create (some OStream.empty) ⟨fun i => i, 0⟩).initialise = .ok g0 ∧
      (∀ fuel, M ≤ fuel → g0.generatePackets fuel 2 2046 = .ok (g1, none)) ∧
      g1.m_oStream = some ⟨(pkts.map encodePacket).flatten, none, false⟩ ∧
      ∀ rs ∈ pkts,
        (∀ x ∈ rs, x.length = 32) ∧
        (encodePacket rs).drop 4 = rs.flatten ∧
        readU16 (encodePacket rs) 2 = rs.length ∧
        readU16 (encodePacket rs) 0 = 4 + 32 * rs.length ∧
        4 + 32 * rs.length ≤ 65535 :=
  C13_generated_header_invariant ⟨fun i => i, 0⟩ 2 2046 (by decide) (by decide) (by decide)

namespace marketPacketGenerator_t

theorem successiveCalls_ready (numPackets numMaxUpdates : Nat) (hN : numPackets < SIZE_MOD)
    (h1 : 1 ≤ numMaxUpdates) (h2 : numMaxUpdates < UINT16_MAX / UPDATE_SIZE) :
    ∀ (k : Nat) (g : marketPacketGenerator_t) (w : List Byte), Ready g w →
      ∃ (pkts : List (List (List Byte))) (g2 : marketPacketGenerator_t) (M : Nat),
        pkts.length = k * packetsPerCall numPackets ∧
        (∀ rs ∈ pkts, WellFormedPacket rs ∧ 1 ≤ rs.length ∧ rs.length ≤ numMaxUpdates) ∧
        Ready g2 (w ++ encodeStream pkts) ∧
        ∀ fuel, M ≤ fuel → successiveCalls fuel numPackets numMaxUpdates k g = .ok (g2, none) := by
  intro k
  induction k with
  | zero =>
    intro g w h
    exact ⟨[], g, 0, by simp, fun rs hrs => absurd hrs (List.not_mem_nil rs),
      by simpa [encodeStream] using h, fun fuel _ => rfl⟩
  | succ k ih =>
    intro g w h
    obtain ⟨p1, g1, M1, hl1, hall1, hr1, _, _, hrun1⟩ :=
      generatePackets_ready h numPackets numMaxUpdates hN h1 h2
    obtain ⟨p2, g2, M2, hl2, hall2, hr2, hrun2⟩ := ih g1 _ hr1
    refine ⟨p1 ++ p2, g2, max M1 M2, ?_, ?_, ?_, fun fuel hf => ?_⟩
    · rw [List.length_append, hl1, hl2, Nat.succ_mul, Nat.add_comm]
    · intro rs hrs
      rcases List.mem_append.mp hrs with hrs | hrs
      · exact ⟨(hall1 rs hrs).1, (hall1 rs hrs).2.1, (hall1 rs hrs).2.2.1⟩
      · exact hall2 rs hrs
    · rw [encodeStream_append, ← List.append_assoc]
      exact hr2
    · rw [successiveCalls, hrun1 fuel (by omega)]
      exact hrun2 fuel (by omega)

end marketPacketGenerator_t

/-- Claim C12.  For every sequence of random draws and every
`maxUpdatesPerPacket` from 1 to 2046, on an initialized generator over a sink
that accepts every write: `k` successive calls `generatePackets(numPackets,
maxUpdatesPerPacket)` all return no reason, given enough iterations, and
append `k` times the same number of packets, each a header and the records it
announces, whatever was generated before.  That number is `numPackets` when
`numPackets >= 1`.  When `numPackets = 0` it is `2 ^ 64`: the count is compared
only after a packet has been written, so the call does not stop at once. -/
theorem C12_packets_per_call (r : Rng) (numPackets maxUpdatesPerPacket k : Nat)
    (hn : numPackets < SIZE_MOD) (hm1 : 1 ≤ maxUpdatesPerPacket)
    (hm2 : maxUpdatesPerPacket < 2047) :
    ∃ (g0 g1 : marketPacketGenerator_t) (pkts : List (List (List Byte))) (M : Nat),
      (marketPacketGenerator_t.create (some OStream.empty) r).initialise = .ok g0 ∧
      (∀ fuel, M ≤ fuel →
        marketPacketGenerator_t.successiveCalls fuel numPackets maxUpdatesPerPacket k g0
          = .ok (g1, none)) ∧
      g1.m_oStream = some ⟨encodeStream pkts, none, false⟩ ∧
      (∀ rs ∈ pkts, WellFormedPacket rs ∧ 1 ≤ rs.length ∧ rs.length ≤ maxUpdatesPerPacket) ∧
      (1 ≤ numPackets → pkts.length = k * numPackets) ∧
      (numPackets = 0 → pkts.length = k * 2 ^ 64) := by
  obtain ⟨g0, hinit, hready, _, _⟩ := marketPacketGenerator_t.initialise_ready [] r
  have hU : UINT16_MAX / UPDATE_SIZE = 2047 := by decide
  obtain ⟨pkts, g1, M, hl, hall, hr1, hrun⟩ :=
    marketPacketGenerator_t.successiveCalls_ready numPackets maxUpdatesPerPacket hn hm1
      (by rw [hU]; exact hm2) k g0 [] hready
  refine ⟨g0, g1, pkts, M, hinit, hrun, by simpa using hr1.sink, hall, fun h => ?_, fun h => ?_⟩
  · rw [hl, marketPacketGenerator_t.packetsPerCall, if_neg (by omega)]
  · rw [hl, marketPacketGenerator_t.packetsPerCall, if_pos h]
    rfl

/-- An instance of claim C12: the draws 0, 1, 2, ..., one call that asks for
no packet and at most one record in a packet. -/
theorem C12_packets_per_call_witness :
    ∃ (g0 g1 : marketPacketGenerator_t) (pkts : List (List (List Byte))) (M : Nat),
      (marketPacketGenerator_t.create (some OStream.empty) ⟨fun i => i, 0⟩).initialise = .ok g0 ∧
      (∀ fuel, M ≤ fuel →
        marketPacketGenerator_t.successiveCalls fuel 0 1 1 g0 = .ok (g1, none)) ∧
      g1.m_oStream = some ⟨encodeStream pkts, none, false⟩ ∧
      (∀ rs ∈ pkts, WellFormedPacket rs ∧ 1 ≤ rs.length ∧ rs.length ≤ 1) ∧
      (1 ≤ 0 → pkts.length = 1 * 0) ∧
      ((0 : Nat) = 0 → pkts.length = 1 * 2 ^ 64) :=
  C12_packets_per_call ⟨fun i => i, 0⟩ 0 1 1 (by decide) (by decide) (by decide)

/-! ## Requests, initialization and classification -/

namespace marketPacketGenerator_t

theorem writeHeader_numUpdates {g g1 : marketPacketGenerator_t} (h : writeHeader g = .ok g1)
    (hmax : g.m_numMaxUpdates < SIZE_MOD) :
    g.m_numMaxUpdates ≠ 0 ∧ g1.m_numUpdates = (rand g.rng).1 % g.m_numMaxUpdates + 1 ∧
      1 ≤ g1.m_numUpdates ∧ g1.m_numUpdates ≤ g.m_numMaxUpdates := by
  unfold writeHeader at h
  simp only at h
  split_ifs at h with h0
  have hlt : (rand g.rng).1 % g.m_numMaxUpdates < g.m_numMaxUpdates :=
    Nat.mod_lt _ (Nat.pos_of_ne_zero h0)
  have hn : ((rand g.rng).1 % g.m_numMaxUpdates + 1) % SIZE_MOD
      = (rand g.rng).1 % g.m_numMaxUpdates + 1 := Nat.mod_eq_of_lt (by omega)
  have key : g1.m_numUpdates = (rand g.rng).1 % g.m_numMaxUpdates + 1 := by
    cases ho : g.m_oStream with
    | none => rw [ho] at h; simp at h
    | some o =>
      rw [ho] at h
      simp only at h
      split_ifs at h <;> (injection h with h; subst h; exact hn)
  exact ⟨h0, key, by omega, by omega⟩

theorem generatePackets_zero_max (g : marketPacketGenerator_t)
    (hs : g.m_state = .WRITE_HEADER) (hf : g.m_failReason = none) (numPackets fuel : Nat)
    (hfuel : 1 ≤ fuel) : g.generatePackets fuel numPackets 0 = .abort := by
  obtain ⟨f, rfl⟩ : ∃ f, fuel = f + 1 := ⟨fuel - 1, by omega⟩
  have hreset : resetPerRunVariables numPackets 0 g
      = { g with m_numMaxUpdates := 0, m_numPackets := numPackets, m_numPacketsWritten := 0 } := by
    simp only [resetPerRunVariables]
    rw [if_neg (by decide)]
  have hit : iteration (resetPerRunVariables numPackets 0 g) = .abort := by
    rw [hreset]
    simp [iteration, hf, hs, writeHeader]
  simp [generatePackets, runStateMachine, hit]

end marketPacketGenerator_t

/-- Claim C14.  The request `maxUpdatesPerPacket = 0` is below the limit and is
accepted, and on an initialized generator `WriteHeader` then takes a remainder
by zero: the call ends abnormally, for every `numPackets`.  For every other
accepted request, `1 <= maxUpdatesPerPacket < 2047`, a `WriteHeader` that
returns has chosen `(r mod maxUpdatesPerPacket) + 1` updates for the draw `r`,
a number from 1 to `maxUpdatesPerPacket`. -/
theorem C14_update_count_draw (r : Rng) :
    ∃ g0 : marketPacketGenerator_t,
      (marketPacketGenerator_t.create (some OStream.empty) r).initialise = .ok g0 ∧
      (marketPacketGenerator_t.resetPerRunVariables 1 0 g0).m_failReason = none ∧
      (∀ numPackets fuel, 1 ≤ fuel → g0.generatePackets fuel numPackets 0 = .abort) ∧
      ∀ (g g1 : marketPacketGenerator_t), 1 ≤ g.m_numMaxUpdates → g.m_numMaxUpdates < 2047 →
        g.writeHeader = .ok g1 →
        g1.m_numUpdates = (rand g.rng).1 % g.m_numMaxUpdates + 1 ∧
          1 ≤ g1.m_numUpdates ∧ g1.m_numUpdates ≤ g.m_numMaxUpdates := by
  obtain ⟨g0, hinit, hready, _, _⟩ := marketPacketGenerator_t.initialise_ready [] r
  refine ⟨g0, hinit, ?_, fun n fuel hf =>
    marketPacketGenerator_t.generatePackets_zero_max g0 hready.state hready.noFail n fuel hf,
    fun g g1 h1 h2 hw => ?_⟩
  · simp only [marketPacketGenerator_t.resetPerRunVariables]
    rw [if_neg (by decide)]
    exact hready.noFail
  · have hM : SIZE_MOD = 18446744073709551616 := by decide
    exact (marketPacketGenerator_t.writeHeader_numUpdates hw (by omega)).2

/-- Claim C15.  For the generator and for the processor, `initialize()` ends
abnormally when a required stream is absent (the sink of the generator, the
source or the sink of the processor) or when the state is not `UNINITIALIZED`;
otherwise it returns, the state is the first working state (`WRITE_HEADER`,
respectively `CHECK_STREAM_VALIDITY`), and the streams and the failure reason
are as before. -/
theorem C15_initialize_contract :
    (∀ g : marketPacketGenerator_t,
      (g.m_oStream = none ∨ g.m_state ≠ .UNINITIALIZED → g.initialise = .abort) ∧
      (g.m_oStream ≠ none ∧ g.m_state = .UNINITIALIZED →
        ∃ g1, g.initialise = .ok g1 ∧ g1.m_state = .WRITE_HEADER ∧
          g1.m_oStream = g.m_oStream ∧ g1.m_failReason = g.m_failReason)) ∧
    (∀ p : marketPacketProcessor_t,
      (p.m_inputStream = none ∨ p.m_outputStream = none ∨ p.m_state ≠ .UNINITIALIZED →
        p.initialise = .abort) ∧
      (p.m_inputStream ≠ none ∧ p.m_outputStream ≠ none ∧ p.m_state = .UNINITIALIZED →
        ∃ p1, p.initialise = .ok p1 ∧ p1.m_state = .CHECK_STREAM_VALIDITY ∧
          p1.m_inputStream = p.m_inputStream ∧ p1.m_outputStream = p.m_outputStream ∧
          p1.m_failReason = p.m_failReason)) := by
  constructor
  · intro g
    constructor
    · intro h
      unfold marketPacketGenerator_t.initialise
      rcases h with h | h
      · simp [h]
      · cases ho : g.m_oStream <;> simp [h]
    · rintro ⟨h1, h2⟩
      cases ho : g.m_oStream with
      | none => exact absurd ho h1
      | some o =>
        unfold marketPacketGenerator_t.initialise
        simp only [ho, h2, Option.isNone_some, Bool.false_eq_true, if_false, ne_eq,
          not_true_eq_false]
        exact ⟨_, rfl, rfl, rfl, rfl⟩
  · intro p
    constructor
    · intro h
      unfold marketPacketProcessor_t.initialise
      rcases h with h | h | h
      · simp [h]
      · cases hi : p.m_inputStream <;> simp [h]
      · cases hi : p.m_inputStream <;> cases ho : p.m_outputStream <;> simp [h]
    · rintro ⟨h1, h2, h3⟩
      cases hi : p.m_inputStream with
      | none => exact absurd hi h1
      | some i =>
        cases ho : p.m_outputStream with
        | none => exact absurd ho h2
        | some o =>
          unfold marketPacketProcessor_t.initialise
          simp only [hi, ho, h3, Option.isNone_some, Bool.false_eq_true, if_false, ne_eq,
            not_true_eq_false]
          exact ⟨_, rfl, rfl, rfl, rfl, rfl⟩

/-- Claim C16.  On a generator that was constructed over a sink and never
initialized, `generatePackets` with any `numPackets` and a
`maxUpdatesPerPacket` below the limit returns "Generator is uninitialized" and
leaves the sink as it was.  On a processor that was constructed over a source
and a sink and never initialized, `processNextPacket` with any count or none
returns "Processor is uninitialized" and leaves both streams as they were. -/
theorem C16_use_before_initialize (o : OStream) (r : Rng) (numPackets maxUpdatesPerPacket : Nat)
    (i : IStream) (o2 : OStream) (hdr buf : List Byte) (count : Option Nat)
    (hm : maxUpdatesPerPacket < 2047) :
    (∃ g1, (∀ fuel, 2 ≤ fuel →
        (marketPacketGenerator_t.create (some o) r).generatePackets fuel numPackets
          maxUpdatesPerPacket = .ok (g1, some "Generator is uninitialized")) ∧
      g1.m_oStream = some o) ∧
    (∃ p1, (∀ fuel, 2 ≤ fuel →
        (marketPacketProcessor_t.create (some i) (some o2) hdr buf).processNextPacket fuel count
          = .ok (p1, some "Processor is uninitialized")) ∧
      p1.m_inputStream = some i ∧ p1.m_outputStream = some o2) := by
  have hU : UINT16_MAX / UPDATE_SIZE = 2047 := by decide
  constructor
  · refine ⟨{ marketPacketGenerator_t.create (some o) r with
        m_numMaxUpdates := maxUpdatesPerPacket, m_numPackets := numPackets,
        m_numPacketsWritten := 0, m_failReason := some "Generator is uninitialized",
        m_state := .WRITE_HEADER }, fun fuel hf => ?_, rfl⟩
    obtain ⟨f, rfl⟩ : ∃ f, fuel = f + 2 := ⟨fuel - 2, by omega⟩
    have hreset : marketPacketGenerator_t.resetPerRunVariables numPackets maxUpdatesPerPacket
        (marketPacketGenerator_t.create (some o) r)
        = { marketPacketGenerator_t.create (some o) r with
            m_numMaxUpdates := maxUpdatesPerPacket, m_numPackets := numPackets,
            m_numPacketsWritten := 0 } := by
      simp only [marketPacketGenerator_t.resetPerRunVariables]
      rw [if_neg (by omega)]
    rw [marketPacketGenerator_t.generatePackets, hreset]
    simp [marketPacketGenerator_t.runStateMachine,
      marketPacketGenerator_t.iteration, marketPacketGenerator_t.create,
      marketPacketGenerator_t.uninitialized]
  · refine ⟨{ marketPacketProcessor_t.create (some i) (some o2) hdr buf with
        m_numPacketsToProcess := count, m_numPacketsProcessed := 0,
        m_failReason := some "Processor is uninitialized",
        m_state := .CHECK_STREAM_VALIDITY }, fun fuel hf => ?_, rfl, rfl⟩
    obtain ⟨f, rfl⟩ : ∃ f, fuel = f + 2 := ⟨fuel - 2, by omega⟩
    simp [marketPacketProcessor_t.processNextPacket, marketPacketProcessor_t.resetPerRunVariables,
      marketPacketProcessor_t.runStateMachine, marketPacketProcessor_t.iteration,
      marketPacketProcessor_t.create, marketPacketProcessor_t.uninitialized]

/-- An instance of claim C16: one packet of one record asked of a generator
over an empty sink; one packet asked of a processor over a non-empty source. -/
theorem C16_use_before_initialize_witness :
    (∃ g1, (∀ fuel, 2 ≤ fuel →
        (marketPacketGenerator_t.create (some OStream.empty) ⟨fun i => i, 0⟩).generatePackets
          fuel 1 1 = .ok (g1, some "Generator is uninitialized")) ∧
      g1.m_oStream = some OStream.empty) ∧
    (∃ p1, (∀ fuel, 2 ≤ fuel →
        (marketPacketProcessor_t.create (some (IStream.ofBytes [36, 0, 1, 0])) (some OStream.empty)
          [] []).processNextPacket fuel (some 1) = .ok (p1, some "Processor is uninitialized")) ∧
      p1.m_inputStream = some (IStream.ofBytes [36, 0, 1, 0]) ∧
      p1.m_outputStream = some OStream.empty) :=
  C16_use_before_initialize OStream.empty ⟨fun i => i, 0⟩ 1 1 (IStream.ofBytes [36, 0, 1, 0])
    OStream.empty [] [] (some 1) (by decide)

/-- Claim C19.  For every buffer and every offset of a record in it,
`isValidUpdatePtr` returns `(32, TRADE)` exactly when the 16-bit length field
is 32 and the type byte is `T`, `(32, QUOTE)` exactly when the length field is
32 and the type byte is `Q`, and `(0, INVALID)` exactly in every other case.
Both templates that `initialize()` of the generator builds classify as valid,
the first as a trade and the second as a quote. -/
theorem C19_record_classification :
    (∀ (buf : List Byte) (off : Nat),
      (marketPacketProcessor_t.isValidUpdatePtr buf off = (32, updateType_e.TRADE) ↔
        readU16 buf off = 32 ∧ buf.getD (off + 2) 0 = byteOf 'T'.toNat) ∧
      (marketPacketProcessor_t.isValidUpdatePtr buf off = (32, updateType_e.QUOTE) ↔
        readU16 buf off = 32 ∧ buf.getD (off + 2) 0 = byteOf 'Q'.toNat) ∧
      (marketPacketProcessor_t.isValidUpdatePtr buf off = (0, updateType_e.INVALID) ↔
        ¬ (readU16 buf off = 32 ∧
          (buf.getD (off + 2) 0 = byteOf 'T'.toNat ∨ buf.getD (off + 2) 0 = byteOf 'Q'.toNat)))) ∧
    (∀ r : Rng, ∃ g0 : marketPacketGenerator_t,
      (marketPacketGenerator_t.create (some OStream.empty) r).initialise = .ok g0 ∧
      marketPacketProcessor_t.isValidUpdatePtr g0.m_trade 0 = (32, updateType_e.TRADE) ∧
      marketPacketProcessor_t.isValidUpdatePtr g0.m_quote 0 = (32, updateType_e.QUOTE)) := by
  have hT : byteOf 'T'.toNat = updateType_e.TRADE := by decide
  have hQ : byteOf 'Q'.toNat = updateType_e.QUOTE := by decide
  have hTQ : updateType_e.TRADE ≠ updateType_e.QUOTE := by decide
  have hTI : updateType_e.TRADE ≠ updateType_e.INVALID := by decide
  have hQI : updateType_e.QUOTE ≠ updateType_e.INVALID := by decide
  constructor
  · intro buf off
    rw [hT, hQ]
    unfold marketPacketProcessor_t.isValidUpdatePtr
    simp only [UPDATE_SIZE, TYPE_OFFSET]
    generalize readU16 buf off = l
    generalize buf.getD (off + 2) 0 = t
    by_cases hl : l = 32
    · subst hl
      by_cases ht : t = updateType_e.TRADE
      · subst ht
        simp [hTQ, hTI]
      · by_cases hq : t = updateType_e.QUOTE
        · subst hq
          simp [hTQ.symm, hQI]
        · simp [ht, hq, Ne.symm hTI, Ne.symm hQI]
    · simp [hl, Ne.symm hTI, Ne.symm hQI]
  · intro r
    obtain ⟨g0, hinit, hready, htT, htQ⟩ := marketPacketGenerator_t.initialise_ready [] r
    refine ⟨g0, hinit, ?_, ?_⟩
    · rw [marketPacketProcessor_t.isValidUpdatePtr_of_valid _ hready.trade]
      simp only [isTrade, decide_eq_true_eq] at htT
      rw [htT]; rfl
    · rw [marketPacketProcessor_t.isValidUpdatePtr_of_valid _ hready.quote]
      rcases hready.quote.2.2 with h | h
      · rw [isTrade, h] at htQ
        simp at htQ
      · rw [h]; rfl

namespace marketPacketGenerator_t

/-! ## The chunks of one packet -/

/-- After `i` rounds in `GENERATE_UPDATES`, with more than `32 * i` records to
write, `32 * i` records have been written. -/
theorem chunks_reached (T Q : List Byte) (maxU N d n : Nat) (hT : T.length = UPDATE_SIZE)
    (hQ : Q.length = UPDATE_SIZE) (hn : n < SIZE_MOD) (g : marketPacketGenerator_t)
    (w : List Byte) (h : AtUpdates g T Q w maxU N d n 0) :
    ∀ i, 32 * i < n →
      ∃ (gi : marketPacketGenerator_t) (done : List (List Byte)),
        (∀ fuel, runStateMachine (i + fuel) g = runStateMachine fuel gi) ∧
        AtUpdates gi T Q (w ++ done.flatten) maxU N d n (32 * i) ∧ done.length = 32 * i ∧
        ∀ x ∈ done, x = T ∨ x = Q := by
  have hU : UPDATES_IN_WRITE_BUF = 32 := by decide
  intro i
  induction i with
  | zero =>
    intro _
    exact ⟨g, [], fun fuel => by rw [Nat.zero_add], by simpa using h, rfl,
      fun x hx => absurd hx (List.not_mem_nil x)⟩
  | succ i ih =>
    intro hi
    obtain ⟨gi, done, hreach, hat, hlen, hall⟩ := ih (by omega)
    obtain ⟨recs, g1, hgen, hl, hrecs, h1⟩ := generateUpdates_spec hat hT hQ (by omega) hn
    have hl2 : recs.length = 32 := by
      rw [hl, hU]; exact Nat.min_eq_right (by omega)
    have hnf : gi.m_failReason.isSome = false := by rw [hat.noFail]; rfl
    have hnd : ¬ g1.m_numUpdatesWritten = g1.m_numUpdates := by
      rw [h1.numUpdatesWritten, h1.numUpdates, hl2]; omega
    refine ⟨g1, done ++ recs, fun fuel => ?_, ?_, by rw [List.length_append, hlen, hl2]; omega,
      fun x hx => ?_⟩
    · rw [show i + 1 + fuel = i + (fuel + 1) by omega, hreach, runStateMachine]
      simp only [iteration, hnf, hat.state, hgen, hnd]
      rfl
    · have h2 := h1
      rw [hl2, show 32 * i + 32 = 32 * (i + 1) by omega] at h2
      simpa [List.flatten_append, List.append_assoc] using h2
    · rcases List.mem_append.mp hx with hx | hx
      · exact hall x hx
      · exact hrecs x hx

end marketPacketGenerator_t

/-- Claim C20.  A generator has written the header of a packet of `n` records,
`1 <= n <= 2046`, and no record yet.  For every `i` below `ceil(n / 32)`, the
state machine reaches after `i` rounds a state where `32 * i` records are
written, and the call of `generateUpdates` there writes one chunk of
`min(32, n - 32 * i)` records of 32 bytes: at most the 32 entries of the write
buffer and at most 1024 bytes.  The number written stays at most `n`, and it is
`n` exactly after the last of the `ceil(n / 32)` chunks, when `n` records
follow the header. -/
theorem C20_chunked_emission (g : marketPacketGenerator_t) (T Q w : List Byte)
    (maxU N d n : Nat) (h : marketPacketGenerator_t.AtUpdates g T Q w maxU N d n 0)
    (hT : T.length = 32) (hQ : Q.length = 32) (hn1 : 1 ≤ n) (hn2 : n ≤ 2046) :
    ∀ i, i < (n + 31) / 32 →
      ∃ (gi g2 : marketPacketGenerator_t) (done chunk : List (List Byte)),
        (∀ fuel, marketPacketGenerator_t.runStateMachine (i + fuel) g
          = marketPacketGenerator_t.runStateMachine fuel gi) ∧
        gi.m_state = .GENERATE_UPDATES ∧ gi.m_numUpdates = n ∧
        gi.m_numUpdatesWritten = 32 * i ∧
        gi.m_oStream = some ⟨w ++ done.flatten, none, false⟩ ∧ done.length = 32 * i ∧
        gi.generateUpdates = .ok g2 ∧
        g2.m_oStream = some ⟨w ++ done.flatten ++ chunk.flatten, none, false⟩ ∧
        chunk.length = min 32 (n - 32 * i) ∧ chunk.length ≤ gi.m_updates.length ∧
        (∀ x ∈ chunk, x.length = 32) ∧ chunk.flatten.length ≤ 1024 ∧
        g2.m_failReason = none ∧
        g2.m_numUpdatesWritten = 32 * i + chunk.length ∧ g2.m_numUpdatesWritten ≤ n ∧
        (g2.m_numUpdatesWritten = n ↔ i + 1 = (n + 31) / 32) ∧
        (g2.m_numUpdatesWritten = n → (done ++ chunk).length = n) := by
  have hU : UPDATES_IN_WRITE_BUF = 32 := by decide
  have hM : SIZE_MOD = 18446744073709551616 := by decide
  intro i hi
  obtain ⟨gi, done, hreach, hat, hlen, _⟩ := marketPacketGenerator_t.chunks_reached T Q maxU N d n
    hT hQ (by omega) g w h i (by omega)
  obtain ⟨recs, g1, hgen, hl, hrecs, h1⟩ :=
    marketPacketGenerator_t.generateUpdates_spec hat hT hQ (by omega) (by omega)
  rw [hU, Nat.min_comm] at hl
  have hle : recs.length ≤ 32 := by rw [hl]; exact Nat.min_le_left _ _
  have hle2 : recs.length ≤ n - 32 * i := by rw [hl]; exact Nat.min_le_right _ _
  have hrl : ∀ x ∈ recs, x.length = 32 := by
    intro x hx
    rcases hrecs x hx with hx | hx <;> rw [hx]
    · exact hT
    · exact hQ
  have hfl : recs.flatten.length = 32 * recs.length :=
    marketPacketProcessor_t.flatten_length_of_valid recs hrl
  have hcases : recs.length = 32 ∨ recs.length = n - 32 * i := by
    rw [hl]; omega
  refine ⟨gi, g1, done, recs, hreach, hat.state, hat.numUpdates, hat.numUpdatesWritten, hat.sink,
    hlen, hgen, h1.sink, hl, by rw [hat.buffer, hU]; exact hle, hrl, by rw [hfl]; omega,
    h1.noFail, h1.numUpdatesWritten, by rw [h1.numUpdatesWritten]; omega, ?_, ?_⟩
  · rw [h1.numUpdatesWritten]
    constructor
    · intro he; omega
    · intro he; omega
  · intro he
    rw [h1.numUpdatesWritten] at he
    rw [List.length_append, hlen]
    exact he

/-- An instance of claim C20: a packet of 70 records, whose third and last
chunk holds 6 records. -/
theorem C20_chunked_emission_witness :
    ∃ (gi g2 : marketPacketGenerator_t) (done chunk : List (List Byte)),
      (∀ fuel, marketPacketGenerator_t.runStateMachine (2 + fuel)
          { marketPacketGenerator_t.create (some OStream.empty) ⟨fun i => i, 0⟩ with
            m_state := .GENERATE_UPDATES, m_numUpdates := 70, m_numMaxUpdates := 100,
            m_numPackets := 1,
            m_trade := marketPacketGenerator_t.tradeBytes (strBytes "ABCDE") 7 9,
            m_quote := marketPacketGenerator_t.quoteBytes (strBytes "FGHIJ") 1 2 3 }
        = marketPacketGenerator_t.runStateMachine fuel gi) ∧
      gi.m_state = .GENERATE_UPDATES ∧ gi.m_numUpdates = 70 ∧
      gi.m_numUpdatesWritten = 32 * 2 ∧
      gi.m_oStream = some ⟨[] ++ done.flatten, none, false⟩ ∧ done.length = 32 * 2 ∧
      gi.generateUpdates = .ok g2 ∧
      g2.m_oStream = some ⟨[] ++ done.flatten ++ chunk.flatten, none, false⟩ ∧
      chunk.length = min 32 (70 - 32 * 2) ∧ chunk.length ≤ gi.m_updates.length ∧
      (∀ x ∈ chunk, x.length = 32) ∧ chunk.flatten.length ≤ 1024 ∧
      g2.m_failReason = none ∧
      g2.m_numUpdatesWritten = 32 * 2 + chunk.length ∧ g2.m_numUpdatesWritten ≤ 70 ∧
      (g2.m_numUpdatesWritten = 70 ↔ 2 + 1 = (70 + 31) / 32) ∧
      (g2.m_numUpdatesWritten = 70 → (done ++ chunk).length = 70) :=
  C20_chunked_emission
    { marketPacketGenerator_t.create (some OStream.empty) ⟨fun i => i, 0⟩ with
      m_state := .GENERATE_UPDATES, m_numUpdates := 70, m_numMaxUpdates := 100,
      m_numPackets := 1,
      m_trade := marketPacketGenerator_t.tradeBytes (strBytes "ABCDE") 7 9,
      m_quote := marketPacketGenerator_t.quoteBytes (strBytes "FGHIJ") 1 2 3 }
    (marketPacketGenerator_t.tradeBytes (strBytes "ABCDE") 7 9)
    (marketPacketGenerator_t.quoteBytes (strBytes "FGHIJ") 1 2 3) [] 100 1 0 70
    (by exact ⟨rfl, rfl, rfl, rfl, rfl, rfl, rfl, rfl, rfl, rfl, rfl⟩) (by decide) (by decide)
    (by decide) (by decide) 2 (by decide)

namespace marketPacketProcessor_t

/-! ## A header that announces more records than its length holds -/

/-- Two states that the loop exchanges for ever. -/
theorem runStateMachine_cycle {a b : marketPacketProcessor_t} (hab : iteration a = .again b)
    (hba : iteration b = .again a) :
    ∀ fuel, runStateMachine fuel a = .timeout ∧ runStateMachine fuel b = .timeout := by
  intro fuel
  induction fuel with
  | zero => exact ⟨rfl, rfl⟩
  | succ fuel ih =>
    constructor
    · rw [runStateMachine, hab]; exact ih.2
    · rw [runStateMachine, hba]; exact ih.1

/-- The state in which the processor fills its buffer after the header
`{packetLength = 4, numMarketUpdates = 1}` at the end of the input. -/
theorem stuck_after_header (fuel : Nat) :
    runStateMachine fuel (resetPerRunVariables none (ready [4, 0, 1, 0] [] [])) = .timeout := by
  have h1 : iteration (resetPerRunVariables none (ready [4, 0, 1, 0] [] []))
      = .again { resetPerRunVariables none (ready [4, 0, 1, 0] [] []) with
          m_state := .READ_HEADER } := by
    rfl
  have h2 : iteration { resetPerRunVariables none (ready [4, 0, 1, 0] [] []) with
          m_state := .READ_HEADER }
      = .again { resetPerRunVariables none (ready [4, 0, 1, 0] [] []) with
          m_inputStream := some (IStream.ofBytes [])
          m_packetHeader := [4, 0, 1, 0]
          m_numUpdatesPacket := 1
          m_state := .READ_PART_BODY } := by
    rfl
  have h3 : iteration { resetPerRunVariables none (ready [4, 0, 1, 0] [] []) with
          m_inputStream := some (IStream.ofBytes [])
          m_packetHeader := [4, 0, 1, 0]
          m_numUpdatesPacket := 1
          m_state := .READ_PART_BODY }
      = .again { resetPerRunVariables none (ready [4, 0, 1, 0] [] []) with
          m_inputStream := some (IStream.ofBytes [])
          m_packetHeader := [4, 0, 1, 0]
          m_numUpdatesPacket := 1
          m_state := .WRITE_UPDATES } := by
    rfl
  have h4 : iteration { resetPerRunVariables none (ready [4, 0, 1, 0] [] []) with
          m_inputStream := some (IStream.ofBytes [])
          m_packetHeader := [4, 0, 1, 0]
          m_numUpdatesPacket := 1
          m_state := .WRITE_UPDATES }
      = .again { resetPerRunVariables none (ready [4, 0, 1, 0] [] []) with
          m_inputStream := some (IStream.ofBytes [])
          m_packetHeader := [4, 0, 1, 0]
          m_numUpdatesPacket := 1
          m_state := .READ_PART_BODY } := by
    rfl
  match fuel with
  | 0 => rfl
  | 1 => rw [runStateMachine, h1]; rfl
  | f + 2 =>
    rw [runStateMachine, h1]
    show runStateMachine (f + 1) _ = _
    rw [runStateMachine, h2]
    exact (runStateMachine_cycle h3 h4 f).1

/-! ## Termination on streams with consistent headers -/

theorem Halts.of_leave {p q : marketPacketProcessor_t} (h : iteration p = .leave q) : Halts p :=
  ⟨1, q, fun fuel hf => by
    obtain ⟨f, rfl⟩ : ∃ f, fuel = f + 1 := ⟨fuel - 1, by omega⟩
    rw [runStateMachine, h]⟩

theorem Halts.step_again {p q : marketPacketProcessor_t} (h : iteration p = .again q)
    (hq : Halts q) : Halts p := by
  obtain ⟨N, r, hr⟩ := hq
  refine ⟨N + 1, r, fun fuel hf => ?_⟩
  obtain ⟨f, rfl⟩ : ∃ f, fuel = f + 1 := ⟨fuel - 1, by omega⟩
  rw [runStateMachine, h]
  exact hr f (by omega)

theorem Halts.of_failed {p : marketPacketProcessor_t} (h : p.m_failReason.isSome = true) :
    Halts p :=
  Halts.of_leave (q := p) (by simp [iteration, h])

theorem isValidUpdatePtr_cases (buf : List Byte) (off : Nat) :
    isValidUpdatePtr buf off = (0, updateType_e.INVALID) ∨
      isValidUpdatePtr buf off = (UPDATE_SIZE, updateType_e.TRADE) ∨
      isValidUpdatePtr buf off = (UPDATE_SIZE, updateType_e.QUOTE) := by
  unfold isValidUpdatePtr
  simp only
  split_ifs with h
  · obtain ⟨h1, h2 | h2⟩ := h
    · right; left; rw [h1, h2]
    · right; right; rw [h1, h2]
  · left; rfl

/-- The scan of a buffer fill, whatever the buffer holds: it ends with a
failure reason, or it has counted every record from `off` up to
`validDataInBuffer`, all of them valid. -/
theorem scanBuffer_total (valid : Nat) (hv : valid + 32 < SIZE_MOD) :
    ∀ (fuel off : Nat) (p : marketPacketProcessor_t), valid ≤ off + 32 * fuel →
      off ≤ valid + 32 →
      p.m_bodyBytesInterpreted + (valid + 32 - off) < SIZE_MOD →
      p.m_numUpdatesRead + (valid + 32 - off) < SIZE_MOD →
      (∃ q, scanBuffer valid fuel off p = .ok q ∧ q.m_failReason.isSome = true) ∨
      (∃ (j : Nat) (tl : List Nat),
        scanBuffer valid fuel off p = .ok { p with
          m_bodyBytesInterpreted := p.m_bodyBytesInterpreted + 32 * j
          m_numUpdatesRead := p.m_numUpdatesRead + j
          m_tradeLocs := tl } ∧
        (off < valid → valid ≤ off + 32 * j ∧ off + 32 * j < valid + 32) ∧
        (¬ off < valid → j = 0) ∧
        ∀ i, i < j → (isValidUpdatePtr p.m_readBuffer (off + 32 * i)).2 ≠ updateType_e.INVALID) := by
  have hM : SIZE_MOD = 18446744073709551616 := by decide
  have hTI : updateType_e.TRADE ≠ updateType_e.INVALID := by decide
  have hQI : updateType_e.QUOTE ≠ updateType_e.INVALID := by decide
  have hQT : updateType_e.QUOTE ≠ updateType_e.TRADE := by decide
  intro fuel
  induction fuel with
  | zero =>
    intro off p hf _ _ _
    right
    have hno : ¬ off < valid := by omega
    refine ⟨0, p.m_tradeLocs, ?_, fun h => by omega, fun _ => rfl, fun i hi => by omega⟩
    simp only [scanBuffer, hno, if_false]
    rfl
  | succ fuel ih =>
    intro off p hf ho hb hr
    by_cases hlt : off < valid
    · have e1 : (p.m_bodyBytesInterpreted + 32) % SIZE_MOD = p.m_bodyBytesInterpreted + 32 :=
        Nat.mod_eq_of_lt (by omega)
      have e2 : (p.m_numUpdatesRead + 1) % SIZE_MOD = p.m_numUpdatesRead + 1 :=
        Nat.mod_eq_of_lt (by omega)
      have e3 : (off + 32) % SIZE_MOD = off + 32 := Nat.mod_eq_of_lt (by omega)
      rcases isValidUpdatePtr_cases p.m_readBuffer off with hc | hc | hc
      · left
        refine ⟨{ p with m_failReason := some "Poorly formed update" }, ?_, rfl⟩
        simp only [scanBuffer, hlt, if_true, hc]
      · have ih2 := ih (off + 32) { p with
            m_bodyBytesInterpreted := p.m_bodyBytesInterpreted + 32
            m_numUpdatesRead := p.m_numUpdatesRead + 1
            m_tradeLocs := p.m_tradeLocs ++ [off] } (by omega) (by omega)
          (by show p.m_bodyBytesInterpreted + 32 + _ < _; omega)
          (by show p.m_numUpdatesRead + 1 + _ < _; omega)
        have hstep : scanBuffer valid (fuel + 1) off p = scanBuffer valid fuel (off + 32) { p with
            m_bodyBytesInterpreted := p.m_bodyBytesInterpreted + 32
            m_numUpdatesRead := p.m_numUpdatesRead + 1
            m_tradeLocs := p.m_tradeLocs ++ [off] } := by
          simp only [scanBuffer, hlt, if_true, hc, hTI, if_false, UPDATE_SIZE, e1, e2, e3]
        rw [hstep]
        rcases ih2 with hfail | ⟨j, tl, hscan, hb1, hb2, hval⟩
        · exact Or.inl hfail
        · right
          refine ⟨j + 1, tl, ?_, fun _ => ?_, fun h => absurd hlt h, fun i hi => ?_⟩
          · rw [hscan]
            simp only [Nat.mul_add, Nat.mul_one, Nat.add_assoc, Nat.add_comm 1 j,
              Nat.add_comm 32 (32 * j)]
          · by_cases h2 : off + 32 < valid
            · have := hb1 h2; omega
            · have := hb2 h2; omega
          · rcases Nat.eq_zero_or_pos i with h0 | h0
            · subst h0
              rw [Nat.mul_zero, Nat.add_zero, hc]
              exact hTI
            · have := hval (i - 1) (by omega)
              rw [show off + 32 + 32 * (i - 1) = off + 32 * i by omega] at this
              exact this
      · have ih2 := ih (off + 32) { p with
            m_bodyBytesInterpreted := p.m_bodyBytesInterpreted + 32
            m_numUpdatesRead := p.m_numUpdatesRead + 1 } (by omega) (by omega)
          (by show p.m_bodyBytesInterpreted + 32 + _ < _; omega)
          (by show p.m_numUpdatesRead + 1 + _ < _; omega)
        have hstep : scanBuffer valid (fuel + 1) off p = scanBuffer valid fuel (off + 32) { p with
            m_bodyBytesInterpreted := p.m_bodyBytesInterpreted + 32
            m_numUpdatesRead := p.m_numUpdatesRead + 1 } := by
          simp only [scanBuffer, hlt, if_true, hc, hQI, hQT, if_false, UPDATE_SIZE, e1, e2, e3]
        rw [hstep]
        rcases ih2 with hfail | ⟨j, tl, hscan, hb1, hb2, hval⟩
        · exact Or.inl hfail
        · right
          refine ⟨j + 1, tl, ?_, fun _ => ?_, fun h => absurd hlt h, fun i hi => ?_⟩
          · rw [hscan]
            simp only [Nat.mul_add, Nat.mul_one, Nat.add_assoc, Nat.add_comm 1 j,
              Nat.add_comm 32 (32 * j)]
          · by_cases h2 : off + 32 < valid
            · have := hb1 h2; omega
            · have := hb2 h2; omega
          · rcases Nat.eq_zero_or_pos i with h0 | h0
            · subst h0
              rw [Nat.mul_zero, Nat.add_zero, hc]
              exact hQI
            · have := hval (i - 1) (by omega)
              rw [show off + 32 + 32 * (i - 1) = off + 32 * i by omega] at this
              exact this
    · right
      refine ⟨0, p.m_tradeLocs, ?_, fun h => absurd h hlt, fun _ => rfl, fun i hi => by omega⟩
      simp only [scanBuffer, hlt, if_false]
      rfl

end marketPacketProcessor_t

namespace marketPacketProcessor_t

theorem Halts.of_reaches {p r : marketPacketProcessor_t} {j : Nat}
    (h : ∀ fuel, runStateMachine (j + fuel) p = runStateMachine fuel r) (hr : Halts r) :
    Halts p := by
  obtain ⟨N, q, hq⟩ := hr
  refine ⟨j + N, q, fun fuel hf => ?_⟩
  obtain ⟨f, rfl⟩ : ∃ f, fuel = j + f := ⟨fuel - j, by omega⟩
  rw [h]
  exact hq f (by omega)

theorem appendTradePtrToStream_frame (p : marketPacketProcessor_t) (loc : Nat) (o : OStream)
    (ho : p.m_outputStream = some o) :
    ∃ (o1 : OStream) (fr : Option String),
      appendTradePtrToStream p loc = .ok { p with m_outputStream := some o1, m_failReason := fr } := by
  unfold appendTradePtrToStream
  rw [ho]
  simp only
  split_ifs
  · exact ⟨_, _, rfl⟩
  · exact ⟨_, p.m_failReason, rfl⟩

theorem writeUpdatesLoop_frame (locs : List Nat) :
    ∀ (p : marketPacketProcessor_t) (o : OStream), p.m_outputStream = some o →
      ∃ (o1 : OStream) (fr : Option String),
        writeUpdatesLoop locs p = .ok { p with m_outputStream := some o1, m_failReason := fr } := by
  induction locs with
  | nil =>
    intro p o ho
    exact ⟨o, p.m_failReason, by rw [writeUpdatesLoop, ← ho]⟩
  | cons loc locs ih =>
    intro p o ho
    obtain ⟨o1, fr1, h1⟩ := appendTradePtrToStream_frame p loc o ho
    obtain ⟨o2, fr2, h2⟩ := ih { p with m_outputStream := some o1, m_failReason := fr1 } o1 rfl
    refine ⟨o2, fr2, ?_⟩
    rw [writeUpdatesLoop, h1]
    simp only
    rw [h2]

theorem writeUpdates_frame (p : marketPacketProcessor_t) (ho : p.m_outputStream.isSome = true) :
    ∃ (o1 : OStream) (fr : Option String),
      writeUpdates p = .ok { p with m_outputStream := some o1, m_failReason := fr,
                                    m_tradeLocs := [] } := by
  obtain ⟨o, ho⟩ := Option.isSome_iff_exists.mp ho
  obtain ⟨o1, fr, h⟩ := writeUpdatesLoop_frame p.m_tradeLocs p o ho
  refine ⟨o1, fr, ?_⟩
  rw [writeUpdates, h]

theorem getD_drop (l : List Byte) (a i : Nat) : (l.drop a).getD i 0 = l.getD (a + i) 0 := by
  simp only [List.getD_eq_getElem?_getD, List.getElem?_drop]

theorem isValidUpdatePtr_drop (l : List Byte) (a off : Nat) :
    isValidUpdatePtr (l.drop a) off = isValidUpdatePtr l (a + off) := by
  simp only [isValidUpdatePtr, readU16, getByte, getD_drop, Nat.add_assoc]

theorem getD_take_append (l x : List Byte) (m i : Nat) (hi : i < m) (hm : m ≤ l.length) :
    (l.take m ++ x).getD i 0 = l.getD i 0 := by
  rw [List.getD_append _ _ _ _ (by simp; omega)]
  simp only [List.getD_eq_getElem?_getD]
  rw [List.getElem?_take_of_lt hi]

theorem isValidUpdatePtr_take_append (l x : List Byte) (m off : Nat) (ho : off + 2 < m)
    (hm : m ≤ l.length) :
    isValidUpdatePtr (l.take m ++ x) off = isValidUpdatePtr l off := by
  simp only [isValidUpdatePtr, readU16, getByte, TYPE_OFFSET]
  rw [getD_take_append l x m off (by omega) hm, getD_take_append l x m (off + 1) (by omega) hm,
    getD_take_append l x m (off + 2) (by omega) hm]

end marketPacketProcessor_t

namespace marketPacketProcessor_t

/-- One call of `readPartBody` on a packet with a consistent header, whatever
the input holds: it sets a failure reason, or it has read and counted the next
`min (n - k) 32` records, all of them valid. -/
theorem readPartBody_total {p : marketPacketProcessor_t} {inp : List Byte} {n k : Nat}
    (h : Filling p inp n k) (hk : k ≤ n) (hn : n ≤ 2047) (c : Nat) (hc : c = min (n - k) 32) :
    (∃ q, readPartBody p = .ok q ∧ q.m_failReason.isSome = true) ∨
    (32 * c ≤ inp.length ∧
      (∀ j, j < c → (isValidUpdatePtr inp (32 * j)).2 ≠ updateType_e.INVALID) ∧
      ∃ (buf : List Byte) (tl : List Nat),
        readPartBody p = .ok { p with
          m_inputStream := some (IStream.ofBytes (inp.drop (32 * c)))
          m_readBuffer := buf
          m_bodyBytesInterpreted := 32 * (k + c)
          m_numUpdatesRead := k + c
          m_tradeLocs := tl }) := by
  have hM : SIZE_MOD = 18446744073709551616 := by decide
  have hc2 : c ≤ 32 ∧ c ≤ n - k ∧ (c = 32 ∨ c = n - k) := by rw [hc]; omega
  have hleft : (p.m_bodySize + SIZE_MOD - p.m_bodyBytesInterpreted) % SIZE_MOD = 32 * (n - k) := by
    rw [h.bodySize, h.bodyBytesInterpreted, hM]; simp only [UPDATE_SIZE]; omega
  have hvalid : (if 32 * (n - k) < READ_BUFFER_SIZE then 32 * (n - k) else READ_BUFFER_SIZE)
      = 32 * c := by
    simp only [READ_BUFFER_SIZE]; split <;> omega
  by_cases hle : 32 * c ≤ inp.length
  · have hread := IStream.read_ofBytes_le inp (32 * c) hle
    have hgood : (IStream.ofBytes (inp.drop (32 * c))).good = true := rfl
    have hrp : readPartBody p = scanBuffer (32 * c) (32 * c) 0 { p with
        m_inputStream := some (IStream.ofBytes (inp.drop (32 * c)))
        m_readBuffer := inp.take (32 * c) ++ p.m_readBuffer.drop (inp.take (32 * c)).length } := by
      simp only [readPartBody, h.input, hleft, hvalid, hread, hgood, Bool.not_true,
        Bool.false_eq_true, if_false]
    rcases scanBuffer_total (32 * c) (by rw [hM]; omega) (32 * c) 0 { p with
        m_inputStream := some (IStream.ofBytes (inp.drop (32 * c)))
        m_readBuffer := inp.take (32 * c) ++ p.m_readBuffer.drop (inp.take (32 * c)).length }
        (by omega) (by omega)
        (by show p.m_bodyBytesInterpreted + _ < _
            rw [h.bodyBytesInterpreted, hM]; simp only [UPDATE_SIZE]; omega)
        (by show p.m_numUpdatesRead + _ < _
            rw [h.numUpdatesRead, hM]; omega)
      with ⟨q, hq, hf⟩ | ⟨j, tl, hscan, hb1, hb2, hval⟩
    · exact Or.inl ⟨q, by rw [hrp, hq], hf⟩
    · right
      have hj : j = c := by
        by_cases h0 : 0 < 32 * c
        · have := hb1 h0; omega
        · have := hb2 h0; omega
      subst hj
      refine ⟨hle, fun i hi => ?_,
        inp.take (32 * j) ++ p.m_readBuffer.drop (inp.take (32 * j)).length, tl, ?_⟩
      · have hv := hval i hi
        have e : isValidUpdatePtr (inp.take (32 * j)
            ++ p.m_readBuffer.drop (inp.take (32 * j)).length) (0 + 32 * i)
            = isValidUpdatePtr inp (32 * i) := by
          rw [Nat.zero_add]
          exact isValidUpdatePtr_take_append inp _ (32 * j) (32 * i) (by omega) hle
        rw [← e]
        exact hv
      · rw [hrp, hscan]
        simp only [h.bodyBytesInterpreted, h.numUpdatesRead, UPDATE_SIZE, Nat.mul_add]
  · left
    have hread : (IStream.ofBytes inp).read (32 * c)
        = ({ IStream.ofBytes inp with rest := [], eofbit := true, failbit := true }, inp) := by
      simp [IStream.read, IStream.ofBytes, IStream.good, hle]
    refine ⟨{ p with
        m_inputStream := some { IStream.ofBytes inp with rest := [], eofbit := true, failbit := true }
        m_readBuffer := inp ++ p.m_readBuffer.drop inp.length
        m_failReason := some "Packet read failed" }, ?_, rfl⟩
    simp only [readPartBody, h.input, hleft, hvalid, hread]
    rfl

end marketPacketProcessor_t

namespace marketPacketProcessor_t

/-- One fill of the buffer and the write that follows, on a packet with a
consistent header: the loop is left, or it goes on with the packet counted or
with the next fill. -/
theorem fill_round {p : marketPacketProcessor_t} {inp : List Byte} {n k : Nat}
    (h : Filling p inp n k) (hk : k ≤ n) (hn : n ≤ 2047) (c : Nat) (hc : c = min (n - k) 32)
    (K : ∀ r : marketPacketProcessor_t, 32 * c ≤ inp.length →
      (∀ j, j < c → (isValidUpdatePtr inp (32 * j)).2 ≠ updateType_e.INVALID) →
      ((k + c = n ∧ Checking r (inp.drop (32 * c)) ∧
          r.m_numPacketsToProcess = p.m_numPacketsToProcess ∧
          r.m_numPacketsProcessed = (p.m_numPacketsProcessed + 1) % SIZE_MOD) ∨
        (k + c < n ∧ Filling r (inp.drop (32 * c)) n (k + c) ∧
          r.m_numPacketsToProcess = p.m_numPacketsToProcess ∧
          r.m_numPacketsProcessed = p.m_numPacketsProcessed)) → Halts r) :
    Halts p := by
  have hnf : p.m_failReason.isSome = false := by rw [h.noFail]; rfl
  rcases readPartBody_total h hk hn c hc with ⟨q, hq, hf⟩ | ⟨hle, hval, buf, tl, hrp⟩
  · have hit : iteration p = .again { q with m_state := .WRITE_UPDATES } := by
      simp only [iteration, hnf, h.state, hq]
      rfl
    exact Halts.step_again hit (Halts.of_failed hf)
  · have hit : iteration p = .again { p with
          m_inputStream := some (IStream.ofBytes (inp.drop (32 * c)))
          m_readBuffer := buf
          m_bodyBytesInterpreted := 32 * (k + c)
          m_numUpdatesRead := k + c
          m_tradeLocs := tl
          m_state := .WRITE_UPDATES } := by
      simp only [iteration, hnf, h.state, hrp]
      rfl
    refine Halts.step_again hit ?_
    obtain ⟨o1, fr, hw⟩ := writeUpdates_frame { p with
          m_inputStream := some (IStream.ofBytes (inp.drop (32 * c)))
          m_readBuffer := buf
          m_bodyBytesInterpreted := 32 * (k + c)
          m_numUpdatesRead := k + c
          m_tradeLocs := tl
          m_state := .WRITE_UPDATES } h.output
    have hnf2 : ({ p with
          m_inputStream := some (IStream.ofBytes (inp.drop (32 * c)))
          m_readBuffer := buf
          m_bodyBytesInterpreted := 32 * (k + c)
          m_numUpdatesRead := k + c
          m_tradeLocs := tl
          m_state := .WRITE_UPDATES } : marketPacketProcessor_t).m_failReason.isSome = false := hnf
    by_cases hd : k + c = n
    · have hit2 : iteration { p with
          m_inputStream := some (IStream.ofBytes (inp.drop (32 * c)))
          m_readBuffer := buf
          m_bodyBytesInterpreted := 32 * (k + c)
          m_numUpdatesRead := k + c
          m_tradeLocs := tl
          m_state := .WRITE_UPDATES } = .again { p with
          m_inputStream := some (IStream.ofBytes (inp.drop (32 * c)))
          m_readBuffer := buf
          m_bodyBytesInterpreted := 32 * (k + c)
          m_numUpdatesRead := k + c
          m_tradeLocs := []
          m_outputStream := some o1
          m_failReason := fr
          m_numPacketsProcessed := (p.m_numPacketsProcessed + 1) % SIZE_MOD
          m_state := .CHECK_STREAM_VALIDITY } := by
        simp only [iteration, hnf2, hw, doneWithPacket]
        simp [h.numUpdatesPacket, hd]
      refine Halts.step_again hit2 ?_
      cases hfr : fr with
      | some x => exact Halts.of_failed (by simp [hfr])
      | none => exact K _ hle hval (Or.inl ⟨hd, ⟨rfl, by simp [hfr], rfl, rfl⟩, rfl, rfl⟩)
    · have hit2 : iteration { p with
          m_inputStream := some (IStream.ofBytes (inp.drop (32 * c)))
          m_readBuffer := buf
          m_bodyBytesInterpreted := 32 * (k + c)
          m_numUpdatesRead := k + c
          m_tradeLocs := tl
          m_state := .WRITE_UPDATES } = .again { p with
          m_inputStream := some (IStream.ofBytes (inp.drop (32 * c)))
          m_readBuffer := buf
          m_bodyBytesInterpreted := 32 * (k + c)
          m_numUpdatesRead := k + c
          m_tradeLocs := []
          m_outputStream := some o1
          m_failReason := fr
          m_state := .READ_PART_BODY } := by
        simp only [iteration, hnf2, hw, doneWithPacket]
        simp [h.numUpdatesPacket, hd]
      refine Halts.step_again hit2 ?_
      cases hfr : fr with
      | some x => exact Halts.of_failed (by simp [hfr])
      | none =>
        have hlt : k + c < n := by omega
        exact K _ hle hval (Or.inr ⟨hlt, ⟨rfl, by simp [hfr], rfl, rfl, h.bodySize, rfl, rfl,
          h.numUpdatesPacket⟩, rfl, rfl⟩)

end marketPacketProcessor_t

namespace marketPacketProcessor_t

/-- The fills of one packet with a consistent header: the loop is left, or the
whole body has been read, all its records are valid, and the packet is
counted. -/
theorem body_halts (n : Nat) (hn : n ≤ 2047) :
    ∀ (rem k : Nat) (p : marketPacketProcessor_t) (inp : List Byte), n - k = rem → k ≤ n →
      Filling p inp n k →
      (∀ r : marketPacketProcessor_t, 32 * rem ≤ inp.length →
        (∀ j, j < rem → (isValidUpdatePtr inp (32 * j)).2 ≠ updateType_e.INVALID) →
        Checking r (inp.drop (32 * rem)) →
        r.m_numPacketsToProcess = p.m_numPacketsToProcess →
        r.m_numPacketsProcessed = (p.m_numPacketsProcessed + 1) % SIZE_MOD → Halts r) →
      Halts p := by
  intro rem
  induction rem using Nat.strong_induction_on with
  | _ rem ih =>
    intro k p inp hrem hk h K
    refine fill_round h hk hn (min (n - k) 32) rfl (fun r hle hval hcase => ?_)
    rcases hcase with ⟨hd, hchk, hc1, hc2⟩ | ⟨hlt, hfill, hc1, hc2⟩
    · have hc : min (n - k) 32 = rem := by omega
      rw [hc] at hle hval hchk
      exact K r hle hval hchk hc1 hc2
    · have hc : min (n - k) 32 = 32 := by omega
      rw [hc] at hle hval hfill
      refine ih (rem - 32) (by omega) (k + 32) r (inp.drop (32 * 32)) (by omega) (by omega) hfill
        (fun r2 hle2 hval2 hchk2 hd1 hd2 => ?_)
      have hlen : (inp.drop (32 * 32)).length = inp.length - 32 * 32 := List.length_drop _ _
      refine K r2 (by omega) (fun j hj => ?_) ?_ (by rw [hd1, hc1]) (by rw [hd2, hc2])
      · by_cases hj32 : j < 32
        · exact hval j hj32
        · have := hval2 (j - 32) (by omega)
          rw [isValidUpdatePtr_drop, show 32 * 32 + 32 * (j - 32) = 32 * j by omega] at this
          exact this
      · rw [List.drop_drop, show 32 * 32 + 32 * (rem - 32) = 32 * rem by omega] at hchk2
        exact hchk2

theorem readU16_lt (buf : List Byte) (off : Nat) : readU16 buf off < 65536 := by
  have h1 := (buf.getD off 0).isLt
  have h2 := (buf.getD (off + 1) 0).isLt
  simp only [readU16, getByte]
  omega

theorem readU16_take_append_two (inp x : List Byte) (h : 4 ≤ inp.length) :
    readU16 (inp.take PACKET_HEADER_SIZE ++ x) 2 = readU16 inp 2 := by
  simp only [readU16, getByte, PACKET_HEADER_SIZE]
  rw [getD_take_append inp x 4 2 (by omega) h, getD_take_append inp x 4 3 (by omega) h]

end marketPacketProcessor_t

namespace marketPacketProcessor_t

theorem check_round {p : marketPacketProcessor_t} {bs : List Byte} (h : Checking p bs)
    (K : bs ≠ [] →
      Halts { p with m_inputStream := some (IStream.ofBytes bs), m_state := .READ_HEADER }) :
    Halts p := by
  have hnf : p.m_failReason.isSome = false := by rw [h.noFail]; rfl
  by_cases hstop : p.m_numPacketsToProcess = some p.m_numPacketsProcessed
  · exact Halts.of_leave (q := p) (by simp [iteration, hnf, h.state, hstop])
  · cases bs with
    | nil =>
      have hit : iteration p = .again { p with
          m_inputStream := some { IStream.ofBytes [] with eofbit := true }
          m_failReason := some "End of file"
          m_state := .READ_HEADER } := by
        simp [iteration, hnf, h.state, hstop, checkStreamValidity, h.input, IStream.ofBytes,
          IStream.peek, IStream.good]
      exact Halts.step_again hit (Halts.of_failed rfl)
    | cons b t =>
      have hit : iteration p = .again { p with
          m_inputStream := some (IStream.ofBytes (b :: t)), m_state := .READ_HEADER } := by
        simp [iteration, hnf, h.state, hstop, checkStreamValidity, h.input, IStream.ofBytes,
          IStream.peek, IStream.good]
      exact Halts.step_again hit (K (by simp))

theorem header_short {p : marketPacketProcessor_t} {bs : List Byte}
    (hs : p.m_state = .READ_HEADER) (hf : p.m_failReason = none)
    (hi : p.m_inputStream = some (IStream.ofBytes bs)) (hlen : bs.length < PACKET_HEADER_SIZE) :
    Halts p := by
  have hnf : p.m_failReason.isSome = false := by rw [hf]; rfl
  have hread : (IStream.ofBytes bs).read PACKET_HEADER_SIZE
      = ({ IStream.ofBytes bs with rest := [], eofbit := true, failbit := true }, bs) := by
    have : ¬ PACKET_HEADER_SIZE ≤ bs.length := by omega
    simp [IStream.read, IStream.ofBytes, IStream.good, this]
  have hit : iteration p = .again { p with
      m_inputStream := some { IStream.ofBytes bs with rest := [], eofbit := true, failbit := true }
      m_packetHeader := bs ++ p.m_packetHeader.drop bs.length
      m_failReason := some "Packet header read failed"
      m_state := .READ_PART_BODY } := by
    simp only [iteration, hnf, hs, readHeader, hi, hread]
    rfl
  exact Halts.step_again hit (Halts.of_failed rfl)

theorem header_rejected {p : marketPacketProcessor_t} {bs : List Byte}
    (hs : p.m_state = .READ_HEADER) (hf : p.m_failReason = none)
    (hi : p.m_inputStream = some (IStream.ofBytes bs)) (hlen : PACKET_HEADER_SIZE ≤ bs.length)
    (hl : readU16 bs 0 < PACKET_HEADER_SIZE) : Halts p := by
  have hnf : p.m_failReason.isSome = false := by rw [hf]; rfl
  have hread := IStream.read_ofBytes_le bs PACKET_HEADER_SIZE hlen
  have hnofail : (IStream.ofBytes (bs.drop PACKET_HEADER_SIZE)).fail = false := rfl
  have hpl : readU16 (bs.take PACKET_HEADER_SIZE
      ++ p.m_packetHeader.drop (bs.take PACKET_HEADER_SIZE).length) 0 < PACKET_HEADER_SIZE := by
    rw [readU16_take_append bs _ hlen]; exact hl
  have hit : iteration p = .again { p with
      m_inputStream := some (IStream.ofBytes (bs.drop PACKET_HEADER_SIZE))
      m_packetHeader := bs.take PACKET_HEADER_SIZE
        ++ p.m_packetHeader.drop (bs.take PACKET_HEADER_SIZE).length
      m_failReason := some "Poorly formed packet header"
      m_state := .READ_PART_BODY } := by
    simp only [iteration, hnf, hs, readHeader, hi, hread, hnofail, packetLength, hpl,
      Bool.false_eq_true, if_false, if_true]
  exact Halts.step_again hit (Halts.of_failed rfl)

theorem header_accepted {p : marketPacketProcessor_t} {bs : List Byte}
    (hs : p.m_state = .READ_HEADER) (hf : p.m_failReason = none)
    (hi : p.m_inputStream = some (IStream.ofBytes bs)) (ho : p.m_outputStream.isSome = true)
    (hlen : PACKET_HEADER_SIZE ≤ bs.length)
    (hl : readU16 bs 0 = PACKET_HEADER_SIZE + UPDATE_SIZE * readU16 bs 2) :
    ∃ r, iteration p = .again r ∧ Filling r (bs.drop PACKET_HEADER_SIZE) (readU16 bs 2) 0 ∧
      r.m_numPacketsToProcess = p.m_numPacketsToProcess ∧
      r.m_numPacketsProcessed = p.m_numPacketsProcessed := by
  have hM : SIZE_MOD = 18446744073709551616 := by decide
  have hnf : p.m_failReason.isSome = false := by rw [hf]; rfl
  have hread := IStream.read_ofBytes_le bs PACKET_HEADER_SIZE hlen
  have hnofail : (IStream.ofBytes (bs.drop PACKET_HEADER_SIZE)).fail = false := rfl
  have hb := readU16_lt bs 2
  have hpl : readU16 (bs.take PACKET_HEADER_SIZE
      ++ p.m_packetHeader.drop (bs.take PACKET_HEADER_SIZE).length) 0
      = PACKET_HEADER_SIZE + UPDATE_SIZE * readU16 bs 2 := by
    rw [readU16_take_append bs _ hlen]; exact hl
  have hnu : readU16 (bs.take PACKET_HEADER_SIZE
      ++ p.m_packetHeader.drop (bs.take PACKET_HEADER_SIZE).length) 2 = readU16 bs 2 :=
    readU16_take_append_two bs _ hlen
  have hnot : ¬ PACKET_HEADER_SIZE + UPDATE_SIZE * readU16 bs 2 < PACKET_HEADER_SIZE := by omega
  have hbody : (PACKET_HEADER_SIZE + UPDATE_SIZE * readU16 bs 2 + SIZE_MOD - PACKET_HEADER_SIZE)
      % SIZE_MOD = UPDATE_SIZE * readU16 bs 2 := by
    simp only [PACKET_HEADER_SIZE, UPDATE_SIZE, hM]
    omega
  refine ⟨{ p with
      m_inputStream := some (IStream.ofBytes (bs.drop PACKET_HEADER_SIZE))
      m_packetHeader := bs.take PACKET_HEADER_SIZE
        ++ p.m_packetHeader.drop (bs.take PACKET_HEADER_SIZE).length
      m_numUpdatesPacket := readU16 bs 2
      m_numUpdatesRead := 0
      m_bodySize := UPDATE_SIZE * readU16 bs 2
      m_bodyBytesInterpreted := 0
      m_state := .READ_PART_BODY }, ?_, ⟨rfl, hf, rfl, ho, rfl, rfl, rfl, rfl⟩, rfl, rfl⟩
  simp only [iteration, hnf, hs, readHeader, hi, hread, hnofail, packetLength, hpl, hnot,
    Bool.false_eq_true, if_false, resetPerPacketVariables, numMarketUpdates, hnu, hbody]

/-- Whole-input consistency gives the consistency of the headers read, for
every count and every number of packets counted so far. -/
theorem ConsistentHeaders.read {bs : List Byte} (hc : ConsistentHeaders bs) :
    ∀ (count : Option Nat) (d : Nat), HeadersReadConsistent count d bs := by
  induction hc with
  | short bs h => intro count d; exact .short d bs h
  | rejected bs h hl => intro count d; exact .rejected d bs h hl
  | packet bs h hl _ ih =>
    intro count d
    exact .packet d bs h hl (fun h1 h2 => ih h1 h2 count _)

/-- From a packet boundary on, over input whose headers, as far as the call
comes to read them, are consistent, the loop is left after finitely many
rounds. -/
theorem reading_halts (count : Option Nat) (d : Nat) (bs : List Byte)
    (hc : HeadersReadConsistent count d bs) :
    ∀ p : marketPacketProcessor_t, Checking p bs → p.m_numPacketsToProcess = count →
      p.m_numPacketsProcessed = d → Halts p := by
  induction hc with
  | reached d bs h =>
    intro p hp hc1 hc2
    have hnf : p.m_failReason.isSome = false := by rw [hp.noFail]; rfl
    have hstop : p.m_numPacketsToProcess = some p.m_numPacketsProcessed := by
      rw [hc1, hc2]; exact h
    exact Halts.of_leave (q := p) (by simp [iteration, hnf, hp.state, hstop])
  | short d bs h =>
    intro p hp _ _
    exact check_round hp (fun _ => header_short rfl hp.noFail rfl h)
  | rejected d bs h hl =>
    intro p hp _ _
    exact check_round hp (fun _ => header_rejected rfl hp.noFail rfl h hl)
  | packet d bs h hl hrest ih =>
    intro p hp hc1 hc2
    refine check_round hp (fun _ => ?_)
    obtain ⟨r, hit, hfill, hr1, hr2⟩ := header_accepted
      (p := { p with m_inputStream := some (IStream.ofBytes bs), m_state := .READ_HEADER })
      rfl hp.noFail rfl hp.output h hl
    have hb := readU16_lt bs 0
    have hn : readU16 bs 2 ≤ 2047 := by
      simp only [PACKET_HEADER_SIZE, UPDATE_SIZE] at hl
      omega
    refine Halts.step_again hit (body_halts (readU16 bs 2) hn (readU16 bs 2 - 0) 0 r
      (bs.drop PACKET_HEADER_SIZE) rfl (Nat.zero_le _) hfill
      (fun r2 hle hval hchk hd1 hd2 => ?_))
    have hlen : (bs.drop PACKET_HEADER_SIZE).length = bs.length - PACKET_HEADER_SIZE :=
      List.length_drop _ _
    simp only [Nat.sub_zero] at hle hval hchk
    refine ih ?_ (fun j hj => ?_) r2 ?_ ?_ ?_
    · simp only [PACKET_HEADER_SIZE, UPDATE_SIZE] at hlen h hle ⊢
      omega
    · have := hval j hj
      rw [isValidUpdatePtr_drop] at this
      exact this
    · rw [List.drop_drop] at hchk
      exact hchk
    · rw [hd1, hr1]; exact hc1
    · rw [hd2, hr2]
      show (p.m_numPacketsProcessed + 1) % SIZE_MOD = _
      rw [hc2]

end marketPacketProcessor_t

namespace marketPacketProcessor_t

theorem iteration_count {p q : marketPacketProcessor_t} (h : iteration p = .again q) :
    q.m_numPacketsToProcess = p.m_numPacketsToProcess := by
  by_cases hf : p.m_failReason.isSome = true
  · simp [iteration, hf] at h
  · cases hs : p.m_state with
    | UNINITIALIZED =>
      simp only [iteration, hf, hs] at h
      injection h with h
      subst h
      rfl
    | CHECK_STREAM_VALIDITY =>
      by_cases hx : p.m_numPacketsToProcess = some p.m_numPacketsProcessed
      · simp [iteration, hf, hs, hx] at h
      · cases hH : checkStreamValidity p with
        | ok p1 =>
          simp only [iteration, hf, hs, hx, hH] at h
          injection h with h
          subst h
          exact (counters_kept checkStreamValidity checkStreamValidity_setCount p p1 hH).1
        | abort => simp [iteration, hf, hs, hx, hH] at h
        | timeout => simp [iteration, hf, hs, hx, hH] at h
    | READ_HEADER =>
      cases hH : readHeader p with
      | ok p1 =>
        simp only [iteration, hf, hs, hH] at h
        injection h with h
        subst h
        exact (counters_kept readHeader readHeader_setCount p p1 hH).1
      | abort => simp [iteration, hf, hs, hH] at h
      | timeout => simp [iteration, hf, hs, hH] at h
    | READ_PART_BODY =>
      cases hH : readPartBody p with
      | ok p1 =>
        simp only [iteration, hf, hs, hH] at h
        injection h with h
        subst h
        exact (counters_kept readPartBody readPartBody_setCount p p1 hH).1
      | abort => simp [iteration, hf, hs, hH] at h
      | timeout => simp [iteration, hf, hs, hH] at h
    | WRITE_UPDATES =>
      cases hH : writeUpdates p with
      | ok p1 =>
        have hk := (counters_kept writeUpdates writeUpdates_setCount p p1 hH).1
        simp only [iteration, hf, hs, hH] at h
        split_ifs at h <;> (injection h with h; subst h; exact hk)
      | abort => simp [iteration, hf, hs, hH] at h
      | timeout => simp [iteration, hf, hs, hH] at h

theorem iteration_leave_cases {p q : marketPacketProcessor_t} (h : iteration p = .leave q) :
    q = p ∧ (p.m_failReason.isSome = true ∨
      p.m_numPacketsToProcess = some p.m_numPacketsProcessed) := by
  by_cases hf : p.m_failReason.isSome = true
  · simp only [iteration, hf, if_true] at h
    injection h with h
    exact ⟨h.symm, Or.inl hf⟩
  · cases hs : p.m_state with
    | UNINITIALIZED => simp [iteration, hf, hs] at h
    | CHECK_STREAM_VALIDITY =>
      by_cases hx : p.m_numPacketsToProcess = some p.m_numPacketsProcessed
      · simp only [iteration, hf, hs, hx, if_true] at h
        simp only [Bool.false_eq_true, if_false] at h
        injection h with h
        exact ⟨h.symm, Or.inr hx⟩
      · cases hH : checkStreamValidity p <;> simp [iteration, hf, hs, hx, hH] at h
    | READ_HEADER => cases hH : readHeader p <;> simp [iteration, hf, hs, hH] at h
    | READ_PART_BODY => cases hH : readPartBody p <;> simp [iteration, hf, hs, hH] at h
    | WRITE_UPDATES =>
      cases hH : writeUpdates p with
      | ok p1 =>
        by_cases hd : doneWithPacket p1 = true <;> simp [iteration, hf, hs, hH, hd] at h
      | abort => simp [iteration, hf, hs, hH] at h
      | timeout => simp [iteration, hf, hs, hH] at h

/-- A run that returns has kept the count it was asked for, and stops with a
failure reason or with that count reached. -/
theorem runStateMachine_end : ∀ (fuel : Nat) (p q : marketPacketProcessor_t),
    runStateMachine fuel p = .ok q →
    q.m_numPacketsToProcess = p.m_numPacketsToProcess ∧
      (q.m_failReason.isSome = true ∨
        q.m_numPacketsToProcess = some q.m_numPacketsProcessed) := by
  intro fuel
  induction fuel with
  | zero => intro p q h; simp [runStateMachine] at h
  | succ fuel ih =>
    intro p q h
    rw [runStateMachine] at h
    cases hi : iteration p with
    | again v =>
      rw [hi] at h
      obtain ⟨h1, h2⟩ := ih v q h
      exact ⟨h1.trans (iteration_count hi), h2⟩
    | leave v =>
      rw [hi] at h
      injection h with h
      subst h
      obtain ⟨rfl, hc⟩ := iteration_leave_cases hi
      exact ⟨rfl, hc⟩
    | abort => rw [hi] at h; simp at h
    | timeout => rw [hi] at h; simp at h

end marketPacketProcessor_t

/-- Claim C17.  The claim fails on the 4-byte input that is the header
`{packetLength = 4, numMarketUpdates = 1}`: `processNextPacket` without a count
on an initialized processor returns under no bound on the number of rounds of
the state machine, since the body has no bytes left to read and the announced
record is never counted.  The claim holds of every call whose headers, as far
as the call comes to read them, are consistent: over every finite input in
which each header read before the requested count is reached is cut short, or
has `packetLength < 4`, or has `packetLength = 4 + 32 * numMarketUpdates`
(whatever the records hold, wherever the input ends, and whatever follows the
last packet the count asks for), over every sink and for every count or none,
`processNextPacket` on an initialized processor returns after finitely many
rounds; it returns no reason only when the count it was asked for is reached,
and a failure reason otherwise. -/
theorem C17_termination :
    (∀ fuel, (marketPacketProcessor_t.ready [4, 0, 1, 0] [] []).processNextPacket fuel none
      = .timeout) ∧
    ∀ (bs : List Byte) (o : OStream) (hdr buf : List Byte) (count : Option Nat)
      (p0 : marketPacketProcessor_t),
      HeadersReadConsistent count 0 bs →
      (marketPacketProcessor_t.create (some (IStream.ofBytes bs)) (some o) hdr
        buf).initialise = .ok p0 →
      ∃ (N : Nat) (q : marketPacketProcessor_t) (r : Option String),
        (∀ fuel, N ≤ fuel → p0.processNextPacket fuel count = .ok (q, r)) ∧
        (r = none → count = some q.m_numPacketsProcessed) := by
  refine ⟨fun fuel => ?_, fun bs o hdr buf count p0 hc hinit => ?_⟩
  · rw [marketPacketProcessor_t.processNextPacket,
      marketPacketProcessor_t.stuck_after_header fuel]
  obtain ⟨hst, ho, hout⟩ := marketPacketProcessor_t.initialise_state hinit
  have hp0 : p0 = { marketPacketProcessor_t.create (some (IStream.ofBytes bs)) (some o) hdr buf
      with m_state := .CHECK_STREAM_VALIDITY } := by
    simp [marketPacketProcessor_t.initialise, marketPacketProcessor_t.create] at hinit
    rw [← hinit]
    rfl
  have hchk : marketPacketProcessor_t.Checking
      (marketPacketProcessor_t.resetPerRunVariables count p0) bs := by
    rw [hp0]
    exact ⟨rfl, rfl, rfl, rfl⟩
  obtain ⟨N, q, hq⟩ := marketPacketProcessor_t.reading_halts count 0 bs hc _ hchk rfl rfl
  have hqo : q.m_outputStream.isSome = true :=
    marketPacketProcessor_t.runStateMachine_output N
      (marketPacketProcessor_t.resetPerRunVariables count p0) q hout (hq N (Nat.le_refl _))
  obtain ⟨oq, hoq⟩ := Option.isSome_iff_exists.mp hqo
  obtain ⟨hcnt, hend⟩ := marketPacketProcessor_t.runStateMachine_end N _ q (hq N (Nat.le_refl _))
  refine ⟨N, q, q.m_failReason, fun fuel hf =>
    marketPacketProcessor_t.processNextPacket_of_run (hq fuel hf) hoq, fun hr => ?_⟩
  rcases hend with h | h
  · rw [hr] at h; simp at h
  · rw [← h, hcnt]
    rfl

/-- An instance of claim C17: a call for one packet over a packet of one
trade that is followed by the header `{packetLength = 4, numMarketUpdates =
1}` returns; the header after the packet is not read. -/
theorem C17_termination_witness :
    ∃ (N : Nat) (q : marketPacketProcessor_t) (r : Option String),
      (∀ fuel, N ≤ fuel →
        (marketPacketProcessor_t.ready
          ([36, 0, 1, 0] ++ marketPacketGenerator_t.tradeBytes (strBytes "ABCDE") 7 9
            ++ [4, 0, 1, 0]) [] []).processNextPacket fuel (some 1) = .ok (q, r)) ∧
      (r = none → some 1 = some q.m_numPacketsProcessed) :=
  C17_termination.2
    ([36, 0, 1, 0] ++ marketPacketGenerator_t.tradeBytes (strBytes "ABCDE") 7 9 ++ [4, 0, 1, 0])
    OStream.empty [] [] (some 1) _
    (HeadersReadConsistent.packet 0 _ (by decide) (by decide)
      (fun _ _ => HeadersReadConsistent.reached _ _ rfl))
    rfl

namespace marketPacketProcessor_t

/-! ## The two fields of a header -/

theorem scanBuffer_input (valid : Nat) : ∀ (fuel off : Nat) (p q : marketPacketProcessor_t),
    scanBuffer valid fuel off p = .ok q → q.m_inputStream = p.m_inputStream := by
  intro fuel
  induction fuel with
  | zero =>
    intro off p q h
    unfold scanBuffer at h
    split_ifs at h
    injection h with h; subst h; rfl
  | succ fuel ih =>
    intro off p q h
    unfold scanBuffer at h
    simp only at h
    split_ifs at h <;>
      first
      | (injection h with h; subst h; rfl)
      | (have h2 := ih _ _ _ h; exact h2)

/-- The first fill after a header: `min (bodySize, 1024)` bytes are taken from
the input when it holds as many, and the read fails when it holds fewer. -/
theorem first_fill (p : marketPacketProcessor_t) (inp : List Byte) (b : Nat)
    (hi : p.m_inputStream = some (IStream.ofBytes inp)) (hb : p.m_bodySize = b)
    (hb2 : b < 65536) (h0 : p.m_bodyBytesInterpreted = 0) (hr : p.m_numUpdatesRead = 0) :
    (min b 1024 ≤ inp.length →
      ∃ p2, readPartBody p = .ok p2 ∧
        p2.m_inputStream = some (IStream.ofBytes (inp.drop (min b 1024)))) ∧
    (inp.length < min b 1024 →
      ∃ p2, readPartBody p = .ok p2 ∧ p2.m_failReason = some "Packet read failed") := by
  have hM : SIZE_MOD = 18446744073709551616 := by decide
  have hleft : (p.m_bodySize + SIZE_MOD - p.m_bodyBytesInterpreted) % SIZE_MOD = b := by
    rw [hb, h0, hM]; omega
  have hvalid : (if b < READ_BUFFER_SIZE then b else READ_BUFFER_SIZE) = min b 1024 := by
    simp only [READ_BUFFER_SIZE]; split <;> omega
  have hm : min b 1024 ≤ 1024 := Nat.min_le_right _ _
  constructor
  · intro hle
    have hread := IStream.read_ofBytes_le inp (min b 1024) hle
    have hgood : (IStream.ofBytes (inp.drop (min b 1024))).good = true := rfl
    have hrp : readPartBody p = scanBuffer (min b 1024) (min b 1024) 0 { p with
        m_inputStream := some (IStream.ofBytes (inp.drop (min b 1024)))
        m_readBuffer := inp.take (min b 1024)
          ++ p.m_readBuffer.drop (inp.take (min b 1024)).length } := by
      simp only [readPartBody, hi, hleft, hvalid, hread, hgood, Bool.not_true,
        Bool.false_eq_true, if_false]
    rcases scanBuffer_total (min b 1024) (by rw [hM]; omega) (min b 1024) 0 { p with
        m_inputStream := some (IStream.ofBytes (inp.drop (min b 1024)))
        m_readBuffer := inp.take (min b 1024)
          ++ p.m_readBuffer.drop (inp.take (min b 1024)).length }
        (by omega) (by omega)
        (by show p.m_bodyBytesInterpreted + _ < _; rw [h0, hM]; omega)
        (by show p.m_numUpdatesRead + _ < _; rw [hr, hM]; omega)
      with ⟨q, hq, _⟩ | ⟨j, tl, hscan, _⟩
    · exact ⟨q, by rw [hrp, hq], by rw [scanBuffer_input _ _ _ _ _ hq]⟩
    · exact ⟨_, by rw [hrp, hscan], rfl⟩
  · intro hlt
    have hnle : ¬ min b 1024 ≤ inp.length := by omega
    have hread : (IStream.ofBytes inp).read (min b 1024)
        = ({ IStream.ofBytes inp with rest := [], eofbit := true, failbit := true }, inp) := by
      simp [IStream.read, IStream.ofBytes, IStream.good, hnle]
    refine ⟨{ p with
        m_inputStream := some { IStream.ofBytes inp with rest := [], eofbit := true, failbit := true }
        m_readBuffer := inp ++ p.m_readBuffer.drop inp.length
        m_failReason := some "Packet read failed" }, ?_, rfl⟩
    simp only [readPartBody, hi, hleft, hvalid, hread]
    rfl

end marketPacketProcessor_t

/-- Claim C18, amended.  `readHeader` accepts every header whose
`packetLength` is at least 4, whatever its `numMarketUpdates`: the two fields
are not compared.  It takes `packetLength - 4` as the number of body bytes and
`numMarketUpdates` as the number of records.  The fill that follows reads
`min (packetLength - 4, 1024)` bytes from the input, whatever
`numMarketUpdates` is, and fails with "Packet read failed" when the input
holds fewer; `numMarketUpdates` only decides when the packet is complete. -/
theorem C18_packetLength_drives_reads (p : marketPacketProcessor_t) (bs : List Byte)
    (hi : p.m_inputStream = some (IStream.ofBytes bs)) (hlen : 4 ≤ bs.length)
    (hL : 4 ≤ readU16 bs 0) :
    ∃ p1, p.readHeader = .ok p1 ∧ p1.m_failReason = p.m_failReason ∧
      p1.m_numUpdatesPacket = readU16 bs 2 ∧ p1.m_bodySize = readU16 bs 0 - 4 ∧
      p1.m_inputStream = some (IStream.ofBytes (bs.drop 4)) ∧
      (min (readU16 bs 0 - 4) 1024 ≤ bs.length - 4 →
        ∃ p2, p1.readPartBody = .ok p2 ∧
          p2.m_inputStream
            = some (IStream.ofBytes (bs.drop (4 + min (readU16 bs 0 - 4) 1024)))) ∧
      (bs.length - 4 < min (readU16 bs 0 - 4) 1024 →
        ∃ p2, p1.readPartBody = .ok p2 ∧ p2.m_failReason = some "Packet read failed") ∧
      ∀ q : marketPacketProcessor_t,
        q.doneWithPacket = true ↔ q.m_numUpdatesRead = q.m_numUpdatesPacket := by
  have hM : SIZE_MOD = 18446744073709551616 := by decide
  have hlen4 : PACKET_HEADER_SIZE ≤ bs.length := hlen
  have hread := marketPacketProcessor_t.IStream.read_ofBytes_le bs PACKET_HEADER_SIZE hlen4
  have hnofail : (IStream.ofBytes (bs.drop PACKET_HEADER_SIZE)).fail = false := rfl
  have hb := marketPacketProcessor_t.readU16_lt bs 0
  have hpl : readU16 (bs.take PACKET_HEADER_SIZE
      ++ p.m_packetHeader.drop (bs.take PACKET_HEADER_SIZE).length) 0 = readU16 bs 0 :=
    marketPacketProcessor_t.readU16_take_append bs _ hlen4
  have hnu : readU16 (bs.take PACKET_HEADER_SIZE
      ++ p.m_packetHeader.drop (bs.take PACKET_HEADER_SIZE).length) 2 = readU16 bs 2 :=
    marketPacketProcessor_t.readU16_take_append_two bs _ hlen4
  have hnot : ¬ readU16 bs 0 < PACKET_HEADER_SIZE := by
    simp only [PACKET_HEADER_SIZE]; omega
  have hbody : (readU16 bs 0 + SIZE_MOD - PACKET_HEADER_SIZE) % SIZE_MOD = readU16 bs 0 - 4 := by
    simp only [PACKET_HEADER_SIZE, hM]
    omega
  have hrh : p.readHeader = .ok { p with
      m_inputStream := some (IStream.ofBytes (bs.drop PACKET_HEADER_SIZE))
      m_packetHeader := bs.take PACKET_HEADER_SIZE
        ++ p.m_packetHeader.drop (bs.take PACKET_HEADER_SIZE).length
      m_numUpdatesPacket := readU16 bs 2
      m_numUpdatesRead := 0
      m_bodySize := readU16 bs 0 - 4
      m_bodyBytesInterpreted := 0 } := by
    simp only [marketPacketProcessor_t.readHeader, hi, hread, hnofail,
      marketPacketProcessor_t.packetLength, hpl, hnot, Bool.false_eq_true, if_false,
      marketPacketProcessor_t.resetPerPacketVariables, marketPacketProcessor_t.numMarketUpdates,
      hnu, hbody]
  have hfill := marketPacketProcessor_t.first_fill { p with
      m_inputStream := some (IStream.ofBytes (bs.drop PACKET_HEADER_SIZE))
      m_packetHeader := bs.take PACKET_HEADER_SIZE
        ++ p.m_packetHeader.drop (bs.take PACKET_HEADER_SIZE).length
      m_numUpdatesPacket := readU16 bs 2
      m_numUpdatesRead := 0
      m_bodySize := readU16 bs 0 - 4
      m_bodyBytesInterpreted := 0 } (bs.drop PACKET_HEADER_SIZE) (readU16 bs 0 - 4) rfl rfl
    (by omega) rfl rfl
  have hdl : (bs.drop PACKET_HEADER_SIZE).length = bs.length - 4 := List.length_drop _ _
  rw [hdl] at hfill
  refine ⟨_, hrh, rfl, rfl, rfl, rfl, fun h => ?_, hfill.2, fun q => ?_⟩
  · obtain ⟨p2, h1, h2⟩ := hfill.1 h
    refine ⟨p2, h1, ?_⟩
    rw [h2, List.drop_drop]
    rfl
  · simp [marketPacketProcessor_t.doneWithPacket]

namespace marketPacketProcessor_t

/-- The run on a header that announces 64 body bytes and one record, followed
by the 32 bytes of one trade: the first fill asks for 64 bytes and fails. -/
theorem long_header_run (fuel : Nat) (hf : 4 ≤ fuel) :
    ∃ q, runStateMachine fuel (resetPerRunVariables none
        (ready (marketPacketGenerator_t.headerBytes 68 1
          ++ (u16Bytes 32 ++ [updateType_e.TRADE] ++ strBytes "ABCDE" ++ u16Bytes 7 ++ u64Bytes 9
            ++ List.replicate 14 0)) [] [])) = .ok q ∧
      q.m_failReason = some "Packet read failed" ∧ q.m_outputStream = some OStream.empty ∧
      q.m_numUpdatesRead = 0 := by
  have h : runStateMachine 4 (resetPerRunVariables none
        (ready (marketPacketGenerator_t.headerBytes 68 1
          ++ (u16Bytes 32 ++ [updateType_e.TRADE] ++ strBytes "ABCDE" ++ u16Bytes 7 ++ u64Bytes 9
            ++ List.replicate 14 0)) [] []))
      = .ok { resetPerRunVariables none
        (ready (marketPacketGenerator_t.headerBytes 68 1
          ++ (u16Bytes 32 ++ [updateType_e.TRADE] ++ strBytes "ABCDE" ++ u16Bytes 7 ++ u64Bytes 9
            ++ List.replicate 14 0)) [] []) with
          m_inputStream := some { IStream.ofBytes [] with eofbit := true, failbit := true }
          m_packetHeader := [68, 0, 1, 0]
          m_readBuffer := u16Bytes 32 ++ [updateType_e.TRADE] ++ strBytes "ABCDE" ++ u16Bytes 7
            ++ u64Bytes 9 ++ List.replicate 14 0
          m_numUpdatesPacket := 1
          m_bodySize := 64
          m_failReason := some "Packet read failed"
          m_state := .WRITE_UPDATES } := by
    rfl
  obtain ⟨m, rfl⟩ : ∃ m, fuel = 4 + m := ⟨fuel - 4, by omega⟩
  exact ⟨_, runStateMachine_mono h m, rfl, rfl, rfl⟩

/-- The run on the header that announces 32 body bytes and one record, followed
by the 32 bytes of one trade. -/
theorem exact_header_run (fuel : Nat) (hf : 6 ≤ fuel) :
    ∃ q, runStateMachine fuel (resetPerRunVariables none
        (ready (marketPacketGenerator_t.headerBytes 36 1
          ++ (u16Bytes 32 ++ [updateType_e.TRADE] ++ strBytes "ABCDE" ++ u16Bytes 7 ++ u64Bytes 9
            ++ List.replicate 14 0)) [] [])) = .ok q ∧
      q.m_failReason = some "End of file" ∧
      q.m_outputStream = some ⟨strBytes "Trade: " ++ strBytes "ABCDE" ++ strBytes " Size: "
        ++ decimal 7 ++ strBytes " Price: " ++ decimal 9 ++ strBytes "\n", none, false⟩ ∧
      q.m_numUpdatesRead = 1 := by
  have h : (runStateMachine 6 (resetPerRunVariables none
        (ready (marketPacketGenerator_t.headerBytes 36 1
          ++ (u16Bytes 32 ++ [updateType_e.TRADE] ++ strBytes "ABCDE" ++ u16Bytes 7 ++ u64Bytes 9
            ++ List.replicate 14 0)) [] []))).map
        (fun q => (q.m_failReason, q.m_outputStream, q.m_numUpdatesRead))
      = .ok (some "End of file",
          some ⟨strBytes "Trade: " ++ strBytes "ABCDE" ++ strBytes " Size: "
            ++ decimal 7 ++ strBytes " Price: " ++ decimal 9 ++ strBytes "\n", none, false⟩,
          1) := by
    rfl
  obtain ⟨m, rfl⟩ : ∃ m, fuel = 6 + m := ⟨fuel - 6, by omega⟩
  cases hrun : runStateMachine 6 (resetPerRunVariables none
        (ready (marketPacketGenerator_t.headerBytes 36 1
          ++ (u16Bytes 32 ++ [updateType_e.TRADE] ++ strBytes "ABCDE" ++ u16Bytes 7 ++ u64Bytes 9
            ++ List.replicate 14 0)) [] [])) with
  | ok q =>
    rw [hrun] at h
    simp only [Res.map, Res.ok.injEq, Prod.mk.injEq] at h
    exact ⟨q, runStateMachine_mono hrun m, h.1, h.2.1, h.2.2⟩
  | abort => rw [hrun] at h; cases h
  | timeout => rw [hrun] at h; cases h

end marketPacketProcessor_t

/-- Claim C18, refuted as stated: two streams that differ only in the
`packetLength` of their one header (36 and 68, both at least 4, with
`numMarketUpdates = 1` and the same trade record after it) are not processed
alike.  With 36 the trade line is written, one record is counted and the call
reports the end of the file; with 68 the first fill asks for 64 bytes, finds
32, and the call reports "Packet read failed" with nothing written and no
record counted. -/
theorem C18_counterexample :
    ∃ (N : Nat) (q1 q2 : marketPacketProcessor_t),
      (∀ fuel, N ≤ fuel →
        (marketPacketProcessor_t.ready (marketPacketGenerator_t.headerBytes 36 1
          ++ (u16Bytes 32 ++ [updateType_e.TRADE] ++ strBytes "ABCDE" ++ u16Bytes 7 ++ u64Bytes 9
            ++ List.replicate 14 0)) [] []).processNextPacket fuel none
          = .ok (q1, some "End of file") ∧
        (marketPacketProcessor_t.ready (marketPacketGenerator_t.headerBytes 68 1
          ++ (u16Bytes 32 ++ [updateType_e.TRADE] ++ strBytes "ABCDE" ++ u16Bytes 7 ++ u64Bytes 9
            ++ List.replicate 14 0)) [] []).processNextPacket fuel none
          = .ok (q2, some "Packet read failed")) ∧
      q1.m_outputStream = some ⟨strBytes "Trade: " ++ strBytes "ABCDE" ++ strBytes " Size: "
        ++ decimal 7 ++ strBytes " Price: " ++ decimal 9 ++ strBytes "\n", none, false⟩ ∧
      q2.m_outputStream = some ⟨[], none, false⟩ ∧
      q1.m_numUpdatesRead = 1 ∧ q2.m_numUpdatesRead = 0 := by
  obtain ⟨q1, h1, hf1, ho1, hn1⟩ := marketPacketProcessor_t.exact_header_run 6 (Nat.le_refl _)
  obtain ⟨q2, h2, hf2, ho2, hn2⟩ := marketPacketProcessor_t.long_header_run 6 (by decide)
  refine ⟨6, q1, q2, fun fuel hf => ?_, ho1, ho2, hn1, hn2⟩
  obtain ⟨m, rfl⟩ : ∃ m, fuel = 6 + m := ⟨fuel - 6, by omega⟩
  constructor
  · rw [marketPacketProcessor_t.processNextPacket,
      marketPacketProcessor_t.runStateMachine_mono h1 m]
    simp only [ho1, hf1]
  · rw [marketPacketProcessor_t.processNextPacket,
      marketPacketProcessor_t.runStateMachine_mono h2 m]
    simp only [ho2, hf2]

/-- An instance of claim C18 as amended: after the header
`{packetLength = 68, numMarketUpdates = 1}` and 32 further bytes, the header
is accepted with 64 body bytes and one record announced, and the fill that
follows fails for want of 64 bytes. -/
theorem C18_packetLength_drives_reads_witness :
    ∃ p1, (marketPacketProcessor_t.ready ([68, 0, 1, 0] ++ List.replicate 32 0) [] []).readHeader
        = .ok p1 ∧
      p1.m_numUpdatesPacket = 1 ∧ p1.m_bodySize = 64 ∧
      p1.m_inputStream = some (IStream.ofBytes (List.replicate 32 0)) ∧
      ∃ p2, p1.readPartBody = .ok p2 ∧ p2.m_failReason = some "Packet read failed" := by
  obtain ⟨p1, h1, _, h3, h4, h5, _, h7, _⟩ := C18_packetLength_drives_reads
    (marketPacketProcessor_t.ready ([68, 0, 1, 0] ++ List.replicate 32 0) [] [])
    ([68, 0, 1, 0] ++ List.replicate 32 0) rfl (by decide) (by decide)
  exact ⟨p1, h1, h3, h4, h5, h7 (by decide)⟩

namespace marketPacketProcessor_t

/-! ## Calls after a failure -/

/-- A call on a processor that holds a failure reason changes the two counters
of the run and nothing else, and returns the reason held. -/
theorem processNextPacket_latched (p : marketPacketProcessor_t) (r : String) (o : OStream)
    (h : p.m_failReason = some r) (ho : p.m_outputStream = some o) (c : Option Nat)
    (fuel : Nat) (hf : 1 ≤ fuel) :
    processNextPacket fuel c p = .ok (resetPerRunVariables c p, some r) := by
  obtain ⟨k, rfl⟩ : ∃ k, fuel = k + 1 := ⟨fuel - 1, by omega⟩
  simp [processNextPacket, runStateMachine, iteration, resetPerRunVariables, h, ho]

theorem calls_latched (r : String) (o : OStream) (fuel : Nat) (hf : 1 ≤ fuel) :
    ∀ (cs : List (Option Nat)) (p : marketPacketProcessor_t),
      p.m_failReason = some r → p.m_outputStream = some o →
      ∃ q, calls fuel cs p = .ok (q, cs.map (fun _ => some r)) ∧
        q.m_failReason = some r ∧ q.m_inputStream = p.m_inputStream ∧
        q.m_outputStream = p.m_outputStream ∧ q.m_state = p.m_state := by
  intro cs
  induction cs with
  | nil => intro p h _; exact ⟨p, rfl, h, rfl, rfl, rfl⟩
  | cons c cs ih =>
    intro p h ho
    obtain ⟨q, hq, h1, h2, h3, h4⟩ := ih (resetPerRunVariables c p) h ho
    refine ⟨q, ?_, h1, h2, h3, h4⟩
    rw [calls, processNextPacket_latched p r o h ho c fuel hf]
    simp only [hq, List.map_cons]

end marketPacketProcessor_t

namespace marketPacketGenerator_t

/-- A call on a generator that holds a failure reason returns a reason and
leaves the sink alone; the reason is the one held unless the request is
oversized. -/
theorem generatePackets_latched (g : marketPacketGenerator_t) (r : String) (o : OStream)
    (h : g.m_failReason = some r) (ho : g.m_oStream = some o) (n m : Nat)
    (fuel : Nat) (hf : 1 ≤ fuel) :
    ∃ g1 r1, generatePackets fuel n m g = .ok (g1, some r1) ∧ g1.m_failReason = some r1 ∧
      g1.m_oStream = some o ∧ g1.m_state = g.m_state ∧ (m < 2047 → r1 = r) := by
  have hb : UINT16_MAX / UPDATE_SIZE = 2047 := by decide
  by_cases hm : m ≥ UINT16_MAX / UPDATE_SIZE
  · refine ⟨{ g with m_failReason := some "Can't request that many updates in a packet" },
      "Can't request that many updates in a packet", ?_, rfl, ho, rfl, fun h2 => ?_⟩
    · have hrun := runStateMachine_latched
        { g with m_failReason := some "Can't request that many updates in a packet" } _ rfl
        fuel hf
      rw [generatePackets, resetPerRunVariables, if_pos hm, hrun]
      simp only [ho]
    · omega
  · refine ⟨{ g with m_numMaxUpdates := m, m_numPackets := n, m_numPacketsWritten := 0 }, r,
      ?_, h, ho, rfl, fun _ => rfl⟩
    have hrun := runStateMachine_latched
      { g with m_numMaxUpdates := m, m_numPackets := n, m_numPacketsWritten := 0 } r h fuel hf
    rw [generatePackets, resetPerRunVariables, if_neg hm, hrun]
    simp only [ho, h]

theorem calls_latched_gen (o : OStream) (fuel : Nat) (hf : 1 ≤ fuel) :
    ∀ (cs : List (Nat × Nat)) (g : marketPacketGenerator_t) (r : String),
      g.m_failReason = some r → g.m_oStream = some o →
      ∃ q rs, calls fuel cs g = .ok (q, rs) ∧ rs.length = cs.length ∧
        (∀ x ∈ rs, x.isSome = true) ∧
        ((∀ c ∈ cs, c.2 < 2047) → rs = cs.map (fun _ => some r)) ∧
        q.m_oStream = some o ∧ q.m_state = g.m_state := by
  intro cs
  induction cs with
  | nil =>
    intro g r _ ho
    exact ⟨g, [], rfl, rfl, fun x hx => absurd hx (List.not_mem_nil x), fun _ => rfl, ho, rfl⟩
  | cons c cs ih =>
    intro g r h ho
    obtain ⟨g1, r1, hcall, hf1, ho1, hs1, hr1⟩ := generatePackets_latched g r o h ho c.1 c.2 fuel hf
    obtain ⟨q, rs, hq, hl, hall, hsame, hqo, hqs⟩ := ih g1 r1 hf1 ho1
    refine ⟨q, some r1 :: rs, ?_, by simp [hl], ?_, ?_, hqo, by rw [hqs, hs1]⟩
    · rw [calls, hcall]
      simp only [hq]
    · intro x hx
      rcases List.mem_cons.mp hx with hx | hx
      · rw [hx]; rfl
      · exact hall x hx
    · intro hv
      have h1 := hr1 (hv c (List.mem_cons_self _ _))
      subst h1
      rw [hsame (fun x hx => hv x (List.mem_cons_of_mem _ hx))]
      rfl

end marketPacketGenerator_t

/-- Claim C24.  Once a call of `processNextPacket` has returned a reason `r`
("End of file" included), every later call on that processor, whatever count
it is given (also a count of 0 or no count), returns the same reason `r`; the
input stream and the output stream are afterwards as that first call left
them: nothing is read and nothing is written. -/
theorem C24_processor_failure_latched (p q : marketPacketProcessor_t) (c0 : Option Nat)
    (r : String) (fuel0 : Nat) (h : p.processNextPacket fuel0 c0 = .ok (q, some r))
    (cs : List (Option Nat)) (fuel : Nat) (hf : 1 ≤ fuel) :
    ∃ q1, q.calls fuel cs = .ok (q1, cs.map (fun _ => some r)) ∧
      q1.m_inputStream = q.m_inputStream ∧ q1.m_outputStream = q.m_outputStream := by
  obtain ⟨_, hr, o, ho⟩ := marketPacketProcessor_t.processNextPacket_ok h
  obtain ⟨q1, h1, _, h2, h3, _⟩ :=
    marketPacketProcessor_t.calls_latched r o fuel hf cs q hr.symm ho
  exact ⟨q1, h1, h2, h3⟩

/-- An instance of claim C24: on an empty input the first call returns "End of
file"; so do a call for no packet and a call without a count after it. -/
theorem C24_processor_failure_latched_witness :
    ∃ q q1, (marketPacketProcessor_t.ready [] [] []).processNextPacket 2 none
        = .ok (q, some "End of file") ∧
      q.calls 1 [some 0, none] = .ok (q1, [some "End of file", some "End of file"]) ∧
      q1.m_inputStream = q.m_inputStream ∧ q1.m_outputStream = q.m_outputStream := by
  have h : (marketPacketProcessor_t.ready [] [] []).processNextPacket 2 none
      = .ok ({ marketPacketProcessor_t.ready [] [] [] with
          m_inputStream := some { IStream.ofBytes [] with eofbit := true }
          m_failReason := some "End of file"
          m_state := .READ_HEADER }, some "End of file") := by
    rfl
  obtain ⟨q1, h1, h2, h3⟩ := C24_processor_failure_latched _ _ _ _ _ h [some 0, none] 1
    (Nat.le_refl 1)
  exact ⟨_, q1, h, h1, h2, h3⟩

/-- Claim C25.  Once a call of `generatePackets` has returned a reason, every
later call on that generator returns a reason, whatever its arguments, and
leaves the sink as that first call left it; the reason is the one first
returned as long as no later request is oversized. -/
theorem C25_generator_failure_latched (g q : marketPacketGenerator_t) (n0 m0 fuel0 : Nat)
    (r : String) (h : g.generatePackets fuel0 n0 m0 = .ok (q, some r))
    (cs : List (Nat × Nat)) (fuel : Nat) (hf : 1 ≤ fuel) :
    ∃ q1 rs, q.calls fuel cs = .ok (q1, rs) ∧ rs.length = cs.length ∧
      (∀ x ∈ rs, x.isSome = true) ∧
      ((∀ c ∈ cs, c.2 < 2047) → rs = cs.map (fun _ => some r)) ∧
      q1.m_oStream = q.m_oStream := by
  obtain ⟨hrun, hr⟩ := marketPacketGenerator_t.generatePackets_ok h
  have ho : ∃ o, q.m_oStream = some o := by
    unfold marketPacketGenerator_t.generatePackets at h
    rw [hrun] at h
    cases hq : q.m_oStream with
    | none => simp [hq] at h
    | some o => exact ⟨o, rfl⟩
  obtain ⟨o, ho⟩ := ho
  obtain ⟨q1, rs, h1, h2, h3, h4, h5, _⟩ :=
    marketPacketGenerator_t.calls_latched_gen o fuel hf cs q r hr.symm ho
  exact ⟨q1, rs, h1, h2, h3, h4, by rw [h5, ho]⟩

/-- An instance of claim C25: an initialized generator is first asked for
packets of at most 5000 records and refuses; asked then for one packet of at
most 3 records, it refuses again and writes nothing. -/
theorem C25_generator_failure_latched_witness :
    ∃ g0 q q1, (marketPacketGenerator_t.create (some OStream.empty) ⟨fun i => i, 0⟩).initialise
        = .ok g0 ∧
      g0.generatePackets 1 1 5000 = .ok (q, some "Can't request that many updates in a packet") ∧
      q.calls 1 [(1, 3)] = .ok (q1, [some "Can't request that many updates in a packet"]) ∧
      q1.m_oStream = some OStream.empty := by
  obtain ⟨g0, hinit, hready, _, _⟩ := marketPacketGenerator_t.initialise_ready [] ⟨fun i => i, 0⟩
  have hcall : g0.generatePackets 1 1 5000
      = .ok ({ g0 with m_failReason := some "Can't request that many updates in a packet" },
          some "Can't request that many updates in a packet") := by
    have hge : (5000 : Nat) ≥ UINT16_MAX / UPDATE_SIZE := by decide
    simp [marketPacketGenerator_t.generatePackets, marketPacketGenerator_t.resetPerRunVariables,
      hge, marketPacketGenerator_t.runStateMachine, marketPacketGenerator_t.iteration,
      hready.sink]
  obtain ⟨q1, rs, h1, _, _, h4, h5⟩ := C25_generator_failure_latched _ _ _ _ _ _ hcall [(1, 3)] 1
    (Nat.le_refl 1)
  have hrs := h4 (by decide)
  subst hrs
  exact ⟨g0, _, q1, hinit, hcall, h1, by rw [h5]; exact hready.sink⟩

namespace marketPacketGenerator_t

/-! ## The records of successive calls -/

theorem calls_ready :
    ∀ (cs : List (Nat × Nat)) (g : marketPacketGenerator_t) (w : List Byte),
      (∀ c ∈ cs, c.1 < SIZE_MOD ∧ 1 ≤ c.2 ∧ c.2 < 2047) → Ready g w →
      ∃ (pkts : List (List (List Byte))) (g2 : marketPacketGenerator_t) (M : Nat),
        (∀ rs ∈ pkts, WellFormedPacket rs ∧ ∀ x ∈ rs, x = g.m_trade ∨ x = g.m_quote) ∧
        Ready g2 (w ++ encodeStream pkts) ∧ g2.m_trade = g.m_trade ∧ g2.m_quote = g.m_quote ∧
        ∀ fuel, M ≤ fuel → calls fuel cs g = .ok (g2, cs.map (fun _ => none)) := by
  intro cs
  induction cs with
  | nil =>
    intro g w _ h
    exact ⟨[], g, 0, fun rs hrs => absurd hrs (List.not_mem_nil rs),
      by simpa [encodeStream] using h, rfl, rfl, fun fuel _ => rfl⟩
  | cons c cs ih =>
    intro g w hcs h
    obtain ⟨hc1, hc2, hc3⟩ := hcs c (List.mem_cons_self _ _)
    have hU : UINT16_MAX / UPDATE_SIZE = 2047 := by decide
    obtain ⟨p1, g1, M1, _, hall1, hr1, ht1, hq1, hrun1⟩ :=
      generatePackets_ready h c.1 c.2 hc1 hc2 (by rw [hU]; exact hc3)
    obtain ⟨p2, g2, M2, hall2, hr2, ht2, hq2, hrun2⟩ :=
      ih g1 _ (fun x hx => hcs x (List.mem_cons_of_mem _ hx)) hr1
    refine ⟨p1 ++ p2, g2, max M1 M2, ?_, ?_, by rw [ht2, ht1], by rw [hq2, hq1],
      fun fuel hf => ?_⟩
    · intro rs hrs
      rcases List.mem_append.mp hrs with hrs | hrs
      · exact ⟨(hall1 rs hrs).1, (hall1 rs hrs).2.2.2⟩
      · have h2 := hall2 rs hrs
        rw [ht1, hq1] at h2
        exact h2
    · rw [encodeStream_append, ← List.append_assoc]
      exact hr2
    · rw [calls, hrun1 fuel (by omega)]
      simp only [hrun2 fuel (by omega), List.map_cons]

end marketPacketGenerator_t

/-- Claim C22.  For every sequence of random draws and every sequence of
requests with `maxUpdatesPerPacket` from 1 to 2046, on an initialized generator
over a sink that accepts every write: all the calls return no reason, given
enough iterations; the two templates are after the calls what `initialize()`
made them; what has been written is a stream of well-formed packets, and every
record of it is byte for byte the trade template or the quote template.  Hence
every record is 32 bytes long, has the length field 32 and the type `T` or `Q`,
and any two records of the same type are identical. -/
theorem C22_template_reuse (r : Rng) (cs : List (Nat × Nat))
    (hcs : ∀ c ∈ cs, c.1 < SIZE_MOD ∧ 1 ≤ c.2 ∧ c.2 < 2047) :
    ∃ (g0 g1 : marketPacketGenerator_t) (pkts : List (List (List Byte))) (M : Nat),
      (marketPacketGenerator_t.create (some OStream.empty) r).initialise = .ok g0 ∧
      (∀ fuel, M ≤ fuel → g0.calls fuel cs = .ok (g1, cs.map (fun _ => none))) ∧
      g1.m_oStream = some ⟨encodeStream pkts, none, false⟩ ∧
      g1.m_trade = g0.m_trade ∧ g1.m_quote = g0.m_quote ∧
      g0.m_trade.getD TYPE_OFFSET 0 = updateType_e.TRADE ∧
      g0.m_quote.getD TYPE_OFFSET 0 = updateType_e.QUOTE ∧
      (∀ rs ∈ pkts, WellFormedPacket rs ∧ ∀ x ∈ rs,
        (x = g0.m_trade ∨ x = g0.m_quote) ∧ x.length = 32 ∧ readU16 x 0 = 32 ∧
        (x.getD TYPE_OFFSET 0 = updateType_e.TRADE ∨ x.getD TYPE_OFFSET 0 = updateType_e.QUOTE)) ∧
      (∀ rs ∈ pkts, ∀ x ∈ rs, ∀ rs2 ∈ pkts, ∀ y ∈ rs2,
        x.getD TYPE_OFFSET 0 = y.getD TYPE_OFFSET 0 → x = y) := by
  obtain ⟨g0, hinit, hready, hT, hQ⟩ := marketPacketGenerator_t.initialise_ready [] r
  obtain ⟨pkts, g1, M, hall, hr1, ht, hq, hrun⟩ :=
    marketPacketGenerator_t.calls_ready cs g0 [] hcs hready
  have htT : g0.m_trade.getD TYPE_OFFSET 0 = updateType_e.TRADE := by
    simpa [isTrade] using hT
  have htQ : g0.m_quote.getD TYPE_OFFSET 0 = updateType_e.QUOTE := by
    rcases hready.quote.2.2 with h | h
    · rw [isTrade, h] at hQ
      simp at hQ
    · exact h
  have hne : updateType_e.TRADE ≠ updateType_e.QUOTE := by decide
  refine ⟨g0, g1, pkts, M, hinit, hrun, by simpa using hr1.sink, ht, hq, htT, htQ, ?_, ?_⟩
  · intro rs hrs
    refine ⟨(hall rs hrs).1, fun x hx => ?_⟩
    have hv := (hall rs hrs).1.2 x hx
    exact ⟨(hall rs hrs).2 x hx, hv.1, hv.2.1, hv.2.2⟩
  · intro rs hrs x hx rs2 hrs2 y hy hxy
    rcases (hall rs hrs).2 x hx with h1 | h1 <;> rcases (hall rs2 hrs2).2 y hy with h2 | h2
    · rw [h1, h2]
    · rw [h1, h2, htT, htQ] at hxy
      exact absurd hxy hne
    · rw [h1, h2, htT, htQ] at hxy
      exact absurd hxy.symm hne
    · rw [h1, h2]

/-- An instance of claim C22: the draws 0, 1, 2, ..., a call for two packets of
at most three records and a call for one packet of at most five. -/
theorem C22_template_reuse_witness :
    ∃ (g0 g1 : marketPacketGenerator_t) (pkts : List (List (List Byte))) (M : Nat),
      (marketPacketGenerator_t.create (some OStream.empty) ⟨fun i => i, 0⟩).initialise = .ok g0 ∧
      (∀ fuel, M ≤ fuel → g0.calls fuel [(2, 3), (1, 5)] = .ok (g1, [none, none])) ∧
      g1.m_oStream = some ⟨encodeStream pkts, none, false⟩ ∧
      g1.m_trade = g0.m_trade ∧ g1.m_quote = g0.m_quote ∧
      g0.m_trade.getD TYPE_OFFSET 0 = updateType_e.TRADE ∧
      g0.m_quote.getD TYPE_OFFSET 0 = updateType_e.QUOTE ∧
      (∀ rs ∈ pkts, WellFormedPacket rs ∧ ∀ x ∈ rs,
        (x = g0.m_trade ∨ x = g0.m_quote) ∧ x.length = 32 ∧ readU16 x 0 = 32 ∧
        (x.getD TYPE_OFFSET 0 = updateType_e.TRADE ∨ x.getD TYPE_OFFSET 0 = updateType_e.QUOTE)) ∧
      (∀ rs ∈ pkts, ∀ x ∈ rs, ∀ rs2 ∈ pkts, ∀ y ∈ rs2,
        x.getD TYPE_OFFSET 0 = y.getD TYPE_OFFSET 0 → x = y) :=
  C22_template_reuse ⟨fun i => i, 0⟩ [(2, 3), (1, 5)] (by decide)

namespace marketPacketGenerator_t

/-! ## A write that the sink rejects -/

theorem rounds_run : ∀ (i : Nat) (g q : marketPacketGenerator_t), rounds i g = some q →
    ∀ fuel, runStateMachine (i + fuel) g = runStateMachine fuel q := by
  intro i
  induction i with
  | zero =>
    intro g q h fuel
    simp only [rounds, Option.some.injEq] at h
    subst h
    rw [Nat.zero_add]
  | succ i ih =>
    intro g q h fuel
    rw [rounds] at h
    rw [show i + 1 + fuel = (i + fuel) + 1 by omega, runStateMachine]
    cases hi : iteration g with
    | again g1 =>
      rw [hi] at h
      exact ih g1 q h fuel
    | leave g1 => rw [hi] at h; cases h
    | abort => rw [hi] at h; cases h
    | timeout => rw [hi] at h; cases h

/-- A state that holds a failure reason and a sink ends the call. -/
theorem generatePackets_of_rounds {g0 g q : marketPacketGenerator_t} {n m i : Nat}
    {r : String} {o : OStream} (hr : rounds i (resetPerRunVariables n m g0) = some g)
    (hrun : ∀ fuel, 2 ≤ fuel → runStateMachine fuel g = .ok q)
    (hf : q.m_failReason = some r) (ho : q.m_oStream = some o) :
    ∀ fuel, i + 2 ≤ fuel → g0.generatePackets fuel n m = .ok (q, some r) := by
  intro fuel hfu
  obtain ⟨f, rfl⟩ : ∃ f, fuel = i + f := ⟨fuel - i, by omega⟩
  rw [generatePackets, rounds_run i _ g hr f, hrun f (by omega)]
  simp only [ho, hf]

theorem writeHeader_rejected {g g1 : marketPacketGenerator_t} {o1 : OStream}
    (hw : writeHeader g = .ok g1) (ho : g1.m_oStream = some o1) (hrej : o1.failed = true) :
    g1.m_failReason = some "writeHeader failed" := by
  unfold writeHeader at hw
  simp only at hw
  split_ifs at hw with h0
  cases hs : g.m_oStream with
  | none => rw [hs] at hw; cases hw
  | some o =>
    rw [hs] at hw
    simp only at hw
    split_ifs at hw with hfl
    · injection hw with hw
      subst hw
      rfl
    · injection hw with hw
      subst hw
      simp only [resetPerPacketVariables, Option.some.injEq] at ho
      subst ho
      exact absurd hrej hfl

theorem generateUpdates_rejected {g g1 : marketPacketGenerator_t} {o1 : OStream}
    (hw : generateUpdates g = .ok g1) (ho : g1.m_oStream = some o1) (hrej : o1.failed = true) :
    g1.m_failReason = some "Update write failed" := by
  unfold generateUpdates at hw
  simp only at hw
  generalize (if (g.m_numUpdates + SIZE_MOD - g.m_numUpdatesWritten) % SIZE_MOD
      ≤ UPDATES_IN_WRITE_BUF then (g.m_numUpdates + SIZE_MOD - g.m_numUpdatesWritten) % SIZE_MOD
    else UPDATES_IN_WRITE_BUF) = cnt at hw
  split at hw
  · cases hw
  · split_ifs at hw with hfl
    · injection hw with hw
      subst hw
      rfl
    · injection hw with hw
      subst hw
      simp only [Option.some.injEq] at ho
      subst ho
      exact absurd hrej hfl

end marketPacketGenerator_t

/-- Claim C23.  Take any call `generatePackets(numPackets, numMaxUpdates)` and
any round of its loop that starts with no failure reason.  If that round is a
`writeHeader` whose write leaves the sink failed, the call returns "writeHeader
failed"; if it is a `generateUpdates` whose write leaves the sink failed, the
call returns "Update write failed".  In both cases the sink is at the return
of the call what that write left: nothing is written after the rejected
write.  As the round started with no reason, the reason returned is that of
the first failure. -/
theorem C23_write_failure_halts (g0 g g1 : marketPacketGenerator_t)
    (numPackets numMaxUpdates i : Nat) (o1 : OStream)
    (hr : (marketPacketGenerator_t.resetPerRunVariables numPackets numMaxUpdates g0).rounds i
      = some g)
    (hnf : g.m_failReason = none) (ho : g1.m_oStream = some o1) (hrej : o1.failed = true) :
    (g.m_state = .WRITE_HEADER → g.writeHeader = .ok g1 →
      ∃ q, (∀ fuel, i + 2 ≤ fuel →
          g0.generatePackets fuel numPackets numMaxUpdates = .ok (q, some "writeHeader failed")) ∧
        q.m_oStream = some o1) ∧
    (g.m_state = .GENERATE_UPDATES → g.generateUpdates = .ok g1 →
      ∃ q, (∀ fuel, i + 2 ≤ fuel →
          g0.generatePackets fuel numPackets numMaxUpdates = .ok (q, some "Update write failed")) ∧
        q.m_oStream = some o1) := by
  have hnf2 : g.m_failReason.isSome = false := by rw [hnf]; rfl
  constructor
  · intro hs hw
    have hf1 := marketPacketGenerator_t.writeHeader_rejected hw ho hrej
    have hit1 : marketPacketGenerator_t.iteration g
        = .again { g1 with m_state := .GENERATE_UPDATES } := by
      simp only [marketPacketGenerator_t.iteration, hnf2, hs, hw, Bool.false_eq_true, if_false]
    have hit2 : marketPacketGenerator_t.iteration { g1 with m_state := .GENERATE_UPDATES }
        = .leave { g1 with m_state := .GENERATE_UPDATES } := by
      simp [marketPacketGenerator_t.iteration, hf1]
    refine ⟨{ g1 with m_state := .GENERATE_UPDATES },
      marketPacketGenerator_t.generatePackets_of_rounds hr (fun fuel hfu => ?_) hf1 ho, ho⟩
    obtain ⟨f, rfl⟩ : ∃ f, fuel = f + 2 := ⟨fuel - 2, by omega⟩
    rw [marketPacketGenerator_t.runStateMachine, hit1]
    show marketPacketGenerator_t.runStateMachine (f + 1) _ = _
    rw [marketPacketGenerator_t.runStateMachine, hit2]
  · intro hs hw
    have hf1 := marketPacketGenerator_t.generateUpdates_rejected hw ho hrej
    have hleave : ∀ q : marketPacketGenerator_t, q.m_failReason = some "Update write failed" →
        marketPacketGenerator_t.iteration q = .leave q := by
      intro q hq
      simp [marketPacketGenerator_t.iteration, hq]
    have key := fun q => @marketPacketGenerator_t.generatePackets_of_rounds g0 g q numPackets
      numMaxUpdates i "Update write failed" o1 hr
    by_cases hd : g1.m_numUpdatesWritten = g1.m_numUpdates
    · by_cases hp : (g1.m_numPacketsWritten + 1) % SIZE_MOD = g1.m_numPackets
      · have hit1 : marketPacketGenerator_t.iteration g
            = .leave { g1 with
                m_state := .WRITE_HEADER
                m_numPacketsWritten := (g1.m_numPacketsWritten + 1) % SIZE_MOD } := by
          simp only [marketPacketGenerator_t.iteration, hnf2, hs, hw, hd, hp,
            Bool.false_eq_true, if_false, if_true]
        refine ⟨_, key { g1 with
            m_state := .WRITE_HEADER
            m_numPacketsWritten := (g1.m_numPacketsWritten + 1) % SIZE_MOD }
          (fun fuel hfu => ?_) hf1 ho, ho⟩
        obtain ⟨f, rfl⟩ : ∃ f, fuel = f + 1 := ⟨fuel - 1, by omega⟩
        rw [marketPacketGenerator_t.runStateMachine, hit1]
      · have hit1 : marketPacketGenerator_t.iteration g
            = .again { g1 with
                m_state := .WRITE_HEADER
                m_numPacketsWritten := (g1.m_numPacketsWritten + 1) % SIZE_MOD } := by
          simp only [marketPacketGenerator_t.iteration, hnf2, hs, hw, hd, hp,
            Bool.false_eq_true, if_false, if_true]
        refine ⟨_, key { g1 with
            m_state := .WRITE_HEADER
            m_numPacketsWritten := (g1.m_numPacketsWritten + 1) % SIZE_MOD }
          (fun fuel hfu => ?_) hf1 ho, ho⟩
        obtain ⟨f, rfl⟩ : ∃ f, fuel = f + 2 := ⟨fuel - 2, by omega⟩
        rw [marketPacketGenerator_t.runStateMachine, hit1]
        show marketPacketGenerator_t.runStateMachine (f + 1) _ = _
        rw [marketPacketGenerator_t.runStateMachine, hleave { g1 with
          m_state := .WRITE_HEADER
          m_numPacketsWritten := (g1.m_numPacketsWritten + 1) % SIZE_MOD } hf1]
    · have hit1 : marketPacketGenerator_t.iteration g = .again g1 := by
        simp only [marketPacketGenerator_t.iteration, hnf2, hs, hw, hd,
          Bool.false_eq_true, if_false]
      refine ⟨g1, marketPacketGenerator_t.generatePackets_of_rounds hr (fun fuel hfu => ?_)
        hf1 ho, ho⟩
      obtain ⟨f, rfl⟩ : ∃ f, fuel = f + 2 := ⟨fuel - 2, by omega⟩
      rw [marketPacketGenerator_t.runStateMachine, hit1]
      show marketPacketGenerator_t.runStateMachine (f + 1) _ = _
      rw [marketPacketGenerator_t.runStateMachine, hleave _ hf1]

/-- Two instances of claim C23, on a generator with the templates
`ABCDE`/7/9 and `FGHIJ`/1/2/3 and the draws 0, 1, 2, ..., asked for one
packet of at most three records.  Over a sink with room for 2 bytes the header
`{36, 1}` is cut after 2 bytes and the call returns "writeHeader failed"; over
a sink with room for 6 bytes the header is written, the record is cut after 2
bytes and the call returns "Update write failed". -/
theorem C23_write_failure_halts_witness :
    (∃ q, (∀ fuel, 0 + 2 ≤ fuel →
        marketPacketGenerator_t.generatePackets fuel 1 3
          { marketPacketGenerator_t.create (some ⟨[], some 2, false⟩) ⟨fun i => i, 0⟩ with
            m_state := .WRITE_HEADER
            m_trade := marketPacketGenerator_t.tradeBytes (strBytes "ABCDE") 7 9
            m_quote := marketPacketGenerator_t.quoteBytes (strBytes "FGHIJ") 1 2 3 }
          = .ok (q, some "writeHeader failed")) ∧
      q.m_oStream = some ⟨[36, 0], some 0, true⟩) ∧
    (∃ q, (∀ fuel, 1 + 2 ≤ fuel →
        marketPacketGenerator_t.generatePackets fuel 1 3
          { marketPacketGenerator_t.create (some ⟨[], some 6, false⟩) ⟨fun i => i, 0⟩ with
            m_state := .WRITE_HEADER
            m_trade := marketPacketGenerator_t.tradeBytes (strBytes "ABCDE") 7 9
            m_quote := marketPacketGenerator_t.quoteBytes (strBytes "FGHIJ") 1 2 3 }
          = .ok (q, some "Update write failed")) ∧
      q.m_oStream = some ⟨[36, 0, 1, 0, 32, 0], some 0, true⟩) := by
  constructor
  · refine (C23_write_failure_halts
      { marketPacketGenerator_t.create (some ⟨[], some 2, false⟩) ⟨fun i => i, 0⟩ with
        m_state := .WRITE_HEADER
        m_trade := marketPacketGenerator_t.tradeBytes (strBytes "ABCDE") 7 9
        m_quote := marketPacketGenerator_t.quoteBytes (strBytes "FGHIJ") 1 2 3 }
      _ _ 1 3 0 _ rfl rfl ?_ ?_).1 rfl rfl
    · rfl
    · rfl
  · refine (C23_write_failure_halts
      { marketPacketGenerator_t.create (some ⟨[], some 6, false⟩) ⟨fun i => i, 0⟩ with
        m_state := .WRITE_HEADER
        m_trade := marketPacketGenerator_t.tradeBytes (strBytes "ABCDE") 7 9
        m_quote := marketPacketGenerator_t.quoteBytes (strBytes "FGHIJ") 1 2 3 }
      _ _ 1 3 1 _ rfl rfl ?_ ?_).2 rfl rfl
    · rfl
    · rfl

/-- Claim C26.  After any number of well-formed packets comes a packet with a
consistent header (`packetLength = 4 + 32 * n`, `numUpdates = n`) whose body
holds the valid records `fills`, which make up whole buffer fills of 32
records, then fewer than 32 valid records `pend`, then a first invalid record
`bad` in the same buffer fill as `pend`.  A call of `processNextPacket` that
its count does not stop earlier returns "Poorly formed update", and its output
is exactly the lines of the trades of the earlier packets followed by the
lines of the trades among `fills`: no line is written for a trade among
`pend`.  No later call writes one either: every later call returns the same
reason and leaves the output as it is. -/
theorem C26_pending_trades_dropped (ps : List (List (List Byte))) (fills pend : List (List Byte))
    (bad junk tail hdr buf : List Byte) (n : Nat) (p0 : marketPacketProcessor_t)
    (cnt : Option Nat)
    (hwf : ∀ rs ∈ ps, WellFormedPacket rs) (hfv : ∀ r ∈ fills, ValidRecord r)
    (hpv : ∀ r ∈ pend, ValidRecord r) (hbad : InvalidRecord bad)
    (hfl : fills.length % 32 = 0) (hpl : pend.length < 32)
    (hvn : fills.length + pend.length < n) (hn : 4 + 32 * n ≤ 65535)
    (hjunk : junk.length = 32 * (n - (fills.length + pend.length) - 1))
    (hcnt : ∀ c, cnt = some c → ps.length < c ∧ c < SIZE_MOD)
    (hinit : (marketPacketProcessor_t.create (some (IStream.ofBytes (encodeStream ps
        ++ (marketPacketGenerator_t.headerBytes (4 + 32 * n) n
          ++ ((fills ++ pend).flatten ++ (bad ++ junk ++ tail))))))
        (some OStream.empty) hdr buf).initialise = .ok p0) :
    ∃ q N, (∀ fuel, N ≤ fuel →
        p0.processNextPacket fuel cnt = .ok (q, some "Poorly formed update")) ∧
      q.m_outputStream = some ⟨streamLines ps ++ packetLines fills, none, false⟩ ∧
      ∀ (cs : List (Option Nat)) (fuel : Nat), 1 ≤ fuel →
        ∃ q1, q.calls fuel cs = .ok (q1, cs.map (fun _ => some "Poorly formed update")) ∧
          q1.m_outputStream = some ⟨streamLines ps ++ packetLines fills, none, false⟩ := by
  have hM : SIZE_MOD = 18446744073709551616 := by decide
  have hval : ∀ r ∈ fills ++ pend, ValidRecord r := by
    intro r hr
    rcases List.mem_append.mp hr with h | h
    · exact hfv r h
    · exact hpv r h
  have hlen : (fills ++ pend).length = fills.length + pend.length := List.length_append _ _
  have htake : (fills ++ pend).take (32 * ((fills ++ pend).length / 32)) = fills := by
    have h1 : 32 * ((fills ++ pend).length / 32) = fills.length := by
      rw [hlen]; omega
    rw [h1, List.take_left]
  rw [marketPacketProcessor_t.eq_ready_of_initialise hinit]
  obtain ⟨q, j, hq, hat, hne⟩ := marketPacketProcessor_t.process_after_packets _ ps
    (marketPacketGenerator_t.headerBytes (4 + 32 * n) n
      ++ ((fills ++ pend).flatten ++ (bad ++ junk ++ tail)))
    [] none 0 cnt hwf hcnt (marketPacketProcessor_t.ready_atCheck _ hdr buf)
  obtain ⟨q2, hq2, hbody⟩ := marketPacketProcessor_t.header_round q n
    ((fills ++ pend).flatten ++ (bad ++ junk ++ tail)) _ cnt ps.length hn hne hat
  obtain ⟨q3, j3, hq3, hl, hf, ho⟩ := marketPacketProcessor_t.body_invalid (fills ++ pend) bad
    junk tail n cnt ps.length hval hbad (by rw [hlen]; exact hvn)
    (by rw [hlen]; simpa [UPDATE_SIZE] using hjunk)
    (by rw [hM]; simp only [UPDATE_SIZE]; omega)
    (fills ++ pend).length 0 q2 _ (by omega) (by omega) (by simpa using hbody)
  have ho2 : q3.m_outputStream = some ⟨streamLines ps ++ packetLines fills, none, false⟩ := by
    rw [ho]
    simp only [List.drop_zero, Nat.sub_zero, htake, List.nil_append]
  refine ⟨q3, j + 2 + j3 + 1, fun fuel hfu => ?_, ho2, fun cs fuel hfu => ?_⟩
  · rw [marketPacketProcessor_t.processNextPacket_of_reaches ((hq.trans hq2).trans hq3) hl ho
      fuel hfu, hf]
  · obtain ⟨q1, h1, _, _, h4, _⟩ := marketPacketProcessor_t.calls_latched
      "Poorly formed update" _ fuel hfu cs q3 hf ho2
    exact ⟨q1, h1, by rw [h4, ho2]⟩

/-- An instance of claim C26: one packet announcing three records, of which
the first is a valid trade and the second has the length field 12.  Nothing is
written, the line of the trade included. -/
theorem C26_pending_trades_dropped_witness :
    ∃ q N, (∀ fuel, N ≤ fuel →
        (marketPacketProcessor_t.ready (encodeStream []
          ++ (marketPacketGenerator_t.headerBytes (4 + 32 * 3) 3
            ++ ((([] : List (List Byte))
                ++ [marketPacketGenerator_t.tradeBytes (strBytes "ABCDE") 7 9]).flatten
              ++ ((u16Bytes 12 ++ [updateType_e.TRADE] ++ List.replicate 29 0)
                ++ List.replicate 32 0 ++ [])))) [] []).processNextPacket fuel none
          = .ok (q, some "Poorly formed update")) ∧
      q.m_outputStream = some ⟨streamLines [] ++ packetLines [], none, false⟩ ∧
      ∀ (cs : List (Option Nat)) (fuel : Nat), 1 ≤ fuel →
        ∃ q1, q.calls fuel cs = .ok (q1, cs.map (fun _ => some "Poorly formed update")) ∧
          q1.m_outputStream = some ⟨streamLines [] ++ packetLines [], none, false⟩ :=
  C26_pending_trades_dropped [] [] [marketPacketGenerator_t.tradeBytes (strBytes "ABCDE") 7 9]
    (u16Bytes 12 ++ [updateType_e.TRADE] ++ List.replicate 29 0) (List.replicate 32 0) [] [] []
    3 _ none (by decide) (by decide) (by decide) (by decide) (by decide) (by decide) (by decide)
    (by decide) (by decide) (fun c hc => by cases hc) rfl

namespace marketPacketProcessor_t

/-! ## The rounds of a call -/

theorem rounds_runStateMachine : ∀ (i : Nat) (p q : marketPacketProcessor_t),
    rounds i p = some q → ∀ fuel, runStateMachine (i + fuel) p = runStateMachine fuel q := by
  intro i
  induction i with
  | zero =>
    intro p q h fuel
    simp only [rounds, Option.some.injEq] at h
    subst h
    rw [Nat.zero_add]
  | succ i ih =>
    intro p q h fuel
    rw [rounds] at h
    rw [show i + 1 + fuel = (i + fuel) + 1 by omega, runStateMachine]
    cases hi : iteration p with
    | again p1 =>
      rw [hi] at h
      exact ih p1 q h fuel
    | leave p1 => rw [hi] at h; cases h
    | abort => rw [hi] at h; cases h
    | timeout => rw [hi] at h; cases h

/-- The state in which a call returns is the state before one of its rounds. -/
theorem runStateMachine_rounds : ∀ (fuel : Nat) (p q : marketPacketProcessor_t),
    runStateMachine fuel p = .ok q → ∃ i, rounds i p = some q := by
  intro fuel
  induction fuel with
  | zero => intro p q h; simp [runStateMachine] at h
  | succ fuel ih =>
    intro p q h
    rw [runStateMachine] at h
    cases hi : iteration p with
    | again v =>
      rw [hi] at h
      obtain ⟨i, hv⟩ := ih v q h
      exact ⟨i + 1, by rw [rounds, hi]; exact hv⟩
    | leave v =>
      rw [hi] at h
      injection h with h
      subst h
      exact ⟨0, by rw [(iteration_leave_cases hi).1]; rfl⟩
    | abort => rw [hi] at h; simp at h
    | timeout => rw [hi] at h; simp at h

/-- The scan of a buffer fill changes nothing but the two counters, the trade
locations and the failure reason. -/
theorem scanBuffer_header (valid : Nat) : ∀ (fuel off : Nat) (p q : marketPacketProcessor_t),
    scanBuffer valid fuel off p = .ok q →
    q.m_packetHeader = p.m_packetHeader ∧ q.m_bodySize = p.m_bodySize ∧
      q.m_numUpdatesPacket = p.m_numUpdatesPacket ∧ q.m_state = p.m_state ∧
      q.m_readBuffer = p.m_readBuffer := by
  intro fuel
  induction fuel with
  | zero =>
    intro off p q h
    unfold scanBuffer at h
    split_ifs at h
    injection h with h; subst h; exact ⟨rfl, rfl, rfl, rfl, rfl⟩
  | succ fuel ih =>
    intro off p q h
    unfold scanBuffer at h
    simp only at h
    split_ifs at h <;>
      first
      | (injection h with h; subst h; exact ⟨rfl, rfl, rfl, rfl, rfl⟩)
      | (have h2 := ih _ _ _ h; exact h2)

theorem scannedOffsets_aligned (buf : List Byte) (v : Nat) (hv : v ≤ 1024) (hv32 : 32 ∣ v) :
    ∀ (fuel off : Nat), 32 ∣ off →
      ∀ x ∈ scannedOffsets buf v fuel off, 32 ∣ x ∧ x + 32 ≤ v := by
  have hM : SIZE_MOD = 18446744073709551616 := by decide
  intro fuel
  induction fuel with
  | zero => intro off _ x hx; simp [scannedOffsets] at hx
  | succ fuel ih =>
    intro off hoff x hx
    unfold scannedOffsets at hx
    by_cases hlt : off < v
    · have hfit : off + 32 ≤ v := by omega
      simp only [hlt, if_true] at hx
      rcases isValidUpdatePtr_cases buf off with hc | hc | hc
      · simp only [hc, if_true, List.mem_singleton] at hx
        subst hx
        exact ⟨hoff, hfit⟩
      · have hne : ¬ updateType_e.TRADE = updateType_e.INVALID := by decide
        simp only [hc, hne, if_false, List.mem_cons, UPDATE_SIZE] at hx
        rcases hx with hx | hx
        · subst hx; exact ⟨hoff, hfit⟩
        · rw [Nat.mod_eq_of_lt (by rw [hM]; omega)] at hx
          exact ih (off + 32) (by omega) x hx
      · have hne : ¬ updateType_e.QUOTE = updateType_e.INVALID := by decide
        simp only [hc, hne, if_false, List.mem_cons, UPDATE_SIZE] at hx
        rcases hx with hx | hx
        · subst hx; exact ⟨hoff, hfit⟩
        · rw [Nat.mod_eq_of_lt (by rw [hM]; omega)] at hx
          exact ih (off + 32) (by omega) x hx
    · simp [hlt] at hx

end marketPacketProcessor_t

namespace marketPacketProcessor_t

/-- The scan of an aligned buffer fill ends within its bound on the number of
iterations. -/
theorem scanBuffer_returns (v : Nat) (hv : v ≤ 1024) :
    ∀ (fuel off : Nat) (p : marketPacketProcessor_t), off ≤ v → v ≤ off + 32 * fuel →
      ∃ q, scanBuffer v fuel off p = .ok q := by
  have hM : SIZE_MOD = 18446744073709551616 := by decide
  intro fuel
  induction fuel with
  | zero =>
    intro off p _ h2
    have hlt : ¬ off < v := by omega
    exact ⟨p, by simp [scanBuffer, hlt]⟩
  | succ fuel ih =>
    intro off p h1 h2
    by_cases hlt : off < v
    · have hmod : (off + 32) % SIZE_MOD = off + 32 := Nat.mod_eq_of_lt (by rw [hM]; omega)
      rcases isValidUpdatePtr_cases p.m_readBuffer off with hc | hc | hc
      · exact ⟨_, by simp only [scanBuffer, hlt, hc, if_true]; rfl⟩
      · have hne : ¬ updateType_e.TRADE = updateType_e.INVALID := by decide
        simp only [scanBuffer, hlt, hc, hne, if_true, if_false, UPDATE_SIZE, hmod]
        by_cases hfit : off + 32 ≤ v
        · exact ih _ _ hfit (by omega)
        · cases fuel with
          | zero =>
            have hlt2 : ¬ off + 32 < v := by omega
            exact ⟨_, by simp only [scanBuffer, hlt2, if_false]; rfl⟩
          | succ f =>
            have hlt2 : ¬ off + 32 < v := by omega
            exact ⟨_, by simp only [scanBuffer, hlt2, if_false]; rfl⟩
      · have hne : ¬ updateType_e.QUOTE = updateType_e.INVALID := by decide
        have hnt : ¬ updateType_e.QUOTE = updateType_e.TRADE := by decide
        simp only [scanBuffer, hlt, hc, hne, hnt, if_true, if_false, UPDATE_SIZE, hmod]
        by_cases hfit : off + 32 ≤ v
        · exact ih _ _ hfit (by omega)
        · cases fuel with
          | zero =>
            have hlt2 : ¬ off + 32 < v := by omega
            exact ⟨_, by simp only [scanBuffer, hlt2, if_false]; rfl⟩
          | succ f =>
            have hlt2 : ¬ off + 32 < v := by omega
            exact ⟨_, by simp only [scanBuffer, hlt2, if_false]; rfl⟩
    · exact ⟨p, by simp [scanBuffer, hlt]⟩

/-- The counters after the scan of an aligned buffer fill: 32 bytes are
interpreted for each record counted, and the records counted fit between the
offset and the end of the fill. -/
theorem scanBuffer_aligned (v : Nat) (hv : v ≤ 1024) (hv32 : 32 ∣ v) :
    ∀ (fuel off : Nat) (p q : marketPacketProcessor_t), 32 ∣ off → off ≤ v →
      p.m_bodyBytesInterpreted + (v - off) < SIZE_MOD →
      p.m_numUpdatesRead + (v - off) < SIZE_MOD →
      scanBuffer v fuel off p = .ok q →
      ∃ j, off + 32 * j ≤ v ∧
        q.m_bodyBytesInterpreted = p.m_bodyBytesInterpreted + 32 * j ∧
        q.m_numUpdatesRead = p.m_numUpdatesRead + j := by
  have hM : SIZE_MOD = 18446744073709551616 := by decide
  intro fuel
  induction fuel with
  | zero =>
    intro off p q _ h2 _ _ h
    unfold scanBuffer at h
    split_ifs at h
    injection h with h; subst h
    exact ⟨0, by omega, rfl, rfl⟩
  | succ fuel ih =>
    intro off p q hoff h2 hb hn h
    by_cases hlt : off < v
    · have hfit : off + 32 ≤ v := by omega
      have hmod : (off + 32) % SIZE_MOD = off + 32 := Nat.mod_eq_of_lt (by rw [hM]; omega)
      have hmb : (p.m_bodyBytesInterpreted + 32) % SIZE_MOD = p.m_bodyBytesInterpreted + 32 :=
        Nat.mod_eq_of_lt (by omega)
      have hmn : (p.m_numUpdatesRead + 1) % SIZE_MOD = p.m_numUpdatesRead + 1 :=
        Nat.mod_eq_of_lt (by omega)
      rcases isValidUpdatePtr_cases p.m_readBuffer off with hc | hc | hc
      · simp only [scanBuffer, hlt, hc, if_true] at h
        injection h with h; subst h
        exact ⟨0, by omega, rfl, rfl⟩
      · have hne : ¬ updateType_e.TRADE = updateType_e.INVALID := by decide
        simp only [scanBuffer, hlt, hc, hne, if_true, if_false, UPDATE_SIZE, hmod, hmb, hmn] at h
        obtain ⟨j, hj1, hj2, hj3⟩ := ih _ _ _ (by omega) hfit
          (by show p.m_bodyBytesInterpreted + 32 + (v - (off + 32)) < SIZE_MOD; omega)
          (by show p.m_numUpdatesRead + 1 + (v - (off + 32)) < SIZE_MOD; omega) h
        refine ⟨j + 1, by omega, ?_, ?_⟩
        · rw [hj2]; show p.m_bodyBytesInterpreted + 32 + 32 * j = _; omega
        · rw [hj3]; show p.m_numUpdatesRead + 1 + j = _; omega
      · have hne : ¬ updateType_e.QUOTE = updateType_e.INVALID := by decide
        have hnt : ¬ updateType_e.QUOTE = updateType_e.TRADE := by decide
        simp only [scanBuffer, hlt, hc, hne, hnt, if_true, if_false, UPDATE_SIZE, hmod, hmb,
          hmn] at h
        obtain ⟨j, hj1, hj2, hj3⟩ := ih _ _ _ (by omega) hfit
          (by show p.m_bodyBytesInterpreted + 32 + (v - (off + 32)) < SIZE_MOD; omega)
          (by show p.m_numUpdatesRead + 1 + (v - (off + 32)) < SIZE_MOD; omega) h
        refine ⟨j + 1, by omega, ?_, ?_⟩
        · rw [hj2]; show p.m_bodyBytesInterpreted + 32 + 32 * j = _; omega
        · rw [hj3]; show p.m_numUpdatesRead + 1 + j = _; omega
    · simp only [scanBuffer, hlt, if_false] at h
      injection h with h; subst h
      exact ⟨0, by omega, rfl, rfl⟩

/-- Every trade location recorded by the scan is one that was recorded before
or an offset at which the scan classified a record. -/
theorem scanBuffer_locs (v : Nat) : ∀ (fuel off : Nat) (p q : marketPacketProcessor_t),
    scanBuffer v fuel off p = .ok q →
    ∀ x ∈ q.m_tradeLocs, x ∈ p.m_tradeLocs ∨ x ∈ scannedOffsets p.m_readBuffer v fuel off := by
  intro fuel
  induction fuel with
  | zero =>
    intro off p q h x hx
    unfold scanBuffer at h
    split_ifs at h
    injection h with h; subst h
    exact Or.inl hx
  | succ fuel ih =>
    intro off p q h x hx
    by_cases hlt : off < v
    · rcases isValidUpdatePtr_cases p.m_readBuffer off with hc | hc | hc
      · simp only [scanBuffer, hlt, hc, if_true] at h
        injection h with h; subst h
        exact Or.inl hx
      · have hne : ¬ updateType_e.TRADE = updateType_e.INVALID := by decide
        simp only [scanBuffer, hlt, hc, hne, if_true, if_false] at h
        rcases ih _ _ _ h x hx with h1 | h1
        · rcases List.mem_append.mp h1 with h2 | h2
          · exact Or.inl h2
          · right
            simp only [List.mem_singleton] at h2
            simp only [scannedOffsets, hlt, hc, hne, if_true, if_false, List.mem_cons]
            exact Or.inl h2
        · right
          simp only [scannedOffsets, hlt, hc, hne, if_true, if_false, List.mem_cons]
          exact Or.inr h1
      · have hne : ¬ updateType_e.QUOTE = updateType_e.INVALID := by decide
        have hnt : ¬ updateType_e.QUOTE = updateType_e.TRADE := by decide
        simp only [scanBuffer, hlt, hc, hne, hnt, if_true, if_false] at h
        rcases ih _ _ _ h x hx with h1 | h1
        · exact Or.inl h1
        · right
          simp only [scannedOffsets, hlt, hc, hne, if_true, if_false, List.mem_cons]
          exact Or.inr h1
    · simp only [scanBuffer, hlt, if_false] at h
      injection h with h; subst h
      exact Or.inl hx

end marketPacketProcessor_t

namespace marketPacketProcessor_t

/-! ## The handlers, one by one -/

theorem checkStreamValidity_kept {p p1 : marketPacketProcessor_t}
    (hH : checkStreamValidity p = .ok p1) :
    ∃ i1 f1, p1 = { p with m_inputStream := i1, m_failReason := f1 } ∧
      (f1 = none → ∃ s, i1 = some s ∧ s.good = true) := by
  unfold checkStreamValidity at hH
  cases hin : p.m_inputStream with
  | none => rw [hin] at hH; cases hH
  | some s =>
    rw [hin] at hH
    simp only at hH
    split_ifs at hH with h1 h2 h3
    · injection hH with hH; subst hH
      exact ⟨_, _, rfl, fun hx => by cases hx⟩
    · injection hH with hH; subst hH
      exact ⟨_, _, rfl, fun hx => by cases hx⟩
    · injection hH with hH; subst hH
      exact ⟨_, _, rfl, fun hx => by cases hx⟩
    · injection hH with hH; subst hH
      refine ⟨some s.peek, p.m_failReason, rfl, fun _ => ⟨s.peek, rfl, ?_⟩⟩
      simpa using h2

theorem readHeader_kept {p p1 : marketPacketProcessor_t} {s : IStream}
    (hH : readHeader p = .ok p1) (hin : p.m_inputStream = some s) (hg : s.good = true) :
    (∃ i1 h1 r, p1 = { p with
        m_inputStream := i1
        m_packetHeader := h1
        m_failReason := some r }) ∨
    (∃ s1 h1, p1 = resetPerPacketVariables { p with
        m_inputStream := some s1
        m_packetHeader := h1 } ∧ s1.good = true ∧ PACKET_HEADER_SIZE ≤ readU16 h1 0) := by
  unfold readHeader at hH
  rw [hin] at hH
  simp only at hH
  split_ifs at hH with h1 h2
  · injection hH with hH; subst hH
    exact Or.inl ⟨_, _, _, rfl⟩
  · injection hH with hH; subst hH
    exact Or.inl ⟨_, _, _, rfl⟩
  · injection hH with hH; subst hH
    refine Or.inr ⟨_, _, rfl, ?_, ?_⟩
    · by_cases hle : PACKET_HEADER_SIZE ≤ s.rest.length
      · simp only [IStream.read, hg, hle, if_true]
        exact hg
      · simp [IStream.read, hg, hle, IStream.fail] at h1
    · simp only [packetLength] at h2
      omega

/-- The number of bytes that a fill asks for when the header of the packet is
consistent. -/
theorem validDataInBuffer_consistent {p : marketPacketProcessor_t} {n k : Nat}
    (hb : p.m_bodySize = 32 * n) (hi : p.m_bodyBytesInterpreted = 32 * k) (hk : k ≤ n)
    (hn : n < 65536) : p.validDataInBuffer = min (32 * (n - k)) 1024 := by
  have hM : SIZE_MOD = 18446744073709551616 := by decide
  have hleft : (p.m_bodySize + SIZE_MOD - p.m_bodyBytesInterpreted) % SIZE_MOD = 32 * (n - k) := by
    rw [hb, hi, hM]; omega
  simp only [validDataInBuffer, hleft, READ_BUFFER_SIZE]
  split <;> omega

theorem readPartBody_short {p : marketPacketProcessor_t} {s : IStream}
    (hin : p.m_inputStream = some s) (hshort : s.rest.length < p.validDataInBuffer) :
    ∃ i1 b1, readPartBody p = .ok { p with
      m_inputStream := i1
      m_readBuffer := b1
      m_failReason := some "Packet read failed" } := by
  have hng : (s.read p.validDataInBuffer).1.good = false := by
    by_cases hg : s.good = true
    · have hle : ¬ p.validDataInBuffer ≤ s.rest.length := by omega
      rw [IStream.read, if_pos hg, if_neg hle]
      rfl
    · rw [IStream.read, if_neg hg]
      simp [IStream.good]
  refine ⟨some (s.read p.validDataInBuffer).1,
    (s.read p.validDataInBuffer).2 ++ p.m_readBuffer.drop (s.read p.validDataInBuffer).2.length, ?_⟩
  unfold readPartBody
  rw [hin]
  simp only
  rw [show (if (p.m_bodySize + SIZE_MOD - p.m_bodyBytesInterpreted) % SIZE_MOD < READ_BUFFER_SIZE
      then (p.m_bodySize + SIZE_MOD - p.m_bodyBytesInterpreted) % SIZE_MOD else READ_BUFFER_SIZE)
    = p.validDataInBuffer from rfl]
  simp only [hng, Bool.not_false, if_true]

theorem readPartBody_good {p : marketPacketProcessor_t} {s : IStream}
    (hin : p.m_inputStream = some s) (hg : s.good = true)
    (hle : p.validDataInBuffer ≤ s.rest.length) :
    readPartBody p = scanBuffer p.validDataInBuffer p.validDataInBuffer 0 { p with
      m_inputStream := some { s with rest := s.rest.drop p.validDataInBuffer }
      m_readBuffer := s.rest.take p.validDataInBuffer
        ++ p.m_readBuffer.drop (s.rest.take p.validDataInBuffer).length } := by
  have hread : s.read p.validDataInBuffer
      = ({ s with rest := s.rest.drop p.validDataInBuffer }, s.rest.take p.validDataInBuffer) := by
    simp only [IStream.read, hg, hle, if_true]
  have hg2 : ({ s with rest := s.rest.drop p.validDataInBuffer } : IStream).good = true := hg
  unfold readPartBody
  rw [hin]
  simp only
  rw [show (if (p.m_bodySize + SIZE_MOD - p.m_bodyBytesInterpreted) % SIZE_MOD < READ_BUFFER_SIZE
      then (p.m_bodySize + SIZE_MOD - p.m_bodyBytesInterpreted) % SIZE_MOD else READ_BUFFER_SIZE)
    = p.validDataInBuffer from rfl]
  rw [hread]
  simp only [hg2, Bool.not_true, Bool.false_eq_true, if_false]

end marketPacketProcessor_t

namespace marketPacketProcessor_t

/-! ## The counters of a packet with a consistent header -/

theorem CountersKept.initial {i : Option IStream} {o : Option OStream} {hdr buf : List Byte}
    {p0 : marketPacketProcessor_t} (h : (create i o hdr buf).initialise = .ok p0) :
    CountersKept p0 := by
  unfold initialise at h
  split_ifs at h with h1 h2 h3
  injection h with h
  subst h
  have hs : (create i o hdr buf).m_outputStream.isSome = true := by
    cases o with
    | none => simp [create] at h2
    | some x => rfl
  exact ⟨hs, by show (0 : Nat) < U16_MOD; decide, by show (0 : Nat) < U16_MOD; decide,
    fun _ => ⟨rfl, Nat.le_refl _⟩,
    fun _ hx => by simp at hx, fun _ hx => by simp at hx, fun _ hx => by simp at hx,
    fun _ _ => rfl⟩

theorem CountersKept.after_reset {p : marketPacketProcessor_t} (h : CountersKept p) (c : Option Nat) :
    CountersKept (resetPerRunVariables c p) :=
  ⟨h.sink, h.packet, h.body, h.within, h.header, h.more, h.source, h.locs⟩

theorem CountersKept.after_round {p q : marketPacketProcessor_t} (h : CountersKept p)
    (hi : iteration p = .again q) : CountersKept q := by
  have hM : SIZE_MOD = 18446744073709551616 := by decide
  have hU : U16_MOD = 65536 := by decide
  by_cases hf : p.m_failReason.isSome = true
  · simp [iteration, hf] at hi
  have hnf : p.m_failReason = none := by
    cases hx : p.m_failReason with
    | none => rfl
    | some x => rw [hx] at hf; simp at hf
  cases hs : p.m_state with
  | UNINITIALIZED =>
    simp only [iteration, hf, hs] at hi
    injection hi with hi
    subst hi
    exact ⟨h.sink, h.packet, h.body, h.within, fun hx => by simp [uninitialized] at hx,
      fun hx => by simp [uninitialized] at hx, fun hx => by simp [uninitialized] at hx,
      fun hx => by simp [uninitialized] at hx⟩
  | CHECK_STREAM_VALIDITY =>
    by_cases hx : p.m_numPacketsToProcess = some p.m_numPacketsProcessed
    · simp [iteration, hf, hs, hx] at hi
    · cases hH : checkStreamValidity p with
      | ok p1 =>
        simp only [iteration, hf, hs, hx, hH, Bool.false_eq_true, if_false] at hi
        injection hi with hi
        subst hi
        obtain ⟨i1, f1, rfl, hgood⟩ := checkStreamValidity_kept hH
        exact ⟨h.sink, h.packet, h.body, h.within, fun _ hy => by simp at hy,
          fun _ hy => by simp at hy, fun hn _ => hgood hn,
          fun _ _ => h.locs hnf (by rw [hs]; decide)⟩
      | abort => simp [iteration, hf, hs, hx, hH] at hi
      | timeout => simp [iteration, hf, hs, hx, hH] at hi
  | READ_HEADER =>
    obtain ⟨s, hin, hg⟩ := h.source hnf (Or.inl hs)
    cases hH : readHeader p with
    | ok p1 =>
      simp only [iteration, hf, hs, hH, Bool.false_eq_true, if_false] at hi
      injection hi with hi
      subst hi
      rcases readHeader_kept hH hin hg with ⟨i1, h1, r, rfl⟩ | ⟨s1, h1, rfl, hg1, hpl⟩
      · exact ⟨h.sink, h.packet, h.body, h.within, fun hy => by simp at hy,
          fun hy => by simp at hy, fun hy => by simp at hy, fun hy => by simp at hy⟩
      · have hb := readU16_lt h1 0
        have hn := readU16_lt h1 2
        have hbody : (readU16 h1 0 + SIZE_MOD - PACKET_HEADER_SIZE) % SIZE_MOD
            = readU16 h1 0 - PACKET_HEADER_SIZE := by
          simp only [PACKET_HEADER_SIZE] at hpl ⊢
          rw [hM]
          omega
        refine ⟨h.sink, ?_, ?_, fun _ => ⟨rfl, Nat.zero_le _⟩, fun _ _ => ⟨hpl, hbody, rfl⟩,
          fun _ _ _ => ?_, fun _ _ => ⟨s1, rfl, hg1⟩, fun _ _ => h.locs hnf (by rw [hs]; decide)⟩
        · show readU16 h1 2 < U16_MOD
          rw [hU]; exact hn
        · show (readU16 h1 0 + SIZE_MOD - PACKET_HEADER_SIZE) % SIZE_MOD < U16_MOD
          rw [hbody, hU]; omega
        · show 0 < readU16 h1 2 ∨ readU16 h1 2 = 0
          omega
    | abort => simp [iteration, hf, hs, hH] at hi
    | timeout => simp [iteration, hf, hs, hH] at hi
  | READ_PART_BODY =>
    obtain ⟨s, hin, hg⟩ := h.source hnf (Or.inr (Or.inl hs))
    cases hH : readPartBody p with
    | ok p1 =>
      simp only [iteration, hf, hs, hH, Bool.false_eq_true, if_false] at hi
      injection hi with hi
      subst hi
      by_cases hle : p.validDataInBuffer ≤ s.rest.length
      · rw [readPartBody_good hin hg hle] at hH
        obtain ⟨e1, e2, e3, _, _⟩ := scanBuffer_header _ _ _ _ _ hH
        have hout := scanBuffer_output _ _ _ _ _ hH
        have hinp := scanBuffer_input _ _ _ _ _ hH
        simp only at e1 e2 e3 hout hinp
        refine ⟨?_, ?_, ?_, fun hc => ?_, fun _ _ => ?_, fun _ hy => by simp at hy,
          fun _ _ => ⟨_, hinp, hg⟩, fun _ hy => absurd rfl hy⟩
        · show p1.m_outputStream.isSome = true
          rw [hout]; exact h.sink
        · show p1.m_numUpdatesPacket < U16_MOD
          rw [e3]; exact h.packet
        · show p1.m_bodySize < U16_MOD
          rw [e2]; exact h.body
        · have hc2 : p.m_bodySize = 32 * p.m_numUpdatesPacket := by
            rw [← e2, ← e3]; exact hc
          obtain ⟨hi1, hk⟩ := h.within hc2
          have hi2 : p.m_bodyBytesInterpreted = 32 * p.m_numUpdatesRead := hi1
          have hpk := h.packet
          rw [hU] at hpk
          have hv := validDataInBuffer_consistent hc2 hi2 hk hpk
          obtain ⟨j, hj1, hj2, hj3⟩ := scanBuffer_aligned p.validDataInBuffer
            (by rw [hv]; omega) (by rw [hv]; omega) _ _ _ _ (dvd_zero 32) (Nat.zero_le _)
            (by show p.m_bodyBytesInterpreted + _ < _; rw [hM]; omega)
            (by show p.m_numUpdatesRead + _ < _; rw [hM]; omega) hH
          simp only at hj2 hj3
          show p1.m_bodyBytesInterpreted = 32 * p1.m_numUpdatesRead
            ∧ p1.m_numUpdatesRead ≤ p1.m_numUpdatesPacket
          rw [hj2, hj3, e3]
          omega
        · have hh := h.header hnf (Or.inl hs)
          show PACKET_HEADER_SIZE ≤ readU16 p1.m_packetHeader 0
            ∧ p1.m_bodySize = readU16 p1.m_packetHeader 0 - PACKET_HEADER_SIZE
            ∧ p1.m_numUpdatesPacket = readU16 p1.m_packetHeader 2
          rw [e1, e2, e3]
          exact hh
      · obtain ⟨i1, b1, hrp⟩ := readPartBody_short hin (by omega)
        rw [hrp] at hH
        injection hH with hH
        subst hH
        exact ⟨h.sink, h.packet, h.body, h.within, fun hy => by simp at hy,
          fun hy => by simp at hy, fun hy => by simp at hy, fun hy => by simp at hy⟩
    | abort => simp [iteration, hf, hs, hH] at hi
    | timeout => simp [iteration, hf, hs, hH] at hi
  | WRITE_UPDATES =>
    obtain ⟨o1, fr, hw⟩ := writeUpdates_frame p h.sink
    by_cases hd : p.m_numUpdatesRead = p.m_numUpdatesPacket
    · have hdone : decide (p.m_numUpdatesRead = p.m_numUpdatesPacket) = true := by simp [hd]
      simp only [iteration, hf, hs, hw, doneWithPacket, hdone, Bool.false_eq_true,
        if_false, if_true] at hi
      injection hi with hi
      subst hi
      exact ⟨rfl, h.packet, h.body, h.within, fun _ hy => by simp at hy,
        fun _ hy => by simp at hy, fun _ hy => by simp at hy, fun _ _ => rfl⟩
    · have hdone : decide (p.m_numUpdatesRead = p.m_numUpdatesPacket) = false := by simp [hd]
      simp only [iteration, hf, hs, hw, doneWithPacket, hdone, Bool.false_eq_true,
        if_false] at hi
      injection hi with hi
      subst hi
      exact ⟨rfl, h.packet, h.body, h.within, fun _ _ => h.header hnf (Or.inr hs),
        fun _ _ hc => Or.inl (Nat.lt_of_le_of_ne (h.within hc).2 hd),
        fun _ _ => h.source hnf (Or.inr (Or.inr hs)), fun _ _ => rfl⟩

theorem CountersKept.after_rounds {p : marketPacketProcessor_t} (h : CountersKept p) :
    ∀ (i : Nat) (q : marketPacketProcessor_t), rounds i p = some q → CountersKept q := by
  intro i
  induction i generalizing p with
  | zero =>
    intro q hq
    simp only [marketPacketProcessor_t.rounds, Option.some.injEq] at hq
    subst hq
    exact h
  | succ i ih =>
    intro q hq
    rw [marketPacketProcessor_t.rounds] at hq
    cases hi : iteration p with
    | again p1 =>
      rw [hi] at hq
      exact ih (h.after_round hi) q hq
    | leave p1 => rw [hi] at hq; cases hq
    | abort => rw [hi] at hq; cases hq
    | timeout => rw [hi] at hq; cases hq

theorem CountersKept.after_calls (fuel : Nat) :
    ∀ (cs : List (Option Nat)) (p q : marketPacketProcessor_t) (rs : List (Option String)),
      CountersKept p → calls fuel cs p = .ok (q, rs) → CountersKept q := by
  intro cs
  induction cs with
  | nil =>
    intro p q rs h hc
    simp only [marketPacketProcessor_t.calls, Res.ok.injEq, Prod.mk.injEq] at hc
    rw [← hc.1]
    exact h
  | cons c cs ih =>
    intro p q rs h hc
    rw [marketPacketProcessor_t.calls] at hc
    cases h1 : processNextPacket fuel c p with
    | ok x =>
      obtain ⟨p1, r⟩ := x
      rw [h1] at hc
      simp only at hc
      obtain ⟨hrun, _, _⟩ := processNextPacket_ok h1
      obtain ⟨i, hi⟩ := runStateMachine_rounds _ _ _ hrun
      have hk := (h.after_reset c).after_rounds i p1 hi
      cases h2 : marketPacketProcessor_t.calls fuel cs p1 with
      | ok y =>
        obtain ⟨p2, rs2⟩ := y
        rw [h2] at hc
        simp only [Res.ok.injEq, Prod.mk.injEq] at hc
        rw [← hc.1]
        exact ih p1 p2 rs2 hk h2
      | abort => rw [h2] at hc; cases hc
      | timeout => rw [h2] at hc; cases hc
    | abort => rw [h1] at hc; cases hc
    | timeout => rw [h1] at hc; cases hc

end marketPacketProcessor_t

namespace marketPacketProcessor_t

theorem rounds_output {p : marketPacketProcessor_t} (h : p.m_outputStream.isSome = true) :
    ∀ (i : Nat) (q : marketPacketProcessor_t), rounds i p = some q →
      q.m_outputStream.isSome = true := by
  intro i
  induction i generalizing p with
  | zero =>
    intro q hq
    simp only [rounds, Option.some.injEq] at hq
    subst hq
    exact h
  | succ i ih =>
    intro q hq
    rw [rounds] at hq
    cases hi : iteration p with
    | again p1 =>
      rw [hi] at hq
      exact ih ((iteration_output h).1 hi) q hq
    | leave p1 => rw [hi] at hq; cases hq
    | abort => rw [hi] at hq; cases hq
    | timeout => rw [hi] at hq; cases hq

end marketPacketProcessor_t

namespace marketPacketProcessor_t

/-- A body cut short after whole buffer fills of valid records: the fills are
processed, then the fill that finds too few bytes fails. -/
theorem body_truncated (vs : List (List Byte)) (rest : List Byte) (n : Nat)
    (cnt : Option Nat) (d : Nat) (hval : ∀ r ∈ vs, ValidRecord r) (hvl : vs.length % 32 = 0)
    (hvn : vs.length < n) (hrest : rest.length < min (32 * (n - vs.length)) 1024)
    (hn : n < 65536) :
    ∀ (m k : Nat) (p : marketPacketProcessor_t) (out : List Byte),
      vs.length - k ≤ 32 * m → k ≤ vs.length → k % 32 = 0 →
      AtBody p n k ((vs.drop k).flatten ++ rest) out cnt d →
      ∃ q j, Reaches j p q ∧ iteration q = .leave q ∧
        q.m_failReason = some "Packet read failed" ∧
        q.m_outputStream = some ⟨out ++ packetLines (vs.drop k), none, false⟩ := by
  have hM : SIZE_MOD = 18446744073709551616 := by decide
  have hfail : ∀ (k : Nat) (p : marketPacketProcessor_t) (out : List Byte),
      k = vs.length → AtBody p n k ((vs.drop k).flatten ++ rest) out cnt d →
      ∃ q j, Reaches j p q ∧ iteration q = .leave q ∧
        q.m_failReason = some "Packet read failed" ∧
        q.m_outputStream = some ⟨out ++ packetLines (vs.drop k), none, false⟩ := by
    intro k p out hk h
    subst hk
    have hd : vs.drop vs.length = [] := List.drop_length vs
    rw [hd] at h ⊢
    have hin : p.m_inputStream = some (IStream.ofBytes rest) := by
      simpa using h.input
    have hv := validDataInBuffer_consistent (show p.m_bodySize = 32 * n from h.bodySize)
      (show p.m_bodyBytesInterpreted = 32 * vs.length from h.bodyBytesInterpreted)
      (Nat.le_of_lt hvn) hn
    obtain ⟨i1, b1, hrp⟩ := readPartBody_short hin
      (show rest.length < p.validDataInBuffer by rw [hv]; exact hrest)
    have hnf : p.m_failReason.isSome = false := by rw [h.noFail]; rfl
    have hit1 : iteration p = .again { p with
        m_inputStream := i1
        m_readBuffer := b1
        m_failReason := some "Packet read failed"
        m_state := .WRITE_UPDATES } := by
      simp only [iteration, hnf, h.state, hrp, Bool.false_eq_true, if_false]
    refine ⟨_, 1, Reaches.of_again hit1, by simp [iteration], rfl, ?_⟩
    show p.m_outputStream = _
    rw [h.output]
    simp [packetLines]
  intro m
  induction m with
  | zero =>
    intro k p out hm hk _ h
    exact hfail k p out (by omega) h
  | succ m ih =>
    intro k p out hm hk hk32 h
    by_cases heq : k = vs.length
    · exact hfail k p out heq h
    · generalize hch : (vs.drop k).take 32 = chunk
      have hcl : chunk.length = 32 := by
        rw [← hch, List.length_take, List.length_drop]; omega
      have hcv : ∀ r ∈ chunk, ValidRecord r := by
        intro r hr
        rw [← hch] at hr
        exact hval r (List.mem_of_mem_drop (List.mem_of_mem_take hr))
      have h1 : chunk ++ vs.drop (k + 32) = vs.drop k := by
        have h2 := List.take_append_drop 32 (vs.drop k)
        rw [hch, List.drop_drop] at h2
        exact h2
      have hsplit : (vs.drop k).flatten ++ rest
          = chunk.flatten ++ ((vs.drop (k + 32)).flatten ++ rest) := by
        conv_lhs => rw [← h1]
        rw [List.flatten_append, List.append_assoc]
      rw [hsplit] at h
      obtain ⟨q, hq, hres⟩ := body_round p n k chunk _ out cnt d hcv
        (by rw [hM]; simp only [UPDATE_SIZE]; omega) (by omega) (by rw [hcl]; omega) h
      rw [hcl, if_neg (by omega)] at hres
      obtain ⟨q2, j, hq2, hl, hf, ho⟩ := ih (k + 32) q _ (by omega) (by omega) (by omega) hres
      refine ⟨q2, 2 + j, hq.trans hq2, hl, hf, ?_⟩
      rw [ho, ← h1, packetLines_append, List.append_assoc]

end marketPacketProcessor_t

/-- Claim C27.  First, for any call of `processNextPacket` on a processor with
a sink and any round of its loop that is a `readPartBody` started with no
failure reason: if the input holds fewer bytes than this fill asks for, the
call returns "Packet read failed", and the output stream is at the return what
it was before the fill: no line is written for a record of the short fill, no
record of it is counted and no trade location is recorded.  Second, for a
stream of well-formed packets followed by a packet with the header
`{4 + 32 * n, n}` whose body ends early, after whole buffer fills of valid
records `fills` and fewer bytes `rest` than the next fill asks for: a call that
its count does not stop earlier returns "Packet read failed", and its output
is exactly the lines of the earlier packets and of `fills`, whatever records
`rest` holds. -/
theorem C27_truncated_body :
    (∀ (p0 p : marketPacketProcessor_t) (cnt : Option Nat) (i : Nat) (s : IStream),
      p0.m_outputStream.isSome = true →
      (marketPacketProcessor_t.resetPerRunVariables cnt p0).rounds i = some p →
      p.m_state = .READ_PART_BODY → p.m_failReason = none →
      p.m_inputStream = some s → s.rest.length < p.validDataInBuffer →
      ∃ q, (∀ fuel, i + 2 ≤ fuel →
          p0.processNextPacket fuel cnt = .ok (q, some "Packet read failed")) ∧
        q.m_outputStream = p.m_outputStream ∧ q.m_numUpdatesRead = p.m_numUpdatesRead ∧
        q.m_tradeLocs = p.m_tradeLocs) ∧
    (∀ (ps : List (List (List Byte))) (fills : List (List Byte)) (rest hdr buf : List Byte)
      (n : Nat) (p0 : marketPacketProcessor_t) (cnt : Option Nat),
      (∀ rs ∈ ps, WellFormedPacket rs) → (∀ r ∈ fills, ValidRecord r) →
      fills.length % 32 = 0 → fills.length < n → 4 + 32 * n ≤ 65535 →
      rest.length < min (32 * (n - fills.length)) 1024 →
      (∀ c, cnt = some c → ps.length < c ∧ c < SIZE_MOD) →
      (marketPacketProcessor_t.create (some (IStream.ofBytes (encodeStream ps
          ++ (marketPacketGenerator_t.headerBytes (4 + 32 * n) n ++ (fills.flatten ++ rest)))))
        (some OStream.empty) hdr buf).initialise = .ok p0 →
      ∃ q N, (∀ fuel, N ≤ fuel →
          p0.processNextPacket fuel cnt = .ok (q, some "Packet read failed")) ∧
        q.m_outputStream = some ⟨streamLines ps ++ packetLines fills, none, false⟩) := by
  constructor
  · intro p0 p cnt i s ho hr hs hnf hin hshort
    obtain ⟨i1, b1, hrp⟩ := marketPacketProcessor_t.readPartBody_short hin hshort
    have hnf2 : p.m_failReason.isSome = false := by rw [hnf]; rfl
    have hit1 : marketPacketProcessor_t.iteration p = .again { p with
        m_inputStream := i1
        m_readBuffer := b1
        m_failReason := some "Packet read failed"
        m_state := .WRITE_UPDATES } := by
      simp only [marketPacketProcessor_t.iteration, hnf2, hs, hrp, Bool.false_eq_true, if_false]
    have hit2 : marketPacketProcessor_t.iteration { p with
        m_inputStream := i1
        m_readBuffer := b1
        m_failReason := some "Packet read failed"
        m_state := .WRITE_UPDATES } = .leave { p with
        m_inputStream := i1
        m_readBuffer := b1
        m_failReason := some "Packet read failed"
        m_state := .WRITE_UPDATES } := by
      simp [marketPacketProcessor_t.iteration]
    have hpo := marketPacketProcessor_t.rounds_output
      (show (marketPacketProcessor_t.resetPerRunVariables cnt p0).m_outputStream.isSome = true
        from ho) i p hr
    obtain ⟨o, hpo⟩ := Option.isSome_iff_exists.mp hpo
    refine ⟨{ p with
        m_inputStream := i1
        m_readBuffer := b1
        m_failReason := some "Packet read failed"
        m_state := .WRITE_UPDATES }, fun fuel hfu => ?_, rfl, rfl, rfl⟩
    obtain ⟨f, rfl⟩ : ∃ f, fuel = i + (f + 2) := ⟨fuel - i - 2, by omega⟩
    have hrun : marketPacketProcessor_t.runStateMachine (f + 2) p = .ok { p with
        m_inputStream := i1
        m_readBuffer := b1
        m_failReason := some "Packet read failed"
        m_state := .WRITE_UPDATES } := by
      rw [marketPacketProcessor_t.runStateMachine, hit1]
      show marketPacketProcessor_t.runStateMachine (f + 1) _ = _
      rw [marketPacketProcessor_t.runStateMachine, hit2]
    rw [marketPacketProcessor_t.processNextPacket,
      marketPacketProcessor_t.rounds_runStateMachine i _ p hr (f + 2), hrun]
    simp only [hpo]
  · intro ps fills rest hdr buf n p0 cnt hwf hfv hfl hvn hn hrest hcnt hinit
    rw [marketPacketProcessor_t.eq_ready_of_initialise hinit]
    obtain ⟨q, j, hq, hat, hne⟩ := marketPacketProcessor_t.process_after_packets _ ps
      (marketPacketGenerator_t.headerBytes (4 + 32 * n) n ++ (fills.flatten ++ rest))
      [] none 0 cnt hwf hcnt (marketPacketProcessor_t.ready_atCheck _ hdr buf)
    obtain ⟨q2, hq2, hbody⟩ := marketPacketProcessor_t.header_round q n
      (fills.flatten ++ rest) _ cnt ps.length hn hne hat
    obtain ⟨q3, j3, hq3, hl, hf, ho⟩ := marketPacketProcessor_t.body_truncated fills rest n cnt
      ps.length hfv hfl hvn hrest (by omega) fills.length 0 q2 _ (by omega) (by omega)
      (by omega) (by simpa using hbody)
    refine ⟨q3, j + 2 + j3 + 1, fun fuel hfu => ?_, by simpa using ho⟩
    rw [marketPacketProcessor_t.processNextPacket_of_reaches ((hq.trans hq2).trans hq3) hl ho
      fuel hfu, hf]

/-- Two instances of claim C27.  The header `{packetLength = 68,
numMarketUpdates = 1}` followed by one valid trade record and nothing more:
the fill asks for 64 bytes, finds 32, and the call returns "Packet read
failed" with nothing written.  The header `{68, 2}` followed by one valid
trade record: the same, although the record is whole. -/
theorem C27_truncated_body_witness :
    (∃ q, (∀ fuel, 2 + 2 ≤ fuel →
        (marketPacketProcessor_t.ready ([68, 0, 1, 0]
          ++ marketPacketGenerator_t.tradeBytes (strBytes "ABCDE") 7 9) [] []).processNextPacket
          fuel none = .ok (q, some "Packet read failed")) ∧
      q.m_outputStream = some OStream.empty ∧ q.m_numUpdatesRead = 0 ∧ q.m_tradeLocs = []) ∧
    (∃ q N, (∀ fuel, N ≤ fuel →
        (marketPacketProcessor_t.ready (encodeStream []
          ++ (marketPacketGenerator_t.headerBytes (4 + 32 * 2) 2
            ++ (([] : List (List Byte)).flatten
              ++ marketPacketGenerator_t.tradeBytes (strBytes "ABCDE") 7 9))) [] []).processNextPacket
          fuel none = .ok (q, some "Packet read failed")) ∧
      q.m_outputStream = some ⟨streamLines [] ++ packetLines [], none, false⟩) := by
  constructor
  · obtain ⟨q, h1, h2, h3, h4⟩ := C27_truncated_body.1
      (marketPacketProcessor_t.ready ([68, 0, 1, 0]
        ++ marketPacketGenerator_t.tradeBytes (strBytes "ABCDE") 7 9) [] [])
      { marketPacketProcessor_t.ready ([68, 0, 1, 0]
          ++ marketPacketGenerator_t.tradeBytes (strBytes "ABCDE") 7 9) [] [] with
        m_inputStream := some (IStream.ofBytes
          (marketPacketGenerator_t.tradeBytes (strBytes "ABCDE") 7 9))
        m_packetHeader := [68, 0, 1, 0]
        m_numUpdatesPacket := 1
        m_bodySize := 64
        m_state := .READ_PART_BODY }
      none 2 (IStream.ofBytes (marketPacketGenerator_t.tradeBytes (strBytes "ABCDE") 7 9))
      rfl (by rfl) rfl rfl rfl (by decide)
    exact ⟨q, h1, h2, h3, h4⟩
  · exact C27_truncated_body.2 [] [] (marketPacketGenerator_t.tradeBytes (strBytes "ABCDE") 7 9)
      [] [] 2 _ none (by decide) (by decide) (by decide) (by decide) (by decide) (by decide)
      (fun c hc => by cases hc) rfl

/-- Claim C28, refuted as stated: after the accepted header `{packetLength =
20, numMarketUpdates = 0}` and 16 bytes that begin like a quote, the fill
reads the 16 bytes of the body and the scan counts one record of 32 bytes.
Before the next fill 32 bytes are interpreted of a body of 16 and one record
is counted of none announced; the subtraction wraps round and that fill asks
for 1024 bytes. -/
theorem C28_counterexample :
    ∃ p, (marketPacketProcessor_t.resetPerRunVariables none
        (marketPacketProcessor_t.ready ([20, 0, 0, 0] ++ ([32, 0, 81] ++ List.replicate 13 0))
          [] [])).rounds 4 = some p ∧
      p.m_state = .READ_PART_BODY ∧ p.m_failReason = none ∧ p.packetLength = 20 ∧
      p.m_bodySize = 16 ∧ p.m_bodyBytesInterpreted = 32 ∧
      p.m_numUpdatesPacket = 0 ∧ p.m_numUpdatesRead = 1 ∧ p.validDataInBuffer = 1024 := by
  refine ⟨{ marketPacketProcessor_t.resetPerRunVariables none
        (marketPacketProcessor_t.ready ([20, 0, 0, 0] ++ ([32, 0, 81] ++ List.replicate 13 0))
          [] []) with
      m_inputStream := some (IStream.ofBytes [])
      m_packetHeader := [20, 0, 0, 0]
      m_numUpdatesPacket := 0
      m_numUpdatesRead := 1
      m_bodySize := 16
      m_bodyBytesInterpreted := 32
      m_readBuffer := [32, 0, 81] ++ List.replicate 13 0
      m_state := .READ_PART_BODY }, by rfl, rfl, rfl, by decide, rfl, rfl, rfl, rfl, by decide⟩

/-- Claim C28, amended.  On a processor that was initialized after its
construction, after any earlier calls, before every round of a call of
`processNextPacket` (and so also in the state in which the call returns):
while a packet is being read with no failure, `m_bodySize` is the
`packetLength` of the accepted header less 4 and `m_numUpdatesPacket` is its
`numMarketUpdates`; and whenever the two are consistent (`m_bodySize = 32 *
m_numUpdatesPacket`, that is `packetLength = 4 + 32 * numMarketUpdates`), the
bytes interpreted are 32 for each record counted and at most `m_bodySize`, no
more records are counted than announced, and the subtraction `m_bodySize -
m_bodyBytesInterpreted` of `readPartBody` does not wrap round. -/
theorem C28_counters_within_consistent_header (i : Option IStream) (o : Option OStream)
    (hdr buf : List Byte) (p0 p1 p : marketPacketProcessor_t) (fuel : Nat)
    (cs : List (Option Nat)) (rs : List (Option String)) (c : Option Nat) (j : Nat)
    (hinit : (marketPacketProcessor_t.create i o hdr buf).initialise = .ok p0)
    (hcalls : p0.calls fuel cs = .ok (p1, rs))
    (hr : (marketPacketProcessor_t.resetPerRunVariables c p1).rounds j = some p) :
    (p.m_failReason = none → p.m_state = .READ_PART_BODY ∨ p.m_state = .WRITE_UPDATES →
      4 ≤ p.packetLength ∧ p.m_bodySize = p.packetLength - 4 ∧
        p.m_numUpdatesPacket = p.numMarketUpdates) ∧
    (p.m_bodySize = 32 * p.m_numUpdatesPacket →
      p.m_bodyBytesInterpreted ≤ p.m_bodySize ∧ p.m_numUpdatesRead ≤ p.m_numUpdatesPacket ∧
      p.m_bodyBytesInterpreted = 32 * p.m_numUpdatesRead ∧
      (p.m_bodySize + SIZE_MOD - p.m_bodyBytesInterpreted) % SIZE_MOD
        = p.m_bodySize - p.m_bodyBytesInterpreted) := by
  have hM : SIZE_MOD = 18446744073709551616 := by decide
  have hU : U16_MOD = 65536 := by decide
  have hk := (((marketPacketProcessor_t.CountersKept.initial hinit).after_calls fuel cs p0 p1 rs
    hcalls).after_reset c).after_rounds j p hr
  refine ⟨hk.header, fun hc => ?_⟩
  obtain ⟨h1, h2⟩ := hk.within hc
  have h3 : p.m_bodyBytesInterpreted = 32 * p.m_numUpdatesRead := h1
  have hb := hk.body
  rw [hU] at hb
  refine ⟨by omega, h2, h3, ?_⟩
  rw [hM]
  omega

/-- An instance of claim C28 as amended: the header `{36, 1}` and one trade
record, in a first call without a count; the state after the fill, in which
one record is counted of one announced and 32 bytes are interpreted of 32. -/
theorem C28_counters_within_consistent_header_witness :
    ∃ p, (marketPacketProcessor_t.resetPerRunVariables none
        (marketPacketProcessor_t.ready ([36, 0, 1, 0]
          ++ marketPacketGenerator_t.tradeBytes (strBytes "ABCDE") 7 9) [] [])).rounds 3 = some p ∧
      p.m_state = .WRITE_UPDATES ∧ p.m_bodySize = 32 ∧ p.m_bodyBytesInterpreted = 32 ∧
      p.m_numUpdatesPacket = 1 ∧ p.m_numUpdatesRead = 1 ∧
      (p.m_failReason = none → p.m_state = .READ_PART_BODY ∨ p.m_state = .WRITE_UPDATES →
        4 ≤ p.packetLength ∧ p.m_bodySize = p.packetLength - 4 ∧
          p.m_numUpdatesPacket = p.numMarketUpdates) ∧
      (p.m_bodySize = 32 * p.m_numUpdatesPacket →
        p.m_bodyBytesInterpreted ≤ p.m_bodySize ∧ p.m_numUpdatesRead ≤ p.m_numUpdatesPacket ∧
        p.m_bodyBytesInterpreted = 32 * p.m_numUpdatesRead ∧
        (p.m_bodySize + SIZE_MOD - p.m_bodyBytesInterpreted) % SIZE_MOD
          = p.m_bodySize - p.m_bodyBytesInterpreted) := by
  have hr : (marketPacketProcessor_t.resetPerRunVariables none
        (marketPacketProcessor_t.ready ([36, 0, 1, 0]
          ++ marketPacketGenerator_t.tradeBytes (strBytes "ABCDE") 7 9) [] [])).rounds 3
      = some { marketPacketProcessor_t.resetPerRunVariables none
        (marketPacketProcessor_t.ready ([36, 0, 1, 0]
          ++ marketPacketGenerator_t.tradeBytes (strBytes "ABCDE") 7 9) [] []) with
        m_inputStream := some (IStream.ofBytes [])
        m_packetHeader := [36, 0, 1, 0]
        m_numUpdatesPacket := 1
        m_numUpdatesRead := 1
        m_bodySize := 32
        m_bodyBytesInterpreted := 32
        m_readBuffer := marketPacketGenerator_t.tradeBytes (strBytes "ABCDE") 7 9
        m_tradeLocs := [0]
        m_state := .WRITE_UPDATES } := by
    rfl
  exact ⟨_, hr, rfl, rfl, rfl, rfl, rfl,
    C28_counters_within_consistent_header
      (some (IStream.ofBytes ([36, 0, 1, 0]
        ++ marketPacketGenerator_t.tradeBytes (strBytes "ABCDE") 7 9)))
      (some OStream.empty) [] [] _ _ _ 0 [] [] none 3 (by rfl) (by rfl) hr⟩

/-- Claim C21, refuted as stated: the header `{packetLength = 4,
numMarketUpdates = 0}` satisfies `packetLength = 4 + 32 * numMarketUpdates`,
and the fill that follows it reads no byte at all: a byte count that is not a
positive multiple of 32. -/
theorem C21_counterexample :
    ∃ p q, (marketPacketProcessor_t.resetPerRunVariables none
        (marketPacketProcessor_t.ready [4, 0, 0, 0] [] [])).rounds 2 = some p ∧
      p.m_state = .READ_PART_BODY ∧ p.m_failReason = none ∧
      p.packetLength = 4 + 32 * p.numMarketUpdates ∧ p.validDataInBuffer = 0 ∧
      p.readPartBody = .ok q ∧ q.m_failReason = none ∧ q.m_inputStream = p.m_inputStream := by
  refine ⟨{ marketPacketProcessor_t.resetPerRunVariables none
        (marketPacketProcessor_t.ready [4, 0, 0, 0] [] []) with
      m_inputStream := some (IStream.ofBytes [])
      m_packetHeader := [4, 0, 0, 0]
      m_state := .READ_PART_BODY },
    { marketPacketProcessor_t.resetPerRunVariables none
        (marketPacketProcessor_t.ready [4, 0, 0, 0] [] []) with
      m_inputStream := some (IStream.ofBytes [])
      m_packetHeader := [4, 0, 0, 0]
      m_state := .READ_PART_BODY },
    by rfl, rfl, rfl, by decide, by decide, by rfl, rfl, rfl⟩

/-- Claim C21, amended.  On a processor that was initialized after its
construction, after any earlier calls, take any round of a call of
`processNextPacket` that is a `readPartBody` started with no failure reason,
in a packet whose header has `packetLength = 4 + 32 * numMarketUpdates`.  The
number of bytes that the fill asks for is a multiple of 32 and at most 1024;
it is zero exactly when `numMarketUpdates = 0`.  If the input holds fewer
bytes, the fill fails with "Packet read failed" and scans no record.
Otherwise it takes exactly that many bytes from the input into the start of
the buffer, and every offset at which the scan classifies a record, and every
trade location it records, is a multiple of 32 that lies with its 32 bytes
inside the bytes of this fill. -/
theorem C21_fills_hold_whole_records (i : Option IStream) (o : Option OStream)
    (hdr buf : List Byte) (p0 p1 p : marketPacketProcessor_t) (fuel : Nat)
    (cs : List (Option Nat)) (rs : List (Option String)) (c : Option Nat) (j : Nat)
    (hinit : (marketPacketProcessor_t.create i o hdr buf).initialise = .ok p0)
    (hcalls : p0.calls fuel cs = .ok (p1, rs))
    (hr : (marketPacketProcessor_t.resetPerRunVariables c p1).rounds j = some p)
    (hs : p.m_state = .READ_PART_BODY) (hnf : p.m_failReason = none)
    (hcons : p.packetLength = 4 + 32 * p.numMarketUpdates) :
    32 ∣ p.validDataInBuffer ∧ p.validDataInBuffer ≤ 1024 ∧
    (p.validDataInBuffer = 0 ↔ p.numMarketUpdates = 0) ∧
    ∃ s q, p.m_inputStream = some s ∧ p.readPartBody = .ok q ∧
      (s.rest.length < p.validDataInBuffer →
        q.m_failReason = some "Packet read failed" ∧
        q.m_numUpdatesRead = p.m_numUpdatesRead ∧ q.m_tradeLocs = []) ∧
      (p.validDataInBuffer ≤ s.rest.length →
        q.m_inputStream = some { s with rest := s.rest.drop p.validDataInBuffer } ∧
        q.m_readBuffer.take p.validDataInBuffer = s.rest.take p.validDataInBuffer ∧
        (∀ off ∈ marketPacketProcessor_t.scannedOffsets q.m_readBuffer p.validDataInBuffer
            p.validDataInBuffer 0, 32 ∣ off ∧ off + 32 ≤ p.validDataInBuffer) ∧
        (∀ loc ∈ q.m_tradeLocs, 32 ∣ loc ∧ loc + 32 ≤ p.validDataInBuffer)) := by
  have hU : U16_MOD = 65536 := by decide
  have hk := (((marketPacketProcessor_t.CountersKept.initial hinit).after_calls fuel cs p0 p1 rs
    hcalls).after_reset c).after_rounds j p hr
  obtain ⟨hh1, hh2, hh3⟩ := hk.header hnf (Or.inl hs)
  simp only [PACKET_HEADER_SIZE] at hh1 hh2
  have hc : p.m_bodySize = 32 * p.m_numUpdatesPacket := by rw [hh2, hh3]; omega
  obtain ⟨hw1, hw2⟩ := hk.within hc
  have hw3 : p.m_bodyBytesInterpreted = 32 * p.m_numUpdatesRead := hw1
  have hm := hk.more hnf hs hc
  have hpk := hk.packet
  rw [hU] at hpk
  have hv := marketPacketProcessor_t.validDataInBuffer_consistent hc hw3 hw2 hpk
  have hlocs := hk.locs hnf (by rw [hs]; decide)
  obtain ⟨s, hin, hg⟩ := hk.source hnf (Or.inr (Or.inl hs))
  have hv1 : p.validDataInBuffer ≤ 1024 := by rw [hv]; omega
  have hv2 : 32 ∣ p.validDataInBuffer := by rw [hv]; omega
  refine ⟨hv2, hv1, by rw [hv, ← hh3]; omega, s, ?_⟩
  by_cases hle : p.validDataInBuffer ≤ s.rest.length
  · have hrp := marketPacketProcessor_t.readPartBody_good hin hg hle
    obtain ⟨q, hq⟩ := marketPacketProcessor_t.scanBuffer_returns p.validDataInBuffer hv1
      p.validDataInBuffer 0 { p with
        m_inputStream := some { s with rest := s.rest.drop p.validDataInBuffer }
        m_readBuffer := s.rest.take p.validDataInBuffer
          ++ p.m_readBuffer.drop (s.rest.take p.validDataInBuffer).length }
      (Nat.zero_le _) (by omega)
    obtain ⟨_, _, _, _, e5⟩ := marketPacketProcessor_t.scanBuffer_header _ _ _ _ _ hq
    have hinp := marketPacketProcessor_t.scanBuffer_input _ _ _ _ _ hq
    have hl := marketPacketProcessor_t.scanBuffer_locs _ _ _ _ _ hq
    simp only at e5 hinp hl
    have hoffs := marketPacketProcessor_t.scannedOffsets_aligned q.m_readBuffer
      p.validDataInBuffer hv1 hv2 p.validDataInBuffer 0 (dvd_zero 32)
    refine ⟨q, hin, by rw [hrp, hq], fun hx => absurd hle (by omega), fun _ => ⟨hinp, ?_, hoffs,
      fun loc hloc => ?_⟩⟩
    · rw [e5]
      exact List.take_left' (by rw [List.length_take]; omega)
    · rcases hl loc hloc with h1 | h1
      · rw [hlocs] at h1
        exact absurd h1 (List.not_mem_nil loc)
      · rw [← e5] at h1
        exact hoffs loc h1
  · obtain ⟨i1, b1, hrp⟩ := marketPacketProcessor_t.readPartBody_short hin (by omega)
    exact ⟨_, hin, hrp, fun _ => ⟨rfl, rfl, hlocs⟩, fun hx => absurd hx hle⟩

/-- An instance of claim C21 as amended: the header `{36, 1}` and one trade
record; the fill asks for 32 bytes, takes them, and scans one record at
offset 0. -/
theorem C21_fills_hold_whole_records_witness :
    ∃ p, (marketPacketProcessor_t.resetPerRunVariables none
        (marketPacketProcessor_t.ready ([36, 0, 1, 0]
          ++ marketPacketGenerator_t.tradeBytes (strBytes "ABCDE") 7 9) [] [])).rounds 2 = some p ∧
      p.validDataInBuffer = 32 ∧
      32 ∣ p.validDataInBuffer ∧ p.validDataInBuffer ≤ 1024 ∧
      (p.validDataInBuffer = 0 ↔ p.numMarketUpdates = 0) ∧
      ∃ s q, p.m_inputStream = some s ∧ p.readPartBody = .ok q ∧
        (s.rest.length < p.validDataInBuffer →
          q.m_failReason = some "Packet read failed" ∧
          q.m_numUpdatesRead = p.m_numUpdatesRead ∧ q.m_tradeLocs = []) ∧
        (p.validDataInBuffer ≤ s.rest.length →
          q.m_inputStream = some { s with rest := s.rest.drop p.validDataInBuffer } ∧
          q.m_readBuffer.take p.validDataInBuffer = s.rest.take p.validDataInBuffer ∧
          (∀ off ∈ marketPacketProcessor_t.scannedOffsets q.m_readBuffer p.validDataInBuffer
              p.validDataInBuffer 0, 32 ∣ off ∧ off + 32 ≤ p.validDataInBuffer) ∧
          (∀ loc ∈ q.m_tradeLocs, 32 ∣ loc ∧ loc + 32 ≤ p.validDataInBuffer)) := by
  have hr : (marketPacketProcessor_t.resetPerRunVariables none
        (marketPacketProcessor_t.ready ([36, 0, 1, 0]
          ++ marketPacketGenerator_t.tradeBytes (strBytes "ABCDE") 7 9) [] [])).rounds 2
      = some { marketPacketProcessor_t.resetPerRunVariables none
        (marketPacketProcessor_t.ready ([36, 0, 1, 0]
          ++ marketPacketGenerator_t.tradeBytes (strBytes "ABCDE") 7 9) [] []) with
        m_inputStream := some (IStream.ofBytes
          (marketPacketGenerator_t.tradeBytes (strBytes "ABCDE") 7 9))
        m_packetHeader := [36, 0, 1, 0]
        m_numUpdatesPacket := 1
        m_bodySize := 32
        m_state := .READ_PART_BODY } := by
    rfl
  exact ⟨_, hr, by decide,
    C21_fills_hold_whole_records
      (some (IStream.ofBytes ([36, 0, 1, 0]
        ++ marketPacketGenerator_t.tradeBytes (strBytes "ABCDE") 7 9)))
      (some OStream.empty) [] [] _ _ _ 0 [] [] none 2 (by rfl) (by rfl) hr rfl rfl
      (by decide)⟩

end marketPacket
